import Mathlib

/-!
# PICkit1 programmer: memory model, hex codec and USB driver

A shallow embedding of `pic14.c`, `devices.c`, `hex.c` and `usb_pickit.c`.

Conventions of the embedding

* machine integers are `Nat`; a store into a narrower C type is written with an
  explicit `%` (`0x100` for `byte`, `0x10000` for `pic14_word`, `2 ^ 32` for
  `unsigned int`);
* a C array is a `List Nat` whose length is the declared capacity; an access
  outside the array is undefined in C and yields `none` here;
* a pointer into a `pic14_state` (`pic14_span.data`) is a `pic14_ref` naming the
  field it points to;
* a file is the list of its character codes, as `fgetc` delivers them;
* text sent to `stdout` is not modelled; the messages sent to `stderr` by the
  hex reader, the verify and the blank check operations are.
-/

namespace PICkit1

/-! ## pic14.h -/

/-- `#define PIC14_INST_LEN 0x01fff`: capacity of the program word buffer. -/
def PIC14_INST_LEN : Nat := 0x01fff

/-- `#define PIC14_EE_LEN 256`: capacity of the EEPROM buffer. -/
def PIC14_EE_LEN : Nat := 256

/-- `#define PIC14_ID_LEN 4`: number of user ID words. -/
def PIC14_ID_LEN : Nat := 4

/-- Program state, `pic14_program`. -/
structure pic14_program where
  inst_len : Nat
  inst : List Nat
  max_prog : Nat
  instchecksum : Nat
  ee_len : Nat
  ee : List Nat
  max_ee : Nat
deriving DecidableEq, Repr

/-- Hard configuration state, `pic14_config`. -/
structure pic14_config where
  osccal : Nat
  id : List Nat
  config : Nat
  save_osccal : Bool
  configmask : Nat
  pgmchecksum : Nat
  eechecksum : Nat
deriving DecidableEq, Repr

/-- All programmable state of a chip, `pic14_state`. -/
structure pic14_state where
  program : pic14_program
  config : pic14_config
deriving DecidableEq, Repr

/-- Device description, `pic14_device_info`. -/
structure pic14_device_info where
  device_id : Nat
  device_name : String
  inst_len : Nat
  ee_len : Nat
  save_osccal : Nat
  configmask : Nat
deriving DecidableEq, Repr

/-- The arrays of a state have their declared capacities and every cell holds a
value of its C type (`pic14_word` is an `unsigned short`). -/
def pic14_state.wf (p : pic14_state) : Prop :=
  p.program.inst.length = PIC14_INST_LEN ∧
  p.program.ee.length = PIC14_EE_LEN ∧
  p.config.id.length = PIC14_ID_LEN ∧
  (∀ x ∈ p.program.inst, x < 0x10000) ∧
  (∀ x ∈ p.program.ee, x < 0x10000) ∧
  (∀ x ∈ p.config.id, x < 0x10000) ∧
  p.config.osccal < 0x10000 ∧
  p.config.config < 0x10000

instance (p : pic14_state) : Decidable p.wf := by
  unfold pic14_state.wf
  infer_instance

/-! ## devices.c -/

/-- The table `__devices`, sentinel entry included.  The sentinel leaves every
field but the ID and the name to C's zero initialisation. -/
def __devices : List pic14_device_info := [
  { device_id := 0x0f80, device_name := "12F629", inst_len := 0x03ff, ee_len := 128,
    save_osccal := 1, configmask := 0x1ff },
  { device_id := 0x0fc0, device_name := "12F675", inst_len := 0x03ff, ee_len := 128,
    save_osccal := 1, configmask := 0x1ff },
  { device_id := 0x10c0, device_name := "16F630", inst_len := 0x03ff, ee_len := 128,
    save_osccal := 1, configmask := 0x1ff },
  { device_id := 0x10e0, device_name := "16F676", inst_len := 0x03ff, ee_len := 128,
    save_osccal := 1, configmask := 0x1ff },
  { device_id := 0x0fa0, device_name := "16F635", inst_len := 0x0400, ee_len := 256,
    save_osccal := 0, configmask := 0x1fff },
  { device_id := 0x0460, device_name := "16F683", inst_len := 0x0800, ee_len := 256,
    save_osccal := 0, configmask := 0xfff },
  { device_id := 0x10a0, device_name := "16F636/639", inst_len := 0x0800, ee_len := 256,
    save_osccal := 0, configmask := 0x1fff },
  { device_id := 0x1080, device_name := "16F684", inst_len := 0x0800, ee_len := 256,
    save_osccal := 0, configmask := 0xfff },
  { device_id := 0x04a0, device_name := "16F685", inst_len := 0x1000, ee_len := 256,
    save_osccal := 0, configmask := 0xfff },
  { device_id := 0x1320, device_name := "16F687", inst_len := 0x0800, ee_len := 256,
    save_osccal := 0, configmask := 0xfff },
  { device_id := 0x1180, device_name := "16F688", inst_len := 0x1000, ee_len := 256,
    save_osccal := 0, configmask := 0xfff },
  { device_id := 0x1340, device_name := "16F689", inst_len := 0x1000, ee_len := 256,
    save_osccal := 0, configmask := 0xfff },
  { device_id := 0x1400, device_name := "16F690", inst_len := 0x1000, ee_len := 256,
    save_osccal := 0, configmask := 0xfff },
  { device_id := 0x1140, device_name := "16F716", inst_len := 0x0800, ee_len := 0,
    save_osccal := 0, configmask := 0x0cf },
  { device_id := 0x1040, device_name := "16F627A", inst_len := 0x0400, ee_len := 128,
    save_osccal := 0, configmask := 0x0ff },
  { device_id := 0x1060, device_name := "16F628A", inst_len := 0x0800, ee_len := 128,
    save_osccal := 0, configmask := 0x0ff },
  { device_id := 0x1100, device_name := "16F648A", inst_len := 0x1000, ee_len := 256,
    save_osccal := 0, configmask := 0x0ff },
  { device_id := 0x1200, device_name := "16F785", inst_len := 0x0800, ee_len := 256,
    save_osccal := 0, configmask := 0x0fff },
  { device_id := 0x0e20, device_name := "16F877A", inst_len := 0x2000, ee_len := 256,
    save_osccal := 0, configmask := 0x2fc7 },
  { device_id := 0x13e0, device_name := "16F913", inst_len := 0x1000, ee_len := 256,
    save_osccal := 0, configmask := 0x1fff },
  { device_id := 0x13c0, device_name := "16F914", inst_len := 0x1000, ee_len := 256,
    save_osccal := 0, configmask := 0x1fff },
  { device_id := 0x1380, device_name := "16F917", inst_len := 0x2000, ee_len := 256,
    save_osccal := 0, configmask := 0x1fff },
  { device_id := 0x13a0, device_name := "16F916", inst_len := 0x2000, ee_len := 256,
    save_osccal := 0, configmask := 0x1fff },
  { device_id := 0xffff, device_name := "Last Device Entry", inst_len := 0, ee_len := 0,
    save_osccal := 0, configmask := 0 } ]

/-- The descriptors of the table that precede the `0xffff` end-of-list marker. -/
def supported_devices : List pic14_device_info :=
  __devices.takeWhile (fun d => decide (d.device_id ≠ 0xffff))

/-! ## pic14.c -/

/-- Initialise a state to a power-on value, `pic14_state_init`.  The fields the
function does not assign keep the value they had. -/
def pic14_state_init (p : pic14_state) : pic14_state :=
  { program := { p.program with
      inst := List.replicate PIC14_INST_LEN 0x3fff
      ee := List.replicate PIC14_EE_LEN 0xff
      max_prog := 0
      max_ee := 0 }
    config := { p.config with
      config := 0x184
      id := List.replicate PIC14_ID_LEN 0x3fff
      osccal := 0x2000 } }

/-- Scan of `pic14_get_device` from a table position: stop at the end-of-list
marker, return the first entry whose ID is `id`.  A table without marker would
be read past its end, which is undefined. -/
def pic14_get_device_from : List pic14_device_info → Nat → Option (Option pic14_device_info)
  | [], _ => none
  | d :: rest, id =>
    if d.device_id ≠ 0xffff then
      if d.device_id = id then some (some d) else pic14_get_device_from rest id
    else some none

/-- Device info for a device ID, `pic14_get_device`; the inner `none` is `NULL`. -/
def pic14_get_device (id : Nat) : Option (Option pic14_device_info) :=
  pic14_get_device_from __devices id

/-- The field of a `pic14_state` a span's `data` pointer refers to. -/
inductive pic14_ref where
  | inst
  | ee
  | config
  | id
  | osccal
deriving DecidableEq, Repr

/-- An address range that can be treated uniformly, `pic14_span`. -/
structure pic14_span where
  desc : String
  addr : Nat
  len : Nat
  data : pic14_ref
deriving DecidableEq, Repr

/-- Span indices, the anonymous `enum` of pic14.c. -/
def SPAN_PROGRAM : Nat := 0
def SPAN_EEPROM : Nat := 1
def SPAN_CONFIG : Nat := 2
def SPAN_USERID : Nat := 3
def SPAN_OSCCAL : Nat := 4
def PIC14_PROGRAM_NSPANS : Nat := 5

/-- The span list of a state, `pic14_program_spans`, in index order. -/
def pic14_program_spans (p : pic14_state) : List pic14_span := [
  { desc := "Program (14-bit instruction words)", addr := 0x0000,
    len := p.program.inst_len, data := pic14_ref.inst },
  { desc := "EEPROM (8-bit data)", addr := 0x2100,
    len := p.program.ee_len, data := pic14_ref.ee },
  { desc := "Configuration word", addr := 0x2007, len := 1, data := pic14_ref.config },
  { desc := "User ID words", addr := 0x2000, len := PIC14_ID_LEN, data := pic14_ref.id },
  { desc := "OSCCAL", addr := 0x03ff, len := 1, data := pic14_ref.osccal } ]

/-- Read `data[i]` through a span pointer; `none` outside the object pointed to. -/
def pic14_ref.read (r : pic14_ref) (p : pic14_state) (i : Nat) : Option Nat :=
  match r with
  | pic14_ref.inst => p.program.inst[i]?
  | pic14_ref.ee => p.program.ee[i]?
  | pic14_ref.config => if i = 0 then some p.config.config else none
  | pic14_ref.id => p.config.id[i]?
  | pic14_ref.osccal => if i = 0 then some p.config.osccal else none

/-- Store `data[i] = w` through a span pointer; `none` outside the object
pointed to. -/
def pic14_ref.write (r : pic14_ref) (p : pic14_state) (i w : Nat) : Option pic14_state :=
  match r with
  | pic14_ref.inst =>
    if i < p.program.inst.length then
      some { p with program := { p.program with inst := p.program.inst.set i w } }
    else none
  | pic14_ref.ee =>
    if i < p.program.ee.length then
      some { p with program := { p.program with ee := p.program.ee.set i w } }
    else none
  | pic14_ref.config =>
    if i = 0 then some { p with config := { p.config with config := w } } else none
  | pic14_ref.id =>
    if i < p.config.id.length then
      some { p with config := { p.config with id := p.config.id.set i w } }
    else none
  | pic14_ref.osccal =>
    if i = 0 then some { p with config := { p.config with osccal := w } } else none

/-- The half-open interval test of `pic14_write_word`, in `unsigned int`
arithmetic. -/
def pic14_span.contains (sp : pic14_span) (addr : Nat) : Bool :=
  decide (addr ≥ sp.addr ∧ addr < (sp.addr + sp.len) % 2 ^ 32)

/-- The `switch (s)` of `pic14_write_word`, run after the store with `index`
already incremented. -/
def pic14_update_marks (s index : Nat) (p : pic14_state) : pic14_state :=
  if s = SPAN_PROGRAM then
    if index > p.program.max_prog then
      { p with program := { p.program with max_prog := index } }
    else p
  else if s = SPAN_EEPROM then
    if index > p.program.max_ee then
      { p with program := { p.program with max_ee := index } }
    else p
  else p

/-- The `for` loop of `pic14_write_word` from span index `s` on; `spans` is the
part of the span array from that index. -/
def pic14_write_word_from (s : Nat) (spans : List pic14_span) (addr w : Nat)
    (p : pic14_state) : Option pic14_state :=
  match spans with
  | [] => some p
  | sp :: rest =>
    if sp.contains addr then
      (sp.data.write p (addr - sp.addr) w).map (pic14_update_marks s (addr - sp.addr + 1))
    else pic14_write_word_from (s + 1) rest addr w p

/-- Write a word wherever it belongs in the span list, `pic14_write_word`. -/
def pic14_write_word (spans : List pic14_span) (addr w : Nat) (p : pic14_state) :
    Option pic14_state :=
  pic14_write_word_from 0 spans addr w p

/-- The values `usb_pickit_get_device` copies from a device info into a state
once the device is found. -/
def copy_device_values (dinfo : pic14_device_info) (s : pic14_state) : pic14_state :=
  { program := { s.program with inst_len := dinfo.inst_len, ee_len := dinfo.ee_len }
    config := { s.config with
      save_osccal := decide (dinfo.save_osccal ≠ 0)
      configmask := dinfo.configmask } }

/-- A state with every field zero and arrays of the declared capacities: the
memory `pic14_state_init` is applied to in the examples. -/
def zero_state : pic14_state :=
  { program := { inst_len := 0, inst := List.replicate PIC14_INST_LEN 0, max_prog := 0,
                 instchecksum := 0, ee_len := 0, ee := List.replicate PIC14_EE_LEN 0,
                 max_ee := 0 }
    config := { osccal := 0, id := List.replicate PIC14_ID_LEN 0, config := 0,
                save_osccal := false, configmask := 0, pgmchecksum := 0, eechecksum := 0 } }

/-- The state the command line tool works on once the chip is resolved:
`pic14_state_init` followed by the copy of the device values. -/
def fresh_state (dinfo : pic14_device_info) : pic14_state :=
  copy_device_values dinfo (pic14_state_init zero_state)

/-- Device info of the 12F629 (first table entry). -/
def dev_12F629 : pic14_device_info :=
  { device_id := 0x0f80, device_name := "12F629", inst_len := 0x03ff, ee_len := 128,
    save_osccal := 1, configmask := 0x1ff }

/-- Device info of the 16F635 (fifth table entry). -/
def dev_16F635 : pic14_device_info :=
  { device_id := 0x0fa0, device_name := "16F635", inst_len := 0x0400, ee_len := 256,
    save_osccal := 0, configmask := 0x1fff }

/-- The spans of a span list whose interval test accepts `a`. -/
def spans_claiming (spans : List pic14_span) (a : Nat) : List pic14_span :=
  spans.filter (fun sp => sp.contains a)

/-! ## hex.c

A file is the list of its character codes.  In this section `x & 0xff` is written
`x % 0x100` and `x >> 8` is written `x / 0x100`. -/

/-- `#define HEX_MAX_BYTES 16`. -/
def HEX_MAX_BYTES : Nat := 16

/-- `#define HEX_MAX_DATA_LINE 64`. -/
def HEX_MAX_DATA_LINE : Nat := 64

/-- The character `fprintf` prints for one hexadecimal digit under `%X`:
`'0'` is 48 and `'A'` is 65. -/
def hex_digit (n : Nat) : Nat := if n < 10 then 48 + n else 55 + n

/-- The two characters of `fprintf (fp, "%02X", (int)b)` for a byte `b`. -/
def fprintf_02X (b : Nat) : List Nat := [hex_digit (b / 16), hex_digit (b % 16)]

/-- Write a byte, updating the checksum, `hex_write_byte`: the text written so
far and the `byte` checksum are threaded. -/
def hex_write_byte (bi : Nat) (st : List Nat × Nat) : List Nat × Nat :=
  (st.1 ++ fprintf_02X (bi % 0x100), (st.2 + 0x100 - bi % 0x100) % 0x100)

/-- The branch `len <= HEX_MAX_BYTES` of `hex_write`: one line.  `none` when the
line would read past the end of `data`. -/
def hex_write_line (addr len : Nat) (data : List Nat) : Option (List Nat) :=
  if len ≤ data.length then
    let st := ([58], 0)
    let st := hex_write_byte len st
    let st := hex_write_byte (addr / 0x100) st
    let st := hex_write_byte addr st
    let st := hex_write_byte 0x00 st
    let st := (data.take len).foldl (fun st b => hex_write_byte b st) st
    let st := hex_write_byte st.2 st
    some (st.1 ++ [10])
  else none

/-- The loop `while (len > 0)` of `hex_write`, which splits a long span into
lines; `fuel` bounds the iterations and `len` suffices. -/
def hex_write_loop : Nat → Nat → Nat → List Nat → Option (List Nat)
  | 0, _, _, _ => some []
  | fuel + 1, addr, len, data =>
    if len > 0 then
      let n := if len > HEX_MAX_BYTES then HEX_MAX_BYTES else len
      match hex_write_line addr n data with
      | none => none
      | some line =>
        match hex_write_loop fuel ((addr + n) % 2 ^ 32) (len - n) (data.drop n) with
        | none => none
        | some rest => some (line ++ rest)
    else some []

/-- Write data to the .hex file at the given address, `hex_write`; the result is
the text written. -/
def hex_write (addr len : Nat) (data : List Nat) : Option (List Nat) :=
  if len ≤ HEX_MAX_BYTES then hex_write_line addr len data
  else hex_write_loop len addr len data

/-- The text of `hex_write_end`, `":00000001FF\n"`. -/
def hex_write_end : List Nat := ":00000001FF\n".toList.map Char.toNat

/-- The messages `hex_read` sends to `stderr` before it returns 0. -/
inductive hex_error where
  /-- `could not open file!` -/
  | could_not_open
  /-- `unexpected characters!` -/
  | unexpected_characters
  /-- `unexpected start-of-line format!` -/
  | start_of_line_format
  /-- `line too long!` -/
  | line_too_long
  /-- `unexpected data format!` -/
  | data_format
  /-- `line checksum mismatch!` -/
  | checksum_mismatch
  /-- `unrecognized line type!` -/
  | unrecognized_type
deriving DecidableEq, Repr

/-- Outcome of `hex_read`: it returned 1, it returned 0 after a message, or the
callback read or wrote outside an array.  The parameter the callback works on is
left as the calls made so far have changed it. -/
inductive hex_read_result (σ : Type) where
  | ok (param : σ)
  | error (e : hex_error) (param : σ)
  | undefined
deriving DecidableEq, Repr

/-- The C library's `isspace` in the C locale. -/
def isspace (c : Nat) : Bool := decide (c = 32 ∨ (9 ≤ c ∧ c ≤ 13))

/-- Value of a hexadecimal digit character, `none` for any other character. -/
def hex_value (c : Nat) : Option Nat :=
  if 48 ≤ c ∧ c ≤ 57 then some (c - 48)
  else if 65 ≤ c ∧ c ≤ 70 then some (c - 55)
  else if 97 ≤ c ∧ c ≤ 102 then some (c - 87)
  else none

/-- The digit loop of a `%x` conversion: read hexadecimal digits while the field
width lasts. -/
def scan_hex_digits : Nat → Nat → List Nat → Nat × List Nat
  | 0, acc, inp => (acc, inp)
  | _ + 1, acc, [] => (acc, [])
  | w + 1, acc, c :: rest =>
    match hex_value c with
    | some v => scan_hex_digits w (acc * 16 + v) rest
    | none => (acc, c :: rest)

/-- A `%x` conversion after white space and sign: an optional `0x` or `0X` and
hexadecimal digits within the field width, at least one digit. -/
def scan_unsigned (width : Nat) (inp : List Nat) : Option (Nat × List Nat) :=
  match inp with
  | [] => none
  | c :: rest =>
    if width = 0 then none
    else if c = 48 then
      match rest with
      | [] => some (0, [])
      | x :: rest' =>
        if width - 1 ≠ 0 ∧ (x = 120 ∨ x = 88) then some (scan_hex_digits (width - 2) 0 rest')
        else some (scan_hex_digits (width - 1) 0 rest)
    else
      match hex_value c with
      | some v => some (scan_hex_digits (width - 1) v rest)
      | none => none

/-- One `%x` conversion of `fscanf` with a field width, storing into an
`unsigned int`: the value and the input that remains, `none` on a matching or
input failure.  The C library is not part of the repository; this follows the
GNU C library: leading white space is skipped, then an optional sign and an
optional `0x` count in the field width. -/
def scan_x (width : Nat) (inp : List Nat) : Option (Nat × List Nat) :=
  match inp.dropWhile isspace with
  | [] => none
  | c :: rest =>
    if c = 45 then
      (scan_unsigned (width - 1) rest).map (fun r => ((2 ^ 32 - r.1) % 2 ^ 32, r.2))
    else if c = 43 then scan_unsigned (width - 1) rest
    else scan_unsigned width (c :: rest)

/-- Result of the loop that seeks the start of the next line. -/
inductive hex_seek_result where
  | eof
  | colon (rest : List Nat)
  | unexpected
deriving DecidableEq, Repr

/-- The loop `while (EOF != (ic = fgetc (fp)))` of `hex_read`. -/
def hex_seek : List Nat → hex_seek_result
  | [] => hex_seek_result.eof
  | c :: rest =>
    if c = 58 then hex_seek_result.colon rest
    else if !isspace c then hex_seek_result.unexpected
    else hex_seek rest

/-- The loop `for (i = 0; i < len + 1; ++i)` of `hex_read`, with `n` iterations to go:
the bytes stored in `data`, the checksum and the input that remains; `none` when
a conversion fails. -/
def hex_read_data : Nat → List Nat → List Nat → Nat → Option (List Nat × Nat × List Nat)
  | 0, inp, data, checksum => some (data, checksum, inp)
  | n + 1, inp, data, checksum =>
    match scan_x 2 inp with
    | none => none
    | some (v, rest) => hex_read_data n rest (data ++ [v % 0x100]) ((checksum + v) % 2 ^ 32)

/-- The loop `while (1)` of `hex_read`.  Every iteration that does not return
consumes the `:` of a line, so a `fuel` above the number of characters is never
used up. -/
def hex_read_loop {σ : Type} (fn : σ → Nat → Nat → List Nat → Option σ) :
    Nat → Nat → Nat → List Nat → σ → hex_read_result σ
  | 0, _, _, _, _ => hex_read_result.undefined
  | fuel + 1, addrbase16, addrbase32, inp, param =>
    match hex_seek inp with
    | hex_seek_result.unexpected =>
      hex_read_result.error hex_error.unexpected_characters param
    | hex_seek_result.eof => hex_read_result.ok param
    | hex_seek_result.colon r0 =>
      match scan_x 2 r0 with
      | none => hex_read_result.error hex_error.start_of_line_format param
      | some (len, r1) =>
        match scan_x 4 r1 with
        | none => hex_read_result.error hex_error.start_of_line_format param
        | some (addr, r2) =>
          match scan_x 2 r2 with
          | none => hex_read_result.error hex_error.start_of_line_format param
          | some (type, r3) =>
            let checksum := (len + (addr + addr / 0x100) + type) % 2 ^ 32
            if len > HEX_MAX_DATA_LINE then
              hex_read_result.error hex_error.line_too_long param
            else
              match hex_read_data (len + 1) r3 [] checksum with
              | none => hex_read_result.error hex_error.data_format param
              | some (data, checksum, r4) =>
                if checksum % 0x100 ≠ 0 then
                  hex_read_result.error hex_error.checksum_mismatch param
                else if type = 0x00 then
                  match fn param ((addrbase16 + addrbase32 + addr) % 2 ^ 32) len data with
                  | none => hex_read_result.undefined
                  | some param' => hex_read_loop fn fuel addrbase16 addrbase32 r4 param'
                else if type = 0x01 then hex_read_result.ok param
                else if type = 0x02 then
                  hex_read_loop fn fuel ((addr * 0x100) % 2 ^ 32) addrbase32 r4 param
                else if type = 0x04 then
                  hex_read_loop fn fuel addrbase16 ((addr * 0x10000) % 2 ^ 32) r4 param
                else hex_read_result.error hex_error.unrecognized_type param

/-- Read a .hex file, sending the address spans to the callback, `hex_read`; a
file that could not be opened is `none`. -/
def hex_read {σ : Type} (fp : Option (List Nat)) (fn : σ → Nat → Nat → List Nat → Option σ)
    (param : σ) : hex_read_result σ :=
  match fp with
  | none => hex_read_result.error hex_error.could_not_open param
  | some inp => hex_read_loop fn (inp.length + 1) 0 0 inp param

/-! ## pic14.c: hex files -/

/-- The loop `for (i = 0; i < len; ++i)` of `pic14_hex_segment`, from index `i` with
`k` iterations to go. -/
def pic14_hex_segment_loop (spans : List pic14_span) (addr : Nat) (src : List Nat) :
    Nat → Nat → pic14_state → Option pic14_state
  | 0, _, p => some p
  | k + 1, i, p =>
    match pic14_write_word spans (addr + i)
        ((src.getD (2 * i + 0) 0 + src.getD (2 * i + 1) 0 * 0x100) % 0x10000) p with
    | none => none
    | some q => pic14_hex_segment_loop spans addr src k (i + 1) q

/-- Accept a segment of a program from a .hex file, `pic14_hex_segment`. -/
def pic14_hex_segment (p : pic14_state) (baddr blen : Nat) (src : List Nat) :
    Option pic14_state :=
  pic14_hex_segment_loop (pic14_program_spans p) (baddr / 2) src (blen / 2) 0 p

/-- Read a program from a .hex file, `pic14_hex_read`. -/
def pic14_hex_read (p : pic14_state) (src : Option (List Nat)) : hex_read_result pic14_state :=
  hex_read src pic14_hex_segment p

/-- The loop `for (w = 0; w < spans[s].len; ++w)` of `pic14_hex_write`, which fills
the local array `data` of `2 * PIC14_INST_LEN` bytes, from index `w` with `k`
iterations to go. -/
def span_bytes_loop (p : pic14_state) (sp : pic14_span) : Nat → Nat → Option (List Nat)
  | 0, _ => some []
  | k + 1, w =>
    match sp.data.read p w with
    | none => none
    | some v =>
      if 2 * w + 1 < 2 * PIC14_INST_LEN then
        match span_bytes_loop p sp k (w + 1) with
        | none => none
        | some rest => some (v % 0x100 :: (v / 0x100) % 0x100 :: rest)
      else none

/-- The body of the loop `for (s = 0; s < PIC14_PROGRAM_NSPANS; ++s)` of
`pic14_hex_write` for one span: convert the words to bytes and write them. -/
def pic14_hex_write_span (p : pic14_state) (sp : pic14_span) : Option (List Nat) :=
  match span_bytes_loop p sp sp.len 0 with
  | none => none
  | some data => hex_write ((2 * sp.addr) % 2 ^ 32) ((2 * sp.len) % 2 ^ 32) data

/-- The loop `for (s = 0; s < PIC14_PROGRAM_NSPANS; ++s)` of `pic14_hex_write` over
the spans that remain. -/
def pic14_hex_write_spans (p : pic14_state) : List pic14_span → Option (List Nat)
  | [] => some []
  | sp :: rest =>
    match pic14_hex_write_span p sp with
    | none => none
    | some text =>
      match pic14_hex_write_spans p rest with
      | none => none
      | some more => some (text ++ more)

/-- Write a program to a .hex file, `pic14_hex_write`; the result is the text of
the file. -/
def pic14_hex_write (p : pic14_state) : Option (List Nat) :=
  (pic14_hex_write_spans p (pic14_program_spans p)).map (fun t => t ++ hex_write_end)

/-! ## usb_pickit.c: transport

The programmer is the environment of the driver.  A `usb_pickit` handle records
the frames written to the OUT endpoint, the lengths requested from the IN
endpoint, and the transfers the programmer will deliver.  A transfer that does
not complete with the requested byte count ends the process (`exit (errno)`);
OUT transfers always complete here, so the frames sent by a run that
terminates early are an initial part of the frames computed here. -/

/-- `#define REQ_LEN 8`: the PICkit always uses 8-byte transfers. -/
def REQ_LEN : Nat := 8

/-- The bytes of a command string literal. -/
def cmd (s : String) : List Nat := s.toList.map Char.toNat

/-- State of the USB link, behind the handle `usb_pickit *d`. -/
structure usb_pickit where
  sent : List (List Nat)
  requested : List Nat
  inbox : List (List Nat)
deriving DecidableEq, Repr

/-- Outcome of a driver function: it returned, the process exited on a transport
error, or it read outside an array (undefined in C). -/
inductive usb_result (α : Type) where
  | done (a : α) (d : usb_pickit)
  | exited (d : usb_pickit)
  | undefined
deriving DecidableEq, Repr

/-- A driver function acting on the link. -/
def usb_m (α : Type) : Type := usb_pickit → usb_result α

/-- Sequencing of driver statements. -/
def usb_m.bind {α β : Type} (x : usb_m α) (f : α → usb_m β) : usb_m β :=
  fun d =>
    match x d with
    | usb_result.done a d' => f a d'
    | usb_result.exited d' => usb_result.exited d'
    | usb_result.undefined => usb_result.undefined

instance : Monad usb_m where
  pure a := fun d => usb_result.done a d
  bind := usb_m.bind

/-- A value read from memory, undefined when the read was outside an array. -/
def usb_m.of_option {α : Type} (x : Option α) : usb_m α :=
  fun d =>
    match x with
    | some a => usb_result.done a d
    | none => usb_result.undefined

/-- Send a 8-byte command packet to the PICkit, `send_usb`. -/
def send_usb (src : List Nat) : usb_m Unit :=
  fun d => usb_result.done () { d with sent := d.sent ++ [src] }

/-- The packet of `send_usb_word`: `"W__ZZZZZ"` with the word in bytes 1 and 2. -/
def word_cmd (w : Nat) : List Nat :=
  ((cmd "W__ZZZZZ").set 1 (w &&& 0xff)).set 2 ((w >>> 8) &&& 0xff)

/-- Write the next program counter with this word, `send_usb_word`. -/
def send_usb_word (w : Nat) : usb_m Unit :=
  send_usb (word_cmd w)

/-- The packet of one iteration of `send_usb_words`: `"W__W__ZZ"` with two words. -/
def words_cmd (w1 w2 : Nat) : List Nat :=
  ((((cmd "W__W__ZZ").set 1 (w1 &&& 0xff)).set 2 ((w1 >>> 8) &&& 0xff)).set 4
    (w2 &&& 0xff)).set 5 ((w2 >>> 8) &&& 0xff)

/-- The loop `for (i = 0; i < n / 2; ++i)` of `send_usb_words`, from index `i`
with `k` iterations to go. -/
def send_usb_words_loop (w : List Nat) : Nat → Nat → usb_m Unit
  | 0, _ => pure ()
  | k + 1, i => do
    let w1 ← usb_m.of_option w[i * 2 + 0]?
    let w2 ← usb_m.of_option w[i * 2 + 1]?
    send_usb (words_cmd w1 w2)
    send_usb_words_loop w k (i + 1)

/-- Write the next `n` program counters with these words, `send_usb_words`. -/
def send_usb_words (n : Nat) (w : List Nat) : usb_m Unit := do
  send_usb_words_loop w (n / 2) 0
  if n % 2 ≠ 0 then
    let last ← usb_m.of_option w[n - 1]?
    send_usb_word last

/-- Read `len` bytes from the device, `recv_usb`. -/
def recv_usb (len : Nat) : usb_m (List Nat) :=
  fun d =>
    match d.inbox with
    | [] => usb_result.exited { d with requested := d.requested ++ [len] }
    | r :: rest =>
      if r.length = len then
        usb_result.done r { d with requested := d.requested ++ [len], inbox := rest }
      else usb_result.exited { d with requested := d.requested ++ [len], inbox := rest }

/-- The word `buffer[2 * i + 0] + (buffer[2 * i + 1] << 8)` as stored in a
`pic14_word`. -/
def word_of_bytes (buffer : List Nat) (i : Nat) : Nat :=
  (buffer.getD (2 * i + 0) 0 + (buffer.getD (2 * i + 1) 0 <<< 8)) % 0x10000

/-- Read 4 words from the current address, `recv_usb_words4`. -/
def recv_usb_words4 : usb_m (List Nat) := do
  send_usb (cmd "RZZZZZZZ")
  let buffer ← recv_usb REQ_LEN
  pure ((List.range 4).map (word_of_bytes buffer))

/-- The loop `while (len > 0)` of `recv_usb_words`; `fuel` bounds the number of
iterations and `len` suffices, each iteration copying at least one word. -/
def recv_usb_words_loop : Nat → Nat → usb_m (List Nat)
  | 0, _ => pure []
  | fuel + 1, len =>
    if len > 0 then do
      let buffer ← recv_usb_words4
      let c := if 4 > len then len else 4
      let rest ← recv_usb_words_loop fuel (len - c)
      pure (buffer.take c ++ rest)
    else pure []

/-- Read `len` words from the device, `recv_usb_words`; the result is what the
function stores at `dest[0 .. len)`. -/
def recv_usb_words (len : Nat) : usb_m (List Nat) :=
  recv_usb_words_loop len len

/-- Store `ws` at the start of the array `dest`; `none` when it does not fit. -/
def store_words (dest ws : List Nat) : Option (List Nat) :=
  if ws.length ≤ dest.length then some (ws ++ dest.drop ws.length) else none

/-- The loop `for (i = 0; i < s->program.inst_len; ++i)` of
`usb_pickit_calc_checksum`, in `pic14_word` arithmetic. -/
def calc_checksum_loop (inst : List Nat) : Nat → Nat → Nat → Option Nat
  | 0, _, sum => some sum
  | k + 1, i, sum =>
    match inst[i]? with
    | none => none
    | some w => calc_checksum_loop inst k (i + 1) ((sum + w) % 0x10000)

/-- Generate the checksum of the state in memory, `usb_pickit_calc_checksum`. -/
def usb_pickit_calc_checksum (s : pic14_state) : Option pic14_state :=
  (calc_checksum_loop s.program.inst s.program.inst_len 0
      ((s.config.config &&& s.config.configmask) % 0x10000)).map
    (fun sum => { s with program := { s.program with instchecksum := sum &&& 0xffff } })

/-- Read the current configuration from the device, `usb_pickit_read_config`. -/
def usb_pickit_read_config (c : pic14_config) : usb_m pic14_config := do
  send_usb (cmd "V0V1PI\xff\x03")
  let osccal ← recv_usb_words 1
  let c := { c with osccal := osccal.getD 0 0 }
  send_usb (cmd "pV0V1PCZ")
  let id ← recv_usb_words PIC14_ID_LEN
  let id' ← usb_m.of_option (store_words c.id id)
  let c := { c with id := id' }
  send_usb (cmd "pPCI\x07\x00ZZ")
  let config ← recv_usb_words 1
  let c := { c with config := config.getD 0 0 }
  send_usb (cmd "pV1ZZZZZ")
  pure c

/-- The packet of one iteration of the first loop of `usb_pickit_write_eeprom`:
`"D_D_D_D_"` with four data bytes. -/
def data_cmd (b0 b1 b2 b3 : Nat) : List Nat :=
  ((((cmd "D_D_D_D_").set 1 (b0 % 0x100)).set 3 (b1 % 0x100)).set 5 (b2 % 0x100)).set 7
    (b3 % 0x100)

/-- The loop `for (i = 0; i < p->max_ee / 4; ++i)` of `usb_pickit_write_eeprom`. -/
def write_eeprom_loop (ee : List Nat) : Nat → Nat → usb_m Unit
  | 0, _ => pure ()
  | k + 1, i => do
    let b0 ← usb_m.of_option ee[i * 4 + 0]?
    let b1 ← usb_m.of_option ee[i * 4 + 1]?
    let b2 ← usb_m.of_option ee[i * 4 + 2]?
    let b3 ← usb_m.of_option ee[i * 4 + 3]?
    send_usb (data_cmd b0 b1 b2 b3)
    write_eeprom_loop ee k (i + 1)

/-- The loop `for (j = 0; j < r; ++j, ++i)` of `usb_pickit_write_eeprom`, which
fills the last packet. -/
def write_eeprom_last (ee : List Nat) : Nat → Nat → Nat → List Nat → Option (List Nat)
  | 0, _, _, c => some c
  | k + 1, j, i, c =>
    match ee[i]? with
    | none => none
    | some b =>
      write_eeprom_last ee k (j + 1) (i + 1)
        ((c.set (j * 2 + 0) ('D'.toNat)).set (j * 2 + 1) (b % 0x100))

/-- Write the program's data to the device's EEPROM, `usb_pickit_write_eeprom`. -/
def usb_pickit_write_eeprom (p : pic14_program) : usb_m Unit := do
  send_usb (cmd "PZZZZZZZ")
  write_eeprom_loop p.ee (p.max_ee / 4) 0
  let r := p.max_ee % 4
  if r ≠ 0 then
    let c ← usb_m.of_option (write_eeprom_last p.ee r 0 (p.max_ee - r) (cmd "ZZZZZZZZ"))
    send_usb c
  send_usb (cmd "pZZZZZZZ")

/-- Write the program's instructions to the device, `usb_pickit_write_program`. -/
def usb_pickit_write_program (p : pic14_program) : usb_m Unit := do
  send_usb (cmd "PZZZZZZZ")
  send_usb_words p.max_prog p.inst
  send_usb (cmd "pV1ZZZZZ")

/-- Write the configuration (osccal, id, and config word) to the device,
`usb_pickit_write_config`. -/
def usb_pickit_write_config (c : pic14_config) : usb_m Unit := do
  send_usb (cmd "V0V1PI\xff\x03")
  if c.save_osccal then
    send_usb_word c.osccal
  send_usb (cmd "pV0V1PCZ")
  send_usb_words PIC14_ID_LEN c.id
  send_usb (cmd "pPCI\x07\x00ZZ")
  send_usb_word c.config
  send_usb (cmd "pV1ZZZZZ")

/-- Do a hard chip reset, `usb_pickit_reset`. -/
def usb_pickit_reset (keep_eeprom : Bool) : usb_m Unit :=
  if keep_eeprom then send_usb (cmd "PCEpZZZZ") else send_usb (cmd "PCEepZZZ")

/-- `#define BG_MASK 0x3000`: mask to extract bandgap bits. -/
def BG_MASK : Nat := 0x3000

/-- Merge oldconfig with newconfig and write the result, `usb_pickit_merge_config`.
`~BG_MASK` is the 32-bit complement and the sum is stored in a `pic14_word`. -/
def usb_pickit_merge_config (oldconfig newconfig : pic14_config) : usb_m Unit :=
  let merged := { newconfig with
    osccal := oldconfig.osccal
    config := ((oldconfig.config &&& BG_MASK) +
      (newconfig.config &&& (0xffffffff - BG_MASK))) % 0x10000 }
  usb_pickit_write_config merged

/-- Content of an uninitialised local `pic14_config`.  It is indeterminate in C;
the driver reads only the fields `usb_pickit_read_config` has assigned. -/
def local_config : pic14_config :=
  { osccal := 0, id := List.replicate PIC14_ID_LEN 0, config := 0, save_osccal := false,
    configmask := 0, pgmchecksum := 0, eechecksum := 0 }

/-- Write this state to the device, `usb_pickit_write`; the result is the state
with its checksum field updated. -/
def usb_pickit_write (s : pic14_state) (keep_old : Bool) : usb_m pic14_state := do
  let s ← usb_m.of_option (usb_pickit_calc_checksum s)
  let oldconfig ← if keep_old then usb_pickit_read_config local_config else pure local_config
  let keep_eeprom := decide (s.program.max_ee = 0)
  usb_pickit_reset keep_eeprom
  usb_pickit_write_eeprom s.program
  usb_pickit_write_program s.program
  if keep_old then
    usb_pickit_merge_config oldconfig s.config
  else
    usb_pickit_write_config s.config
  pure s

/-- Erase the device, `usb_pickit_erase`. -/
def usb_pickit_erase (s : pic14_state) : usb_m Unit := do
  let oldconfig ← if s.config.save_osccal then usb_pickit_read_config local_config
    else pure local_config
  usb_pickit_reset false
  if s.config.save_osccal then
    send_usb (cmd "V0V1PI\xff\x03")
    send_usb_word oldconfig.osccal
    let bgbits := ((0x3000 &&& oldconfig.config) ||| s.config.configmask) % 0x10000
    send_usb (cmd "pPCI\x07\x00ZZ")
    send_usb_word bgbits
    send_usb (cmd "pV1ZZZZZ")

/-- A 14-bit instruction PIC device, `pic14_device`; a null `dinfo` is `none`. -/
structure pic14_device where
  dinfo : Option pic14_device_info
  rev : Nat
  state : pic14_state
deriving DecidableEq, Repr

/-- Read the device type, `usb_pickit_get_device`: the `int` result and the device
structure as the call leaves it.  A table without end marker is read past its end. -/
def usb_pickit_get_device (dev : pic14_device) : usb_m (Nat × pic14_device) := do
  send_usb (cmd "pV0V1PCZ")
  send_usb (cmd "pPCI\x06\x00ZZ")
  let id_word ← recv_usb_words 1
  let id_word := id_word.getD 0 0
  send_usb (cmd "pV1ZZZZZ")
  let dev := { dev with rev := id_word &&& 0x1f }
  let dinfo ← usb_m.of_option (pic14_get_device (id_word &&& 0xffe0))
  match dinfo with
  | some dinfo =>
    pure (1, { dev with state := copy_device_values dinfo dev.state, dinfo := some dinfo })
  | none => pure (0, dev)

/-! ## usb_pickit.c: verify and blank check -/

/-- A `for (i = 0; i < n; ++i) if (!test (i)) return 0;` loop followed by
`return 1`, from index `i` with `k` iterations to go.  `none` when a test reads
outside an array. -/
def for_all_from (test : Nat → Option Bool) : Nat → Nat → Option Bool
  | 0, _ => some true
  | k + 1, i =>
    match test i with
    | none => none
    | some false => some false
    | some true => for_all_from test k (i + 1)

/-- The loop `for (i = 0; i < n; ++i)` of the comparison functions. -/
def for_all (n : Nat) (test : Nat → Option Bool) : Option Bool :=
  for_all_from test n 0

/-- Result of a comparison function: its `int` result and, when that is 0, the
message it sent to `stderr`. -/
def check_result (ok : Option Bool) (msg : String) : Option (Bool × List String) :=
  ok.map (fun b => if b then (true, []) else (false, [msg]))

/-- C's `x && y` on two comparison calls: `y` runs only when `x` returned
non-zero, and what was sent to `stderr` accumulates. -/
def seq_and (x y : Option (Bool × List String)) : Option (Bool × List String) :=
  match x with
  | none => none
  | some (false, m) => some (false, m)
  | some (true, m) =>
    match y with
    | none => none
    | some (b, m') => some (b, m ++ m')

def MSG_VERIFY_PROGRAM : String :=
  "Error: program memory does not match with .hex file!\n"

def MSG_VERIFY_CHECKSUM : String :=
  "Error: program memory checksum does not match with .hex file!\n"

def MSG_VERIFY_CONFIG_WORD : String :=
  "Error: CONFIG word does not match with .hex file!\n"

def MSG_VERIFY_CONFIG_ID : String :=
  "Error: config IDs don't match with .hex file!\n"

def MSG_VERIFY_EEPROM : String :=
  "Error: EE Data memory does not match with .hex file!\n"

def MSG_VERIFY_FAILED : String :=
  "Error: device failed to verify with .hex file!\n"

def MSG_BLANK_PROGRAM : String := "Error: program memory is not blank!\n"

def MSG_BLANK_CONFIG_WORD : String := "Error: CONFIG word is not blank!\n"

def MSG_BLANK_CONFIG_ID : String := "Error: config IDs are not blank!\n"

def MSG_BLANK_EEPROM : String := "Error: EE Data Memory is not blank!\n"

/-- Compare program memory between .hex file and device,
`usb_pickit_verify_program`. -/
def usb_pickit_verify_program (file dev : pic14_state) : Option (Bool × List String) :=
  check_result
    (for_all dev.program.inst_len (fun i =>
      match file.program.inst[i]?, dev.program.inst[i]? with
      | some a, some b => some (decide (a = b))
      | _, _ => none))
    MSG_VERIFY_PROGRAM

/-- Compare program memory checksums, `usb_pickit_verify_program_checksum`. -/
def usb_pickit_verify_program_checksum (file dev : pic14_state) :
    Option (Bool × List String) :=
  check_result (some (decide (file.program.instchecksum = dev.program.instchecksum)))
    MSG_VERIFY_CHECKSUM

/-- Compare configuration words under the device's mask,
`usb_pickit_verify_config_word`. -/
def usb_pickit_verify_config_word (file dev : pic14_state) : Option (Bool × List String) :=
  check_result
    (some (decide ((file.config.config &&& dev.config.configmask) =
      (dev.config.config &&& dev.config.configmask))))
    MSG_VERIFY_CONFIG_WORD

/-- Compare configuration IDs under the mask `0x7f`, `usb_pickit_verify_config_id`. -/
def usb_pickit_verify_config_id (file dev : pic14_state) : Option (Bool × List String) :=
  check_result
    (for_all 4 (fun i =>
      match file.config.id[i]?, dev.config.id[i]? with
      | some a, some b => some (decide ((a &&& 0x7f) = (b &&& 0x7f)))
      | _, _ => none))
    MSG_VERIFY_CONFIG_ID

/-- Compare EEPROM content between .hex file and device, `usb_pickit_verify_eeprom`. -/
def usb_pickit_verify_eeprom (file dev : pic14_state) : Option (Bool × List String) :=
  check_result
    (for_all dev.program.ee_len (fun i =>
      match file.program.ee[i]?, dev.program.ee[i]? with
      | some a, some b => some (decide (a = b))
      | _, _ => none))
    MSG_VERIFY_EEPROM

/-- All comparisons of a .hex file to device verify operation, `usb_pickit_verify`. -/
def usb_pickit_verify (file dev : pic14_state) : Option (Bool × List String) :=
  match seq_and (usb_pickit_verify_program file dev)
      (seq_and (usb_pickit_verify_program_checksum file dev)
        (seq_and (usb_pickit_verify_config_word file dev)
          (seq_and (usb_pickit_verify_config_id file dev)
            (usb_pickit_verify_eeprom file dev)))) with
  | none => none
  | some (true, m) => some (true, m)
  | some (false, m) => some (false, m ++ [MSG_VERIFY_FAILED])

/-- True if program memory is blank, `usb_pickit_blank_check_program`. -/
def usb_pickit_blank_check_program (s : pic14_state) : Option (Bool × List String) :=
  check_result
    (for_all s.program.inst_len (fun i =>
      match s.program.inst[i]? with
      | some a => some (decide (a = 0x3fff))
      | none => none))
    MSG_BLANK_PROGRAM

/-- True if the configuration word is blank, `usb_pickit_blank_check_config_word`. -/
def usb_pickit_blank_check_config_word (s : pic14_state) : Option (Bool × List String) :=
  check_result
    (some (decide ((s.config.config &&& s.config.configmask) =
      (0x3fff &&& s.config.configmask))))
    MSG_BLANK_CONFIG_WORD

/-- True if the configuration IDs are blank, `usb_pickit_blank_check_config_id`. -/
def usb_pickit_blank_check_config_id (s : pic14_state) : Option (Bool × List String) :=
  check_result
    (for_all 4 (fun i =>
      match s.config.id[i]? with
      | some a => some (decide ((a &&& 0x7f) = 0x7f))
      | none => none))
    MSG_BLANK_CONFIG_ID

/-- True if EEPROM memory is blank, `usb_pickit_blank_check_eeprom`. -/
def usb_pickit_blank_check_eeprom (s : pic14_state) : Option (Bool × List String) :=
  check_result
    (for_all s.program.ee_len (fun i =>
      match s.program.ee[i]? with
      | some a => some (decide (a = 0xff))
      | none => none))
    MSG_BLANK_EEPROM

/-- All comparisons of the device blank check, `usb_pickit_blank_check`. -/
def usb_pickit_blank_check (s : pic14_state) : Option (Bool × List String) :=
  seq_and (usb_pickit_blank_check_program s)
    (seq_and (usb_pickit_blank_check_config_word s)
      (seq_and (usb_pickit_blank_check_config_id s)
        (usb_pickit_blank_check_eeprom s)))

/-! ## usb_pickit.c: power, reading, bandgap, calibration -/

/-- Turn the device on, `usb_pickit_on`. -/
def usb_pickit_on : usb_m Unit := send_usb (cmd "V1ZZZZZZ")

/-- Turn the device off, `usb_pickit_off`. -/
def usb_pickit_off : usb_m Unit := send_usb (cmd "V0ZZZZZZ")

/-- Turn the 2.5 kHz osc on, `usb_pickit_osc_on`. -/
def usb_pickit_osc_on : usb_m Unit := send_usb (cmd "V3ZZZZZZ")

/-- Turn the 2.5 kHz osc off, `usb_pickit_osc_off`. -/
def usb_pickit_osc_off : usb_m Unit := send_usb (cmd "V1ZZZZZZ")

/-- The packet of `usb_pickit_read_checksum`: `"S____V1Z"` with the program and data
lengths, each as two `char`. -/
def checksum_cmd (inst_len ee_len : Nat) : List Nat :=
  ((((cmd "S____V1Z").set 1 (inst_len &&& 0xff)).set 2 ((inst_len >>> 8) % 0x100)).set 3
    (ee_len &&& 0xff)).set 4 ((ee_len >>> 8) % 0x100)

/-- Read the checksums from the device via the programmer's "S" function,
`usb_pickit_read_checksum`. -/
def usb_pickit_read_checksum (s : pic14_state) : usb_m pic14_state := do
  send_usb (checksum_cmd s.program.inst_len s.program.ee_len)
  let checksum ← recv_usb_words 2
  send_usb (cmd "pV1ZZZZZ")
  pure { s with config := { s.config with
    pgmchecksum := checksum.getD 0 0
    eechecksum := (checksum.getD 1 0 &&& 0x00ff) % 0x100 } }

/-- Store `ws` in the array `dest` from index `i` on; `none` when a store is outside
the array. -/
def store_at (dest : List Nat) (i : Nat) (ws : List Nat) : Option (List Nat) :=
  if i + ws.length ≤ dest.length then
    some (dest.take i ++ ws ++ dest.drop (i + ws.length))
  else none

/-- The loop `while (nee < p->ee_len)` of `usb_pickit_read_eeprom`; every iteration
adds 64 to `nee`, so a `fuel` of `ee_len` is never used up. -/
def read_eeprom_loop : Nat → Nat → pic14_program → usb_m pic14_program
  | 0, nee, p => if nee < p.ee_len then fun _ => usb_result.undefined else pure p
  | fuel + 1, nee, p =>
    if nee < p.ee_len then do
      send_usb (cmd "rrrrrrrr")
      let eeData ← recv_usb 64
      let ee ← usb_m.of_option (store_at p.ee nee eeData)
      read_eeprom_loop fuel (nee + 64) { p with ee := ee }
    else pure p

/-- Read the current EEPROM data memory from the device, `usb_pickit_read_eeprom`. -/
def usb_pickit_read_eeprom (p : pic14_program) : usb_m pic14_program := do
  send_usb (cmd "PZZZZZZZ")
  let p ← read_eeprom_loop p.ee_len 0 p
  send_usb (cmd "pZZZZZZZ")
  pure p

/-- Read the current program memory from the device, `usb_pickit_read_program`. -/
def usb_pickit_read_program (p : pic14_program) : usb_m pic14_program := do
  send_usb (cmd "PZZZZZZZ")
  let ws ← recv_usb_words p.inst_len
  let inst ← usb_m.of_option (store_words p.inst ws)
  send_usb (cmd "pV1ZZZZZ")
  pure { p with inst := inst }

/-- Fill out the state with the contents of the device, `usb_pickit_read`. -/
def usb_pickit_read (s : pic14_state) : usb_m pic14_state := do
  let p ← usb_pickit_read_eeprom s.program
  let p ← usb_pickit_read_program p
  let c ← usb_pickit_read_config s.config
  pure { program := p, config := c }

def MSG_BANDGAP_RANGE : String := "Error: bandgap must be between 0 and 3"

def MSG_BANDGAP_FAILED : String := "Error programming Bandgap.\n"

def MSG_BANDGAP_REASON : String :=
  "reason: only PIC 629, 675, 630 and 676 support Bandgap bits.\n"

def MSG_OSCCAL_FAILED : String := "Error regenerating OSCCAL.\n"

def MSG_OSCCAL_REASON : String :=
  "reason: only PIC 629, 675, 630 and 676 support OSCCAL regeneration.\n"

/-- Set the bandgap bits, `usb_pickit_set_bandgap`, with the `int` argument `bgarg`:
what the function sent to `stderr` when it returns.  `bg = (pic14_word)bgarg` is the
argument modulo `0x10000`; `exit (-1)`, which follows the message
`MSG_BANDGAP_RANGE`, ends the process and is the outcome `exited`. -/
def usb_pickit_set_bandgap (s : pic14_state) (bgarg : Int) : usb_m (List String) :=
  let bg := (bgarg % 0x10000).toNat
  if bg > 3 then fun d => usb_result.exited d
  else if s.config.save_osccal then do
    let oldconfig ← usb_pickit_read_config local_config
    usb_pickit_reset false
    send_usb (cmd "V0V1PI\xff\x03")
    send_usb_word oldconfig.osccal
    let configword := ((bg <<< 12) ||| s.config.configmask) % 0x10000
    send_usb (cmd "pPCI\x07\x00ZZ")
    send_usb_word configword
    send_usb (cmd "pV1ZZZZZ")
    pure []
  else pure [MSG_BANDGAP_FAILED, MSG_BANDGAP_REASON]

/-- Regenerate OSCCAL with the 2.5 kHz oscillator of the PICkit,
`usb_pickit_osccal_regen`: what the function sent to `stderr`.  The `sleep (1)` between
the two power commands is not part of the link. -/
def usb_pickit_osccal_regen (s : pic14_state) : usb_m (List String) :=
  if s.config.save_osccal then do
    send_usb (cmd "pPCI\x07\x00ZZ")
    let configword ← recv_usb_words 1
    send_usb (cmd "pV1ZZZZZ")
    usb_pickit_osc_on
    usb_pickit_off
    send_usb (cmd "PI\x78\x00rpZZ")
    let eedata ← recv_usb 8
    usb_pickit_reset false
    let osccal := ((eedata.getD 7 0) ||| 0x3400) % 0x10000
    send_usb (cmd "pV1ZZZZZ")
    send_usb (cmd "PI\xff\x03ZZZZ")
    send_usb_word osccal
    let configword := ((0x3000 &&& configword.getD 0 0) ||| s.config.configmask) % 0x10000
    send_usb (cmd "pPCI\x07\x00ZZ")
    send_usb_word configword
    send_usb (cmd "pV1ZZZZZ")
    pure []
  else pure [MSG_OSCCAL_FAILED, MSG_OSCCAL_REASON]

/-! ## pickit1.c -/

/-- Write a .hex file to the PIC, `pickit1_program`: the `int` result.  `fp` is what
`fopen (filename, "r")` returned, `none` for `NULL`, and `dev` is the content of the
uninitialised local `pic14_device`. -/
def pickit1_program (fp : Option (List Nat)) (programall : Bool) (dev : pic14_device) :
    usb_m Nat :=
  match fp with
  | none => pure 0
  | some inp => do
    let dev := { dev with state := pic14_state_init dev.state }
    let found ← usb_pickit_get_device dev
    if found.1 = 0 then pure 0
    else
      match pic14_hex_read found.2.state (some inp) with
      | hex_read_result.undefined => fun _ => usb_result.undefined
      | hex_read_result.error _ _ => pure 0
      | hex_read_result.ok s => do
        let _ ← usb_pickit_write s (if programall then false else true)
        pure 1

/-! ## Auxiliary definitions for the statements -/

/-- A sequence of `pic14_write_word` calls, each on the span list of the current
state, as `pic14_hex_segment` issues them; a call is the pair address, word. -/
def pic14_write_words : List (Nat × Nat) → pic14_state → Option pic14_state
  | [], p => some p
  | c :: rest, p =>
    match pic14_write_word (pic14_program_spans p) c.1 c.2 p with
    | none => none
    | some q => pic14_write_words rest q

/-- The buffers of a state have their declared capacities and the declared span
lengths fit them. -/
def pic14_state.sized (p : pic14_state) : Prop :=
  p.program.inst.length = PIC14_INST_LEN ∧ p.program.ee.length = PIC14_EE_LEN ∧
  p.config.id.length = PIC14_ID_LEN ∧
  p.program.inst_len ≤ PIC14_INST_LEN ∧ p.program.ee_len ≤ PIC14_EE_LEN

/-- Offsets in the program span (base `0x0000`) hit by a sequence of calls. -/
def prog_offsets (inst_len : Nat) (calls : List (Nat × Nat)) : List Nat :=
  (calls.filter (fun c => decide (c.1 < inst_len))).map (fun c => c.1)

/-- Offsets in the EEPROM span (base `0x2100`) hit by a sequence of calls. -/
def ee_offsets (ee_len : Nat) (calls : List (Nat × Nat)) : List Nat :=
  (calls.filter (fun c => decide (0x2100 ≤ c.1 ∧ c.1 < 0x2100 + ee_len))).map
    (fun c => c.1 - 0x2100)

/-- Check (1) of verify: every program word below the device's `inst_len` is equal. -/
def verify_program_holds (file dev : pic14_state) : Prop :=
  ∀ i < dev.program.inst_len,
    ∃ v, file.program.inst[i]? = some v ∧ dev.program.inst[i]? = some v

/-- Check (2) of verify: the two `instchecksum` fields are equal. -/
def verify_checksum_holds (file dev : pic14_state) : Prop :=
  file.program.instchecksum = dev.program.instchecksum

/-- Check (3) of verify: the configuration words agree under the device's mask. -/
def verify_config_word_holds (file dev : pic14_state) : Prop :=
  (file.config.config &&& dev.config.configmask) =
    (dev.config.config &&& dev.config.configmask)

/-- Check (4) of verify: the four user ID words agree under the mask `0x7f`. -/
def verify_config_id_holds (file dev : pic14_state) : Prop :=
  ∀ i < 4, ∃ a b, file.config.id[i]? = some a ∧ dev.config.id[i]? = some b ∧
    (a &&& 0x7f) = (b &&& 0x7f)

/-- Check (5) of verify: every EEPROM cell below the device's `ee_len` is equal. -/
def verify_eeprom_holds (file dev : pic14_state) : Prop :=
  ∀ i < dev.program.ee_len,
    ∃ v, file.program.ee[i]? = some v ∧ dev.program.ee[i]? = some v

instance (file dev : pic14_state) : Decidable (verify_checksum_holds file dev) := by
  unfold verify_checksum_holds
  infer_instance

instance (file dev : pic14_state) : Decidable (verify_config_word_holds file dev) := by
  unfold verify_config_word_holds
  infer_instance

/-- A driver function that returns `a` after sending the frames `fs`, whatever the
state of the link, and requests nothing from the device. -/
def emits {α : Type} (x : usb_m α) (a : α) (fs : List (List Nat)) : Prop :=
  ∀ d, x d = usb_result.done a { d with sent := d.sent ++ fs }

/-- The frames a driver function sends on a link that delivers nothing. -/
def frames_of {α : Type} (x : usb_m α) : List (List Nat) :=
  match x { sent := [], requested := [], inbox := [] } with
  | usb_result.done _ d => d.sent
  | usb_result.exited d => d.sent
  | usb_result.undefined => []

/-- The packets of the loop of `send_usb_words`, from index `i` with `k` to go. -/
def words_frames (w : List Nat) : Nat → Nat → List (List Nat)
  | 0, _ => []
  | k + 1, i =>
    words_cmd (w.getD (i * 2 + 0) 0) (w.getD (i * 2 + 1) 0) :: words_frames w k (i + 1)

/-- The packets of `send_usb_words (d, n, w)`. -/
def send_usb_words_frames (n : Nat) (w : List Nat) : List (List Nat) :=
  words_frames w (n / 2) 0 ++ (if n % 2 ≠ 0 then [word_cmd (w.getD (n - 1) 0)] else [])

/-- The packets of the first loop of `usb_pickit_write_eeprom`. -/
def data_frames (ee : List Nat) : Nat → Nat → List (List Nat)
  | 0, _ => []
  | k + 1, i =>
    data_cmd (ee.getD (i * 4 + 0) 0) (ee.getD (i * 4 + 1) 0) (ee.getD (i * 4 + 2) 0)
      (ee.getD (i * 4 + 3) 0) :: data_frames ee k (i + 1)

/-- The packets of `usb_pickit_write_config (d, c)`. -/
def write_config_frames (c : pic14_config) : List (List Nat) :=
  [cmd "V0V1PI\xff\x03"] ++ (if c.save_osccal then [word_cmd c.osccal] else []) ++
    [cmd "pV0V1PCZ", words_cmd (c.id.getD 0 0) (c.id.getD 1 0),
      words_cmd (c.id.getD 2 0) (c.id.getD 3 0), cmd "pPCI\x07\x00ZZ", word_cmd c.config,
      cmd "pV1ZZZZZ"]

/-- The packets of `usb_pickit_read_config (d, c)`. -/
def read_config_frames : List (List Nat) :=
  [cmd "V0V1PI\xff\x03", cmd "RZZZZZZZ", cmd "pV0V1PCZ", cmd "RZZZZZZZ",
    cmd "pPCI\x07\x00ZZ", cmd "RZZZZZZZ", cmd "pV1ZZZZZ"]

/-- Frame `i` of a trace jumps to the calibration word (`0x03ff`) and frame `i + 1`
writes the word `w` there. -/
def osccal_write_at (tr : List (List Nat)) (i w : Nat) : Prop :=
  tr[i]? = some (cmd "V0V1PI\xff\x03") ∧ tr[i + 1]? = some (word_cmd w)

/-- A state the write operation can send: the buffers have their capacities, the
program length fits its buffer and both high-water marks lie within the buffers. -/
def pic14_state.writable (s : pic14_state) : Prop :=
  s.program.inst.length = PIC14_INST_LEN ∧ s.program.ee.length = PIC14_EE_LEN ∧
  s.config.id.length = PIC14_ID_LEN ∧ s.program.inst_len ≤ PIC14_INST_LEN ∧
  s.program.max_prog ≤ PIC14_INST_LEN ∧ s.program.max_ee ≤ PIC14_EE_LEN

/-- The packets of `usb_pickit_write_eeprom (d, p)`. -/
def write_eeprom_frames (p : pic14_program) : List (List Nat) :=
  [cmd "PZZZZZZZ"] ++ data_frames p.ee (p.max_ee / 4) 0 ++
    (if p.max_ee % 4 ≠ 0 then
      [(write_eeprom_last p.ee (p.max_ee % 4) 0 (p.max_ee - p.max_ee % 4)
        (cmd "ZZZZZZZZ")).getD []]
     else []) ++ [cmd "pZZZZZZZ"]

/-- The packets of `usb_pickit_write_program (d, p)`. -/
def write_program_frames (p : pic14_program) : List (List Nat) :=
  [cmd "PZZZZZZZ"] ++ send_usb_words_frames p.max_prog p.inst ++ [cmd "pV1ZZZZZ"]

/-- The configuration `usb_pickit_read_config` leaves in `*c` when the device answers
its three read commands with the transfers `b1`, `b2` and `b3`. -/
def config_read_back (c : pic14_config) (b1 b2 b3 : List Nat) : pic14_config :=
  { c with
    osccal := word_of_bytes b1 0
    id := [word_of_bytes b2 0, word_of_bytes b2 1, word_of_bytes b2 2, word_of_bytes b2 3]
    config := word_of_bytes b3 0 }

/-- The packet of `usb_pickit_reset (d, keep_eeprom)`. -/
def reset_frame (keep_eeprom : Bool) : List Nat :=
  if keep_eeprom then cmd "PCEpZZZZ" else cmd "PCEepZZZ"

/-- The configuration `usb_pickit_merge_config` hands to `usb_pickit_write_config`. -/
def merged_config (oldconfig newconfig : pic14_config) : pic14_config :=
  { newconfig with
    osccal := oldconfig.osccal
    config := ((oldconfig.config &&& BG_MASK) +
      (newconfig.config &&& (0xffffffff - BG_MASK))) % 0x10000 }

/-- The character codes of a text. -/
def text (s : String) : List Nat := s.toList.map Char.toNat

/-- A callback for `hex_read` that records its calls: address and data bytes. -/
def record_call (log : List (Nat × List Nat)) (addr len : Nat) (data : List Nat) :
    Option (List (Nat × List Nat)) :=
  some (log ++ [(addr, data.take len)])

/-- The bytes a list of hexadecimal digit characters spells, two digits per byte;
`none` when a character is no hexadecimal digit or the count is odd. -/
def digits_bytes : List Nat → Option (List Nat)
  | [] => some []
  | [_] => none
  | c1 :: c2 :: rest =>
    match hex_value c1, hex_value c2, digits_bytes rest with
    | some v1, some v2, some bs => some ((v1 * 16 + v2) :: bs)
    | _, _, _ => none

/-- The digits `ds` (what follows the colon) are a valid data record: length byte
`len`, two address bytes, type 00, `len` data bytes and a checksum byte that
makes the sum of all bytes 0 modulo 256. -/
def is_data_record (ds : List Nat) (len ahi alo : Nat) (tl : List Nat) : Prop :=
  digits_bytes ds = some (len :: ahi :: alo :: 0 :: tl) ∧ tl.length = len + 1 ∧
    len ≤ HEX_MAX_DATA_LINE ∧ (len + ahi + alo + 0 + tl.sum) % 0x100 = 0

/-- The messages of `hex_read` that report a malformed record, the `FormatError` of
the specification: all but the failure to open the file and the checksum mismatch. -/
def hex_error.is_format (e : hex_error) : Bool :=
  match e with
  | hex_error.could_not_open => false
  | hex_error.checksum_mismatch => false
  | _ => true

/-- Device info of the 16F689. -/
def dev_16F689 : pic14_device_info :=
  { device_id := 0x1340, device_name := "16F689", inst_len := 0x1000, ee_len := 256,
    save_osccal := 0, configmask := 0xfff }

/-- Device info of the 16F877A, the first of the three entries with 8192 words. -/
def dev_16F877A : pic14_device_info :=
  { device_id := 0x0e20, device_name := "16F877A", inst_len := 0x2000, ee_len := 256,
    save_osccal := 0, configmask := 0x2fc7 }

/-- Device info of the 16F716, the entry without EEPROM. -/
def dev_16F716 : pic14_device_info :=
  { device_id := 0x1140, device_name := "16F716", inst_len := 0x0800, ee_len := 0,
    save_osccal := 0, configmask := 0x0cf }


/-- The text `hex_write_byte` prints for a list of bytes, two digits each. -/
def hex_of_bytes : List Nat → List Nat
  | [] => []
  | b :: bs => fprintf_02X b ++ hex_of_bytes bs

/-- The two's complement modulo 256 of the sum of the bytes. -/
def twos_complement_sum (bs : List Nat) : Nat := (0x100 - bs.sum % 0x100) % 0x100

/-- A line of a .hex file with these bytes before the checksum byte: the colon, the
digits of the bytes, the digits of the two's complement of their sum, a newline. -/
def record_text (bs : List Nat) : List Nat :=
  58 :: hex_of_bytes (bs ++ [twos_complement_sum bs]) ++ [10]

/-- A line of type 00 with this address and these data bytes. -/
def data_record_text (addr : Nat) (data : List Nat) : List Nat :=
  record_text ([data.length, addr / 0x100 % 0x100, addr % 0x100, 0] ++ data)

/-- The chunks of at most 16 bytes of the data `d` at address `a`: chunk `k` is at
address `a + 16 * k`; there are `⌈|d| / 16⌉` of them. -/
def chunks (a : Nat) (d : List Nat) : List (Nat × List Nat) :=
  (List.range ((d.length + 15) / 16)).map (fun k => (a + 16 * k, (d.drop (16 * k)).take 16))

/-- The lines of type 00 for a list of pairs address, data. -/
def lines_text : List (Nat × List Nat) → List Nat
  | [] => []
  | c :: cs => data_record_text c.1 c.2 ++ lines_text cs

/-! ## Auxiliary definitions: blank check, frames -/

/-- Check (1) of the blank check: every program word below `inst_len` is `0x3fff`. -/
def blank_program_holds (s : pic14_state) : Prop :=
  ∀ i < s.program.inst_len, s.program.inst[i]? = some 0x3fff

/-- Check (2) of the blank check: the configuration word is `0x3fff` under the mask. -/
def blank_config_word_holds (s : pic14_state) : Prop :=
  (s.config.config &&& s.config.configmask) = (0x3fff &&& s.config.configmask)

/-- Check (3) of the blank check: the four user ID words have low 7 bits `0x7f`. -/
def blank_config_id_holds (s : pic14_state) : Prop :=
  ∀ i < 4, ∃ a, s.config.id[i]? = some a ∧ (a &&& 0x7f) = 0x7f

/-- Check (4) of the blank check: every EEPROM cell below `ee_len` is `0xff`. -/
def blank_eeprom_holds (s : pic14_state) : Prop :=
  ∀ i < s.program.ee_len, s.program.ee[i]? = some 0xff

instance (s : pic14_state) : Decidable (blank_config_word_holds s) := by
  unfold blank_config_word_holds
  infer_instance

/-- A state with one program word and two EEPROM cells, for the examples. -/
def tiny_state : pic14_state :=
  { program := { inst_len := 1, inst := [0x3fff], max_prog := 0, instchecksum := 0,
                 ee_len := 2, ee := [0x12, 0x34], max_ee := 0 }
    config := { osccal := 0x3444, id := [1, 2, 3, 4], config := 0x184, save_osccal := false,
                configmask := 0x1ff, pgmchecksum := 0, eechecksum := 0 } }

/-! ## The command stream of the programmer

The commands of firmware 2.0.2 as the comment in `usb_pickit.c` lists them.  The number
of argument bytes is that of the packets the driver builds: `W` takes a word (two
bytes), `D` a byte, `I` a count (two bytes), `V` a level, `S` two lengths (four bytes);
the other commands take none. -/

/-- The number of argument bytes of a command. -/
def arg_count (c : Nat) : Nat :=
  if c = 87 ∨ c = 73 then 2 else if c = 68 ∨ c = 86 then 1 else if c = 83 then 4 else 0

/-- The commands of a packet from a position on, `k` argument bytes of the command
before still to skip. -/
def frame_scan : Nat → List Nat → List (Nat × List Nat)
  | _, [] => []
  | 0, c :: rest => (c, rest.take (arg_count c)) :: frame_scan (arg_count c) rest
  | k + 1, _ :: rest => frame_scan k rest

/-- The commands of a packet with their argument bytes. -/
def frame_cmds (f : List Nat) : List (Nat × List Nat) := frame_scan 0 f

/-- The words the `W` commands of a packet write, low byte first. -/
def word_writes (f : List Nat) : List Nat :=
  (frame_cmds f).filterMap (fun c =>
    if c.1 = 87 then some (c.2.getD 0 0 + c.2.getD 1 0 * 0x100) else none)

/-- The bytes the `D` commands of a packet write. -/
def byte_writes (f : List Nat) : List Nat :=
  (frame_cmds f).filterMap (fun c => if c.1 = 68 then some (c.2.getD 0 0) else none)

/-- The command letters of a packet. -/
def frame_ops (f : List Nat) : List Nat := (frame_cmds f).map (fun c => c.1)

/-- The link after a driver function has ended, by return or by exit. -/
def usb_result.link {α : Type} : usb_result α → Option usb_pickit
  | usb_result.done _ d => some d
  | usb_result.exited d => some d
  | usb_result.undefined => none

/-- On every link, whether the function returns or the process exits, every packet the
function has sent has `REQ_LEN` bytes and every length it has requested from the
device is one of `lens`. -/
def transfers_in (lens : List Nat) {α : Type} (x : usb_m α) : Prop :=
  ∀ d d', (x d).link = some d' →
    ∃ fs rs, d'.sent = d.sent ++ fs ∧ d'.requested = d.requested ++ rs ∧
      (∀ f ∈ fs, f.length = REQ_LEN) ∧ (∀ r ∈ rs, r ∈ lens)

/-- The value a driver function returns; `none` when the process exits or the run is
undefined. -/
def usb_result.value {α : Type} : usb_result α → Option α
  | usb_result.done a _ => some a
  | _ => none

/-- A function that, when it returns, has taken its answers from the front of the
inbox of the link. -/
def consumes {α : Type} (x : usb_m α) : Prop :=
  ∀ d a d', x d = usb_result.done a d' → ∃ ins, d.inbox = ins ++ d'.inbox

/-- A link that answers every read of `usb_pickit_read` on a 16F635: four EEPROM
transfers, 256 program transfers, then the calibration word `0x1234`, the user ID
`1, 2, 3, 4` and the configuration word `0x0184`. -/
def answering_link : usb_pickit :=
  { sent := [], requested := [],
    inbox := List.replicate 4 (List.replicate 64 0xff) ++
      List.replicate 256 (List.replicate 8 0xff) ++
      [[0x34, 0x12, 0, 0, 0, 0, 0, 0], [1, 0, 2, 0, 3, 0, 4, 0], [0x84, 0x01, 0, 0, 0, 0, 0, 0]] }

/-- The calls `hex_read` makes for a list of lines of type 00 given as pairs address,
data, with the offset registers `b16` and `b32`, applied in order to the parameter;
`none` when a call reads or writes outside an array. -/
def hex_replay {σ : Type} (fn : σ → Nat → Nat → List Nat → Option σ) (b16 b32 : Nat) :
    List (Nat × List Nat) → σ → Option σ
  | [], p => some p
  | c :: cs, p =>
    match fn p ((b16 + b32 + c.1 % 0x10000) % 2 ^ 32) c.2.length
        (c.2 ++ [twos_complement_sum
          ([c.2.length, c.1 / 0x100 % 0x100, c.1 % 0x100, 0] ++ c.2)]) with
    | none => none
    | some q => hex_replay fn b16 b32 cs q

/-- The parameter `hex_read` leaves when it returns 1. -/
def hex_read_result.state {σ : Type} : hex_read_result σ → Option σ
  | hex_read_result.ok q => some q
  | _ => none

/-- The state of the scenario: program length 3 with the words `0x3FFF, 0x3FFF,
0x1234`, EEPROM length 1 with the byte `0xAB`, in arrays of the declared capacities;
the other fields as `pic14_state_init` sets them. -/
def scenario_state : pic14_state :=
  { program := { inst_len := 3,
                 inst := [0x3fff, 0x3fff, 0x1234] ++ List.replicate (PIC14_INST_LEN - 3) 0x3fff,
                 max_prog := 0, instchecksum := 0, ee_len := 1,
                 ee := [0xab] ++ List.replicate (PIC14_EE_LEN - 1) 0xff, max_ee := 0 }
    config := { osccal := 0x2000, id := List.replicate PIC14_ID_LEN 0x3fff, config := 0x184,
                save_osccal := false, configmask := 0x1ff, pgmchecksum := 0,
                eechecksum := 0 } }

/-- The fresh state of the scenario: `pic14_state_init` with program length 3 and
EEPROM length 1. -/
def scenario_fresh : pic14_state :=
  pic14_state_init { zero_state with
    program := { zero_state.program with inst_len := 3, ee_len := 1 } }

/-- The command letters of a trace, packet by packet. -/
def trace_ops (tr : List (List Nat)) : List Nat := (tr.map frame_ops).flatten

/-- Follow the programming mode through a list of command letters: `P` enters it, `p`
leaves it; a memory command (`W`, `D`, `R`, `r`) outside the mode gives `none`;
otherwise the result is the mode at the end. -/
def mode_scan : Bool → List Nat → Option Bool
  | m, [] => some m
  | m, c :: rest =>
    if c = 80 then mode_scan true rest
    else if c = 112 then mode_scan false rest
    else if c = 87 ∨ c = 68 ∨ c = 82 ∨ c = 114 then
      (if m then mode_scan m rest else none)
    else mode_scan m rest

/-- A driver function that, whenever it returns, has sent packets that take the
programmer from mode `m` to mode `m'` with every memory command inside the programming
mode. -/
def keeps_mode (m m' : Bool) {α : Type} (x : usb_m α) : Prop :=
  ∀ d a d', x d = usb_result.done a d' →
    ∃ fs, d'.sent = d.sent ++ fs ∧ mode_scan m (trace_ops fs) = some m'

/-- A configuration read from a device, for the examples: user ID `1, 2, 3, 4`,
calibration word `0x3444`, configuration word `0x3fff`. -/
def old_config_example : pic14_config :=
  { osccal := 0x3444, id := [1, 2, 3, 4], config := 0x3fff, save_osccal := false,
    configmask := 0x1fff, pgmchecksum := 0, eechecksum := 0 }

/-- A configuration read from a file, for the examples: user ID `5, 6, 7, 8`,
configuration word `0x0fff`, on a chip with the mask `0x1fff` (the 16F635). -/
def new_config_example : pic14_config :=
  { osccal := 0x2000, id := [5, 6, 7, 8], config := 0x0fff, save_osccal := false,
    configmask := 0x1fff, pgmchecksum := 0, eechecksum := 0 }

/-- The high-water invariant of a state: the marks are within the declared lengths,
every program word from `max_prog` on is `0x3fff` and every EEPROM cell from `max_ee`
on is `0xff`. -/
def high_water_inv (p : pic14_state) : Prop :=
  p.program.max_prog ≤ p.program.inst_len ∧ p.program.max_ee ≤ p.program.ee_len ∧
  (∀ j, p.program.max_prog ≤ j → j < p.program.inst.length →
    p.program.inst[j]? = some 0x3fff) ∧
  (∀ j, p.program.max_ee ≤ j → j < p.program.ee.length → p.program.ee[j]? = some 0xff)

/-- A state with another configuration. -/
def with_config (s : pic14_state) (c : pic14_config) : pic14_state :=
  { s with config := c }

/-- The transfer with which the programmer answers the read of the ID word `id`: the
word in the first two bytes, low byte first, then the three words that follow it. -/
def id_reply (id : Nat) : List Nat := [id % 0x100, id / 0x100 % 0x100, 0, 0, 0, 0, 0, 0]
/-! ## Span routing -/

theorem dev_12F629_mem : dev_12F629 ∈ supported_devices := by decide

theorem dev_16F635_mem : dev_16F635 ∈ supported_devices := by decide

/-- Every supported descriptor has a program length of at most `0x2000` and an EEPROM
length of at most 256. -/
theorem supported_devices_lengths (d : pic14_device_info) (h : d ∈ supported_devices) :
    d.inst_len ≤ 0x2000 ∧ d.ee_len ≤ 256 := by
  revert d
  decide

/-- Which spans claim an address, for lengths in the range of the table. -/
theorem spans_claiming_eq (p : pic14_state) (a : Nat)
    (hi : p.program.inst_len ≤ 0x2000) (he : p.program.ee_len ≤ 256) :
    spans_claiming (pic14_program_spans p) a =
      (pic14_program_spans p).filter (fun sp =>
        decide (sp.addr ≤ a ∧ a < sp.addr + sp.len)) := by
  unfold spans_claiming
  apply List.filter_congr
  intro sp hsp
  simp only [pic14_program_spans, List.mem_cons, List.mem_singleton, List.not_mem_nil,
    or_false] at hsp
  have hlen : sp.addr + sp.len < 2 ^ 32 := by
    rcases hsp with h | h | h | h | h <;> subst h <;> simp [PIC14_ID_LEN] <;> omega
  simp only [pic14_span.contains]
  rw [Nat.mod_eq_of_lt hlen]

/-- C3, evaluated on the code: for the 16F635 descriptor (program length `0x400`) address
`0x3ff` is claimed by two spans, the program span and the OSCCAL span. -/
theorem osccal_span_overlaps_program_span :
    dev_16F635 ∈ supported_devices ∧
    spans_claiming (pic14_program_spans (fresh_state dev_16F635)) 0x3ff =
      [ { desc := "Program (14-bit instruction words)", addr := 0x0000, len := 0x400,
          data := pic14_ref.inst },
        { desc := "OSCCAL", addr := 0x03ff, len := 1, data := pic14_ref.osccal } ] := by
  constructor
  · decide
  · decide

/-- The overlap of C3 in general: the spans of a state are pairwise disjoint on
`[0, 0x2200)` exactly when the program span stops before the OSCCAL word. -/
theorem spans_disjoint_iff (p : pic14_state)
    (hi : p.program.inst_len ≤ 0x2000) (he : p.program.ee_len ≤ 256) :
    (∀ a < 0x2200, (spans_claiming (pic14_program_spans p) a).length ≤ 1) ↔
      p.program.inst_len ≤ 0x3ff := by
  constructor
  · intro h
    by_contra hc
    have h1 := h 0x3ff (by norm_num)
    rw [spans_claiming_eq p _ hi he] at h1
    have h3 : 0x3ff < p.program.inst_len := by omega
    simp [pic14_program_spans, List.filter, PIC14_ID_LEN, h3] at h1
  · intro h a _
    rw [spans_claiming_eq p _ hi he]
    simp only [pic14_program_spans, List.filter, PIC14_ID_LEN]
    repeat' split
    all_goals simp_all
    all_goals omega

/-! ## Routing and high-water marks -/

/-- Routing takes the first span of the list that claims the address. -/
theorem pic14_write_word_from_first (s : Nat) (pre : List pic14_span) (sp : pic14_span)
    (post : List pic14_span) (a w : Nat) (p : pic14_state)
    (hpre : ∀ x ∈ pre, x.contains a = false) (hsp : sp.contains a = true) :
    pic14_write_word_from s (pre ++ sp :: post) a w p =
      (sp.data.write p (a - sp.addr) w).map
        (pic14_update_marks (s + pre.length) (a - sp.addr + 1)) := by
  induction pre generalizing s with
  | nil => simp [pic14_write_word_from, hsp]
  | cons x xs ih =>
    have hx : x.contains a = false := hpre x (List.mem_cons_self _ _)
    have hxs : ∀ y ∈ xs, y.contains a = false := fun y hy => hpre y (List.mem_cons_of_mem _ hy)
    have h := ih (s + 1) hxs
    rw [List.cons_append, pic14_write_word_from, if_neg (by simp [hx]), h]
    simp [Nat.add_assoc, Nat.add_comm 1]

/-- An address no span claims is ignored. -/
theorem pic14_write_word_from_none (s : Nat) (spans : List pic14_span) (a w : Nat)
    (p : pic14_state) (h : ∀ x ∈ spans, x.contains a = false) :
    pic14_write_word_from s spans a w p = some p := by
  induction spans generalizing s with
  | nil => rfl
  | cons x xs ih =>
    have hx : x.contains a = false := h x (List.mem_cons_self _ _)
    simp only [pic14_write_word_from, hx, Bool.false_eq_true, if_false]
    exact ih (s + 1) (fun y hy => h y (List.mem_cons_of_mem _ hy))

theorem pic14_update_marks_read (r : pic14_ref) (s index : Nat) (p : pic14_state) (i : Nat) :
    r.read (pic14_update_marks s index p) i = r.read p i := by
  unfold pic14_update_marks
  cases r <;> (repeat' split) <;> rfl

theorem pic14_ref_read_write (r : pic14_ref) (p q : pic14_state) (i w : Nat)
    (h : r.write p i w = some q) : r.read q i = some w := by
  cases r <;> simp only [pic14_ref.write] at h <;> split at h <;> simp at h <;> subst h <;>
    simp_all [pic14_ref.read]

/-- One call of `pic14_write_word` on a state whose spans fit their buffers:
the call is defined, keeps the sizes and moves the marks as the `switch` says. -/
theorem pic14_write_word_marks (p : pic14_state) (a w : Nat) (h : p.sized) :
    ∃ q, pic14_write_word (pic14_program_spans p) a w p = some q ∧ q.sized ∧
      q.program.inst_len = p.program.inst_len ∧ q.program.ee_len = p.program.ee_len ∧
      q.program.max_prog =
        (if a < p.program.inst_len then max p.program.max_prog (a + 1)
         else p.program.max_prog) ∧
      q.program.max_ee =
        (if 0x2100 ≤ a ∧ a < 0x2100 + p.program.ee_len then
           max p.program.max_ee (a - 0x2100 + 1)
         else p.program.max_ee) := by
  obtain ⟨h1, h2, h3, h4, h5⟩ := h
  simp only [PIC14_INST_LEN, PIC14_EE_LEN, PIC14_ID_LEN] at h1 h2 h3 h4 h5
  have m1 : (0 + p.program.inst_len) % 2 ^ 32 = p.program.inst_len := by
    rw [Nat.zero_add]; exact Nat.mod_eq_of_lt (by omega)
  have m2 : (0x2100 + p.program.ee_len) % 2 ^ 32 = 0x2100 + p.program.ee_len :=
    Nat.mod_eq_of_lt (by omega)
  simp only [pic14_write_word, pic14_program_spans, pic14_write_word_from,
    pic14_span.contains, m1, m2, PIC14_ID_LEN]
  by_cases c1 : a < p.program.inst_len
  · have : a < p.program.inst.length := by omega
    have c2 : ¬ (0x2100 ≤ a ∧ a < 0x2100 + p.program.ee_len) := by omega
    simp only [ge_iff_le, Nat.zero_le, true_and, c1, decide_True, if_true, Nat.sub_zero,
      pic14_ref.write, this, Option.map_some', c2, if_false]
    refine ⟨_, rfl, ?_⟩
    simp only [pic14_update_marks, SPAN_PROGRAM, if_true, pic14_state.sized, PIC14_INST_LEN,
      PIC14_EE_LEN, PIC14_ID_LEN]
    split <;> simp [h1, h2, h3, h4, h5] <;> omega
  · by_cases c2 : 0x2100 ≤ a ∧ a < 0x2100 + p.program.ee_len
    · have : a - 0x2100 < p.program.ee.length := by omega
      simp only [ge_iff_le, Nat.zero_le, true_and, c1, c2, and_self, decide_True, decide_False,
        Bool.false_eq_true, if_true, if_false,
        pic14_ref.write, this, Option.map_some']
      refine ⟨_, rfl, ?_⟩
      simp only [pic14_update_marks, SPAN_PROGRAM, SPAN_EEPROM, if_true, pic14_state.sized,
        PIC14_INST_LEN, PIC14_EE_LEN, PIC14_ID_LEN]
      simp
      split <;> simp [h1, h2, h3, h4, h5] <;> omega
    · simp only [c1, c2, and_false, decide_False, Bool.false_eq_true, if_false, ge_iff_le]
      have e1 : (8199 + 1) % 2 ^ 32 = 8200 := by norm_num
      have e2 : (8192 + 4) % 2 ^ 32 = 8196 := by norm_num
      have e3 : (1023 + 1) % 2 ^ 32 = 1024 := by norm_num
      simp only [e1, e2, e3]
      by_cases c3 : 8199 ≤ a ∧ a < 8200
      · have : a - 8199 = 0 := by omega
        simp only [c3, and_self, decide_True, if_true, pic14_ref.write, this, Option.map_some']
        refine ⟨_, rfl, ?_⟩
        simp [pic14_update_marks, SPAN_PROGRAM, SPAN_EEPROM, pic14_state.sized,
          PIC14_INST_LEN, PIC14_EE_LEN, PIC14_ID_LEN, h1, h2, h3, h4, h5]
      · by_cases c4 : 8192 ≤ a ∧ a < 8196
        · have : a - 8192 < p.config.id.length := by omega
          simp only [c3, c4, and_self, decide_True, decide_False, Bool.false_eq_true, if_true,
            if_false, pic14_ref.write, this, Option.map_some']
          refine ⟨_, rfl, ?_⟩
          simp [pic14_update_marks, SPAN_PROGRAM, SPAN_EEPROM, pic14_state.sized,
            PIC14_INST_LEN, PIC14_EE_LEN, PIC14_ID_LEN, h1, h2, h3, h4, h5]
        · by_cases c5 : 1023 ≤ a ∧ a < 1024
          · have : a - 1023 = 0 := by omega
            simp only [c3, c4, c5, and_self, decide_True, decide_False, Bool.false_eq_true,
              if_true, if_false, pic14_ref.write, this, Option.map_some']
            refine ⟨_, rfl, ?_⟩
            simp [pic14_update_marks, SPAN_PROGRAM, SPAN_EEPROM, pic14_state.sized,
              PIC14_INST_LEN, PIC14_EE_LEN, PIC14_ID_LEN, h1, h2, h3, h4, h5]
          · simp only [c3, c4, c5, decide_False, Bool.false_eq_true, if_false]
            refine ⟨_, rfl, ?_⟩
            simp [pic14_state.sized, PIC14_INST_LEN, PIC14_EE_LEN, PIC14_ID_LEN,
              h1, h2, h3, h4, h5]

/-- Routing of a word and read back: the first span of the list that claims the
address receives the word at offset `a - base`. -/
theorem pic14_write_word_read_back (p q : pic14_state) (pre post : List pic14_span)
    (sp : pic14_span) (a w : Nat)
    (hs : pic14_program_spans p = pre ++ sp :: post)
    (hpre : ∀ x ∈ pre, x.contains a = false) (hsp : sp.contains a = true)
    (hq : pic14_write_word (pic14_program_spans p) a w p = some q) :
    sp.data.read q (a - sp.addr) = some w := by
  rw [pic14_write_word, hs, pic14_write_word_from_first 0 pre sp post a w p hpre hsp] at hq
  cases hw : sp.data.write p (a - sp.addr) w with
  | none => rw [hw] at hq; simp at hq
  | some r =>
    rw [hw] at hq
    simp only [Option.map_some', Option.some.injEq] at hq
    rw [← hq, pic14_update_marks_read]
    exact pic14_ref_read_write _ _ _ _ _ hw

set_option maxRecDepth 100000 in
/-- C4, evaluated on the code: in the fresh state of a 16F635 the OSCCAL span claims
address `0x3ff`, yet after `pic14_write_word` of `0x1234` at `0x3ff` the element at
offset 0 of the OSCCAL span's buffer is still the default `0x2000`; the word went to
offset `0x3ff` of the program buffer. -/
theorem write_word_at_osccal_address_goes_to_program :
    ∃ sp ∈ pic14_program_spans (fresh_state dev_16F635),
      sp.data = pic14_ref.osccal ∧ sp.contains 0x3ff = true ∧
      (pic14_write_word (pic14_program_spans (fresh_state dev_16F635)) 0x3ff 0x1234
          (fresh_state dev_16F635)).bind (fun q => sp.data.read q (0x3ff - sp.addr))
        = some 0x2000 ∧
      (pic14_write_word (pic14_program_spans (fresh_state dev_16F635)) 0x3ff 0x1234
          (fresh_state dev_16F635)).bind (fun q => pic14_ref.inst.read q 0x3ff)
        = some 0x1234 := by
  refine ⟨{ desc := "OSCCAL", addr := 0x03ff, len := 1, data := pic14_ref.osccal },
    by decide, rfl, by decide, by decide!, by decide!⟩

/-- No call of `pic14_write_word_from` lowers a high-water mark. -/
theorem pic14_write_word_from_marks_le (s : Nat) (spans : List pic14_span) (a w : Nat)
    (p q : pic14_state) (h : pic14_write_word_from s spans a w p = some q) :
    p.program.max_prog ≤ q.program.max_prog ∧ p.program.max_ee ≤ q.program.max_ee := by
  induction spans generalizing s with
  | nil =>
    simp only [pic14_write_word_from, Option.some.injEq] at h
    subst h
    exact ⟨le_refl _, le_refl _⟩
  | cons sp rest ih =>
    rw [pic14_write_word_from] at h
    split at h
    · cases hw : sp.data.write p (a - sp.addr) w with
      | none => rw [hw] at h; simp at h
      | some r =>
        rw [hw] at h
        simp only [Option.map_some', Option.some.injEq] at h
        have hr : r.program.max_prog = p.program.max_prog ∧
            r.program.max_ee = p.program.max_ee := by
          cases hd : sp.data <;> rw [hd] at hw <;> simp only [pic14_ref.write] at hw <;>
            split at hw <;> simp at hw <;> subst hw <;> exact ⟨rfl, rfl⟩
        rw [← hr.1, ← hr.2, ← h]
        unfold pic14_update_marks
        repeat' split
        all_goals simp
        all_goals omega
    · exact ih (s + 1) h

/-- The largest value of a fold with `max`. -/
theorem foldl_max_spec (l : List Nat) (m0 : Nat) :
    m0 ≤ l.foldl max m0 ∧ (∀ x ∈ l, x ≤ l.foldl max m0) ∧
      (l.foldl max m0 = m0 ∨ l.foldl max m0 ∈ l) := by
  induction l generalizing m0 with
  | nil => simp
  | cons x xs ih =>
    obtain ⟨h1, h2, h3⟩ := ih (max m0 x)
    simp only [List.foldl_cons, List.mem_cons, forall_eq_or_imp]
    refine ⟨le_trans (le_max_left _ _) h1, ⟨le_trans (le_max_right _ _) h1, h2⟩, ?_⟩
    rcases h3 with h | h
    · rcases max_choice m0 x with hm | hm
      · left; rw [h, hm]
      · right; left; rw [h, hm]
    · right; right; exact h

/-- The marks after a sequence of calls from a state whose spans fit their buffers. -/
theorem pic14_write_words_marks (calls : List (Nat × Nat)) (p : pic14_state) (h : p.sized) :
    ∃ q, pic14_write_words calls p = some q ∧ q.sized ∧
      q.program.max_prog =
        ((prog_offsets p.program.inst_len calls).map (· + 1)).foldl max p.program.max_prog ∧
      q.program.max_ee =
        ((ee_offsets p.program.ee_len calls).map (· + 1)).foldl max p.program.max_ee := by
  induction calls generalizing p with
  | nil => exact ⟨p, rfl, h, rfl, rfl⟩
  | cons c rest ih =>
    obtain ⟨r, hr, hs, hl1, hl2, hm1, hm2⟩ := pic14_write_word_marks p c.1 c.2 h
    obtain ⟨q, hq, hqs, hq1, hq2⟩ := ih r hs
    refine ⟨q, ?_, hqs, ?_, ?_⟩
    · simp only [pic14_write_words, hr]
      exact hq
    · rw [hq1, hl1, hm1]
      by_cases hc : c.1 < p.program.inst_len
      · simp [prog_offsets, List.filter_cons, hc]
      · simp [prog_offsets, List.filter_cons, hc]
    · rw [hq2, hl2, hm2]
      by_cases hc : 0x2100 ≤ c.1 ∧ c.1 < 0x2100 + p.program.ee_len
      · simp [ee_offsets, List.filter_cons, hc]
      · simp only [ee_offsets, List.filter_cons, hc, decide_False, Bool.false_eq_true,
          if_false]

/-- C5: starting from `pic14_state_init` (with declared lengths that fit the buffers),
every finite sequence of `pic14_write_word` calls runs to a state whose `max_prog` is 0
if no call hit the program span and otherwise 1 + the largest program offset written,
likewise `max_ee` for the EEPROM span; and no single call, from any state, lowers
either mark. -/
theorem high_water_marks_tight (p0 : pic14_state) (calls : List (Nat × Nat))
    (hi : p0.program.inst_len ≤ PIC14_INST_LEN) (he : p0.program.ee_len ≤ PIC14_EE_LEN) :
    (∃ q, pic14_write_words calls (pic14_state_init p0) = some q ∧
      (prog_offsets p0.program.inst_len calls = [] → q.program.max_prog = 0) ∧
      (∀ o ∈ prog_offsets p0.program.inst_len calls, o + 1 ≤ q.program.max_prog) ∧
      (prog_offsets p0.program.inst_len calls ≠ [] →
        ∃ o ∈ prog_offsets p0.program.inst_len calls, q.program.max_prog = o + 1) ∧
      (ee_offsets p0.program.ee_len calls = [] → q.program.max_ee = 0) ∧
      (∀ o ∈ ee_offsets p0.program.ee_len calls, o + 1 ≤ q.program.max_ee) ∧
      (ee_offsets p0.program.ee_len calls ≠ [] →
        ∃ o ∈ ee_offsets p0.program.ee_len calls, q.program.max_ee = o + 1)) ∧
    (∀ (p q : pic14_state) (a w : Nat),
      pic14_write_word (pic14_program_spans p) a w p = some q →
        p.program.max_prog ≤ q.program.max_prog ∧ p.program.max_ee ≤ q.program.max_ee) := by
  refine ⟨?_, fun p q a w h => pic14_write_word_from_marks_le 0 _ a w p q h⟩
  have hs : (pic14_state_init p0).sized := by
    simp [pic14_state.sized, pic14_state_init, hi, he]
  obtain ⟨q, hq, _, h1, h2⟩ := pic14_write_words_marks calls _ hs
  have e1 : (pic14_state_init p0).program.inst_len = p0.program.inst_len := rfl
  have e2 : (pic14_state_init p0).program.ee_len = p0.program.ee_len := rfl
  have e3 : (pic14_state_init p0).program.max_prog = 0 := rfl
  have e4 : (pic14_state_init p0).program.max_ee = 0 := rfl
  rw [e1, e3] at h1
  rw [e2, e4] at h2
  obtain ⟨_, a2, a3⟩ := foldl_max_spec ((prog_offsets p0.program.inst_len calls).map (· + 1)) 0
  obtain ⟨_, b2, b3⟩ := foldl_max_spec ((ee_offsets p0.program.ee_len calls).map (· + 1)) 0
  rw [← h1] at a2 a3
  rw [← h2] at b2 b3
  refine ⟨q, hq, ?_, ?_, ?_, ?_, ?_, ?_⟩
  · intro hn
    rw [h1, hn]
    rfl
  · intro o ho
    exact a2 (o + 1) (List.mem_map.mpr ⟨o, ho, rfl⟩)
  · intro hn
    rcases a3 with h0 | hm
    · obtain ⟨o, ho⟩ := List.exists_mem_of_ne_nil _ hn
      have := a2 (o + 1) (List.mem_map.mpr ⟨o, ho, rfl⟩)
      omega
    · obtain ⟨o, ho, he⟩ := List.mem_map.mp hm
      exact ⟨o, ho, he.symm⟩
  · intro hn
    rw [h2, hn]
    rfl
  · intro o ho
    exact b2 (o + 1) (List.mem_map.mpr ⟨o, ho, rfl⟩)
  · intro hn
    rcases b3 with h0 | hm
    · obtain ⟨o, ho⟩ := List.exists_mem_of_ne_nil _ hn
      have := b2 (o + 1) (List.mem_map.mpr ⟨o, ho, rfl⟩)
      omega
    · obtain ⟨o, ho, he⟩ := List.mem_map.mp hm
      exact ⟨o, ho, he.symm⟩

/-- C5 at the 12F629: writing offsets 0, 1 and 5 of the program span gives
`max_prog = 6` and leaves `max_ee = 0`. -/
theorem high_water_marks_tight_witness :
    (copy_device_values dev_12F629 zero_state).program.inst_len ≤ PIC14_INST_LEN ∧
    (copy_device_values dev_12F629 zero_state).program.ee_len ≤ PIC14_EE_LEN ∧
    ∃ q, pic14_write_words [(0, 0x1234), (1, 0x0056), (5, 0x3fff)]
        (pic14_state_init (copy_device_values dev_12F629 zero_state)) = some q ∧
      q.program.max_prog = 6 ∧ q.program.max_ee = 0 := by
  refine ⟨by decide, by decide, ?_⟩
  obtain ⟨⟨q, hq, _, h2, h3, h4, _, _⟩, _⟩ :=
    high_water_marks_tight (copy_device_values dev_12F629 zero_state)
      [(0, 0x1234), (1, 0x0056), (5, 0x3fff)] (by decide) (by decide)
  refine ⟨q, hq, ?_, h4 (by decide)⟩
  have e : prog_offsets (copy_device_values dev_12F629 zero_state).program.inst_len
      [(0, 0x1234), (1, 0x0056), (5, 0x3fff)] = [0, 1, 5] := by decide
  rw [e] at h2 h3
  obtain ⟨o, ho, hm⟩ := h3 (by simp)
  have := h2 5 (by simp)
  simp at ho
  omega

/-! ## Verify and blank check -/

theorem for_all_from_true (test : Nat → Option Bool) (k i : Nat) :
    for_all_from test k i = some true ↔ ∀ j, i ≤ j → j < i + k → test j = some true := by
  induction k generalizing i with
  | zero =>
    simp only [for_all_from, true_iff]
    intro j h1 h2
    omega
  | succ k ih =>
    rw [for_all_from]
    constructor
    · intro h j h1 h2
      cases ht : test i with
      | none => rw [ht] at h; simp at h
      | some b =>
        cases b with
        | false => rw [ht] at h; simp at h
        | true =>
          rw [ht] at h
          simp only at h
          by_cases hj : j = i
          · rw [hj]; exact ht
          · exact (ih (i + 1)).mp h j (by omega) (by omega)
    · intro h
      rw [h i (le_refl _) (by omega)]
      simp only
      exact (ih (i + 1)).mpr (fun j h1 h2 => h j (by omega) (by omega))

theorem for_all_true (n : Nat) (test : Nat → Option Bool) :
    for_all n test = some true ↔ ∀ j < n, test j = some true := by
  unfold for_all
  rw [for_all_from_true]
  constructor
  · intro h j hj
    exact h j (Nat.zero_le _) (by omega)
  · intro h j _ hj
    exact h j (by omega)

theorem for_all_from_defined (test : Nat → Option Bool) (k i : Nat)
    (h : ∀ j, i ≤ j → j < i + k → test j ≠ none) : for_all_from test k i ≠ none := by
  induction k generalizing i with
  | zero => simp [for_all_from]
  | succ k ih =>
    rw [for_all_from]
    cases ht : test i with
    | none => exact absurd ht (h i (le_refl _) (by omega))
    | some b =>
      cases b with
      | false => simp
      | true => exact ih (i + 1) (fun j h1 h2 => h j (by omega) (by omega))

/-- A loop whose tests are all defined returns 0 unless every test succeeds. -/
theorem for_all_false (n : Nat) (test : Nat → Option Bool)
    (hd : ∀ j < n, test j ≠ none) (hn : ¬ ∀ j < n, test j = some true) :
    for_all n test = some false := by
  have h1 : for_all n test ≠ none :=
    for_all_from_defined test n 0 (fun j _ hj => hd j (by omega))
  cases hr : for_all n test with
  | none => exact absurd hr h1
  | some b =>
    cases b with
    | false => rfl
    | true => exact absurd ((for_all_true n test).mp hr) hn

theorem check_result_true (ok : Option Bool) (msg : String) (m : List String) :
    check_result ok msg = some (true, m) ↔ ok = some true ∧ m = [] := by
  cases ok with
  | none => simp [check_result]
  | some b => cases b <;> simp [check_result, eq_comm]

theorem seq_and_true (x y : Option (Bool × List String)) :
    seq_and x y = some (true, []) ↔ x = some (true, []) ∧ y = some (true, []) := by
  unfold seq_and
  rcases x with _ | ⟨_ | _, m⟩ <;> rcases y with _ | ⟨_ | _, m'⟩ <;> simp

theorem verify_program_true (file dev : pic14_state) :
    usb_pickit_verify_program file dev = some (true, []) ↔ verify_program_holds file dev := by
  unfold usb_pickit_verify_program verify_program_holds
  rw [check_result_true, for_all_true]
  simp only [and_true]
  apply forall_congr'
  intro i
  apply imp_congr_right
  intro _
  cases file.program.inst[i]? <;> cases dev.program.inst[i]? <;> simp [eq_comm]

theorem verify_program_false (file dev : pic14_state)
    (hb1 : dev.program.inst_len ≤ file.program.inst.length)
    (hb2 : dev.program.inst_len ≤ dev.program.inst.length)
    (h : ¬ verify_program_holds file dev) :
    usb_pickit_verify_program file dev = some (false, [MSG_VERIFY_PROGRAM]) := by
  unfold usb_pickit_verify_program
  rw [for_all_false]
  · rfl
  · intro j hj
    have h1 : j < file.program.inst.length := by omega
    have h2 : j < dev.program.inst.length := by omega
    simp [List.getElem?_eq_getElem, h1, h2]
  · intro hc
    apply h
    intro i hi
    have := hc i hi
    revert this
    cases file.program.inst[i]? <;> cases dev.program.inst[i]? <;> simp [eq_comm]

theorem verify_eeprom_true (file dev : pic14_state) :
    usb_pickit_verify_eeprom file dev = some (true, []) ↔ verify_eeprom_holds file dev := by
  unfold usb_pickit_verify_eeprom verify_eeprom_holds
  rw [check_result_true, for_all_true]
  simp only [and_true]
  apply forall_congr'
  intro i
  apply imp_congr_right
  intro _
  cases file.program.ee[i]? <;> cases dev.program.ee[i]? <;> simp [eq_comm]

theorem verify_eeprom_false (file dev : pic14_state)
    (hb1 : dev.program.ee_len ≤ file.program.ee.length)
    (hb2 : dev.program.ee_len ≤ dev.program.ee.length)
    (h : ¬ verify_eeprom_holds file dev) :
    usb_pickit_verify_eeprom file dev = some (false, [MSG_VERIFY_EEPROM]) := by
  unfold usb_pickit_verify_eeprom
  rw [for_all_false]
  · rfl
  · intro j hj
    have h1 : j < file.program.ee.length := by omega
    have h2 : j < dev.program.ee.length := by omega
    simp [List.getElem?_eq_getElem, h1, h2]
  · intro hc
    apply h
    intro i hi
    have := hc i hi
    revert this
    cases file.program.ee[i]? <;> cases dev.program.ee[i]? <;> simp [eq_comm]

theorem verify_config_id_true (file dev : pic14_state) :
    usb_pickit_verify_config_id file dev = some (true, []) ↔
      verify_config_id_holds file dev := by
  unfold usb_pickit_verify_config_id verify_config_id_holds
  rw [check_result_true, for_all_true]
  simp only [and_true]
  apply forall_congr'
  intro i
  apply imp_congr_right
  intro _
  cases file.config.id[i]? <;> cases dev.config.id[i]? <;> simp

theorem verify_config_id_false (file dev : pic14_state)
    (hb1 : 4 ≤ file.config.id.length) (hb2 : 4 ≤ dev.config.id.length)
    (h : ¬ verify_config_id_holds file dev) :
    usb_pickit_verify_config_id file dev = some (false, [MSG_VERIFY_CONFIG_ID]) := by
  unfold usb_pickit_verify_config_id
  rw [for_all_false]
  · rfl
  · intro j hj
    have h1 : j < file.config.id.length := by omega
    have h2 : j < dev.config.id.length := by omega
    simp [List.getElem?_eq_getElem, h1, h2]
  · intro hc
    apply h
    intro i hi
    have := hc i hi
    revert this
    cases file.config.id[i]? <;> cases dev.config.id[i]? <;> simp

theorem verify_checksum_eq (file dev : pic14_state) :
    usb_pickit_verify_program_checksum file dev =
      if verify_checksum_holds file dev then some (true, [])
      else some (false, [MSG_VERIFY_CHECKSUM]) := by
  unfold usb_pickit_verify_program_checksum verify_checksum_holds check_result
  by_cases h : file.program.instchecksum = dev.program.instchecksum <;> simp [h]

theorem verify_config_word_eq (file dev : pic14_state) :
    usb_pickit_verify_config_word file dev =
      if verify_config_word_holds file dev then some (true, [])
      else some (false, [MSG_VERIFY_CONFIG_WORD]) := by
  unfold usb_pickit_verify_config_word verify_config_word_holds check_result
  by_cases h : (file.config.config &&& dev.config.configmask) =
      (dev.config.config &&& dev.config.configmask) <;> simp [h]

/-- C7: `usb_pickit_verify` returns success (and reports nothing) exactly when the five
checks hold; otherwise it returns failure and the message sent to `stderr` before the
final one is that of the first failing check in the order program, checksum,
configuration word, user IDs, EEPROM, whatever the later checks would give (their
arrays need not even be readable). -/
theorem usb_pickit_verify_spec (file dev : pic14_state) :
    (usb_pickit_verify file dev = some (true, []) ↔
      verify_program_holds file dev ∧ verify_checksum_holds file dev ∧
      verify_config_word_holds file dev ∧ verify_config_id_holds file dev ∧
      verify_eeprom_holds file dev) ∧
    (dev.program.inst_len ≤ file.program.inst.length →
      dev.program.inst_len ≤ dev.program.inst.length →
      ¬ verify_program_holds file dev →
      usb_pickit_verify file dev = some (false, [MSG_VERIFY_PROGRAM, MSG_VERIFY_FAILED])) ∧
    (verify_program_holds file dev → ¬ verify_checksum_holds file dev →
      usb_pickit_verify file dev = some (false, [MSG_VERIFY_CHECKSUM, MSG_VERIFY_FAILED])) ∧
    (verify_program_holds file dev → verify_checksum_holds file dev →
      ¬ verify_config_word_holds file dev →
      usb_pickit_verify file dev =
        some (false, [MSG_VERIFY_CONFIG_WORD, MSG_VERIFY_FAILED])) ∧
    (verify_program_holds file dev → verify_checksum_holds file dev →
      verify_config_word_holds file dev →
      4 ≤ file.config.id.length → 4 ≤ dev.config.id.length →
      ¬ verify_config_id_holds file dev →
      usb_pickit_verify file dev =
        some (false, [MSG_VERIFY_CONFIG_ID, MSG_VERIFY_FAILED])) ∧
    (verify_program_holds file dev → verify_checksum_holds file dev →
      verify_config_word_holds file dev → verify_config_id_holds file dev →
      dev.program.ee_len ≤ file.program.ee.length →
      dev.program.ee_len ≤ dev.program.ee.length →
      ¬ verify_eeprom_holds file dev →
      usb_pickit_verify file dev = some (false, [MSG_VERIFY_EEPROM, MSG_VERIFY_FAILED])) := by
  refine ⟨?_, ?_, ?_, ?_, ?_, ?_⟩
  · rw [← verify_program_true, ← verify_eeprom_true, ← verify_config_id_true]
    have key : usb_pickit_verify file dev = some (true, []) ↔
        seq_and (usb_pickit_verify_program file dev)
          (seq_and (usb_pickit_verify_program_checksum file dev)
            (seq_and (usb_pickit_verify_config_word file dev)
              (seq_and (usb_pickit_verify_config_id file dev)
                (usb_pickit_verify_eeprom file dev)))) = some (true, []) := by
      unfold usb_pickit_verify
      split
      · rename_i h; simp [h]
      · rename_i m h; simp [h]
      · rename_i m h; simp [h]
    rw [key, seq_and_true, seq_and_true, seq_and_true, seq_and_true,
      verify_checksum_eq, verify_config_word_eq]
    by_cases h2 : verify_checksum_holds file dev <;>
      by_cases h3 : verify_config_word_holds file dev <;> simp [h2, h3]
  · intro hb1 hb2 h
    simp [usb_pickit_verify, verify_program_false file dev hb1 hb2 h, seq_and]
  · intro h1 h2
    simp [usb_pickit_verify, (verify_program_true file dev).mpr h1, verify_checksum_eq, h2,
      seq_and]
  · intro h1 h2 h3
    simp [usb_pickit_verify, (verify_program_true file dev).mpr h1, verify_checksum_eq, h2,
      verify_config_word_eq, h3, seq_and]
  · intro h1 h2 h3 hb1 hb2 h4
    simp [usb_pickit_verify, (verify_program_true file dev).mpr h1, verify_checksum_eq, h2,
      verify_config_word_eq, h3, verify_config_id_false file dev hb1 hb2 h4, seq_and]
  · intro h1 h2 h3 h4 hb1 hb2 h5
    simp [usb_pickit_verify, (verify_program_true file dev).mpr h1, verify_checksum_eq, h2,
      verify_config_word_eq, h3, (verify_config_id_true file dev).mpr h4,
      verify_eeprom_false file dev hb1 hb2 h5, seq_and]

theorem supported_devices_default_config_not_blank (d : pic14_device_info)
    (h : d ∈ supported_devices) :
    (0x184 &&& d.configmask) ≠ (0x3fff &&& d.configmask) := by
  revert d
  decide!

/-- The blank check of a state made by `pic14_state_init` and a supported descriptor
whose program length fits the program buffer. -/
theorem blank_check_after_init (p0 s : pic14_state) (d : pic14_device_info)
    (hd : d ∈ supported_devices) (hl : d.inst_len ≤ PIC14_INST_LEN)
    (hs : s = copy_device_values d (pic14_state_init p0)) :
    (∀ i < s.program.inst_len, s.program.inst[i]? = some 0x3fff) ∧
    (∀ i < s.program.ee_len, s.program.ee[i]? = some 0xff) ∧
    (∀ i < 4, ∃ a, s.config.id[i]? = some a ∧ (a &&& 0x7f) = 0x7f) ∧
    s.config.config = 0x184 ∧
    (s.config.config &&& s.config.configmask) ≠ (0x3fff &&& s.config.configmask) ∧
    usb_pickit_blank_check_program s = some (true, []) ∧
    usb_pickit_blank_check_config_id s = some (true, []) ∧
    usb_pickit_blank_check_eeprom s = some (true, []) ∧
    usb_pickit_blank_check_config_word s = some (false, [MSG_BLANK_CONFIG_WORD]) ∧
    usb_pickit_blank_check s = some (false, [MSG_BLANK_CONFIG_WORD]) := by
  have he : d.ee_len ≤ 256 := (supported_devices_lengths d hd).2
  have hm := supported_devices_default_config_not_blank d hd
  have a1 : ∀ i < s.program.inst_len, s.program.inst[i]? = some 0x3fff := by
    intro i hi
    subst hs
    simp only [copy_device_values, pic14_state_init, PIC14_INST_LEN] at hi hl ⊢
    rw [List.getElem?_replicate, if_pos (by omega)]
  have a2 : ∀ i < s.program.ee_len, s.program.ee[i]? = some 0xff := by
    intro i hi
    subst hs
    simp only [copy_device_values, pic14_state_init, PIC14_EE_LEN] at hi ⊢
    rw [List.getElem?_replicate, if_pos (by omega)]
  have a3 : ∀ i < 4, ∃ a, s.config.id[i]? = some a ∧ (a &&& 0x7f) = 0x7f := by
    intro i hi
    subst hs
    refine ⟨0x3fff, ?_, by decide⟩
    simp only [copy_device_values, pic14_state_init, PIC14_ID_LEN]
    rw [List.getElem?_replicate, if_pos hi]
  have a4 : s.config.config = 0x184 := by subst hs; rfl
  have a5 : (s.config.config &&& s.config.configmask) ≠ (0x3fff &&& s.config.configmask) := by
    subst hs
    exact hm
  have b1 : usb_pickit_blank_check_program s = some (true, []) := by
    unfold usb_pickit_blank_check_program
    rw [(for_all_true _ _).mpr]
    · rfl
    · intro j hj
      rw [a1 j hj]
      rfl
  have b2 : usb_pickit_blank_check_config_id s = some (true, []) := by
    unfold usb_pickit_blank_check_config_id
    rw [(for_all_true _ _).mpr]
    · rfl
    · intro j hj
      obtain ⟨a, ha, hb⟩ := a3 j hj
      rw [ha]
      simp [hb]
  have b3 : usb_pickit_blank_check_eeprom s = some (true, []) := by
    unfold usb_pickit_blank_check_eeprom
    rw [(for_all_true _ _).mpr]
    · rfl
    · intro j hj
      rw [a2 j hj]
      rfl
  have b4 : usb_pickit_blank_check_config_word s = some (false, [MSG_BLANK_CONFIG_WORD]) := by
    unfold usb_pickit_blank_check_config_word
    simp [check_result, a5]
  refine ⟨a1, a2, a3, a4, a5, b1, b2, b3, b4, ?_⟩
  simp [usb_pickit_blank_check, b1, b4, seq_and]

/-- C6 as stated fails: the fresh state of a 12F629 does not pass the blank check, the
configuration word check reports it as not blank. -/
theorem fresh_state_fails_blank_check :
    dev_12F629 ∈ supported_devices ∧
    usb_pickit_blank_check (fresh_state dev_12F629) =
      some (false, [MSG_BLANK_CONFIG_WORD]) :=
  ⟨by decide,
    (blank_check_after_init zero_state _ dev_12F629 (by decide) (by decide) rfl).2.2.2.2.2.2.2.2.2⟩

/-- C6, amended: for every supported descriptor whose program length fits the program
buffer, the state made by `pic14_state_init` and the descriptor's lengths and mask has
all program words `0x3fff`, all EEPROM cells `0xff` and all user IDs with low 7 bits
`0x7f`, so the program, user ID and EEPROM checks of the blank check succeed; its
configuration word is the default `0x184`, which differs from `0x3fff` under the
descriptor's mask, so `usb_pickit_blank_check` fails on the configuration word. -/
theorem fresh_state_blank_check (p0 s : pic14_state) (d : pic14_device_info)
    (hd : d ∈ supported_devices) (hl : d.inst_len ≤ PIC14_INST_LEN)
    (hs : s = copy_device_values d (pic14_state_init p0)) :
    (∀ i < s.program.inst_len, s.program.inst[i]? = some 0x3fff) ∧
    (∀ i < s.program.ee_len, s.program.ee[i]? = some 0xff) ∧
    (∀ i < 4, ∃ a, s.config.id[i]? = some a ∧ (a &&& 0x7f) = 0x7f) ∧
    s.config.config = 0x184 ∧
    (s.config.config &&& s.config.configmask) ≠ (0x3fff &&& s.config.configmask) ∧
    usb_pickit_blank_check_program s = some (true, []) ∧
    usb_pickit_blank_check_config_id s = some (true, []) ∧
    usb_pickit_blank_check_eeprom s = some (true, []) ∧
    usb_pickit_blank_check_config_word s = some (false, [MSG_BLANK_CONFIG_WORD]) ∧
    usb_pickit_blank_check s = some (false, [MSG_BLANK_CONFIG_WORD]) :=
  blank_check_after_init p0 s d hd hl hs

/-- The amended C6 at the 16F635, from an arbitrary memory content. -/
theorem fresh_state_blank_check_witness :
    dev_16F635 ∈ supported_devices ∧ dev_16F635.inst_len ≤ PIC14_INST_LEN ∧
    usb_pickit_blank_check (copy_device_values dev_16F635 (pic14_state_init zero_state)) =
      some (false, [MSG_BLANK_CONFIG_WORD]) :=
  ⟨by decide, by decide,
    (fresh_state_blank_check zero_state _ dev_16F635 (by decide) (by decide)
      rfl).2.2.2.2.2.2.2.2.2⟩

/-! ## USB driver: frames sent -/

theorem usb_bind_apply {α β : Type} (x : usb_m α) (f : α → usb_m β) (d : usb_pickit) :
    (x >>= f) d = match x d with
      | usb_result.done a d' => f a d'
      | usb_result.exited d' => usb_result.exited d'
      | usb_result.undefined => usb_result.undefined := rfl

theorem usb_pure_apply {α : Type} (a : α) (d : usb_pickit) :
    (pure a : usb_m α) d = usb_result.done a d := rfl

theorem emits_pure {α : Type} (a : α) : emits (pure a : usb_m α) a [] := by
  intro d
  simp [usb_pure_apply]

theorem emits_frames_of {α : Type} (x : usb_m α) (a : α) (fs : List (List Nat))
    (h : emits x a fs) : frames_of x = fs := by
  unfold frames_of
  rw [h]
  simp

theorem getElem?_eq_some_getD (w : List Nat) (i : Nat) (h : i < w.length) :
    w[i]? = some (w.getD i 0) := by
  rw [List.getD_eq_getElem?_getD, List.getElem?_eq_getElem h]
  rfl

theorem emits_send_usb_words_loop (w : List Nat) (k i : Nat) (h : (i + k) * 2 ≤ w.length) :
    emits (send_usb_words_loop w k i) () (words_frames w k i) := by
  induction k generalizing i with
  | zero => exact emits_pure ()
  | succ k ih =>
    intro d
    have e0 := getElem?_eq_some_getD w (i * 2 + 0) (by omega)
    have e1 := getElem?_eq_some_getD w (i * 2 + 1) (by omega)
    simp only [send_usb_words_loop, usb_bind_apply, usb_m.of_option, e0, e1, send_usb]
    rw [ih (i + 1) (by omega)]
    simp [words_frames]

theorem emits_send_usb_words (n : Nat) (w : List Nat) (h : n ≤ w.length) :
    emits (send_usb_words n w) () (send_usb_words_frames n w) := by
  intro d
  simp only [send_usb_words, usb_bind_apply]
  rw [emits_send_usb_words_loop w (n / 2) 0 (by omega)]
  by_cases hn : n % 2 ≠ 0
  · have e := getElem?_eq_some_getD w (n - 1) (by omega)
    rw [if_pos hn]
    simp only [usb_bind_apply, usb_m.of_option, e, send_usb_word, send_usb,
      send_usb_words_frames, if_pos hn, List.append_assoc]
  · rw [if_neg hn]
    simp only [usb_pure_apply, send_usb_words_frames, if_neg hn, List.append_nil]

theorem emits_write_eeprom_loop (ee : List Nat) (k i : Nat) (h : (i + k) * 4 ≤ ee.length) :
    emits (write_eeprom_loop ee k i) () (data_frames ee k i) := by
  induction k generalizing i with
  | zero => exact emits_pure ()
  | succ k ih =>
    intro d
    have e0 := getElem?_eq_some_getD ee (i * 4 + 0) (by omega)
    have e1 := getElem?_eq_some_getD ee (i * 4 + 1) (by omega)
    have e2 := getElem?_eq_some_getD ee (i * 4 + 2) (by omega)
    have e3 := getElem?_eq_some_getD ee (i * 4 + 3) (by omega)
    simp only [write_eeprom_loop, usb_bind_apply, usb_m.of_option, e0, e1, e2, e3, send_usb]
    rw [ih (i + 1) (by omega)]
    simp [data_frames]

/-- The last packet of `usb_pickit_write_eeprom` is defined when the cells it reads lie
in the buffer, and a packet that starts with a `D` keeps it. -/
theorem write_eeprom_last_defined (ee : List Nat) (k j i : Nat) (c : List Nat)
    (h : i + k ≤ ee.length) (hj : 1 ≤ j) :
    ∃ c', write_eeprom_last ee k j i c = some c' ∧ c'.head? = c.head? := by
  induction k generalizing j i c with
  | zero => exact ⟨c, rfl, rfl⟩
  | succ k ih =>
    have e := getElem?_eq_some_getD ee i (by omega)
    simp only [write_eeprom_last, e]
    obtain ⟨c', h1, h2⟩ := ih (j + 1) (i + 1)
      ((c.set (j * 2 + 0) ('D'.toNat)).set (j * 2 + 1) (ee.getD i 0 % 0x100)) (by omega)
      (by omega)
    refine ⟨c', h1, ?_⟩
    rw [h2]
    cases c with
    | nil => simp
    | cons x xs =>
      obtain ⟨j', rfl⟩ : ∃ j', j = j' + 1 := ⟨j - 1, by omega⟩
      simp [Nat.add_mul, List.set]

theorem emits_write_eeprom (p : pic14_program) (h : p.max_ee ≤ p.ee.length) :
    emits (usb_pickit_write_eeprom p) () (write_eeprom_frames p) := by
  intro d
  simp only [usb_pickit_write_eeprom, usb_bind_apply, send_usb]
  rw [emits_write_eeprom_loop p.ee (p.max_ee / 4) 0 (by omega)]
  by_cases hr : p.max_ee % 4 ≠ 0
  · obtain ⟨c, hc, _⟩ := write_eeprom_last_defined p.ee (p.max_ee % 4 - 1) 1
      (p.max_ee - p.max_ee % 4 + 1)
      (((cmd "ZZZZZZZZ").set (0 * 2 + 0) ('D'.toNat)).set (0 * 2 + 1)
        (p.ee.getD (p.max_ee - p.max_ee % 4) 0 % 0x100)) (by omega) (le_refl 1)
    have hc' : write_eeprom_last p.ee (p.max_ee % 4) 0 (p.max_ee - p.max_ee % 4)
        (cmd "ZZZZZZZZ") = some c := by
      obtain ⟨r, hr'⟩ : ∃ r, p.max_ee % 4 = r + 1 := ⟨p.max_ee % 4 - 1, by omega⟩
      have e := getElem?_eq_some_getD p.ee (p.max_ee - p.max_ee % 4) (by omega)
      rw [hr'] at hc e ⊢
      simp only [Nat.add_sub_cancel] at hc
      simp only [write_eeprom_last, e]
      exact hc
    simp only [if_pos hr, usb_bind_apply, usb_m.of_option, hc', send_usb,
      write_eeprom_frames, Option.getD_some, List.append_assoc]
  · simp only [if_neg hr, usb_bind_apply, usb_pure_apply, send_usb, write_eeprom_frames,
      List.append_nil, List.append_assoc]

theorem emits_write_program (p : pic14_program) (h : p.max_prog ≤ p.inst.length) :
    emits (usb_pickit_write_program p) () (write_program_frames p) := by
  intro d
  simp only [usb_pickit_write_program, usb_bind_apply, send_usb]
  rw [emits_send_usb_words p.max_prog p.inst h]
  simp only [write_program_frames, List.append_assoc]

theorem emits_write_config (c : pic14_config) (h : c.id.length = PIC14_ID_LEN) :
    emits (usb_pickit_write_config c) () (write_config_frames c) := by
  intro d
  have hw := emits_send_usb_words PIC14_ID_LEN c.id (le_of_eq h.symm)
  have hf : send_usb_words_frames PIC14_ID_LEN c.id =
      [words_cmd (c.id.getD 0 0) (c.id.getD 1 0), words_cmd (c.id.getD 2 0) (c.id.getD 3 0)] := by
    simp [send_usb_words_frames, PIC14_ID_LEN, words_frames]
  rw [hf] at hw
  simp only [usb_pickit_write_config, usb_bind_apply, send_usb]
  cases hs : c.save_osccal
  · simp only [Bool.false_eq_true, if_false, usb_bind_apply, usb_pure_apply, send_usb]
    rw [hw]
    simp [write_config_frames, hs, send_usb_word, send_usb, usb_bind_apply]
  · simp only [if_true, send_usb_word, send_usb, usb_bind_apply]
    rw [hw]
    simp [write_config_frames, hs, send_usb_word, send_usb, usb_bind_apply]

theorem emits_merge_config (oldconfig newconfig : pic14_config)
    (h : newconfig.id.length = PIC14_ID_LEN) :
    emits (usb_pickit_merge_config oldconfig newconfig) ()
      (write_config_frames (merged_config oldconfig newconfig)) := by
  unfold usb_pickit_merge_config
  exact emits_write_config _ h

theorem emits_reset (keep_eeprom : Bool) :
    emits (usb_pickit_reset keep_eeprom) () [reset_frame keep_eeprom] := by
  intro d
  cases keep_eeprom <;> rfl

theorem recv_usb_words_one (sent : List (List Nat)) (requested b : List Nat)
    (rest : List (List Nat)) (hb : b.length = 8) :
    recv_usb_words 1 { sent := sent, requested := requested, inbox := b :: rest } =
      usb_result.done [word_of_bytes b 0]
        { sent := sent ++ [cmd "RZZZZZZZ"], requested := requested ++ [8],
          inbox := rest } := by
  simp [recv_usb_words, recv_usb_words_loop, usb_bind_apply, recv_usb_words4, send_usb,
    recv_usb, hb, REQ_LEN, usb_pure_apply, List.range, List.range.loop]

theorem recv_usb_words_four (sent : List (List Nat)) (requested b : List Nat)
    (rest : List (List Nat)) (hb : b.length = 8) :
    recv_usb_words 4 { sent := sent, requested := requested, inbox := b :: rest } =
      usb_result.done
        [word_of_bytes b 0, word_of_bytes b 1, word_of_bytes b 2, word_of_bytes b 3]
        { sent := sent ++ [cmd "RZZZZZZZ"], requested := requested ++ [8],
          inbox := rest } := by
  simp [recv_usb_words, recv_usb_words_loop, usb_bind_apply, recv_usb_words4, send_usb,
    recv_usb, hb, REQ_LEN, usb_pure_apply, List.range, List.range.loop]

/-- The run of `usb_pickit_read_config` on a link that answers its three read commands. -/
theorem usb_pickit_read_config_run (c : pic14_config) (d : usb_pickit)
    (b1 b2 b3 : List Nat) (rest : List (List Nat))
    (hc : c.id.length = PIC14_ID_LEN)
    (hi : d.inbox = b1 :: b2 :: b3 :: rest)
    (h1 : b1.length = 8) (h2 : b2.length = 8) (h3 : b3.length = 8) :
    usb_pickit_read_config c d = usb_result.done (config_read_back c b1 b2 b3)
      { sent := d.sent ++ read_config_frames, requested := d.requested ++ [8, 8, 8],
        inbox := rest } := by
  obtain ⟨sent, requested, inbox⟩ := d
  simp only at hi
  subst hi
  have hst : store_words c.id
      [word_of_bytes b2 0, word_of_bytes b2 1, word_of_bytes b2 2, word_of_bytes b2 3] =
      some [word_of_bytes b2 0, word_of_bytes b2 1, word_of_bytes b2 2, word_of_bytes b2 3] := by
    simp only [PIC14_ID_LEN] at hc
    simp [store_words, hc]
  simp only [usb_pickit_read_config, usb_bind_apply, send_usb, PIC14_ID_LEN,
    recv_usb_words_one _ _ b1 _ h1, recv_usb_words_four _ _ b2 _ h2,
    recv_usb_words_one _ _ b3 _ h3, usb_m.of_option, hst, usb_pure_apply]
  simp [config_read_back, read_config_frames]

theorem calc_checksum_loop_defined (inst : List Nat) (k i sum : Nat)
    (h : i + k ≤ inst.length) : ∃ r, calc_checksum_loop inst k i sum = some r := by
  induction k generalizing i sum with
  | zero => exact ⟨sum, rfl⟩
  | succ k ih =>
    have e := getElem?_eq_some_getD inst i (by omega)
    simp only [calc_checksum_loop, e]
    exact ih (i + 1) _ (by omega)

/-- The software checksum is defined when the program length fits the buffer; it
changes the `instchecksum` field only. -/
theorem usb_pickit_calc_checksum_defined (s : pic14_state)
    (h : s.program.inst_len ≤ s.program.inst.length) :
    ∃ sum, usb_pickit_calc_checksum s =
      some { s with program := { s.program with instchecksum := sum } } := by
  obtain ⟨r, hr⟩ := calc_checksum_loop_defined s.program.inst s.program.inst_len 0
    ((s.config.config &&& s.config.configmask) % 0x10000) (by omega)
  exact ⟨r &&& 0xffff, by simp [usb_pickit_calc_checksum, hr]⟩

/-- The run of `usb_pickit_write` with `keep_old` set, on a link that answers the three
read commands of the configuration read-back. -/
theorem usb_pickit_write_run_keep (s : pic14_state) (d : usb_pickit)
    (b1 b2 b3 : List Nat) (rest : List (List Nat)) (hw : s.writable)
    (hi : d.inbox = b1 :: b2 :: b3 :: rest)
    (h1 : b1.length = 8) (h2 : b2.length = 8) (h3 : b3.length = 8) :
    ∃ sum, usb_pickit_write s true d =
      usb_result.done { s with program := { s.program with instchecksum := sum } }
        { sent := d.sent ++ (read_config_frames ++
            [reset_frame (decide (s.program.max_ee = 0))] ++
            write_eeprom_frames s.program ++ write_program_frames s.program ++
            write_config_frames
              (merged_config (config_read_back local_config b1 b2 b3) s.config)),
          requested := d.requested ++ [8, 8, 8], inbox := rest } := by
  obtain ⟨w1, w2, w3, w4, w5, w6⟩ := hw
  obtain ⟨sum, hsum⟩ := usb_pickit_calc_checksum_defined s (by omega)
  refine ⟨sum, ?_⟩
  have hr := usb_pickit_read_config_run local_config d b1 b2 b3 rest rfl hi h1 h2 h3
  have he := emits_write_eeprom s.program (by omega)
  have hp := emits_write_program s.program (by omega)
  have hm := emits_merge_config (config_read_back local_config b1 b2 b3) s.config w3
  have hx := emits_reset (decide (s.program.max_ee = 0))
  simp only [usb_pickit_write, usb_bind_apply, usb_m.of_option, hsum, if_true, hr]
  rw [hx]
  simp only
  rw [show usb_pickit_write_eeprom
      { s.program with instchecksum := sum } = usb_pickit_write_eeprom s.program from rfl,
    show usb_pickit_write_program
      { s.program with instchecksum := sum } = usb_pickit_write_program s.program from rfl,
    he]
  simp only
  rw [hp]
  simp only
  rw [hm]
  simp [usb_pure_apply, List.append_assoc]

/-- The run of `usb_pickit_write` with `keep_old` clear. -/
theorem usb_pickit_write_run_blast (s : pic14_state) (d : usb_pickit) (hw : s.writable) :
    ∃ sum, usb_pickit_write s false d =
      usb_result.done { s with program := { s.program with instchecksum := sum } }
        { d with sent := d.sent ++ ([reset_frame (decide (s.program.max_ee = 0))] ++
            write_eeprom_frames s.program ++ write_program_frames s.program ++
            write_config_frames s.config) } := by
  obtain ⟨w1, w2, w3, w4, w5, w6⟩ := hw
  obtain ⟨sum, hsum⟩ := usb_pickit_calc_checksum_defined s (by omega)
  refine ⟨sum, ?_⟩
  have he := emits_write_eeprom s.program (by omega)
  have hp := emits_write_program s.program (by omega)
  have hc := emits_write_config s.config w3
  have hx := emits_reset (decide (s.program.max_ee = 0))
  simp only [usb_pickit_write, usb_bind_apply, usb_m.of_option, hsum, Bool.false_eq_true,
    if_false, usb_pure_apply]
  rw [hx]
  simp only
  rw [show usb_pickit_write_eeprom
      { s.program with instchecksum := sum } = usb_pickit_write_eeprom s.program from rfl,
    show usb_pickit_write_program
      { s.program with instchecksum := sum } = usb_pickit_write_program s.program from rfl,
    he]
  simp only
  rw [hp]
  simp only
  rw [hc]
  simp [List.append_assoc]

theorem cmd_seek_config : cmd "pPCI\x07\x00ZZ" = [112, 80, 67, 73, 7, 0, 90, 90] := by decide

theorem cmd_seek_osccal : cmd "V0V1PI\xff\x03" = [86, 48, 86, 49, 80, 73, 255, 3] := by decide

theorem cmd_seek_id : cmd "pV0V1PCZ" = [112, 86, 48, 86, 49, 80, 67, 90] := by decide

theorem cmd_read : cmd "RZZZZZZZ" = [82, 90, 90, 90, 90, 90, 90, 90] := by decide

theorem cmd_exit_on : cmd "pV1ZZZZZ" = [112, 86, 49, 90, 90, 90, 90, 90] := by decide

theorem cmd_erase_program : cmd "PCEpZZZZ" = [80, 67, 69, 112, 90, 90, 90, 90] := by decide

theorem cmd_erase_all : cmd "PCEepZZZ" = [80, 67, 69, 101, 112, 90, 90, 90] := by decide

theorem cmd_enter : cmd "PZZZZZZZ" = [80, 90, 90, 90, 90, 90, 90, 90] := by decide

theorem cmd_exit : cmd "pZZZZZZZ" = [112, 90, 90, 90, 90, 90, 90, 90] := by decide

theorem word_cmd_eq (w : Nat) :
    word_cmd w = [87, w &&& 0xff, (w >>> 8) &&& 0xff, 90, 90, 90, 90, 90] := by
  have h : cmd "W__ZZZZZ" = [87, 95, 95, 90, 90, 90, 90, 90] := by decide
  simp [word_cmd, h]

theorem words_cmd_eq (w1 w2 : Nat) :
    words_cmd w1 w2 = [87, w1 &&& 0xff, (w1 >>> 8) &&& 0xff, 87, w2 &&& 0xff,
      (w2 >>> 8) &&& 0xff, 90, 90] := by
  have h : cmd "W__W__ZZ" = [87, 95, 95, 87, 95, 95, 90, 90] := by decide
  simp [words_cmd, h]

theorem data_cmd_eq (b0 b1 b2 b3 : Nat) :
    data_cmd b0 b1 b2 b3 = [68, b0 % 0x100, 68, b1 % 0x100, 68, b2 % 0x100, 68, b3 % 0x100] := by
  have h : cmd "D_D_D_D_" = [68, 95, 68, 95, 68, 95, 68, 95] := by decide
  simp [data_cmd, h]

theorem words_frames_head (w : List Nat) (k i : Nat) :
    ∀ f ∈ words_frames w k i, f.head? = some 87 := by
  induction k generalizing i with
  | zero => simp [words_frames]
  | succ k ih =>
    intro f hf
    simp only [words_frames, List.mem_cons] at hf
    rcases hf with h | h
    · rw [h, words_cmd_eq]; rfl
    · exact ih (i + 1) f h

theorem data_frames_head (ee : List Nat) (k i : Nat) :
    ∀ f ∈ data_frames ee k i, f.head? = some 68 := by
  induction k generalizing i with
  | zero => simp [data_frames]
  | succ k ih =>
    intro f hf
    simp only [data_frames, List.mem_cons] at hf
    rcases hf with h | h
    · rw [h, data_cmd_eq]; rfl
    · exact ih (i + 1) f h

/-- The shape of the packets of `usb_pickit_write_program`. -/
theorem write_program_frames_shape (p : pic14_program) :
    ∀ f ∈ write_program_frames p,
      f = cmd "PZZZZZZZ" ∨ f = cmd "pV1ZZZZZ" ∨ f.head? = some 87 := by
  intro f hf
  simp only [write_program_frames, send_usb_words_frames, List.mem_append, List.mem_singleton]
    at hf
  rcases hf with (h | h | h) | h
  · exact Or.inl h
  · exact Or.inr (Or.inr (words_frames_head _ _ _ f h))
  · split at h
    · simp only [List.mem_singleton] at h
      rw [h, word_cmd_eq]
      exact Or.inr (Or.inr rfl)
    · simp at h
  · exact Or.inr (Or.inl h)

/-- The shape of the packets of `usb_pickit_write_eeprom`. -/
theorem write_eeprom_frames_shape (p : pic14_program) (hb : p.max_ee ≤ p.ee.length) :
    ∀ f ∈ write_eeprom_frames p,
      f = cmd "PZZZZZZZ" ∨ f = cmd "pZZZZZZZ" ∨ f.head? = some 68 := by
  intro f hf
  simp only [write_eeprom_frames, List.mem_append, List.mem_singleton] at hf
  rcases hf with ((h | h) | h) | h
  · exact Or.inl h
  · exact Or.inr (Or.inr (data_frames_head _ _ _ f h))
  · split at h
    · rename_i hr
      simp only [List.mem_singleton] at h
      obtain ⟨r, hr'⟩ : ∃ r, p.max_ee % 4 = r + 1 := ⟨p.max_ee % 4 - 1, by omega⟩
      have e := getElem?_eq_some_getD p.ee (p.max_ee - p.max_ee % 4) (by omega)
      obtain ⟨c, hc, hh⟩ := write_eeprom_last_defined p.ee r 1 (p.max_ee - p.max_ee % 4 + 1)
        (((cmd "ZZZZZZZZ").set (0 * 2 + 0) ('D'.toNat)).set (0 * 2 + 1)
          (p.ee.getD (p.max_ee - p.max_ee % 4) 0 % 0x100)) (by omega) (le_refl 1)
      rw [hr'] at h
      simp only [write_eeprom_last, ← hr', e, hc, Option.getD_some] at h
      have hz : cmd "ZZZZZZZZ" = [90, 90, 90, 90, 90, 90, 90, 90] := by decide
      rw [hz] at hh
      rw [h, hh]
      exact Or.inr (Or.inr (by simp))
    · simp at h
  · exact Or.inr (Or.inl h)

/-- No packet of the EEPROM and program writes is a jump to the configuration word or
to the calibration word. -/
theorem write_frames_ne_seek (p : pic14_program) (hb : p.max_ee ≤ p.ee.length) :
    ∀ f ∈ write_eeprom_frames p ++ write_program_frames p,
      f ≠ cmd "pPCI\x07\x00ZZ" ∧ f ≠ cmd "V0V1PI\xff\x03" := by
  intro f hf
  rcases List.mem_append.mp hf with h | h
  · rcases write_eeprom_frames_shape p hb f h with h | h | h
    · rw [h]; decide
    · rw [h]; decide
    · constructor <;> intro hc <;> rw [hc] at h <;> revert h <;> decide
  · rcases write_program_frames_shape p f h with h | h | h
    · rw [h]; decide
    · rw [h]; decide
    · constructor <;> intro hc <;> rw [hc] at h <;> revert h <;> decide

/-- In a trace `pre ++ mid ++ post` whose part `mid` holds no jump `sk`, and whose part
`pre` holds none that is followed by a word write, every word write that follows a jump
`sk` lies in `post`. -/
theorem seek_write_in_post (sk : List Nat) (pre mid post : List (List Nat))
    (hmid : ∀ f ∈ mid, f ≠ sk)
    (hpre : ∀ i < pre.length, pre[i]? = some sk →
      i + 1 < pre.length ∧ ∀ w, pre[i + 1]? ≠ some (word_cmd w))
    (i w : Nat) (h1 : (pre ++ mid ++ post)[i]? = some sk)
    (h2 : (pre ++ mid ++ post)[i + 1]? = some (word_cmd w)) :
    pre.length + mid.length ≤ i := by
  by_contra hlt
  by_cases hp : i < pre.length
  · rw [List.append_assoc, List.getElem?_append_left hp] at h1
    obtain ⟨hlt', hne⟩ := hpre i hp h1
    rw [List.append_assoc, List.getElem?_append_left hlt'] at h2
    exact hne w h2
  · have hm : i - pre.length < mid.length := by omega
    rw [List.append_assoc, List.getElem?_append_right (by omega),
      List.getElem?_append_left hm] at h1
    exact hmid _ (List.getElem?_mem h1) rfl

/-- In the frames that precede the EEPROM write, the jumps to the configuration word and
to the calibration word are those of the read-back, and a read command follows them. -/
theorem write_pre_frames_no_word_write (sk : List Nat)
    (hsk : sk = cmd "pPCI\x07\x00ZZ" ∨ sk = cmd "V0V1PI\xff\x03")
    (keep_old k : Bool) (j : Nat)
    (hj : j < ((if keep_old then read_config_frames else []) ++ [reset_frame k]).length)
    (hseek : ((if keep_old then read_config_frames else []) ++ [reset_frame k])[j]? =
      some sk) :
    j + 1 < ((if keep_old then read_config_frames else []) ++ [reset_frame k]).length ∧
      ∀ w, ((if keep_old then read_config_frames else []) ++ [reset_frame k])[j + 1]? ≠
        some (word_cmd w) := by
  rcases hsk with rfl | rfl <;> cases keep_old <;> cases k <;>
    simp only [read_config_frames, reset_frame, Bool.false_eq_true, if_true, if_false,
      List.nil_append, List.cons_append, List.length_cons, List.length_nil,
      List.length_singleton] at hj hseek ⊢ <;>
    interval_cases j <;> revert hseek <;>
    simp [word_cmd_eq, cmd_seek_config, cmd_seek_osccal, cmd_seek_id, cmd_read, cmd_exit_on,
      cmd_erase_program, cmd_erase_all]

/-- Masking with a run of `b` ones above `c` zeros and `a ≤ c` low ones, as
quotients and remainders. -/
theorem and_two_fields (y a c b : Nat) (hac : a ≤ c) :
    y &&& (2 ^ c * (2 ^ b - 1) + (2 ^ a - 1)) = 2 ^ c * (y / 2 ^ c % 2 ^ b) + y % 2 ^ a := by
  have h1 : 2 ^ a - 1 < 2 ^ c :=
    lt_of_lt_of_le (Nat.sub_lt (Nat.two_pow_pos a) Nat.one_pos)
      (Nat.pow_le_pow_right (by norm_num) hac)
  have h2 : y % 2 ^ a < 2 ^ c :=
    lt_of_lt_of_le (Nat.mod_lt _ (Nat.two_pow_pos a)) (Nat.pow_le_pow_right (by norm_num) hac)
  apply Nat.eq_of_testBit_eq
  intro j
  rw [Nat.testBit_and, Nat.testBit_mul_pow_two_add _ h1, Nat.testBit_mul_pow_two_add _ h2,
    Nat.testBit_two_pow_sub_one, Nat.testBit_two_pow_sub_one, Nat.testBit_mod_two_pow,
    Nat.testBit_mod_two_pow, ← Nat.shiftRight_eq_div_pow, Nat.testBit_shiftRight]
  by_cases hj : j < c
  · simp [hj, Bool.and_comm]
  · have e : c + (j - c) = j := by omega
    simp [hj, e, Bool.and_comm]

/-- The bandgap bits and the other bits of a 16-bit word, as quotients and remainders. -/
theorem and_masks_word (y : Nat) :
    y &&& 0x3000 = 0x1000 * (y / 0x1000 % 4) ∧
    y &&& 0xcfff = 0x4000 * (y / 0x4000 % 4) + y % 0x1000 ∧
    y &&& (0xffffffff - 0x3000) = 0x4000 * (y / 0x4000 % 0x40000) + y % 0x1000 := by
  have h1 := and_two_fields y 0 12 2 (by norm_num)
  have h2 := and_two_fields y 12 14 2 (by norm_num)
  have h3 := and_two_fields y 12 14 18 (by norm_num)
  norm_num at h1 h2 h3
  simp only [Nat.mod_one, Nat.add_zero] at h1
  exact ⟨h1, h2, h3⟩

/-- The configuration word `usb_pickit_merge_config` writes: bandgap bits of the old
word, every other bit of the new word. -/
theorem merged_word_bits (g x : Nat) :
    (((g &&& 0x3000) + (x &&& (0xffffffff - 0x3000))) % 0x10000) &&& 0x3000 = g &&& 0x3000 ∧
    (((g &&& 0x3000) + (x &&& (0xffffffff - 0x3000))) % 0x10000) &&& 0xcfff = x &&& 0xcfff := by
  obtain ⟨g1, _, _⟩ := and_masks_word g
  obtain ⟨_, x2, x3⟩ := and_masks_word x
  obtain ⟨w1, w2, _⟩ := and_masks_word
    (((g &&& 0x3000) + (x &&& (0xffffffff - 0x3000))) % 0x10000)
  rw [w1, w2, x2, g1, x3]
  constructor <;> omega

theorem fresh_state_writable (dinfo : pic14_device_info)
    (h : dinfo.inst_len ≤ PIC14_INST_LEN) : (fresh_state dinfo).writable := by
  simp [pic14_state.writable, fresh_state, copy_device_values, pic14_state_init,
    zero_state, h]

/-- C9 as stated fails: for the fresh state of a 16F635, whose `save_osccal` flag is
clear, `usb_pickit_write` with `keep_old` set reads back the calibration word `0x3444`
and then sends no frame pair that jumps to `0x03ff` and writes a word, so no
calibration word is written. -/
theorem write_without_save_osccal_writes_no_calibration :
    ∃ s' d', usb_pickit_write (fresh_state dev_16F635) true
        { sent := [], requested := [],
          inbox := [[0x44, 0x34, 0, 0, 0, 0, 0, 0], [0, 0, 0, 0, 0, 0, 0, 0],
            [0xff, 0x3f, 0, 0, 0, 0, 0, 0]] } = usb_result.done s' d' ∧
      word_of_bytes [0x44, 0x34, 0, 0, 0, 0, 0, 0] 0 = 0x3444 ∧
      ∀ i w, ¬ osccal_write_at d'.sent i w := by
  obtain ⟨sum, hrun⟩ := usb_pickit_write_run_keep (fresh_state dev_16F635)
    { sent := [], requested := [],
      inbox := [[0x44, 0x34, 0, 0, 0, 0, 0, 0], [0, 0, 0, 0, 0, 0, 0, 0],
        [0xff, 0x3f, 0, 0, 0, 0, 0, 0]] }
    [0x44, 0x34, 0, 0, 0, 0, 0, 0] [0, 0, 0, 0, 0, 0, 0, 0] [0xff, 0x3f, 0, 0, 0, 0, 0, 0] []
    (fresh_state_writable dev_16F635 (by decide)) rfl rfl rfl rfl
  refine ⟨_, _, hrun, by decide, ?_⟩
  intro i w hw
  obtain ⟨h1, h2⟩ := hw
  have hs : (fresh_state dev_16F635).config.save_osccal = false := rfl
  have hm : (fresh_state dev_16F635).program.max_ee = 0 := rfl
  have hp : (fresh_state dev_16F635).program.max_prog = 0 := rfl
  simp only [read_config_frames, reset_frame, write_eeprom_frames, write_program_frames,
    write_config_frames, merged_config, hs, hm, hp, send_usb_words_frames, words_frames,
    data_frames, List.nil_append, List.cons_append, List.append_nil, Nat.zero_div,
    Nat.zero_mod, ne_eq, not_true_eq_false, if_false, decide_True, if_true,
    Bool.false_eq_true, List.singleton_append] at h1 h2
  have hlt : i < 20 := by
    by_contra hc
    rw [List.getElem?_eq_none (by simp; omega)] at h1
    simp at h1
  interval_cases i <;> revert h1 h2 <;>
    simp [word_cmd_eq, words_cmd_eq, cmd_seek_config, cmd_seek_osccal, cmd_seek_id, cmd_read,
      cmd_exit_on, cmd_erase_program, cmd_erase_all, cmd_enter, cmd_exit]

/-- In a trace that ends with the frames of `usb_pickit_write_config`, a word write that
follows a jump to the calibration word inside these frames is the first of them, it is
sent only when `save_osccal` is set, and it writes the `osccal` field. -/
theorem osccal_write_in_config_frames (A : List (List Nat)) (c : pic14_config) (i v : Nat)
    (hge : A.length ≤ i) (h : osccal_write_at (A ++ write_config_frames c) i v) :
    c.save_osccal = true ∧ i = A.length ∧ word_cmd v = word_cmd c.osccal := by
  obtain ⟨j, rfl⟩ : ∃ j, i = A.length + j := ⟨i - A.length, by omega⟩
  obtain ⟨h1, h2⟩ := h
  rw [List.getElem?_append_right (by omega), Nat.add_sub_cancel_left] at h1
  rw [Nat.add_assoc, List.getElem?_append_right (by omega), Nat.add_sub_cancel_left] at h2
  have hjlt : j < 8 := by
    by_contra hc
    rw [List.getElem?_eq_none (by
      cases hs : c.save_osccal <;> simp [write_config_frames, hs] <;> omega)] at h1
    simp at h1
  cases hs : c.save_osccal <;> simp only [write_config_frames, hs] at h1 h2 <;>
    interval_cases j <;> revert h1 h2 <;>
    simp [word_cmd_eq, words_cmd_eq, cmd_seek_config, cmd_seek_osccal, cmd_seek_id,
      cmd_read, cmd_exit_on]
  intro e1 e2
  exact ⟨e1.symm, e2.symm⟩

/-- C9, amended: `usb_pickit_write` with `keep_old` set, on a writable state and a
device that answers the read-back with calibration word `c` (first word of `b1`) and
configuration word `g` (first word of `b3`), returns after sending the read-back, the
erase, the EEPROM and program frames and then the configuration frames: the jump to
`0x03ff`, followed by the write of `c` when the state's `save_osccal` flag is set and by
nothing when it is clear, the state's user ID words, and the write of the configuration
word `w = (g & 0x3000) + (config & ~0x3000)`, whose bits `0x3000` are those of `g` and
whose other bits are those of the state's configuration word.  No other word write follows a jump to `0x03ff`. -/
theorem usb_pickit_write_keeps_calibration (s : pic14_state) (d : usb_pickit)
    (b1 b2 b3 : List Nat) (rest : List (List Nat)) (hw : s.writable)
    (hi : d.inbox = b1 :: b2 :: b3 :: rest)
    (h1 : b1.length = 8) (h2 : b2.length = 8) (h3 : b3.length = 8) :
    ∃ s' d' pre w,
      usb_pickit_write s true d = usb_result.done s' d' ∧
      pre = read_config_frames ++ [reset_frame (decide (s.program.max_ee = 0))] ++
        frames_of (usb_pickit_write_eeprom s'.program) ++
        frames_of (usb_pickit_write_program s'.program) ∧
      d'.sent = d.sent ++ (pre ++
        ([cmd "V0V1PI\xff\x03"] ++
          (if s.config.save_osccal then [word_cmd (word_of_bytes b1 0)] else []) ++
          [cmd "pV0V1PCZ", words_cmd (s.config.id.getD 0 0) (s.config.id.getD 1 0),
            words_cmd (s.config.id.getD 2 0) (s.config.id.getD 3 0), cmd "pPCI\x07\x00ZZ",
            word_cmd w, cmd "pV1ZZZZZ"])) ∧
      w = ((word_of_bytes b3 0 &&& 0x3000) +
        (s.config.config &&& (0xffffffff - 0x3000))) % 0x10000 ∧
      (w &&& 0x3000) = (word_of_bytes b3 0 &&& 0x3000) ∧
      (w &&& 0xcfff) = (s.config.config &&& 0xcfff) ∧
      (∀ i v, osccal_write_at (pre ++
          ([cmd "V0V1PI\xff\x03"] ++
            (if s.config.save_osccal then [word_cmd (word_of_bytes b1 0)] else []) ++
            [cmd "pV0V1PCZ", words_cmd (s.config.id.getD 0 0) (s.config.id.getD 1 0),
              words_cmd (s.config.id.getD 2 0) (s.config.id.getD 3 0),
              cmd "pPCI\x07\x00ZZ", word_cmd w, cmd "pV1ZZZZZ"])) i v →
        s.config.save_osccal = true ∧ i = pre.length ∧
          word_cmd v = word_cmd (word_of_bytes b1 0)) := by
  have hw' := hw
  obtain ⟨w1, w2, w3, w4, w5, w6⟩ := hw'
  have hE : ∀ sum, frames_of (usb_pickit_write_eeprom
      { s.program with instchecksum := sum }) = write_eeprom_frames s.program :=
    fun _ => emits_frames_of _ _ _ (emits_write_eeprom s.program (by omega))
  have hP : ∀ sum, frames_of (usb_pickit_write_program
      { s.program with instchecksum := sum }) = write_program_frames s.program :=
    fun _ => emits_frames_of _ _ _ (emits_write_program s.program (by omega))
  obtain ⟨sum, hrun⟩ := usb_pickit_write_run_keep s d b1 b2 b3 rest hw hi h1 h2 h3
  obtain ⟨hb1, hb2⟩ := merged_word_bits (word_of_bytes b3 0) s.config.config
  refine ⟨_, _, _, ((word_of_bytes b3 0 &&& 0x3000) +
    (s.config.config &&& (0xffffffff - 0x3000))) % 0x10000, hrun, rfl, ?_, rfl, hb1, hb2, ?_⟩
  · simp only [hE, hP, write_config_frames, merged_config, config_read_back, BG_MASK,
      List.append_assoc]
  · intro i v hov
    have hcfg : [cmd "V0V1PI\xff\x03"] ++
        (if s.config.save_osccal then [word_cmd (word_of_bytes b1 0)] else []) ++
        [cmd "pV0V1PCZ", words_cmd (s.config.id.getD 0 0) (s.config.id.getD 1 0),
          words_cmd (s.config.id.getD 2 0) (s.config.id.getD 3 0), cmd "pPCI\x07\x00ZZ",
          word_cmd (((word_of_bytes b3 0 &&& 0x3000) +
            (s.config.config &&& (0xffffffff - 0x3000))) % 0x10000), cmd "pV1ZZZZZ"] =
        write_config_frames
          (merged_config (config_read_back local_config b1 b2 b3) s.config) := by
      simp only [write_config_frames, merged_config, config_read_back, BG_MASK]
    rw [hcfg] at hov
    simp only [hE, hP] at hov ⊢
    have hge : (read_config_frames ++ [reset_frame (decide (s.program.max_ee = 0))] ++
        write_eeprom_frames s.program ++ write_program_frames s.program).length ≤ i := by
      obtain ⟨ho1, ho2⟩ := hov
      rw [List.append_assoc (read_config_frames ++ _)] at ho1 ho2
      have := seek_write_in_post _
        (read_config_frames ++ [reset_frame (decide (s.program.max_ee = 0))]) _ _
        (fun f hf => (write_frames_ne_seek s.program (by omega) f hf).2)
        (fun j hj hseek => write_pre_frames_no_word_write _ (Or.inr rfl) true _ j hj hseek)
        i v ho1 ho2
      simp only [List.length_append] at this ⊢
      omega
    exact osccal_write_in_config_frames _ _ i v hge hov

/-- The amended C9 on the fresh state of a 12F629, whose `save_osccal` flag is set, with
the device reading back the calibration word `0x3444` and the configuration word
`0x3fff`: the calibration word written is `0x3444` and the configuration word written
is `0x3184`, the bandgap bits of `0x3fff` with the other bits of the default `0x184`. -/
theorem usb_pickit_write_keeps_calibration_witness :
    (fresh_state dev_12F629).writable ∧
    ∃ s' d' pre,
      usb_pickit_write (fresh_state dev_12F629) true
        { sent := [], requested := [],
          inbox := [[0x44, 0x34, 0, 0, 0, 0, 0, 0], [0, 0, 0, 0, 0, 0, 0, 0],
            [0xff, 0x3f, 0, 0, 0, 0, 0, 0]] } = usb_result.done s' d' ∧
      d'.sent = pre ++ [cmd "V0V1PI\xff\x03", word_cmd 0x3444, cmd "pV0V1PCZ",
        words_cmd 0x3fff 0x3fff, words_cmd 0x3fff 0x3fff, cmd "pPCI\x07\x00ZZ",
        word_cmd 0x3184, cmd "pV1ZZZZZ"] := by
  refine ⟨fresh_state_writable dev_12F629 (by decide), ?_⟩
  obtain ⟨s', d', pre, w, hrun, _, hsent, hw, _, _, _⟩ :=
    usb_pickit_write_keeps_calibration (fresh_state dev_12F629)
      { sent := [], requested := [],
        inbox := [[0x44, 0x34, 0, 0, 0, 0, 0, 0], [0, 0, 0, 0, 0, 0, 0, 0],
          [0xff, 0x3f, 0, 0, 0, 0, 0, 0]] }
      [0x44, 0x34, 0, 0, 0, 0, 0, 0] [0, 0, 0, 0, 0, 0, 0, 0] [0xff, 0x3f, 0, 0, 0, 0, 0, 0] []
      (fresh_state_writable dev_12F629 (by decide)) rfl rfl rfl rfl
  refine ⟨s', d', pre, hrun, ?_⟩
  have hc : (fresh_state dev_12F629).config.config = 0x184 := rfl
  have hs : (fresh_state dev_12F629).config.save_osccal = true := rfl
  have hid : (fresh_state dev_12F629).config.id = [0x3fff, 0x3fff, 0x3fff, 0x3fff] := rfl
  have hg : word_of_bytes [0xff, 0x3f, 0, 0, 0, 0, 0, 0] 0 = 0x3fff := by decide
  have hb : word_of_bytes [0x44, 0x34, 0, 0, 0, 0, 0, 0] 0 = 0x3444 := by decide
  rw [hc, hg] at hw
  have hwv : w = 0x3184 := by rw [hw]; decide
  rw [hsent, hwv, hs, hid, hb]
  simp

/-- The run of `usb_pickit_erase`. -/
theorem usb_pickit_erase_run (s : pic14_state) (d : usb_pickit)
    (b1 b2 b3 : List Nat) (rest : List (List Nat))
    (hi : s.config.save_osccal = true →
      d.inbox = b1 :: b2 :: b3 :: rest ∧ b1.length = 8 ∧ b2.length = 8 ∧ b3.length = 8) :
    usb_pickit_erase s d =
      if s.config.save_osccal then
        usb_result.done ()
          { sent := d.sent ++ (read_config_frames ++ [cmd "PCEepZZZ", cmd "V0V1PI\xff\x03",
              word_cmd (word_of_bytes b1 0), cmd "pPCI\x07\x00ZZ",
              word_cmd (((0x3000 &&& word_of_bytes b3 0) ||| s.config.configmask) % 0x10000),
              cmd "pV1ZZZZZ"]),
            requested := d.requested ++ [8, 8, 8], inbox := rest }
      else usb_result.done () { d with sent := d.sent ++ [cmd "PCEepZZZ"] } := by
  cases hs : s.config.save_osccal
  · simp [usb_pickit_erase, hs, usb_bind_apply, usb_pure_apply, usb_pickit_reset, send_usb]
  · obtain ⟨hin, h1, h2, h3⟩ := hi hs
    have hr := usb_pickit_read_config_run local_config d b1 b2 b3 rest rfl hin h1 h2 h3
    simp [usb_pickit_erase, hs, usb_bind_apply, hr, usb_pickit_reset, send_usb,
      send_usb_word, config_read_back]

/-- C10: `usb_pickit_erase` (with the device answering the read-back when the state's
`save_osccal` flag is set) returns after sending the full erase frame `PCEepZZZ`.  When
the flag is set the frames are the read-back, the erase, the jump to `0x03ff` and the
write of the calibration word read back, the jump to `0x2007` and the write of
`(old configuration word & 0x3000) | configmask`, and the exit; when the flag is clear
the erase frame is the only frame and no word write is sent. -/
theorem usb_pickit_erase_spec (s : pic14_state) (d : usb_pickit)
    (b1 b2 b3 : List Nat) (rest : List (List Nat))
    (hm : s.config.configmask < 0x10000)
    (hi : s.config.save_osccal = true →
      d.inbox = b1 :: b2 :: b3 :: rest ∧ b1.length = 8 ∧ b2.length = 8 ∧ b3.length = 8) :
    ∃ d' tr, usb_pickit_erase s d = usb_result.done () d' ∧ d'.sent = d.sent ++ tr ∧
      cmd "PCEepZZZ" ∈ tr ∧ cmd "PCEpZZZZ" ∉ tr ∧
      (s.config.save_osccal = true →
        tr = read_config_frames ++ [cmd "PCEepZZZ", cmd "V0V1PI\xff\x03",
          word_cmd (word_of_bytes b1 0), cmd "pPCI\x07\x00ZZ",
          word_cmd ((word_of_bytes b3 0 &&& 0x3000) ||| s.config.configmask),
          cmd "pV1ZZZZZ"]) ∧
      (s.config.save_osccal = false →
        tr = [cmd "PCEepZZZ"] ∧ ∀ f ∈ tr, ∀ w, f ≠ word_cmd w) := by
  have hrun := usb_pickit_erase_run s d b1 b2 b3 rest hi
  have hlt : ((0x3000 &&& word_of_bytes b3 0) ||| s.config.configmask) < 0x10000 := by
    apply Nat.or_lt_two_pow (n := 16)
    · exact lt_of_le_of_lt Nat.and_le_left (by norm_num)
    · exact hm
  cases hs : s.config.save_osccal
  · rw [hs] at hrun
    simp only [Bool.false_eq_true, if_false] at hrun
    refine ⟨_, [cmd "PCEepZZZ"], hrun, rfl, by simp, by decide, by simp, ?_⟩
    intro _
    refine ⟨rfl, ?_⟩
    intro f hf w
    simp only [List.mem_singleton] at hf
    rw [hf, word_cmd_eq, cmd_erase_all]
    simp
  · rw [hs] at hrun
    simp only [if_true] at hrun
    rw [Nat.mod_eq_of_lt hlt] at hrun
    refine ⟨_, _, hrun, rfl, by simp, ?_, ?_, by simp⟩
    · simp [read_config_frames, word_cmd_eq, cmd_seek_config, cmd_seek_osccal, cmd_seek_id,
        cmd_read, cmd_exit_on, cmd_erase_program, cmd_erase_all]
    · intro _
      rw [Nat.and_comm 0x3000]

/-- C10 on the fresh state of a 12F629 (flag set, mask `0x1ff`) with the device reading
back the calibration word `0x3444` and the configuration word `0x2fff`: the words
written after the erase are `0x3444` and `0x21ff`. -/
theorem usb_pickit_erase_spec_witness :
    (fresh_state dev_12F629).config.configmask < 0x10000 ∧
    ∃ d', usb_pickit_erase (fresh_state dev_12F629)
        { sent := [], requested := [],
          inbox := [[0x44, 0x34, 0, 0, 0, 0, 0, 0], [0, 0, 0, 0, 0, 0, 0, 0],
            [0xff, 0x2f, 0, 0, 0, 0, 0, 0]] } = usb_result.done () d' ∧
      d'.sent = read_config_frames ++ [cmd "PCEepZZZ", cmd "V0V1PI\xff\x03",
        word_cmd 0x3444, cmd "pPCI\x07\x00ZZ", word_cmd 0x21ff, cmd "pV1ZZZZZ"] := by
  refine ⟨by decide, ?_⟩
  obtain ⟨d', tr, hrun, hsent, _, _, htr, _⟩ :=
    usb_pickit_erase_spec (fresh_state dev_12F629)
      { sent := [], requested := [],
        inbox := [[0x44, 0x34, 0, 0, 0, 0, 0, 0], [0, 0, 0, 0, 0, 0, 0, 0],
          [0xff, 0x2f, 0, 0, 0, 0, 0, 0]] }
      [0x44, 0x34, 0, 0, 0, 0, 0, 0] [0, 0, 0, 0, 0, 0, 0, 0] [0xff, 0x2f, 0, 0, 0, 0, 0, 0] []
      (by decide) (fun _ => ⟨rfl, rfl, rfl, rfl⟩)
  refine ⟨d', hrun, ?_⟩
  have hg : (word_of_bytes [0xff, 0x2f, 0, 0, 0, 0, 0, 0] 0 &&& 0x3000) |||
      (fresh_state dev_12F629).config.configmask = 0x21ff := by decide
  have hb : word_of_bytes [0x44, 0x34, 0, 0, 0, 0, 0, 0] 0 = 0x3444 := by decide
  rw [hsent, htr rfl, hg, hb]
  rfl

/-! ## Registry -/

/-- The scan of `pic14_get_device` over a table with an end marker returns the first
entry before the marker with the ID looked for. -/
theorem pic14_get_device_from_eq (tbl : List pic14_device_info) (id : Nat)
    (hend : ∃ d ∈ tbl, d.device_id = 0xffff) :
    pic14_get_device_from tbl id =
      some ((tbl.takeWhile (fun d => decide (d.device_id ≠ 0xffff))).find?
        (fun d => decide (d.device_id = id))) := by
  induction tbl with
  | nil => obtain ⟨d, hd, _⟩ := hend; simp at hd
  | cons x xs ih =>
    rw [pic14_get_device_from]
    by_cases hx : x.device_id = 0xffff
    · simp [hx, List.takeWhile]
    · have hend' : ∃ d ∈ xs, d.device_id = 0xffff := by
        obtain ⟨d, hd, he⟩ := hend
        rcases List.mem_cons.mp hd with rfl | h
        · exact absurd he hx
        · exact ⟨d, h, he⟩
      by_cases hi : x.device_id = id
      · subst hi
        simp [hx, List.takeWhile, List.find?]
      · simp [hx, hi, List.takeWhile, List.find?, ih hend']

theorem pic14_get_device_eq (id : Nat) :
    pic14_get_device id =
      some (supported_devices.find? (fun d => decide (d.device_id = id))) :=
  pic14_get_device_from_eq __devices id (by decide)

theorem supported_devices_ids_nodup :
    (supported_devices.map (fun d => d.device_id)).Nodup := by decide

/-- In a list without two entries of the same ID, the entry found for an ID is the
entry with that ID. -/
theorem find_id_eq_some_iff (l : List pic14_device_info) (id : Nat)
    (hn : (l.map (fun d => d.device_id)).Nodup) (d : pic14_device_info) :
    l.find? (fun d => decide (d.device_id = id)) = some d ↔ d ∈ l ∧ d.device_id = id := by
  induction l with
  | nil => simp
  | cons x xs ih =>
    simp only [List.map_cons, List.nodup_cons, List.mem_map, not_exists, not_and] at hn
    by_cases hx : x.device_id = id
    · simp only [List.find?, hx, decide_True, Option.some.injEq, List.mem_cons]
      constructor
      · rintro rfl; exact ⟨Or.inl rfl, hx⟩
      · rintro ⟨h | h, he⟩
        · exact h.symm
        · exact absurd (he.trans hx.symm) (hn.1 d h)
    · simp only [List.find?, hx, decide_False, List.mem_cons]
      rw [ih hn.2]
      constructor
      · rintro ⟨h, he⟩; exact ⟨Or.inr h, he⟩
      · rintro ⟨h | h, he⟩
        · subst h; exact absurd he hx
        · exact ⟨h, he⟩

/-- The ID word in the transfer `id_reply id` is `id`. -/
theorem word_of_bytes_id_reply (id : Nat) (h : id < 0x10000) :
    word_of_bytes (id_reply id) 0 = id := by
  simp only [word_of_bytes, id_reply, List.getD_cons_zero, List.getD_cons_succ,
    Nat.shiftLeft_eq]
  norm_num
  omega

/-- The run of `usb_pickit_get_device` when the table has an entry with the ID word of
the device, low 5 bits masked off. -/
theorem usb_pickit_get_device_found (dev : pic14_device) (d : usb_pickit) (b : List Nat)
    (rest : List (List Nat)) (x : pic14_device_info) (hi : d.inbox = b :: rest)
    (hb : b.length = 8)
    (hf : supported_devices.find?
      (fun di => decide (di.device_id = word_of_bytes b 0 &&& 0xffe0)) = some x) :
    usb_pickit_get_device dev d =
      usb_result.done
        (1, ⟨some x, word_of_bytes b 0 &&& 0x1f, copy_device_values x dev.state⟩)
        { sent := d.sent ++
            [cmd "pV0V1PCZ", cmd "pPCI\x06\x00ZZ", cmd "RZZZZZZZ", cmd "pV1ZZZZZ"],
          requested := d.requested ++ [8], inbox := rest } := by
  obtain ⟨sent, requested, inbox⟩ := d
  simp only at hi
  subst hi
  have hlook := pic14_get_device_eq (word_of_bytes b 0 &&& 0xffe0)
  rw [hf] at hlook
  simp [usb_pickit_get_device, usb_bind_apply, send_usb, recv_usb_words_one _ _ b _ hb,
    usb_m.of_option, hlook, usb_pure_apply]

/-- The run of `usb_pickit_get_device` when the table has no such entry. -/
theorem usb_pickit_get_device_not_found (dev : pic14_device) (d : usb_pickit) (b : List Nat)
    (rest : List (List Nat)) (hi : d.inbox = b :: rest) (hb : b.length = 8)
    (hf : supported_devices.find?
      (fun di => decide (di.device_id = word_of_bytes b 0 &&& 0xffe0)) = none) :
    usb_pickit_get_device dev d =
      usb_result.done (0, ⟨dev.dinfo, word_of_bytes b 0 &&& 0x1f, dev.state⟩)
        { sent := d.sent ++
            [cmd "pV0V1PCZ", cmd "pPCI\x06\x00ZZ", cmd "RZZZZZZZ", cmd "pV1ZZZZZ"],
          requested := d.requested ++ [8], inbox := rest } := by
  obtain ⟨sent, requested, inbox⟩ := d
  simp only at hi
  subst hi
  have hlook := pic14_get_device_eq (word_of_bytes b 0 &&& 0xffe0)
  rw [hf] at hlook
  simp [usb_pickit_get_device, usb_bind_apply, send_usb, recv_usb_words_one _ _ b _ hb,
    usb_m.of_option, hlook, usb_pure_apply]

/-- C11: the lookup of a probed ID is the one `usb_pickit_get_device` performs on the ID
word the device answers, `pic14_get_device (id_word & 0xffe0)`; `pic14_get_device` by
itself matches its argument exactly, so that `0x1341` is not in the table.  For every
16-bit ID the device answers, `usb_pickit_get_device` returns 1 with the descriptor
before the end marker whose ID is `id & 0xffe0`, and 0 when there is none.  So the
devices that answer `0x1340` and `0x1341` both resolve to the 16F689, with program
length `0x1000` and EEPROM length 256, and one that answers `0x9999` is not resolved. -/
theorem registry_lookup_masks_revision (id : Nat) (hid : id < 0x10000) (dev : pic14_device)
    (d : usb_pickit) (rest : List (List Nat)) (hi : d.inbox = id_reply id :: rest) :
    (∃ ret dev' d', usb_pickit_get_device dev d = usb_result.done (ret, dev') d' ∧
      (ret = 1 ∨ ret = 0) ∧
      (∀ di, (ret = 1 ∧ dev'.dinfo = some di) ↔
        (di ∈ supported_devices ∧ di.device_id = id &&& 0xffe0)) ∧
      (ret = 0 ↔ ∀ di ∈ supported_devices, di.device_id ≠ id &&& 0xffe0) ∧
      (∀ di, ret = 1 → dev'.dinfo = some di →
        dev'.state.program.inst_len = di.inst_len ∧
        dev'.state.program.ee_len = di.ee_len)) ∧
    (∀ (dv : pic14_device) (l : usb_pickit) (r : List (List Nat)),
      l.inbox = id_reply 0x1340 :: r →
      ∃ dev' d', usb_pickit_get_device dv l = usb_result.done (1, dev') d' ∧
        dev'.dinfo = some dev_16F689 ∧ dev'.state.program.inst_len = 0x1000 ∧
        dev'.state.program.ee_len = 256) ∧
    (∀ (dv : pic14_device) (l : usb_pickit) (r : List (List Nat)),
      l.inbox = id_reply 0x1341 :: r →
      ∃ dev' d', usb_pickit_get_device dv l = usb_result.done (1, dev') d' ∧
        dev'.dinfo = some dev_16F689 ∧ dev'.state.program.inst_len = 0x1000 ∧
        dev'.state.program.ee_len = 256) ∧
    (∀ (dv : pic14_device) (l : usb_pickit) (r : List (List Nat)),
      l.inbox = id_reply 0x9999 :: r →
      ∃ dev' d', usb_pickit_get_device dv l = usb_result.done (0, dev') d' ∧
        dev'.dinfo = dv.dinfo ∧ dev'.state = dv.state) ∧
    pic14_get_device 0x1340 = some (some dev_16F689) ∧
    pic14_get_device 0x1341 = some none ∧
    pic14_get_device 0x9999 = some none := by
  have hw := word_of_bytes_id_reply id hid
  have hb : (id_reply id).length = 8 := rfl
  refine ⟨?_, ?_, ?_, ?_, by decide, by decide, by decide⟩
  · cases hf : supported_devices.find?
        (fun di => decide (di.device_id = word_of_bytes (id_reply id) 0 &&& 0xffe0)) with
    | none =>
      have hrun := usb_pickit_get_device_not_found dev d _ rest hi hb hf
      have hnone := List.find?_eq_none.mp hf
      simp only [decide_eq_true_eq, hw] at hnone
      refine ⟨_, _, _, hrun, Or.inr rfl, fun di => ?_, ?_, fun di h => ?_⟩
      · constructor
        · rintro ⟨h, _⟩
          exact absurd h (by norm_num)
        · rintro ⟨h1, h2⟩
          exact absurd h2 (hnone di h1)
      · exact ⟨fun _ => hnone, fun _ => rfl⟩
      · exact absurd h (by norm_num)
    | some x =>
      have hrun := usb_pickit_get_device_found dev d _ rest x hi hb hf
      obtain ⟨hx, hxe⟩ := (find_id_eq_some_iff _ _ supported_devices_ids_nodup x).mp hf
      rw [hw] at hxe
      refine ⟨_, _, _, hrun, Or.inl rfl, fun di => ?_, ?_, fun di _ h => ?_⟩
      · constructor
        · rintro ⟨_, h⟩
          obtain rfl := Option.some.inj h
          exact ⟨hx, hxe⟩
        · rintro ⟨h1, h2⟩
          have h3 : di.device_id = word_of_bytes (id_reply id) 0 &&& 0xffe0 := by
            rw [hw]
            exact h2
          have := (find_id_eq_some_iff _ _ supported_devices_ids_nodup di).mpr ⟨h1, h3⟩
          rw [hf] at this
          exact ⟨rfl, this⟩
      · constructor
        · intro h
          exact absurd h (by norm_num)
        · intro h
          exact absurd hxe (h x hx)
      · obtain rfl := Option.some.inj h
        exact ⟨rfl, rfl⟩
  · intro dv l r hl
    exact ⟨_, _, usb_pickit_get_device_found dv l _ r dev_16F689 hl rfl (by decide), rfl, rfl,
      rfl⟩
  · intro dv l r hl
    exact ⟨_, _, usb_pickit_get_device_found dv l _ r dev_16F689 hl rfl (by decide), rfl, rfl,
      rfl⟩
  · intro dv l r hl
    exact ⟨_, _, usb_pickit_get_device_not_found dv l _ r hl rfl (by decide), rfl, rfl⟩

/-- C11 on a device that answers `0x1347`, the 16F689 at revision 7: the call returns 1
with the descriptor whose ID is `0x1340`. -/
theorem registry_lookup_masks_revision_witness :
    (0x1347 : Nat) < 0x10000 ∧ 0x1347 &&& 0xffe0 = 0x1340 ∧
    ∃ ret dev' d', usb_pickit_get_device ⟨none, 0, zero_state⟩
        ⟨[], [], [id_reply 0x1347]⟩ = usb_result.done (ret, dev') d' ∧
      (ret = 1 ∨ ret = 0) ∧
      (∀ di, (ret = 1 ∧ dev'.dinfo = some di) ↔
        (di ∈ supported_devices ∧ di.device_id = 0x1347 &&& 0xffe0)) ∧
      (ret = 0 ↔ ∀ di ∈ supported_devices, di.device_id ≠ 0x1347 &&& 0xffe0) ∧
      (∀ di, ret = 1 → dev'.dinfo = some di →
        dev'.state.program.inst_len = di.inst_len ∧
        dev'.state.program.ee_len = di.ee_len) :=
  ⟨by decide, by decide,
    (registry_lookup_masks_revision 0x1347 (by decide) ⟨none, 0, zero_state⟩
      ⟨[], [], [id_reply 0x1347]⟩ [] rfl).1⟩

/-- A 16-bit word is the sum of its key `w & 0xffe0` and its revision `w & 0x1f`. -/
theorem key_add_revision (w : Nat) (h : w < 0x10000) :
    (w &&& 0xffe0) + (w &&& 0x1f) = w := by
  have h1 := and_two_fields w 0 5 11 (by norm_num)
  have h2 := Nat.and_pow_two_sub_one_eq_mod w 5
  norm_num at h1 h2
  rw [h1, h2]
  omega

theorem word_of_bytes_lt (b : List Nat) (i : Nat) : word_of_bytes b i < 0x10000 := by
  unfold word_of_bytes
  exact Nat.mod_lt _ (by norm_num)

/-- C12: `usb_pickit_get_device`, when the device answers the read of the ID word with
the transfer `b` (ID word `w`, its first word), returns with the revision `w & 0x1f`,
key and revision adding up to `w`; it returns 1 exactly when a supported descriptor has
the ID `w & 0xffe0`, and then the state holds the descriptor's program length, EEPROM
length, `save_osccal` flag and configuration mask with every other field as before;
otherwise it returns 0 and the state is as before. -/
theorem usb_pickit_get_device_spec (dev : pic14_device) (d : usb_pickit) (b : List Nat)
    (rest : List (List Nat)) (hi : d.inbox = b :: rest) (hb : b.length = 8) :
    ∃ ret dev' d', usb_pickit_get_device dev d = usb_result.done (ret, dev') d' ∧
      d'.sent = d.sent ++
        [cmd "pV0V1PCZ", cmd "pPCI\x06\x00ZZ", cmd "RZZZZZZZ", cmd "pV1ZZZZZ"] ∧
      dev'.rev = word_of_bytes b 0 &&& 0x1f ∧
      (word_of_bytes b 0 &&& 0xffe0) + (word_of_bytes b 0 &&& 0x1f) = word_of_bytes b 0 ∧
      (ret = 1 ∨ ret = 0) ∧
      (ret = 1 ↔ ∃ di ∈ supported_devices, di.device_id = word_of_bytes b 0 &&& 0xffe0) ∧
      (∀ di ∈ supported_devices, di.device_id = word_of_bytes b 0 &&& 0xffe0 →
        dev'.dinfo = some di ∧
        dev'.state.program.inst_len = di.inst_len ∧
        dev'.state.program.ee_len = di.ee_len ∧
        dev'.state.config.save_osccal = decide (di.save_osccal ≠ 0) ∧
        dev'.state.config.configmask = di.configmask ∧
        dev'.state.program.inst = dev.state.program.inst ∧
        dev'.state.program.max_prog = dev.state.program.max_prog ∧
        dev'.state.program.instchecksum = dev.state.program.instchecksum ∧
        dev'.state.program.ee = dev.state.program.ee ∧
        dev'.state.program.max_ee = dev.state.program.max_ee ∧
        dev'.state.config.osccal = dev.state.config.osccal ∧
        dev'.state.config.id = dev.state.config.id ∧
        dev'.state.config.config = dev.state.config.config ∧
        dev'.state.config.pgmchecksum = dev.state.config.pgmchecksum ∧
        dev'.state.config.eechecksum = dev.state.config.eechecksum) ∧
      (ret = 0 → dev'.state = dev.state ∧ dev'.dinfo = dev.dinfo) := by
  obtain ⟨sent, requested, inbox⟩ := d
  simp only at hi
  subst hi
  have hk := key_add_revision (word_of_bytes b 0) (word_of_bytes_lt b 0)
  have hlook := pic14_get_device_eq (word_of_bytes b 0 &&& 0xffe0)
  cases hf : supported_devices.find?
      (fun x => decide (x.device_id = word_of_bytes b 0 &&& 0xffe0)) with
  | none =>
    rw [hf] at hlook
    have hnone := List.find?_eq_none.mp hf
    simp only [decide_eq_true_eq] at hnone
    refine ⟨0, ⟨dev.dinfo, word_of_bytes b 0 &&& 0x1f, dev.state⟩,
      ⟨sent ++ [cmd "pV0V1PCZ", cmd "pPCI\x06\x00ZZ", cmd "RZZZZZZZ", cmd "pV1ZZZZZ"],
        requested ++ [8], rest⟩, ?_, rfl, rfl, hk,
      Or.inr rfl, ?_, ?_, fun _ => ⟨rfl, rfl⟩⟩
    · simp [usb_pickit_get_device, usb_bind_apply, send_usb, recv_usb_words_one _ _ b _ hb,
        usb_m.of_option, hlook, usb_pure_apply]
    · constructor
      · intro h; omega
      · rintro ⟨di, hd, he⟩
        exact absurd he (hnone di hd)
    · intro di hd he
      exact absurd he (hnone di hd)
  | some x =>
    rw [hf] at hlook
    obtain ⟨hx, hxe⟩ := (find_id_eq_some_iff _ _ supported_devices_ids_nodup x).mp hf
    refine ⟨1, ⟨some x, word_of_bytes b 0 &&& 0x1f, copy_device_values x dev.state⟩,
      ⟨sent ++ [cmd "pV0V1PCZ", cmd "pPCI\x06\x00ZZ", cmd "RZZZZZZZ", cmd "pV1ZZZZZ"],
        requested ++ [8], rest⟩, ?_, rfl, rfl, hk,
      Or.inl rfl, ?_, ?_, fun h => by omega⟩
    · simp [usb_pickit_get_device, usb_bind_apply, send_usb, recv_usb_words_one _ _ b _ hb,
        usb_m.of_option, hlook, usb_pure_apply]
    · exact ⟨fun _ => ⟨x, hx, hxe⟩, fun _ => rfl⟩
    · intro di hd he
      have : di = x := by
        have := (find_id_eq_some_iff _ _ supported_devices_ids_nodup di).mpr ⟨hd, he⟩
        rw [hf] at this
        exact (Option.some.inj this).symm
      subst this
      simp [copy_device_values]

/-- C12 on a device that answers with the ID word `0x1341`: the 16F689, revision 1. -/
theorem usb_pickit_get_device_spec_witness :
    ∃ dev' d', usb_pickit_get_device
        { dinfo := none, rev := 0, state := pic14_state_init zero_state }
        { sent := [], requested := [], inbox := [[0x41, 0x13, 0, 0, 0, 0, 0, 0]] } =
        usb_result.done (1, dev') d' ∧
      dev'.rev = 1 ∧ dev'.dinfo = some dev_16F689 ∧
      dev'.state.program.inst_len = 0x1000 ∧ dev'.state.program.ee_len = 256 := by
  obtain ⟨ret, dev', d', hrun, _, hrev, _, _, hret, hok, _⟩ :=
    usb_pickit_get_device_spec
      { dinfo := none, rev := 0, state := pic14_state_init zero_state }
      { sent := [], requested := [], inbox := [[0x41, 0x13, 0, 0, 0, 0, 0, 0]] }
      [0x41, 0x13, 0, 0, 0, 0, 0, 0] [] rfl rfl
  have hw : word_of_bytes [0x41, 0x13, 0, 0, 0, 0, 0, 0] 0 = 0x1341 := by decide
  rw [hw] at hrev hret hok
  have hmem : dev_16F689 ∈ supported_devices := by decide
  have hid : dev_16F689.device_id = 0x1341 &&& 0xffe0 := by decide
  have hr : ret = 1 := hret.mpr ⟨dev_16F689, hmem, hid⟩
  obtain ⟨h1, h2, h3, _⟩ := hok dev_16F689 hmem hid
  subst hr
  exact ⟨dev', d', hrun, by rw [hrev]; decide, h1, h2, h3⟩

/-! ## Buffer capacity and out-of-range routing -/

/-- C13, evaluated on the code: the 16F877A descriptor is in the table with program length
`0x2000`, one more than the capacity `PIC14_INST_LEN = 0x1fff` of the program buffer; in
the state of that device index `0x1fff` is below the declared length of the program span
but outside the buffer, so reading it is outside the array and `pic14_write_word` at
address `0x1fff` stores outside the array.  The EEPROM lengths all fit, and no program
length exceeds the capacity by more than this one word. -/
theorem program_buffer_one_word_short :
    dev_16F877A ∈ supported_devices ∧
    PIC14_INST_LEN < dev_16F877A.inst_len ∧
    (fresh_state dev_16F877A).program.inst.length = PIC14_INST_LEN ∧
    0x1fff < (fresh_state dev_16F877A).program.inst_len ∧
    pic14_ref.inst.read (fresh_state dev_16F877A) 0x1fff = none ∧
    (∀ w, pic14_write_word (pic14_program_spans (fresh_state dev_16F877A)) 0x1fff w
      (fresh_state dev_16F877A) = none) ∧
    (∀ d ∈ supported_devices, d.ee_len ≤ PIC14_EE_LEN) ∧
    (∀ d ∈ supported_devices, d.inst_len ≤ PIC14_INST_LEN + 1) := by
  have hlen : (fresh_state dev_16F877A).program.inst.length = PIC14_INST_LEN := by
    simp [fresh_state, copy_device_values, pic14_state_init]
  refine ⟨by decide, by decide, hlen, by decide, ?_, ?_, by decide, by decide⟩
  · simp only [pic14_ref.read]
    exact List.getElem?_eq_none (by rw [hlen]; decide)
  · intro w
    have hc : (⟨"Program (14-bit instruction words)", 0x0000,
        (fresh_state dev_16F877A).program.inst_len, pic14_ref.inst⟩ : pic14_span).contains
          0x1fff = true := by decide
    rw [pic14_write_word, pic14_program_spans, pic14_write_word_from, if_pos hc]
    simp only [pic14_ref.write, hlen, PIC14_INST_LEN]
    simp

/-- C19: an address that none of the spans of the state claims is ignored by
`pic14_write_word`, the state stays as it is; and when neither the program span nor the
EEPROM span claims the address the call is defined (the user ID array having its four
words) and leaves the whole program block, with both high-water marks, as it is. -/
theorem pic14_write_word_out_of_range (p : pic14_state) (a w : Nat) :
    ((∀ sp ∈ pic14_program_spans p, sp.contains a = false) →
      pic14_write_word (pic14_program_spans p) a w p = some p) ∧
    (p.config.id.length = PIC14_ID_LEN →
      (∀ sp ∈ (pic14_program_spans p).take 2, sp.contains a = false) →
      ∃ q, pic14_write_word (pic14_program_spans p) a w p = some q ∧
        q.program = p.program ∧
        q.program.max_prog = p.program.max_prog ∧ q.program.max_ee = p.program.max_ee ∧
        (a = 0x2007 → q = { p with config := { p.config with config := w } }) ∧
        (0x2000 ≤ a ∧ a < 0x2004 →
          q = { p with config := { p.config with id := p.config.id.set (a - 0x2000) w } }) ∧
        (a = 0x3ff → q = { p with config := { p.config with osccal := w } })) := by
  constructor
  · intro h
    exact pic14_write_word_from_none 0 _ a w p h
  · intro hid h
    simp only [pic14_program_spans, List.take, List.mem_cons, List.mem_singleton,
      List.not_mem_nil, or_false, forall_eq_or_imp, forall_eq] at h
    obtain ⟨h0, h1⟩ := h
    simp only [PIC14_ID_LEN] at hid
    simp only [pic14_write_word, pic14_program_spans, pic14_write_word_from, h0, h1,
      Bool.false_eq_true, if_false]
    simp only [pic14_span.contains, PIC14_ID_LEN]
    by_cases c2 : a = 0x2007
    · subst c2
      simp [pic14_ref.write, pic14_update_marks, SPAN_PROGRAM, SPAN_EEPROM]
    · by_cases c3 : 0x2000 ≤ a ∧ a < 0x2004
      · have hlt : a - 0x2000 < p.config.id.length := by omega
        have hne : ¬ a = 0x3ff := by omega
        have : ¬ (8199 ≤ a ∧ a < 8200) := by omega
        simp [pic14_ref.write, pic14_update_marks, SPAN_PROGRAM, SPAN_EEPROM, c2, c3, hlt,
          this, hne]
      · by_cases c4 : a = 0x3ff
        · subst c4
          simp [pic14_ref.write, pic14_update_marks, SPAN_PROGRAM, SPAN_EEPROM]
        · have n2 : ¬ (8199 ≤ a ∧ a < 8200) := by omega
          have n4 : ¬ (1023 ≤ a ∧ a < 1024) := by omega
          simp [n2, n4, c2, c3, c4]

/-- C19 on the state of a 12F629: address `0x5000` is ignored, and the write at the
configuration address `0x2007` leaves the program block as it is. -/
theorem pic14_write_word_out_of_range_witness :
    pic14_write_word (pic14_program_spans (fresh_state dev_12F629)) 0x5000 0x1234
      (fresh_state dev_12F629) = some (fresh_state dev_12F629) ∧
    ∃ q, pic14_write_word (pic14_program_spans (fresh_state dev_12F629)) 0x2007 0x1234
        (fresh_state dev_12F629) = some q ∧
      q.program = (fresh_state dev_12F629).program ∧ q.config.config = 0x1234 := by
  have hid : (fresh_state dev_12F629).config.id.length = PIC14_ID_LEN := by
    simp [fresh_state, copy_device_values, pic14_state_init]
  refine ⟨(pic14_write_word_out_of_range (fresh_state dev_12F629) 0x5000 0x1234).1
      (by decide), ?_⟩
  obtain ⟨q, hq, hp, _, _, hc, _⟩ :=
    (pic14_write_word_out_of_range (fresh_state dev_12F629) 0x2007 0x1234).2 hid (by decide)
  exact ⟨q, hq, hp, by rw [hc rfl]⟩

/-! ## Hex codec -/

theorem hex_value_hex_digit (a : Nat) (h : a < 16) : hex_value (hex_digit a) = some a := by
  interval_cases a <;> rfl

/-- What a hexadecimal digit character is not. -/
theorem hex_value_some (c v : Nat) (h : hex_value c = some v) :
    v < 16 ∧ c ≠ 45 ∧ c ≠ 43 ∧ c ≠ 120 ∧ c ≠ 88 ∧ c ≠ 58 ∧ isspace c = false ∧
      (c = 48 → v = 0) := by
  unfold hex_value at h
  simp only [isspace]
  split at h
  · simp only [Option.some.injEq] at h
    refine ⟨by omega, by omega, by omega, by omega, by omega, by omega, ?_, by omega⟩
    simp; omega
  · split at h
    · simp only [Option.some.injEq] at h
      refine ⟨by omega, by omega, by omega, by omega, by omega, by omega, ?_, by omega⟩
      simp; omega
    · split at h
      · simp only [Option.some.injEq] at h
        refine ⟨by omega, by omega, by omega, by omega, by omega, by omega, ?_, by omega⟩
        simp; omega
      · simp at h

theorem scan_unsigned_two (c1 c2 v1 v2 : Nat) (rest : List Nat)
    (h1 : hex_value c1 = some v1) (h2 : hex_value c2 = some v2) :
    scan_unsigned 2 (c1 :: c2 :: rest) = some (v1 * 16 + v2, rest) := by
  obtain ⟨_, _, _, _, _, _, _, z1⟩ := hex_value_some c1 v1 h1
  obtain ⟨_, _, _, x2, y2, _, _, _⟩ := hex_value_some c2 v2 h2
  by_cases hc : c1 = 48
  · have : v1 = 0 := z1 hc
    subst this
    simp [scan_unsigned, hc, x2, y2, scan_hex_digits, h2]
  · simp [scan_unsigned, hc, h1, scan_hex_digits, h2]

/-- A `%02x` conversion on two hexadecimal digits reads both. -/
theorem scan_x_two (c1 c2 v1 v2 : Nat) (rest : List Nat)
    (h1 : hex_value c1 = some v1) (h2 : hex_value c2 = some v2) :
    scan_x 2 (c1 :: c2 :: rest) = some (v1 * 16 + v2, rest) := by
  obtain ⟨_, m1, p1, _, _, _, s1, _⟩ := hex_value_some c1 v1 h1
  simp only [scan_x, List.dropWhile, s1, m1, p1, if_false]
  exact scan_unsigned_two c1 c2 v1 v2 rest h1 h2

/-- A `%04x` conversion on four hexadecimal digits reads all four. -/
theorem scan_x_four (c1 c2 c3 c4 v1 v2 v3 v4 : Nat) (rest : List Nat)
    (h1 : hex_value c1 = some v1) (h2 : hex_value c2 = some v2)
    (h3 : hex_value c3 = some v3) (h4 : hex_value c4 = some v4) :
    scan_x 4 (c1 :: c2 :: c3 :: c4 :: rest) =
      some (((v1 * 16 + v2) * 16 + v3) * 16 + v4, rest) := by
  obtain ⟨_, m1, p1, _, _, _, s1, z1⟩ := hex_value_some c1 v1 h1
  obtain ⟨_, _, _, x2, y2, _, _, _⟩ := hex_value_some c2 v2 h2
  simp only [scan_x, List.dropWhile, s1, m1, p1, if_false]
  by_cases hc : c1 = 48
  · have : v1 = 0 := z1 hc
    subst this
    simp [scan_unsigned, hc, x2, y2, scan_hex_digits, h2, h3, h4]
  · simp [scan_unsigned, hc, h1, scan_hex_digits, h2, h3, h4]

theorem hex_digit_lt (b : Nat) (h : b < 0x100) : b / 16 < 16 ∧ b % 16 < 16 := by omega

theorem digits_bytes_hex_of_bytes (bs : List Nat) (h : ∀ b ∈ bs, b < 0x100) :
    digits_bytes (hex_of_bytes bs) = some bs := by
  induction bs with
  | nil => rfl
  | cons b bs ih =>
    have hb : b < 0x100 := h b (List.mem_cons_self _ _)
    have ih' := ih (fun x hx => h x (List.mem_cons_of_mem _ hx))
    have : b / 16 * 16 + b % 16 = b := by omega
    show digits_bytes (hex_digit (b / 16) :: hex_digit (b % 16) :: hex_of_bytes bs) = _
    rw [digits_bytes, hex_value_hex_digit (b / 16) (by omega),
      hex_value_hex_digit (b % 16) (by omega), ih']
    simp only [this]

/-- The first byte of a digit string comes from its first two characters. -/
theorem digits_bytes_cons (ds : List Nat) (b : Nat) (bs : List Nat)
    (h : digits_bytes ds = some (b :: bs)) :
    ∃ c1 c2 v1 v2 ds', ds = c1 :: c2 :: ds' ∧ hex_value c1 = some v1 ∧
      hex_value c2 = some v2 ∧ b = v1 * 16 + v2 ∧ digits_bytes ds' = some bs := by
  match ds, h with
  | [], h => simp [digits_bytes] at h
  | [_], h => simp [digits_bytes] at h
  | c1 :: c2 :: ds', h =>
    rw [digits_bytes] at h
    cases h1 : hex_value c1 with
    | none => simp [h1] at h
    | some v1 =>
      cases h2 : hex_value c2 with
      | none => simp [h1, h2] at h
      | some v2 =>
        cases h3 : digits_bytes ds' with
        | none => simp [h1, h2, h3] at h
        | some bs' =>
          simp only [h1, h2, h3, Option.some.injEq, List.cons.injEq] at h
          exact ⟨c1, c2, v1, v2, ds', rfl, h1, h2, h.1.symm, by rw [h3, h.2]⟩

theorem digits_bytes_nil (ds : List Nat) (h : digits_bytes ds = some []) : ds = [] := by
  match ds, h with
  | [], _ => rfl
  | [_], h => simp [digits_bytes] at h
  | c1 :: c2 :: ds', h =>
    rw [digits_bytes] at h
    cases h1 : hex_value c1 <;> cases h2 : hex_value c2 <;> cases h3 : digits_bytes ds' <;>
      simp [h1, h2, h3] at h

theorem digits_bytes_lt (ds bs : List Nat) (h : digits_bytes ds = some bs) :
    ∀ b ∈ bs, b < 0x100 := by
  induction bs generalizing ds with
  | nil => simp
  | cons b bs ih =>
    obtain ⟨c1, c2, v1, v2, ds', _, h1, h2, hb, h3⟩ := digits_bytes_cons ds b bs h
    intro x hx
    rcases List.mem_cons.mp hx with rfl | hx
    · have := (hex_value_some c1 v1 h1).1
      have := (hex_value_some c2 v2 h2).1
      omega
    · exact ih ds' h3 x hx

/-- The data loop of `hex_read` on the digits of the bytes `bs` reads them all, and its
checksum grows by their sum. -/
theorem hex_read_data_digits (ds bs rest acc : List Nat) (ck : Nat)
    (h : digits_bytes ds = some bs) :
    ∃ x, hex_read_data bs.length (ds ++ rest) acc ck = some (acc ++ bs, x, rest) ∧
      x % 0x100 = (ck + bs.sum) % 0x100 := by
  induction bs generalizing ds acc ck with
  | nil =>
    have := digits_bytes_nil ds h
    subst this
    exact ⟨ck, by simp [hex_read_data], by simp⟩
  | cons b bs ih =>
    obtain ⟨c1, c2, v1, v2, ds', hds, h1, h2, hb, h3⟩ := digits_bytes_cons ds b bs h
    subst hds
    have hlt : v1 * 16 + v2 < 0x100 := by
      have := (hex_value_some c1 v1 h1).1
      have := (hex_value_some c2 v2 h2).1
      omega
    obtain ⟨x, hx, hx'⟩ := ih ds' (acc ++ [b]) ((ck + b) % 2 ^ 32) h3
    refine ⟨x, ?_, ?_⟩
    · simp only [List.length_cons, List.cons_append, hex_read_data,
        scan_x_two c1 c2 v1 v2 (ds' ++ rest) h1 h2]
      rw [← hb, Nat.mod_eq_of_lt (by omega : b < 0x100), hx]
      simp
    · rw [hx', List.sum_cons]
      omega

/-- One iteration of the loop of `hex_read` on a line whose first eight characters
after the colon are the digits of the bytes `len`, `ahi`, `alo`, `ty`. -/
theorem hex_read_loop_header {σ : Type} (fn : σ → Nat → Nat → List Nat → Option σ)
    (fuel b16 b32 : Nat) (hd rest : List Nat) (p : σ) (len ahi alo ty : Nat)
    (h : digits_bytes hd = some [len, ahi, alo, ty]) :
    hex_read_loop fn (fuel + 1) b16 b32 (58 :: hd ++ rest) p =
      if len > HEX_MAX_DATA_LINE then
        hex_read_result.error hex_error.line_too_long p
      else
        match hex_read_data (len + 1) rest []
            ((len + ((ahi * 0x100 + alo) + (ahi * 0x100 + alo) / 0x100) + ty) % 2 ^ 32) with
        | none => hex_read_result.error hex_error.data_format p
        | some (data, checksum, r4) =>
          if checksum % 0x100 ≠ 0 then
            hex_read_result.error hex_error.checksum_mismatch p
          else if ty = 0x00 then
            match fn p ((b16 + b32 + (ahi * 0x100 + alo)) % 2 ^ 32) len data with
            | none => hex_read_result.undefined
            | some q => hex_read_loop fn fuel b16 b32 r4 q
          else if ty = 0x01 then hex_read_result.ok p
          else if ty = 0x02 then
            hex_read_loop fn fuel (((ahi * 0x100 + alo) * 0x100) % 2 ^ 32) b32 r4 p
          else if ty = 0x04 then
            hex_read_loop fn fuel b16 (((ahi * 0x100 + alo) * 0x10000) % 2 ^ 32) r4 p
          else hex_read_result.error hex_error.unrecognized_type p := by
  obtain ⟨c1, c2, v1, v2, d1, e1, h1, h2, hb1, h⟩ := digits_bytes_cons hd _ _ h
  obtain ⟨c3, c4, v3, v4, d2, e2, h3, h4, hb2, h⟩ := digits_bytes_cons d1 _ _ h
  obtain ⟨c5, c6, v5, v6, d3, e3, h5, h6, hb3, h⟩ := digits_bytes_cons d2 _ _ h
  obtain ⟨c7, c8, v7, v8, d4, e4, h7, h8, hb4, h⟩ := digits_bytes_cons d3 _ _ h
  have e5 := digits_bytes_nil d4 h
  subst e1 e2 e3 e4 e5
  have haddr : ((v3 * 16 + v4) * 16 + v5) * 16 + v6 = ahi * 0x100 + alo := by omega
  show hex_read_loop fn (fuel + 1) b16 b32
    (58 :: c1 :: c2 :: c3 :: c4 :: c5 :: c6 :: c7 :: c8 :: rest) p = _
  rw [hex_read_loop]
  simp only [hex_seek, if_true,
    scan_x_two c1 c2 v1 v2 _ h1 h2, scan_x_four c3 c4 c5 c6 v3 v4 v5 v6 _ h3 h4 h5 h6,
    scan_x_two c7 c8 v7 v8 _ h7 h8, haddr, ← hb1, ← hb4]
  try rfl

/-- One iteration of the loop of `hex_read` on a line whose characters after the colon
are the digits of the bytes `len`, `ahi`, `alo`, `ty` and of `len + 1` more bytes `tl`,
with `len` within the limit: the checksum test on the sum of all bytes, then the
`switch` on the type. -/
theorem hex_read_loop_record {σ : Type} (fn : σ → Nat → Nat → List Nat → Option σ)
    (fuel b16 b32 : Nat) (ds rest : List Nat) (p : σ) (len ahi alo ty : Nat) (tl : List Nat)
    (h : digits_bytes ds = some (len :: ahi :: alo :: ty :: tl))
    (htl : tl.length = len + 1) (hlen : len ≤ HEX_MAX_DATA_LINE) :
    hex_read_loop fn (fuel + 1) b16 b32 (58 :: ds ++ rest) p =
      if (len + ahi + alo + ty + tl.sum) % 0x100 ≠ 0 then
        hex_read_result.error hex_error.checksum_mismatch p
      else if ty = 0x00 then
        match fn p ((b16 + b32 + (ahi * 0x100 + alo)) % 2 ^ 32) len tl with
        | none => hex_read_result.undefined
        | some q => hex_read_loop fn fuel b16 b32 rest q
      else if ty = 0x01 then hex_read_result.ok p
      else if ty = 0x02 then
        hex_read_loop fn fuel (((ahi * 0x100 + alo) * 0x100) % 2 ^ 32) b32 rest p
      else if ty = 0x04 then
        hex_read_loop fn fuel b16 (((ahi * 0x100 + alo) * 0x10000) % 2 ^ 32) rest p
      else hex_read_result.error hex_error.unrecognized_type p := by
  obtain ⟨c1, c2, v1, v2, d1, e1, h1, h2, hb1, g1⟩ := digits_bytes_cons ds _ _ h
  obtain ⟨c3, c4, v3, v4, d2, e2, h3, h4, hb2, g2⟩ := digits_bytes_cons d1 _ _ g1
  obtain ⟨c5, c6, v5, v6, d3, e3, h5, h6, hb3, g3⟩ := digits_bytes_cons d2 _ _ g2
  obtain ⟨c7, c8, v7, v8, d4, e4, h7, h8, hb4, g4⟩ := digits_bytes_cons d3 _ _ g3
  have hhd : digits_bytes [c1, c2, c3, c4, c5, c6, c7, c8] = some [len, ahi, alo, ty] := by
    simp [digits_bytes, h1, h2, h3, h4, h5, h6, h7, h8, hb1, hb2, hb3, hb4]
  have hlt := digits_bytes_lt ds _ h
  have lalo : alo < 0x100 := hlt alo (by simp)
  subst e1 e2 e3 e4
  have key := hex_read_loop_header fn fuel b16 b32 [c1, c2, c3, c4, c5, c6, c7, c8]
    (d4 ++ rest) p len ahi alo ty hhd
  obtain ⟨x, hx, hx'⟩ := hex_read_data_digits d4 tl rest []
    ((len + ((ahi * 0x100 + alo) + (ahi * 0x100 + alo) / 0x100) + ty) % 2 ^ 32) g4
  rw [htl] at hx
  have hsum : x % 0x100 = (len + ahi + alo + ty + tl.sum) % 0x100 := by
    rw [hx']
    have : (ahi * 0x100 + alo) / 0x100 = ahi := by omega
    rw [this]
    omega
  have e : 58 :: [c1, c2, c3, c4, c5, c6, c7, c8] ++ (d4 ++ rest) =
      58 :: (c1 :: c2 :: c3 :: c4 :: c5 :: c6 :: c7 :: c8 :: d4) ++ rest := by simp
  rw [← e, key, if_neg (by omega), hx]
  simp only [List.nil_append, hsum]

/-! ## The loop of `hex_read` consumes its input -/

theorem scan_hex_digits_length (w acc : Nat) (inp : List Nat) :
    (scan_hex_digits w acc inp).2.length ≤ inp.length := by
  induction w generalizing acc inp with
  | zero => simp [scan_hex_digits]
  | succ w ih =>
    cases inp with
    | nil => simp [scan_hex_digits]
    | cons c rest =>
      rw [scan_hex_digits]
      cases hv : hex_value c with
      | none => simp
      | some v =>
        have := ih (acc * 16 + v) rest
        simp only [List.length_cons]
        omega

theorem scan_unsigned_length (w : Nat) (inp : List Nat) (v : Nat) (r : List Nat)
    (h : scan_unsigned w inp = some (v, r)) : r.length < inp.length := by
  cases inp with
  | nil => simp [scan_unsigned] at h
  | cons c rest =>
    simp only [scan_unsigned] at h
    by_cases hw : w = 0
    · simp [hw] at h
    · rw [if_neg hw] at h
      by_cases hc : c = 48
      · rw [if_pos hc] at h
        cases rest with
        | nil =>
          simp only [Option.some.injEq, Prod.mk.injEq] at h
          rw [← h.2]; simp
        | cons x rest' =>
          simp only at h
          split at h
          · simp only [Option.some.injEq] at h
            have := scan_hex_digits_length (w - 2) 0 rest'
            rw [h] at this
            simp only [List.length_cons] at this ⊢
            omega
          · simp only [Option.some.injEq] at h
            have := scan_hex_digits_length (w - 1) 0 (x :: rest')
            rw [h] at this
            simp only [List.length_cons] at this ⊢
            omega
      · rw [if_neg hc] at h
        cases hv : hex_value c with
        | none => simp [hv] at h
        | some v' =>
          simp only [hv, Option.some.injEq] at h
          have := scan_hex_digits_length (w - 1) v' rest
          rw [h] at this
          simp only [List.length_cons] at this ⊢
          omega

theorem dropWhile_length_le (f : Nat → Bool) (l : List Nat) :
    (l.dropWhile f).length ≤ l.length := by
  induction l with
  | nil => simp
  | cons x xs ih =>
    rw [List.dropWhile]
    split
    · simp only [List.length_cons]; omega
    · simp

theorem scan_x_length (w : Nat) (inp : List Nat) (v : Nat) (r : List Nat)
    (h : scan_x w inp = some (v, r)) : r.length < inp.length := by
  have hd := dropWhile_length_le isspace inp
  unfold scan_x at h
  cases hl : inp.dropWhile isspace with
  | nil => simp [hl] at h
  | cons c rest =>
    rw [hl] at hd
    simp only [hl] at h
    simp only [List.length_cons] at hd
    by_cases c1 : c = 45
    · rw [if_pos c1] at h
      cases hs : scan_unsigned (w - 1) rest with
      | none => simp [hs] at h
      | some q =>
        obtain ⟨v', r'⟩ := q
        simp only [hs, Option.map_some', Option.some.injEq, Prod.mk.injEq] at h
        have := scan_unsigned_length _ _ _ _ hs
        rw [← h.2]
        omega
    · rw [if_neg c1] at h
      by_cases c2 : c = 43
      · rw [if_pos c2] at h
        have := scan_unsigned_length _ _ _ _ h
        omega
      · rw [if_neg c2] at h
        have := scan_unsigned_length _ _ _ _ h
        simp only [List.length_cons] at this
        omega

theorem hex_read_data_length (n : Nat) (inp data : List Nat) (ck : Nat)
    (d : List Nat) (c : Nat) (r : List Nat)
    (h : hex_read_data n inp data ck = some (d, c, r)) :
    r.length ≤ inp.length ∧ d.length = data.length + n := by
  induction n generalizing inp data ck with
  | zero =>
    simp only [hex_read_data, Option.some.injEq, Prod.mk.injEq] at h
    obtain ⟨h1, _, h3⟩ := h
    subst h1 h3
    simp
  | succ n ih =>
    rw [hex_read_data] at h
    cases hs : scan_x 2 inp with
    | none => simp [hs] at h
    | some q =>
      obtain ⟨v, rest⟩ := q
      simp only [hs] at h
      have h1 := scan_x_length _ _ _ _ hs
      have h2 := ih _ _ _ h
      simp only [List.length_append, List.length_singleton] at h2
      omega

theorem hex_seek_length (inp r : List Nat) (h : hex_seek inp = hex_seek_result.colon r) :
    r.length < inp.length := by
  induction inp with
  | nil => simp [hex_seek] at h
  | cons c rest ih =>
    rw [hex_seek] at h
    by_cases c1 : c = 58
    · rw [if_pos c1] at h
      injection h with h
      subst h
      simp
    · rw [if_neg c1] at h
      split at h
      · simp at h
      · have := ih h
        simp only [List.length_cons]
        omega

/-- The fuel of the loop of `hex_read` is never used up: any two amounts above the
number of characters give the same result. -/
theorem hex_read_loop_fuel {σ : Type} (fn : σ → Nat → Nat → List Nat → Option σ)
    (f1 f2 b16 b32 : Nat) (inp : List Nat) (p : σ)
    (h1 : inp.length < f1) (h2 : inp.length < f2) :
    hex_read_loop fn f1 b16 b32 inp p = hex_read_loop fn f2 b16 b32 inp p := by
  induction f1 generalizing f2 b16 b32 inp p with
  | zero => omega
  | succ f ih =>
    cases f2 with
    | zero => omega
    | succ g =>
      rw [hex_read_loop, hex_read_loop]
      cases hs : hex_seek inp with
      | eof => rfl
      | unexpected => rfl
      | colon r0 =>
        have l0 := hex_seek_length _ _ hs
        simp only
        cases s1 : scan_x 2 r0 with
        | none => rfl
        | some q1 =>
          obtain ⟨len, r1⟩ := q1
          have l1 := scan_x_length _ _ _ _ s1
          simp only
          cases s2 : scan_x 4 r1 with
          | none => rfl
          | some q2 =>
            obtain ⟨addr, r2⟩ := q2
            have l2 := scan_x_length _ _ _ _ s2
            simp only
            cases s3 : scan_x 2 r2 with
            | none => rfl
            | some q3 =>
              obtain ⟨type, r3⟩ := q3
              have l3 := scan_x_length _ _ _ _ s3
              simp only
              by_cases hl : len > HEX_MAX_DATA_LINE
              · rw [if_pos hl, if_pos hl]
              · rw [if_neg hl, if_neg hl]
                cases s4 : hex_read_data (len + 1) r3 []
                    ((len + (addr + addr / 0x100) + type) % 2 ^ 32) with
                | none => rfl
                | some q4 =>
                  obtain ⟨data, ck, r4⟩ := q4
                  have l4 := (hex_read_data_length _ _ _ _ _ _ _ s4).1
                  have e1 : r4.length < f := by omega
                  have e2 : r4.length < g := by omega
                  simp only
                  by_cases hc : ck % 0x100 ≠ 0
                  · rw [if_pos hc, if_pos hc]
                  · rw [if_neg hc, if_neg hc]
                    by_cases t0 : type = 0
                    · rw [if_pos t0, if_pos t0]
                      cases fn p ((b16 + b32 + addr) % 2 ^ 32) len data with
                      | none => rfl
                      | some q => exact ih g b16 b32 r4 q e1 e2
                    · rw [if_neg t0, if_neg t0]
                      by_cases t1 : type = 1
                      · rw [if_pos t1, if_pos t1]
                      · rw [if_neg t1, if_neg t1]
                        by_cases t2 : type = 2
                        · rw [if_pos t2, if_pos t2]
                          exact ih g _ b32 r4 p e1 e2
                        · rw [if_neg t2, if_neg t2]
                          by_cases t4 : type = 4
                          · rw [if_pos t4, if_pos t4]
                            exact ih g b16 _ r4 p e1 e2
                          · rw [if_neg t4, if_neg t4]

/-! ## Lines -/

theorem twos_complement_sum_spec (bs : List Nat) :
    twos_complement_sum bs < 0x100 ∧ (bs.sum + twos_complement_sum bs) % 0x100 = 0 := by
  unfold twos_complement_sum
  omega

/-- White space before a line is skipped within the same iteration. -/
theorem hex_read_loop_space {σ : Type} (fn : σ → Nat → Nat → List Nat → Option σ)
    (fuel b16 b32 c : Nat) (inp : List Nat) (p : σ) (h : isspace c = true) :
    hex_read_loop fn fuel b16 b32 (c :: inp) p = hex_read_loop fn fuel b16 b32 inp p := by
  have hc : c ≠ 58 := by
    intro e; subst e; simp [isspace] at h
  cases fuel with
  | zero => rw [hex_read_loop, hex_read_loop]
  | succ f =>
    rw [hex_read_loop, hex_read_loop]
    have : hex_seek (c :: inp) = hex_seek inp := by
      rw [hex_seek, if_neg hc]
      simp [h]
    rw [this]

theorem hex_read_loop_spaces {σ : Type} (fn : σ → Nat → Nat → List Nat → Option σ)
    (fuel b16 b32 : Nat) (ws inp : List Nat) (p : σ) (h : ∀ c ∈ ws, isspace c = true) :
    hex_read_loop fn fuel b16 b32 (ws ++ inp) p = hex_read_loop fn fuel b16 b32 inp p := by
  induction ws with
  | nil => rfl
  | cons c ws ih =>
    rw [List.cons_append, hex_read_loop_space fn fuel b16 b32 c _ p
      (h c (List.mem_cons_self _ _))]
    exact ih (fun x hx => h x (List.mem_cons_of_mem _ hx))

theorem hex_read_loop_nil {σ : Type} (fn : σ → Nat → Nat → List Nat → Option σ)
    (fuel b16 b32 : Nat) (p : σ) :
    hex_read_loop fn (fuel + 1) b16 b32 [] p = hex_read_result.ok p := by
  rw [hex_read_loop]
  rfl

theorem hex_read_loop_unexpected {σ : Type} (fn : σ → Nat → Nat → List Nat → Option σ)
    (fuel b16 b32 c : Nat) (rest : List Nat) (p : σ) (h1 : c ≠ 58) (h2 : isspace c = false) :
    hex_read_loop fn (fuel + 1) b16 b32 (c :: rest) p =
      hex_read_result.error hex_error.unexpected_characters p := by
  rw [hex_read_loop]
  have : hex_seek (c :: rest) = hex_seek_result.unexpected := by
    rw [hex_seek, if_neg h1]
    simp [h2]
  rw [this]

/-- The loop of `hex_read` on a line of type 00 as the encoder writes it: the checksum
test passes and the callback gets the address, the length and the data, followed in
the buffer by the checksum byte. -/
theorem hex_read_loop_data_record {σ : Type} (fn : σ → Nat → Nat → List Nat → Option σ)
    (fuel b16 b32 addr : Nat) (d rest : List Nat) (p : σ)
    (hlen : d.length ≤ HEX_MAX_DATA_LINE) (hd : ∀ b ∈ d, b < 0x100) :
    hex_read_loop fn (fuel + 1) b16 b32 (data_record_text addr d ++ rest) p =
      match fn p ((b16 + b32 + addr % 0x10000) % 2 ^ 32) d.length
          (d ++ [twos_complement_sum
            ([d.length, addr / 0x100 % 0x100, addr % 0x100, 0] ++ d)]) with
      | none => hex_read_result.undefined
      | some q => hex_read_loop fn fuel b16 b32 rest q := by
  obtain ⟨hck, hsum⟩ := twos_complement_sum_spec
    ([d.length, addr / 0x100 % 0x100, addr % 0x100, 0] ++ d)
  generalize hk : twos_complement_sum
    ([d.length, addr / 0x100 % 0x100, addr % 0x100, 0] ++ d) = ck at hck hsum
  simp only [HEX_MAX_DATA_LINE] at hlen
  have hdig : digits_bytes (hex_of_bytes
      ([d.length, addr / 0x100 % 0x100, addr % 0x100, 0] ++ d ++ [ck])) =
      some (d.length :: (addr / 0x100 % 0x100) :: (addr % 0x100) :: 0 :: (d ++ [ck])) := by
    rw [digits_bytes_hex_of_bytes]
    · simp
    · intro b hb
      simp only [List.cons_append, List.nil_append, List.mem_cons, List.mem_append,
        List.mem_singleton, List.not_mem_nil, or_false] at hb
      rcases hb with h | h | h | h | h | h
      · omega
      · omega
      · omega
      · omega
      · exact hd b h
      · omega
  have key := hex_read_loop_record fn fuel b16 b32 _ (10 :: rest) p _ _ _ _ _ hdig
    (by simp) (by simp only [HEX_MAX_DATA_LINE]; omega)
  have hs : (d.length + addr / 0x100 % 0x100 + addr % 0x100 + 0 + (d ++ [ck]).sum) % 0x100
      = 0 := by
    simp only [List.cons_append, List.nil_append, List.sum_cons] at hsum
    simp only [List.sum_append, List.sum_cons, List.sum_nil]
    omega
  have ha : addr / 0x100 % 0x100 * 0x100 + addr % 0x100 = addr % 0x10000 := by omega
  have e : data_record_text addr d ++ rest =
      58 :: hex_of_bytes ([d.length, addr / 0x100 % 0x100, addr % 0x100, 0] ++ d ++ [ck])
        ++ 10 :: rest := by
    simp only [data_record_text, record_text, hk]
    simp
  rw [e, key, if_neg (by rw [hs]; simp), if_pos rfl, ha]
  cases fn p ((b16 + b32 + addr % 0x10000) % 2 ^ 32) d.length (d ++ [ck]) with
  | none => rfl
  | some q => exact hex_read_loop_space fn fuel b16 b32 10 rest q (by decide)

/-- The loop of `hex_read` at the terminator line returns 1 whatever follows. -/
theorem hex_read_loop_end {σ : Type} (fn : σ → Nat → Nat → List Nat → Option σ)
    (fuel b16 b32 : Nat) (rest : List Nat) (p : σ) :
    hex_read_loop fn (fuel + 1) b16 b32 (hex_write_end ++ rest) p = hex_read_result.ok p := by
  have hdig : digits_bytes [48, 48, 48, 48, 48, 48, 48, 49, 70, 70] =
      some (0 :: 0 :: 0 :: 1 :: [255]) := by decide
  have key := hex_read_loop_record fn fuel b16 b32 _ (10 :: rest) p _ _ _ _ _ hdig
    (by simp) (by simp [HEX_MAX_DATA_LINE])
  have e : hex_write_end ++ rest =
      58 :: [48, 48, 48, 48, 48, 48, 48, 49, 70, 70] ++ 10 :: rest := by
    have : hex_write_end = [58, 48, 48, 48, 48, 48, 48, 48, 49, 70, 70, 10] := by decide
    rw [this]
    rfl
  rw [e, key]
  simp

/-! ## The encoder -/

theorem hex_of_bytes_append (xs ys : List Nat) :
    hex_of_bytes (xs ++ ys) = hex_of_bytes xs ++ hex_of_bytes ys := by
  induction xs with
  | nil => rfl
  | cons x xs ih => simp [hex_of_bytes, ih]

theorem hex_write_bytes_fold (bs t : List Nat) (c : Nat) :
    ∃ x, bs.foldl (fun st b => hex_write_byte b st) (t, c) =
        (t ++ hex_of_bytes (bs.map (fun b => b % 0x100)), x) ∧
      (x + (bs.map (fun b => b % 0x100)).sum) % 0x100 = c % 0x100 ∧ (c < 0x100 → x < 0x100) := by
  induction bs generalizing t c with
  | nil => exact ⟨c, by simp [hex_of_bytes], by simp, fun h => h⟩
  | cons b bs ih =>
    obtain ⟨x, h1, h2, h3⟩ := ih (t ++ fprintf_02X (b % 0x100)) ((c + 0x100 - b % 0x100) % 0x100)
    refine ⟨x, ?_, ?_, fun _ => h3 (Nat.mod_lt _ (by norm_num))⟩
    · have e : hex_write_byte b (t, c) =
          (t ++ fprintf_02X (b % 0x100), (c + 0x100 - b % 0x100) % 0x100) := rfl
      rw [List.foldl_cons, e, h1]
      simp [hex_of_bytes]
    · simp only [List.map_cons, List.sum_cons]
      omega

theorem map_mod_of_lt (d : List Nat) (h : ∀ b ∈ d, b < 0x100) :
    d.map (fun b => b % 0x100) = d := by
  induction d with
  | nil => rfl
  | cons b bs ih =>
    rw [List.map_cons, ih (fun x hx => h x (List.mem_cons_of_mem _ hx)),
      Nat.mod_eq_of_lt (h b (List.mem_cons_self _ _))]

/-- One line of `hex_write` is the line of type 00 with the address and the data. -/
theorem hex_write_line_eq (addr len : Nat) (data : List Nat) (h1 : len ≤ data.length)
    (h2 : len < 0x100) (h3 : ∀ b ∈ data, b < 0x100) :
    hex_write_line addr len data = some (data_record_text addr (data.take len)) := by
  have hfold : ∀ st : List Nat × Nat,
      hex_write_byte 0x00 (hex_write_byte addr (hex_write_byte (addr / 0x100)
        (hex_write_byte len st))) =
      [len, addr / 0x100, addr, 0].foldl (fun st b => hex_write_byte b st) st := fun _ => rfl
  obtain ⟨x, hx, hs, hlt⟩ := hex_write_bytes_fold
    ([len, addr / 0x100, addr, 0] ++ data.take len) [58] 0
  have htk : ∀ b ∈ data.take len, b < 0x100 := fun b hb => h3 b (List.mem_of_mem_take hb)
  have hmap : ([len, addr / 0x100, addr, 0] ++ data.take len).map (fun b => b % 0x100) =
      [(data.take len).length, addr / 0x100 % 0x100, addr % 0x100, 0] ++ data.take len := by
    rw [List.map_append, map_mod_of_lt _ htk, List.length_take, Nat.min_eq_left h1]
    simp [Nat.mod_eq_of_lt h2]
  rw [hmap] at hx hs
  have hxlt := hlt (by norm_num)
  have hck : x = twos_complement_sum
      ([(data.take len).length, addr / 0x100 % 0x100, addr % 0x100, 0] ++ data.take len) := by
    unfold twos_complement_sum
    omega
  rw [hex_write_line, if_pos h1]
  simp only [hfold, ← List.foldl_append, hx]
  simp only [hex_write_byte]
  rw [Nat.mod_eq_of_lt hxlt, hck]
  simp [data_record_text, record_text, hex_of_bytes_append, hex_of_bytes]

theorem chunks_nil (a : Nat) : chunks a [] = [] := rfl

theorem chunks_cons (a : Nat) (d : List Nat) (h : d ≠ []) :
    chunks a d = (a, d.take 16) :: chunks (a + 16) (d.drop 16) := by
  have hpos : 0 < d.length := List.length_pos.mpr h
  have hn : (d.length + 15) / 16 = ((d.drop 16).length + 15) / 16 + 1 := by
    rw [List.length_drop]
    omega
  unfold chunks
  rw [hn, List.range_succ_eq_map, List.map_cons, List.map_map]
  congr 1
  apply List.map_congr_left
  intro k _
  simp only [Function.comp, List.drop_drop, Nat.succ_eq_add_one]
  have e1 : a + 16 + 16 * k = a + 16 * (k + 1) := by omega
  have e2 : 16 + 16 * k = 16 * (k + 1) := by omega
  rw [e1, e2]

theorem data_record_text_congr (a b : Nat) (d : List Nat) (h : a % 0x10000 = b % 0x10000) :
    data_record_text a d = data_record_text b d := by
  have h1 : a / 0x100 % 0x100 = b / 0x100 % 0x100 := by omega
  have h2 : a % 0x100 = b % 0x100 := by omega
  simp only [data_record_text, h1, h2]

theorem hex_write_loop_nil (fuel a : Nat) : hex_write_loop fuel a 0 [] = some [] := by
  cases fuel <;> simp [hex_write_loop]

/-- The loop of `hex_write` writes one line of type 00 per chunk of 16 bytes. -/
theorem hex_write_loop_eq (fuel a b : Nat) (d : List Nat) (hf : d.length ≤ fuel)
    (hab : b % 0x10000 = a % 0x10000) (hd : ∀ x ∈ d, x < 0x100) :
    hex_write_loop fuel b d.length d = some (lines_text (chunks a d)) := by
  induction fuel generalizing a b d with
  | zero =>
    have : d = [] := List.length_eq_zero.mp (by omega)
    subst this
    rfl
  | succ fuel ih =>
    by_cases hnil : d = []
    · subst hnil
      exact hex_write_loop_nil _ _
    · have hpos : 0 < d.length := List.length_pos.mpr hnil
      rw [hex_write_loop, if_pos hpos, chunks_cons a d hnil]
      simp only [lines_text, HEX_MAX_BYTES]
      by_cases hl : d.length > 16
      · rw [if_pos hl, hex_write_line_eq b 16 d (by omega) (by norm_num) hd,
          data_record_text_congr b a _ hab]
        have hlen : d.length - 16 = (d.drop 16).length := by rw [List.length_drop]
        rw [hlen, ih (a + 16) ((b + 16) % 2 ^ 32) (d.drop 16) (by rw [← hlen]; omega)
          (by omega) (fun x hx => hd x (List.mem_of_mem_drop hx))]
      · rw [if_neg hl, hex_write_line_eq b d.length d (le_refl _) (by omega) hd,
          data_record_text_congr b a _ hab, Nat.sub_self, List.drop_length,
          hex_write_loop_nil]
        have e1 : d.take d.length = d.take 16 := by
          rw [List.take_length, List.take_of_length_le (by omega)]
        have e2 : d.drop 16 = [] := List.drop_eq_nil_of_le (by omega)
        rw [e1, e2, chunks_nil]
        simp [lines_text]

/-- The text `hex_write` produces for non-empty data is one line of type 00 per chunk. -/
theorem hex_write_eq (a : Nat) (d : List Nat) (hne : d ≠ []) (hd : ∀ x ∈ d, x < 0x100) :
    hex_write a d.length d = some (lines_text (chunks a d)) := by
  unfold hex_write
  by_cases hl : d.length ≤ HEX_MAX_BYTES
  · rw [if_pos hl]
    simp only [HEX_MAX_BYTES] at hl
    rw [hex_write_line_eq a d.length d (le_refl _) (by omega) hd, chunks_cons a d hne]
    have e1 : d.take d.length = d.take 16 := by
      rw [List.take_length, List.take_of_length_le hl]
    have e2 : d.drop 16 = [] := List.drop_eq_nil_of_le hl
    rw [e1, e2, chunks_nil]
    simp [lines_text]
  · rw [if_neg hl]
    exact hex_write_loop_eq d.length a a d (le_refl _) rfl hd

theorem lines_text_length (cs : List (Nat × List Nat)) :
    cs.length ≤ (lines_text cs).length := by
  induction cs with
  | nil => simp
  | cons c cs ih =>
    simp only [lines_text, data_record_text, record_text, List.length_cons, List.length_append,
      List.cons_append]
    omega

/-- The loop of `hex_read` on lines of type 00 as the encoder writes them, with the
callback that records the calls: one call per line, in order. -/
theorem hex_read_loop_lines (cs : List (Nat × List Nat)) (fuel b16 b32 : Nat)
    (rest : List Nat) (log : List (Nat × List Nat))
    (hcs : ∀ c ∈ cs, c.2.length ≤ HEX_MAX_DATA_LINE ∧ ∀ b ∈ c.2, b < 0x100) :
    hex_read_loop record_call (fuel + cs.length) b16 b32 (lines_text cs ++ rest) log =
      hex_read_loop record_call fuel b16 b32 rest
        (log ++ cs.map (fun c => ((b16 + b32 + c.1 % 0x10000) % 2 ^ 32, c.2))) := by
  induction cs generalizing log with
  | nil => simp [lines_text]
  | cons c cs ih =>
    obtain ⟨h1, h2⟩ := hcs c (List.mem_cons_self _ _)
    have e : fuel + (c :: cs).length = (fuel + cs.length) + 1 := rfl
    rw [e, lines_text, List.append_assoc,
      hex_read_loop_data_record record_call _ b16 b32 c.1 c.2 _ log h1 h2]
    simp only [record_call, List.take_left']
    rw [ih _ (fun x hx => hcs x (List.mem_cons_of_mem _ hx))]
    simp

theorem mem_chunks (a : Nat) (d : List Nat) (c : Nat × List Nat) (h : c ∈ chunks a d) :
    ∃ k, 16 * k < d.length ∧ c = (a + 16 * k, (d.drop (16 * k)).take 16) := by
  simp only [chunks, List.mem_map, List.mem_range] at h
  obtain ⟨k, hk, rfl⟩ := h
  exact ⟨k, by omega, rfl⟩

theorem chunks_flatten_le (n a : Nat) (d : List Nat) (h : d.length ≤ n) :
    ((chunks a d).map (fun c => c.2)).flatten = d := by
  induction n generalizing a d with
  | zero =>
    have : d = [] := List.length_eq_zero.mp (by omega)
    subst this
    rfl
  | succ n ih =>
    by_cases hnil : d = []
    · subst hnil; rfl
    · have hpos : 0 < d.length := List.length_pos.mpr hnil
      rw [chunks_cons a d hnil, List.map_cons, List.flatten_cons,
        ih (a + 16) (d.drop 16) (by rw [List.length_drop]; omega)]
      exact List.take_append_drop 16 d

/-- The chunks, put end to end, are the data. -/
theorem chunks_flatten (a : Nat) (d : List Nat) :
    ((chunks a d).map (fun c => c.2)).flatten = d :=
  chunks_flatten_le d.length a d (le_refl _)

/-! ## Byte codec -/

/-- C14: for an address `a` and non-empty bytes `d` with `a + |d| ≤ 0x10000`, `hex_read`
on the text of `hex_write (a, |d|, d)` followed by `hex_write_end` returns 1 after
`⌈|d| / 16⌉` calls of the callback, call `k` with address `a + 16 * k` and the `k`-th
chunk of at most 16 bytes; the chunks put end to end are `d`; the text is one line of
type 00 per chunk. -/
theorem hex_write_read_round_trip (a : Nat) (d : List Nat) (hne : d ≠ [])
    (hd : ∀ b ∈ d, b < 0x100) (ha : a + d.length ≤ 0x10000) :
    ∃ t, hex_write a d.length d = some t ∧
      hex_read (some (t ++ hex_write_end)) record_call [] =
        hex_read_result.ok (chunks a d) ∧
      (chunks a d).length = (d.length + 15) / 16 ∧
      (∀ k, k < (d.length + 15) / 16 →
        (chunks a d)[k]? = some (a + 16 * k, (d.drop (16 * k)).take 16)) ∧
      ((chunks a d).map (fun c => c.2)).flatten = d ∧
      t = lines_text (chunks a d) ∧
      (∀ c ∈ chunks a d, c.2 ≠ [] ∧ c.2.length ≤ HEX_MAX_BYTES ∧
        data_record_text c.1 c.2 =
          58 :: hex_of_bytes ([c.2.length, c.1 / 0x100 % 0x100, c.1 % 0x100, 0x00] ++ c.2 ++
            [twos_complement_sum
              ([c.2.length, c.1 / 0x100 % 0x100, c.1 % 0x100, 0x00] ++ c.2)]) ++ [10]) := by
  refine ⟨lines_text (chunks a d), hex_write_eq a d hne hd, ?_, by simp [chunks], ?_,
    chunks_flatten a d, rfl, ?_⟩
  · have hcs : ∀ c ∈ chunks a d, c.2.length ≤ HEX_MAX_DATA_LINE ∧ ∀ b ∈ c.2, b < 0x100 := by
      intro c hc
      obtain ⟨k, _, rfl⟩ := mem_chunks a d c hc
      refine ⟨?_, fun b hb => hd b (List.mem_of_mem_drop (List.mem_of_mem_take hb))⟩
      simp only [List.length_take, HEX_MAX_DATA_LINE]
      omega
    have hlen := lines_text_length (chunks a d)
    have hmap : (chunks a d).map (fun c => ((0 + 0 + c.1 % 0x10000) % 2 ^ 32, c.2)) =
        chunks a d := by
      conv => rhs; rw [← List.map_id (chunks a d)]
      apply List.map_congr_left
      intro c hc
      obtain ⟨k, hk, rfl⟩ := mem_chunks a d c hc
      have : (0 + 0 + (a + 16 * k) % 0x10000) % 2 ^ 32 = a + 16 * k := by omega
      simp only [this, id]
    obtain ⟨f, hf⟩ : ∃ f, (lines_text (chunks a d) ++ hex_write_end).length + 1 =
        (f + 1) + (chunks a d).length := by
      refine ⟨(lines_text (chunks a d) ++ hex_write_end).length - (chunks a d).length, ?_⟩
      simp only [List.length_append]
      omega
    rw [hex_read, hf, hex_read_loop_lines (chunks a d) (f + 1) 0 0 hex_write_end [] hcs, hmap,
      List.nil_append]
    have := hex_read_loop_end record_call f 0 0 [] (chunks a d)
    rwa [List.append_nil] at this
  · intro k hk
    simp [chunks, hk]
  · intro c hc
    obtain ⟨k, hk, rfl⟩ := mem_chunks a d c hc
    refine ⟨?_, ?_, ?_⟩
    · simp only [ne_eq, List.take_eq_nil_iff, List.drop_eq_nil_iff, not_or]
      exact ⟨by norm_num, by omega⟩
    · simp only [List.length_take, HEX_MAX_BYTES]
      omega
    · simp [data_record_text, record_text]

/-- C14 on 20 bytes at address `0x100`: two calls, 16 bytes at `0x100` and 4 at `0x110`. -/
theorem hex_write_read_round_trip_witness :
    ∃ t, hex_write 0x100 20 (List.range 20) = some t ∧
      hex_read (some (t ++ hex_write_end)) record_call [] =
        hex_read_result.ok [(0x100, List.range 16), (0x110, [16, 17, 18, 19])] := by
  obtain ⟨t, h1, h2, _⟩ := hex_write_read_round_trip 0x100 (List.range 20) (by decide)
    (by decide) (by decide)
  exact ⟨t, h1, h2⟩

/-- C15: the line `hex_write` emits for at most 16 bytes ends in the two's complement
modulo 256 of the sum of the length byte, the two address bytes, the type byte and the
data bytes, and so does every line of a longer span and the terminator line; the sum of
all bytes of such a line is 0 modulo 256, the checksum test of `hex_read` passes on it
(the callback is called, respectively 1 is returned). -/
theorem hex_write_checksum {σ : Type} (fn : σ → Nat → Nat → List Nat → Option σ) (p : σ)
    (addr len : Nat) (data : List Nat) (h1 : len ≤ HEX_MAX_BYTES)
    (h2 : len ≤ data.length) (h3 : ∀ b ∈ data, b < 0x100) :
    hex_write addr len data =
      some (record_text ([len, addr / 0x100 % 0x100, addr % 0x100, 0x00] ++ data.take len)) ∧
    (data ≠ [] → hex_write addr data.length data = some (lines_text (chunks addr data)) ∧
      ∀ c ∈ chunks addr data, data_record_text c.1 c.2 =
        record_text ([c.2.length, c.1 / 0x100 % 0x100, c.1 % 0x100, 0x00] ++ c.2)) ∧
    hex_write_end = record_text [0x00, 0x00, 0x00, 0x01] ∧
    twos_complement_sum [0x00, 0x00, 0x00, 0x01] = 0xff ∧
    (∀ bs, record_text bs = 58 :: hex_of_bytes (bs ++ [twos_complement_sum bs]) ++ [10] ∧
      twos_complement_sum bs = (0x100 - bs.sum % 0x100) % 0x100 ∧
      (bs ++ [twos_complement_sum bs]).sum % 0x100 = 0) ∧
    (∀ fuel b16 b32 rest q,
      (fn p ((b16 + b32 + addr % 0x10000) % 2 ^ 32) len
          (data.take len ++ [twos_complement_sum
            ([len, addr / 0x100 % 0x100, addr % 0x100, 0x00] ++ data.take len)]) = some q →
        hex_read_loop fn (fuel + 1) b16 b32
          (record_text ([len, addr / 0x100 % 0x100, addr % 0x100, 0x00] ++ data.take len)
            ++ rest) p = hex_read_loop fn fuel b16 b32 rest q) ∧
      hex_read_loop fn (fuel + 1) b16 b32 (hex_write_end ++ rest) p =
        hex_read_result.ok p) := by
  have hlen : (data.take len).length = len := by
    rw [List.length_take, Nat.min_eq_left h2]
  have htk : ∀ b ∈ data.take len, b < 0x100 := fun b hb => h3 b (List.mem_of_mem_take hb)
  simp only [HEX_MAX_BYTES] at h1
  have hrec : data_record_text addr (data.take len) =
      record_text ([len, addr / 0x100 % 0x100, addr % 0x100, 0x00] ++ data.take len) := by
    rw [data_record_text, hlen]
  refine ⟨?_, ?_, by decide, by decide, ?_, ?_⟩
  · rw [hex_write, if_pos (by simp only [HEX_MAX_BYTES]; exact h1),
      hex_write_line_eq addr len data h2 (by omega) h3, hrec]
  · intro hne
    exact ⟨hex_write_eq addr data hne h3, fun c _ => rfl⟩
  · intro bs
    refine ⟨rfl, rfl, ?_⟩
    rw [List.sum_append, List.sum_singleton]
    exact (twos_complement_sum_spec bs).2
  · intro fuel b16 b32 rest q
    refine ⟨fun hq => ?_, hex_read_loop_end fn fuel b16 b32 rest p⟩
    have := hex_read_loop_data_record fn fuel b16 b32 addr (data.take len) rest p
      (by rw [hlen]; simp only [HEX_MAX_DATA_LINE]; omega) htk
    rw [hrec, hlen] at this
    rw [this, hq]

/-- C15 on the three bytes `01 02 03` at address `0x1234`: the line `:03123400010203B1`. -/
theorem hex_write_checksum_witness :
    hex_write 0x1234 3 [1, 2, 3] = some (text ":03123400010203B1\n") ∧
    twos_complement_sum [3, 0x12, 0x34, 0, 1, 2, 3] = 0xb1 := by
  have h := (hex_write_checksum record_call [] 0x1234 3 [1, 2, 3] (by decide) (by decide)
    (by decide)).1
  exact ⟨by rw [h]; decide, by decide⟩

/-! ## Decoder -/

set_option maxRecDepth 100000 in
/-- C16, evaluated on the code: after a type-04 line and a type-02 line that both carry
`FFFF`, the data line with local address 0 reaches the callback with address `0x00FEFF00`,
which is not the sum `0x100FEFF00` of the two offset registers and the local address. -/
theorem hex_read_address_wraps :
    hex_read (some (text ":00FFFF04FE\n:00FFFF0200\n:01000000AA55\n")) record_call [] =
      hex_read_result.ok [(0x00feff00, [0xaa])] ∧
    (0xffff <<< 8) + (0xffff <<< 16) + 0 = 0x100feff00 := by
  decide

/-- C16 amended: on a line with a correct checksum and at most 64 data bytes, whose
16-bit address field is `ahi * 0x100 + alo`, one iteration of the loop of `hex_read`
does this.  Type 02 sets the low offset register to the field shifted left by 8 and
type 04 sets the high offset register to the field shifted left by 16, each leaving the
other register as it is; type 00 calls the callback once, with the sum of the two
registers and the field modulo `2 ^ 32` (the sum itself when it is below `2 ^ 32`) and
the data, both registers staying; type 01 returns 1 whatever follows; any other type
returns 0 with the message for an unrecognized line type.  `hex_read` starts the loop
with both registers 0. -/
theorem hex_read_record_types {σ : Type} (fn : σ → Nat → Nat → List Nat → Option σ)
    (fuel b16 b32 : Nat) (ds rest : List Nat) (p : σ) (len ahi alo ty : Nat) (tl : List Nat)
    (hrec : digits_bytes ds = some (len :: ahi :: alo :: ty :: tl))
    (htl : tl.length = len + 1) (hlen : len ≤ HEX_MAX_DATA_LINE)
    (hck : (len + ahi + alo + ty + tl.sum) % 0x100 = 0) :
    (ty = 0x02 → hex_read_loop fn (fuel + 1) b16 b32 (58 :: ds ++ rest) p =
      hex_read_loop fn fuel ((ahi * 0x100 + alo) <<< 8) b32 rest p) ∧
    (ty = 0x04 → hex_read_loop fn (fuel + 1) b16 b32 (58 :: ds ++ rest) p =
      hex_read_loop fn fuel b16 ((ahi * 0x100 + alo) <<< 16) rest p) ∧
    (ty = 0x00 → ∀ q,
      fn p ((b16 + b32 + (ahi * 0x100 + alo)) % 2 ^ 32) len tl = some q →
      hex_read_loop fn (fuel + 1) b16 b32 (58 :: ds ++ rest) p =
        hex_read_loop fn fuel b16 b32 rest q) ∧
    (b16 + b32 + (ahi * 0x100 + alo) < 2 ^ 32 →
      (b16 + b32 + (ahi * 0x100 + alo)) % 2 ^ 32 = b16 + b32 + (ahi * 0x100 + alo)) ∧
    (ty = 0x01 → hex_read_loop fn (fuel + 1) b16 b32 (58 :: ds ++ rest) p =
      hex_read_result.ok p) ∧
    (ty ≠ 0x00 ∧ ty ≠ 0x01 ∧ ty ≠ 0x02 ∧ ty ≠ 0x04 →
      hex_read_loop fn (fuel + 1) b16 b32 (58 :: ds ++ rest) p =
        hex_read_result.error hex_error.unrecognized_type p) ∧
    hex_error.unrecognized_type.is_format = true ∧
    (∀ inp, hex_read (some inp) fn p = hex_read_loop fn (inp.length + 1) 0 0 inp p) := by
  have key := hex_read_loop_record fn fuel b16 b32 ds rest p len ahi alo ty tl hrec htl hlen
  rw [if_neg (by rw [hck]; simp)] at key
  have hlt := digits_bytes_lt ds _ hrec
  have h1 : ahi < 0x100 := hlt ahi (by simp)
  have h2 : alo < 0x100 := hlt alo (by simp)
  have s8 : (ahi * 0x100 + alo) <<< 8 = ((ahi * 0x100 + alo) * 0x100) % 2 ^ 32 := by
    rw [Nat.shiftLeft_eq]; omega
  have s16 : (ahi * 0x100 + alo) <<< 16 = ((ahi * 0x100 + alo) * 0x10000) % 2 ^ 32 := by
    rw [Nat.shiftLeft_eq]; omega
  refine ⟨?_, ?_, ?_, fun h => Nat.mod_eq_of_lt h, ?_, ?_, rfl, fun _ => rfl⟩
  · intro t
    subst t
    rw [key, s8]
    simp
  · intro t
    subst t
    rw [key, s16]
    simp
  · intro t q hq
    subst t
    rw [key, if_pos rfl, hq]
  · intro t
    subst t
    rw [key]
    simp
  · rintro ⟨t0, t1, t2, t4⟩
    rw [key, if_neg t0, if_neg t1, if_neg t2, if_neg t4]

set_option maxRecDepth 100000 in
/-- C16 on the line `:00000104FB` of type 04: the high offset register becomes `0x10000`,
and with the line `:00001002EE` of type 02 after it the data line at local address
`0x0020` is delivered at `0x11020`; what follows the terminator line is not read. -/
theorem hex_read_record_types_witness :
    hex_read_loop record_call 5 0 0 (text ":00000104FB\n:02002000112299\n") [] =
      hex_read_loop record_call 4 0 0x10000 (text "\n:02002000112299\n") [] ∧
    hex_read (some (text ":00000104FB\n:00001002EE\n:020020001122AB\n:00000001FF\nxyz"))
      record_call [] = hex_read_result.ok [(0x11020, [0x11, 0x22])] := by
  refine ⟨?_, by decide⟩
  exact (hex_read_record_types record_call 4 0 0 (text "00000104FB")
    (text "\n:02002000112299\n") [] 0 0 1 4 [0xfb] (by decide) (by decide) (by decide)
    (by decide)).2.1 rfl

/-- C17: a line whose length field is above 64 makes the loop of `hex_read` return 0 with
a message for a malformed line, the parameter of the callback as it was: `line too long!`
when the eight digits of the header are there.  A line of length exactly 64 with a
correct checksum is delivered to the callback with length 64 and its 64 data bytes.  The
data loop, entered for a length of at most 64 only, stores `len + 1` bytes, at the
indexes 0 to 64 at most. -/
theorem hex_read_length_limit {σ : Type} (fn : σ → Nat → Nat → List Nat → Option σ)
    (fuel b16 b32 : Nat) (p : σ) :
    (∀ inp r0 len r1, hex_seek inp = hex_seek_result.colon r0 →
      scan_x 2 r0 = some (len, r1) → len > HEX_MAX_DATA_LINE →
      ∃ e, hex_read_loop fn (fuel + 1) b16 b32 inp p = hex_read_result.error e p ∧
        e.is_format = true) ∧
    (∀ hd rest len ahi alo ty, digits_bytes hd = some [len, ahi, alo, ty] →
      len > HEX_MAX_DATA_LINE →
      hex_read_loop fn (fuel + 1) b16 b32 (58 :: hd ++ rest) p =
        hex_read_result.error hex_error.line_too_long p) ∧
    (∀ ds rest ahi alo tl q,
      digits_bytes ds = some (HEX_MAX_DATA_LINE :: ahi :: alo :: 0x00 :: tl) →
      tl.length = HEX_MAX_DATA_LINE + 1 →
      (HEX_MAX_DATA_LINE + ahi + alo + 0x00 + tl.sum) % 0x100 = 0 →
      fn p ((b16 + b32 + (ahi * 0x100 + alo)) % 2 ^ 32) HEX_MAX_DATA_LINE tl = some q →
      hex_read_loop fn (fuel + 1) b16 b32 (58 :: ds ++ rest) p =
        hex_read_loop fn fuel b16 b32 rest q ∧ (tl.take HEX_MAX_DATA_LINE).length = 64) ∧
    (∀ len inp ck data c r, len ≤ HEX_MAX_DATA_LINE →
      hex_read_data (len + 1) inp [] ck = some (data, c, r) →
      data.length = len + 1 ∧ data.length ≤ HEX_MAX_DATA_LINE + 1) := by
  refine ⟨?_, ?_, ?_, ?_⟩
  · intro inp r0 len r1 hs h1 hl
    rw [hex_read_loop]
    simp only [hs, h1]
    cases s2 : scan_x 4 r1 with
    | none => exact ⟨_, rfl, rfl⟩
    | some q2 =>
      obtain ⟨addr, r2⟩ := q2
      simp only
      cases s3 : scan_x 2 r2 with
      | none => exact ⟨_, rfl, rfl⟩
      | some q3 =>
        obtain ⟨type, r3⟩ := q3
        simp only
        rw [if_pos hl]
        exact ⟨_, rfl, rfl⟩
  · intro hd rest len ahi alo ty h hl
    rw [hex_read_loop_header fn fuel b16 b32 hd rest p len ahi alo ty h, if_pos hl]
  · intro ds rest ahi alo tl q h htl hck hq
    have key := hex_read_loop_record fn fuel b16 b32 ds rest p _ ahi alo 0 tl h htl (le_refl _)
    rw [if_neg (by rw [hck]; simp), if_pos rfl, hq] at key
    refine ⟨key, ?_⟩
    rw [List.length_take, htl]
    rfl
  · intro len inp ck data c r hl h
    have := (hex_read_data_length _ _ _ _ _ _ _ h).2
    simp only [List.length_nil, Nat.zero_add] at this
    simp only [HEX_MAX_DATA_LINE] at hl ⊢
    omega

/-- C17 on the header `:41000000` that announces 65 data bytes. -/
theorem hex_read_length_limit_witness :
    hex_read_loop record_call 1 0 0 (text ":41000000") [] =
      hex_read_result.error hex_error.line_too_long [] :=
  (hex_read_length_limit record_call 0 0 0 []).2.1 (text "41000000") [] 0x41 0 0 0
    (by decide) (by decide)

/-- C18: in the loop of `hex_read` a run of white space before a line is skipped; at the
end of the input, reached there, the loop returns 1: on empty input, on white space
only, and after a data line when no terminator line follows; a character that is
neither white space nor the colon makes it return 0 with the message for unexpected
characters, the parameter of the callback as the calls made before left it. -/
theorem hex_read_seek {σ : Type} (fn : σ → Nat → Nat → List Nat → Option σ)
    (fuel b16 b32 : Nat) (ws : List Nat) (p : σ) (hws : ∀ c ∈ ws, isspace c = true) :
    (∀ inp, hex_read_loop fn fuel b16 b32 (ws ++ inp) p =
      hex_read_loop fn fuel b16 b32 inp p) ∧
    hex_read_loop fn (fuel + 1) b16 b32 ws p = hex_read_result.ok p ∧
    hex_read (some ws) fn p = hex_read_result.ok p ∧
    hex_read (some []) fn p = hex_read_result.ok p ∧
    (∀ c rest, c ≠ 58 → isspace c = false →
      hex_read_loop fn (fuel + 1) b16 b32 (ws ++ c :: rest) p =
        hex_read_result.error hex_error.unexpected_characters p ∧
      hex_read (some (ws ++ c :: rest)) fn p =
        hex_read_result.error hex_error.unexpected_characters p) ∧
    hex_error.unexpected_characters.is_format = true ∧
    (∀ addr d, d.length ≤ HEX_MAX_DATA_LINE → (∀ b ∈ d, b < 0x100) →
      hex_read (some (data_record_text addr d ++ ws)) record_call [] =
        hex_read_result.ok [(addr % 0x10000, d)] ∧
      ∀ c rest, c ≠ 58 → isspace c = false →
        hex_read (some (data_record_text addr d ++ ws ++ c :: rest)) record_call [] =
          hex_read_result.error hex_error.unexpected_characters [(addr % 0x10000, d)]) := by
  have hnil : ∀ f b16 b32 (q : σ),
      hex_read_loop fn (f + 1) b16 b32 ws q = hex_read_result.ok q := by
    intro f b16 b32 q
    have := hex_read_loop_spaces fn (f + 1) b16 b32 ws [] q hws
    rw [List.append_nil] at this
    rw [this, hex_read_loop_nil]
  have hbad : ∀ f b16 b32 (q : σ) c rest, c ≠ 58 → isspace c = false →
      hex_read_loop fn (f + 1) b16 b32 (ws ++ c :: rest) q =
        hex_read_result.error hex_error.unexpected_characters q := by
    intro f b16 b32 q c rest h1 h2
    rw [hex_read_loop_spaces fn (f + 1) b16 b32 ws _ q hws,
      hex_read_loop_unexpected fn f b16 b32 c rest q h1 h2]
  refine ⟨fun inp => hex_read_loop_spaces fn fuel b16 b32 ws inp p hws, hnil _ _ _ _,
    hnil ws.length 0 0 p, hex_read_loop_nil fn 0 0 0 p,
    fun c rest h1 h2 => ⟨hbad _ _ _ _ c rest h1 h2,
      hbad (ws ++ c :: rest).length 0 0 p c rest h1 h2⟩, rfl, ?_⟩
  intro addr d hlen hd
  have hpos : ∀ r : List Nat, ∃ f, (data_record_text addr d ++ r).length = f + 1 := by
    intro r
    refine ⟨(data_record_text addr d ++ r).length - 1, ?_⟩
    simp only [data_record_text, record_text, List.cons_append, List.length_cons]
    omega
  have hm : (0 + 0 + addr % 0x10000) % 2 ^ 32 = addr % 0x10000 := by omega
  constructor
  · obtain ⟨f, hf⟩ := hpos ws
    rw [hex_read, hf, hex_read_loop_data_record record_call _ 0 0 addr d ws [] hlen hd]
    simp only [record_call, List.take_left', List.nil_append, hm]
    have := hex_read_loop_spaces record_call (f + 1) 0 0 ws [] [(addr % 0x10000, d)] hws
    rw [List.append_nil] at this
    rw [this, hex_read_loop_nil]
  · intro c rest h1 h2
    obtain ⟨f, hf⟩ := hpos (ws ++ c :: rest)
    rw [List.append_assoc, hex_read, hf,
      hex_read_loop_data_record record_call _ 0 0 addr d _ [] hlen hd]
    simp only [record_call, List.take_left', List.nil_append, hm]
    rw [hex_read_loop_spaces record_call (f + 1) 0 0 ws _ _ hws,
      hex_read_loop_unexpected record_call f 0 0 c rest _ h1 h2]

/-- C18 on the white space `" \n\t"`: alone it is accepted, followed by `x` it is not. -/
theorem hex_read_seek_witness :
    hex_read (some (text " \n\t")) record_call [] = hex_read_result.ok [] ∧
    hex_read (some (text " \n\tx:00000001FF")) record_call [] =
      hex_read_result.error hex_error.unexpected_characters [] := by
  have h := hex_read_seek record_call 0 0 0 (text " \n\t") [] (by decide)
  exact ⟨h.2.2.1, (h.2.2.2.2.1 120 (text ":00000001FF") (by decide) (by decide)).2⟩

/-! ## Zero-length spans -/

/-- C20, evaluated on the code: the 16F716 has EEPROM length 0, and for its EEPROM span
the loop body of `pic14_hex_write` emits a line all the same, the line `:00420000BE` of
type 00 without data. -/
theorem zero_length_span_emits_a_line :
    dev_16F716 ∈ supported_devices ∧
    (pic14_program_spans (fresh_state dev_16F716))[SPAN_EEPROM]? =
      some { desc := "EEPROM (8-bit data)", addr := 0x2100, len := 0, data := pic14_ref.ee } ∧
    pic14_hex_write_span (fresh_state dev_16F716)
      { desc := "EEPROM (8-bit data)", addr := 0x2100, len := 0, data := pic14_ref.ee } =
      some (text ":00420000BE\n") := by
  refine ⟨by decide, by decide, by decide⟩

/-- C20 amended: for a span of length 0 the loop body of `pic14_hex_write` emits exactly
one line, of type 00 with length byte 0 and no data; read back, this line leaves the
state as it is; and the test of `pic14_write_word` claims no address for the span. -/
theorem zero_length_span (p : pic14_state) (sp : pic14_span) (h0 : sp.len = 0) :
    pic14_hex_write_span p sp = some (data_record_text (2 * sp.addr) []) ∧
    data_record_text (2 * sp.addr) [] =
      58 :: hex_of_bytes [0, 2 * sp.addr / 0x100 % 0x100, 2 * sp.addr % 0x100, 0x00,
        twos_complement_sum [0, 2 * sp.addr / 0x100 % 0x100, 2 * sp.addr % 0x100, 0x00]]
        ++ [10] ∧
    (∀ fuel b16 b32 rest (q : pic14_state),
      hex_read_loop pic14_hex_segment (fuel + 1) b16 b32
          (data_record_text (2 * sp.addr) [] ++ rest) q =
        hex_read_loop pic14_hex_segment fuel b16 b32 rest q) ∧
    (∀ a, sp.contains a = false) := by
  refine ⟨?_, rfl, ?_, ?_⟩
  · have hl : (2 * sp.len) % 2 ^ 32 = ([] : List Nat).length := by rw [h0]; rfl
    rw [pic14_hex_write_span, h0]
    simp only [span_bytes_loop]
    rw [Nat.mul_zero, Nat.zero_mod, hex_write, if_pos (Nat.zero_le _),
      hex_write_line_eq _ 0 [] (le_refl _) (by norm_num) (by simp)]
    rw [List.take_nil, data_record_text_congr ((2 * sp.addr) % 2 ^ 32) (2 * sp.addr) []
      (by omega)]
  · intro fuel b16 b32 rest q
    rw [hex_read_loop_data_record pic14_hex_segment fuel b16 b32 _ [] rest q (by simp)
      (by simp)]
    simp [pic14_hex_segment, pic14_hex_segment_loop]
  · intro a
    simp only [pic14_span.contains, h0, Nat.add_zero, decide_eq_false_iff_not, not_and,
      not_lt]
    intro h
    exact le_trans (Nat.mod_le _ _) h

/-- C20 on an EEPROM span of length 0 at `0x2100`, which is the address `0x4200` in bytes. -/
theorem zero_length_span_witness :
    pic14_hex_write_span zero_state
      { desc := "EEPROM (8-bit data)", addr := 0x2100, len := 0, data := pic14_ref.ee } =
      some (data_record_text 0x4200 []) ∧
    (∀ a, pic14_span.contains
      { desc := "EEPROM (8-bit data)", addr := 0x2100, len := 0, data := pic14_ref.ee } a =
        false) := by
  have h := zero_length_span zero_state
    { desc := "EEPROM (8-bit data)", addr := 0x2100, len := 0, data := pic14_ref.ee } rfl
  exact ⟨h.1, h.2.2.2⟩

/-! ## A changed digit -/

/-- Changing the value of one digit changes exactly the byte it belongs to. -/
theorem digits_bytes_set (ds bs : List Nat) (i c v : Nat) (h : digits_bytes ds = some bs)
    (hi : i < ds.length) (hv : hex_value c = some v)
    (hne : hex_value (ds.getD i 0) ≠ some v) :
    ∃ b, b < 0x100 ∧ b ≠ bs.getD (i / 2) 0 ∧ i / 2 < bs.length ∧
      digits_bytes (ds.set i c) = some (bs.set (i / 2) b) := by
  induction bs generalizing ds i with
  | nil =>
    have := digits_bytes_nil ds h
    subst this
    simp at hi
  | cons b0 bs ih =>
    obtain ⟨c1, c2, v1, v2, ds', e, h1, h2, hb, h3⟩ := digits_bytes_cons ds b0 bs h
    subst e
    have l1 := (hex_value_some c1 v1 h1).1
    have l2 := (hex_value_some c2 v2 h2).1
    have lv := (hex_value_some c v hv).1
    match i, hi, hne with
    | 0, _, hne =>
      simp only [List.getD_cons_zero, h1, ne_eq, Option.some.injEq] at hne
      refine ⟨v * 16 + v2, by omega, ?_, by simp, ?_⟩
      · simp only [Nat.zero_div, List.getD_cons_zero]
        omega
      · simp [digits_bytes, hv, h2, h3]
    | 1, _, hne =>
      simp only [List.getD_cons_succ, List.getD_cons_zero, h2, ne_eq, Option.some.injEq] at hne
      refine ⟨v1 * 16 + v, by omega, ?_, by simp, ?_⟩
      · simp only [Nat.reduceDiv, List.getD_cons_zero]
        omega
      · simp [digits_bytes, hv, h1, h3]
    | j + 2, hi, hne =>
      simp only [List.getD_cons_succ] at hne
      simp only [List.length_cons] at hi
      obtain ⟨b, hb1, hb2, hb3, hb4⟩ := ih ds' j h3 (by omega) hne
      have e : (j + 2) / 2 = j / 2 + 1 := by omega
      refine ⟨b, hb1, ?_, ?_, ?_⟩
      · rw [e, List.getD_cons_succ]
        exact hb2
      · rw [e]
        simp only [List.length_cons]
        omega
      · rw [e]
        simp [digits_bytes, h1, h2, hb4, hb]

theorem sum_set (bs : List Nat) (j b : Nat) (h : j < bs.length) :
    (bs.set j b).sum + bs.getD j 0 = bs.sum + b := by
  induction bs generalizing j with
  | nil => simp at h
  | cons x xs ih =>
    cases j with
    | zero => simp; omega
    | succ j =>
      simp only [List.length_cons] at h
      have := ih j (by omega)
      simp only [List.set_cons_succ, List.sum_cons, List.getD_cons_succ]
      omega

/-- A line with at most 64 data bytes whose bytes do not add up to 0 modulo 256 makes
the loop of `hex_read` return 0 with the message for a checksum mismatch. -/
theorem hex_read_loop_bad_checksum {σ : Type} (fn : σ → Nat → Nat → List Nat → Option σ)
    (fuel b16 b32 : Nat) (ds rest : List Nat) (p : σ) (bs : List Nat)
    (h : digits_bytes ds = some bs) (hlen : bs.length = bs.getD 0 0 + 5)
    (h64 : bs.getD 0 0 ≤ HEX_MAX_DATA_LINE) (hsum : bs.sum % 0x100 ≠ 0) :
    hex_read_loop fn (fuel + 1) b16 b32 (58 :: ds ++ rest) p =
      hex_read_result.error hex_error.checksum_mismatch p := by
  match bs, h, hlen, h64, hsum with
  | len :: ahi :: alo :: ty :: tl, h, hlen, h64, hsum =>
    simp only [List.getD_cons_zero, List.length_cons] at hlen h64
    have key := hex_read_loop_record fn fuel b16 b32 ds rest p len ahi alo ty tl h
      (by omega) h64
    simp only [List.sum_cons] at hsum
    rw [key, if_pos (by omega)]
  | [], _, hlen, _, _ => simp at hlen
  | [_], _, hlen, _, _ => simp at hlen
  | [_, _], _, hlen, _, _ => simp at hlen
  | [_, _, _], _, hlen, _, _ => simp at hlen

theorem digits_bytes_append_split (xs ys ds : List Nat)
    (h : digits_bytes ds = some (xs ++ ys)) :
    ∃ d1 d2, ds = d1 ++ d2 ∧ digits_bytes d1 = some xs ∧ digits_bytes d2 = some ys := by
  induction xs generalizing ds with
  | nil => exact ⟨[], ds, rfl, rfl, h⟩
  | cons x xs ih =>
    obtain ⟨c1, c2, v1, v2, ds', e, h1, h2, hb, h3⟩ := digits_bytes_cons ds x (xs ++ ys) h
    obtain ⟨d1, d2, e', g1, g2⟩ := ih ds' h3
    refine ⟨c1 :: c2 :: d1, d2, by rw [e, e']; rfl, ?_, g2⟩
    simp [digits_bytes, h1, h2, g1, hb]

/-- The data loop of `hex_read` fails when the digits end before the bytes it wants. -/
theorem hex_read_data_short (ds bs rest acc : List Nat) (ck m : Nat)
    (h : digits_bytes ds = some bs) (hr : scan_x 2 rest = none) :
    hex_read_data (bs.length + (m + 1)) (ds ++ rest) acc ck = none := by
  induction bs generalizing ds acc ck with
  | nil =>
    have := digits_bytes_nil ds h
    subst this
    simp [hex_read_data, hr]
  | cons b bs ih =>
    obtain ⟨c1, c2, v1, v2, ds', hds, h1, h2, hb, h3⟩ := digits_bytes_cons ds b bs h
    subst hds
    have e : (b :: bs).length + (m + 1) = (bs.length + (m + 1)) + 1 := by
      simp only [List.length_cons]; omega
    rw [e]
    simp only [List.cons_append, hex_read_data, scan_x_two c1 c2 v1 v2 (ds' ++ rest) h1 h2]
    exact ih ds' _ _ h3

theorem getD_lt (l : List Nat) (j n : Nat) (h : ∀ x ∈ l, x < n) (hn : 0 < n) :
    l.getD j 0 < n := by
  rw [List.getD_eq_getElem?_getD]
  cases hj : l[j]? with
  | none => exact hn
  | some x => exact h x (List.getElem?_mem hj)

set_option maxRecDepth 100000 in
/-- C2, evaluated on the code: the line `:0000000000` is a valid data record; with its
first digit replaced by `5` the length field reads 80 and `hex_read` fails with the
message `line too long!`, not with the checksum message.  And with the first length
digit of the valid line `:0100000000FF` replaced by `0` the checksum test passes on the
shortened line, the callback is called with no data, and `hex_read` fails afterwards
with the message `unexpected characters!`. -/
theorem length_digit_flip_other_errors :
    is_data_record (text "0000000000") 0 0 0 [0] ∧
    hex_read (some (text ":0000000000\n")) record_call [] = hex_read_result.ok [(0, [])] ∧
    hex_read (some (text ":5000000000\n")) record_call [] =
      hex_read_result.error hex_error.line_too_long [] ∧
    is_data_record (text "0100000000FF") 1 0 0 [0, 0xff] ∧
    hex_read (some (text ":0000000000FF\n")) record_call [] =
      hex_read_result.error hex_error.unexpected_characters [(0, [])] := by
  refine ⟨⟨by decide, by decide, by decide, by decide⟩, by decide, by decide,
    ⟨by decide, by decide, by decide, by decide⟩, by decide⟩

/-- C2 amended: in a valid data record, a digit replaced by a hexadecimal digit of another
value makes `hex_read` return 0.  When the digit is outside the length field (in the
address, the type, the data or the checksum) the message is the one for a checksum
mismatch and the callback is not called.  When it is one of the two length digits, the
line being followed by no further digits and the callback returning, `hex_read`
returns 0 with one of its other messages or with the checksum message. -/
theorem hex_read_digit_flip {σ : Type} (fn : σ → Nat → Nat → List Nat → Option σ) (p : σ)
    (ds rest : List Nat) (len ahi alo : Nat) (tl : List Nat) (i c v : Nat)
    (hrec : is_data_record ds len ahi alo tl) (hi : i < ds.length)
    (hv : hex_value c = some v) (hne : hex_value (ds.getD i 0) ≠ some v) :
    (2 ≤ i → hex_read (some (58 :: ds.set i c ++ rest)) fn p =
      hex_read_result.error hex_error.checksum_mismatch p) ∧
    (i < 2 → scan_x 2 rest = none → (∀ q a n d, fn q a n d ≠ none) →
      ∃ e q, hex_read (some (58 :: ds.set i c ++ rest)) fn p = hex_read_result.error e q) := by
  obtain ⟨hds, htl, h64, hsum⟩ := hrec
  obtain ⟨b, hb1, hb2, hb3, hb4⟩ := digits_bytes_set ds _ i c v hds hi hv hne
  have hlt := digits_bytes_lt ds _ hds
  constructor
  · intro h2
    obtain ⟨j, hj⟩ : ∃ j, i / 2 = j + 1 := ⟨i / 2 - 1, by omega⟩
    have hold := getD_lt _ (i / 2) 0x100 hlt (by norm_num)
    have hs := sum_set _ (i / 2) b hb3
    rw [hj] at hb4 hs hold hb2
    simp only [List.set_cons_succ] at hb4 hs
    simp only [List.sum_cons] at hs hsum
    rw [hex_read]
    apply hex_read_loop_bad_checksum fn _ 0 0 _ rest p _ hb4
    · simp only [List.length_cons, List.length_set, List.getD_cons_zero]
      omega
    · exact h64
    · simp only [List.sum_cons]
      omega
  · intro h2 hr hfn
    have hi0 : i / 2 = 0 := by omega
    rw [hi0] at hb4 hb2
    simp only [List.set_cons_zero, List.getD_cons_zero] at hb4 hb2
    obtain ⟨hd, dtl, e, g1, g2⟩ := digits_bytes_append_split [b, ahi, alo, 0] tl _ hb4
    have e' : 58 :: ds.set i c ++ rest = 58 :: hd ++ (dtl ++ rest) := by
      rw [e]; simp
    obtain ⟨f, hf⟩ : ∃ f, (58 :: hd ++ (dtl ++ rest)).length = f + 1 + 1 := by
      refine ⟨(58 :: hd ++ (dtl ++ rest)).length - 2, ?_⟩
      have : (ds.set i c).length = hd.length + dtl.length := by rw [e, List.length_append]
      rw [List.length_set] at this
      simp only [List.cons_append, List.length_cons, List.length_append]
      omega
    rw [hex_read, e', hf,
      hex_read_loop_header fn _ 0 0 hd (dtl ++ rest) p b ahi alo 0 g1]
    by_cases hl : b > HEX_MAX_DATA_LINE
    · rw [if_pos hl]
      exact ⟨_, _, rfl⟩
    · rw [if_neg hl]
      by_cases hgt : len < b
      · have hm : b + 1 = tl.length + ((b - len - 1) + 1) := by omega
        rw [hm, hex_read_data_short dtl tl rest [] _ _ g2 hr]
        exact ⟨_, _, rfl⟩
      · have hlt' : b < len := by omega
        have hsplit : tl = tl.take (b + 1) ++ tl.drop (b + 1) :=
          (List.take_append_drop (b + 1) tl).symm
        rw [hsplit] at g2
        obtain ⟨d1, d2, e2, k1, k2⟩ := digits_bytes_append_split _ _ _ g2
        have hlen1 : (tl.take (b + 1)).length = b + 1 := by
          rw [List.length_take]; omega
        obtain ⟨x, hx, _⟩ := hex_read_data_digits d1 (tl.take (b + 1)) (d2 ++ rest) []
          ((b + ((ahi * 0x100 + alo) + (ahi * 0x100 + alo) / 0x100) + 0) % 2 ^ 32) k1
        rw [hlen1] at hx
        rw [e2, List.append_assoc, hx]
        simp only []
        by_cases hc : x % 0x100 ≠ 0
        · rw [if_pos hc]
          exact ⟨_, _, rfl⟩
        · rw [if_neg hc, if_pos trivial]
          cases hq : fn p ((0 + 0 + (ahi * 0x100 + alo)) % 2 ^ 32) b ([] ++ tl.take (b + 1)) with
          | none => exact absurd hq (hfn _ _ _ _)
          | some q =>
            simp only []
            have hne2 : tl.drop (b + 1) ≠ [] := by
              intro h0
              have := congrArg List.length h0
              rw [List.length_drop] at this
              simp only [List.length_nil] at this
              omega
            obtain ⟨y, ys, hy⟩ := List.exists_cons_of_ne_nil hne2
            rw [hy] at k2
            obtain ⟨c1, c2, v1, v2, d2', e3, m1, _, _, _⟩ := digits_bytes_cons d2 y ys k2
            obtain ⟨_, _, _, _, _, n58, nsp, _⟩ := hex_value_some c1 v1 m1
            rw [e3, List.cons_append]
            exact ⟨_, _, hex_read_loop_unexpected fn (f + 1) 0 0 c1 _ q n58 nsp⟩

/-- C2 on the line `:0100000000FF` with its last digit replaced by `E`. -/
theorem hex_read_digit_flip_witness :
    hex_read (some (text ":0100000000FE\n")) record_call [] =
      hex_read_result.error hex_error.checksum_mismatch [] :=
  (hex_read_digit_flip record_call [] (text "0100000000FF") (text "\n") 1 0 0 [0, 0xff]
    11 69 14 ⟨by decide, by decide, by decide, by decide⟩ (by decide) (by decide)
    (by decide)).1 (by decide)

/-! ## Program files -/

theorem lines_text_append (xs ys : List (Nat × List Nat)) :
    lines_text (xs ++ ys) = lines_text xs ++ lines_text ys := by
  induction xs with
  | nil => rfl
  | cons x xs ih => simp [lines_text, ih]

/-- The byte conversion loop of `pic14_hex_write` is defined when the reads are within
the arrays, and gives two bytes per word. -/
theorem span_bytes_loop_defined (p : pic14_state) (sp : pic14_span) (k w : Nat)
    (hread : ∀ i, w ≤ i → i < w + k → ∃ v, sp.data.read p i = some v)
    (hb : w + k ≤ PIC14_INST_LEN) :
    ∃ bs, span_bytes_loop p sp k w = some bs ∧ bs.length = 2 * k ∧ ∀ b ∈ bs, b < 0x100 := by
  induction k generalizing w with
  | zero => exact ⟨[], rfl, rfl, by simp⟩
  | succ k ih =>
    obtain ⟨v, hv⟩ := hread w (le_refl _) (by omega)
    obtain ⟨bs, h1, h2, h3⟩ := ih (w + 1) (fun i h1 h2 => hread i (by omega) (by omega))
      (by omega)
    refine ⟨v % 0x100 :: (v / 0x100) % 0x100 :: bs, ?_, ?_, ?_⟩
    · rw [span_bytes_loop, hv]
      simp only
      rw [if_pos (by omega), h1]
    · simp only [List.length_cons, h2]
      omega
    · intro b hb'
      simp only [List.mem_cons] at hb'
      rcases hb' with h | h | h
      · omega
      · omega
      · exact h3 b h

/-- The reads of `pic14_hex_write` over the declared length of a span stay within the
arrays of a state whose declared lengths fit them. -/
theorem sized_span_reads (p : pic14_state) (hp : p.sized) (sp : pic14_span)
    (hsp : sp ∈ pic14_program_spans p) :
    sp.len ≤ PIC14_INST_LEN ∧ ∀ i, i < sp.len → ∃ v, sp.data.read p i = some v := by
  obtain ⟨h1, h2, h3, h4, h5⟩ := hp
  simp only [PIC14_INST_LEN, PIC14_EE_LEN, PIC14_ID_LEN] at h1 h2 h3 h4 h5 ⊢
  simp only [pic14_program_spans, List.mem_cons, List.mem_singleton, List.not_mem_nil,
    or_false] at hsp
  rcases hsp with h | h | h | h | h <;> subst h <;> simp only [pic14_ref.read, PIC14_ID_LEN]
  · exact ⟨h4, fun i hi => ⟨_, List.getElem?_eq_getElem (by omega)⟩⟩
  · exact ⟨by omega, fun i hi => ⟨_, List.getElem?_eq_getElem (by omega)⟩⟩
  · exact ⟨by omega, fun i hi => ⟨_, by rw [if_pos (by omega)]⟩⟩
  · exact ⟨by omega, fun i hi => ⟨_, List.getElem?_eq_getElem (by omega)⟩⟩
  · exact ⟨by omega, fun i hi => ⟨_, by rw [if_pos (by omega)]⟩⟩

/-- What `pic14_hex_write` emits for one span is a sequence of lines of type 00. -/
theorem pic14_hex_write_span_lines (p : pic14_state) (hp : p.sized) (sp : pic14_span)
    (hsp : sp ∈ pic14_program_spans p) :
    ∃ cs, pic14_hex_write_span p sp = some (lines_text cs) ∧
      ∀ c ∈ cs, c.2.length ≤ HEX_MAX_DATA_LINE ∧ ∀ b ∈ c.2, b < 0x100 := by
  obtain ⟨hl, hr⟩ := sized_span_reads p hp sp hsp
  obtain ⟨bs, h1, h2, h3⟩ := span_bytes_loop_defined p sp sp.len 0
    (fun i _ hi => hr i (by omega)) (by omega)
  simp only [PIC14_INST_LEN] at hl
  have hlen : (2 * sp.len) % 2 ^ 32 = bs.length := by rw [h2]; omega
  rw [pic14_hex_write_span, h1]
  simp only
  rw [hlen]
  by_cases hnil : bs = []
  · subst hnil
    refine ⟨[((2 * sp.addr) % 2 ^ 32, [])], ?_, by simp⟩
    rw [List.length_nil, hex_write, if_pos (Nat.zero_le _),
      hex_write_line_eq _ 0 [] (le_refl _) (by norm_num) (by simp)]
    simp [lines_text]
  · refine ⟨chunks ((2 * sp.addr) % 2 ^ 32) bs, hex_write_eq _ bs hnil h3, ?_⟩
    intro c hc
    obtain ⟨k, _, rfl⟩ := mem_chunks _ bs c hc
    refine ⟨?_, fun b hb => h3 b (List.mem_of_mem_drop (List.mem_of_mem_take hb))⟩
    simp only [List.length_take, HEX_MAX_DATA_LINE]
    omega

theorem pic14_hex_write_spans_lines (p : pic14_state) (hp : p.sized) (l : List pic14_span)
    (hl : ∀ sp ∈ l, sp ∈ pic14_program_spans p) :
    ∃ cs, pic14_hex_write_spans p l = some (lines_text cs) ∧
      ∀ c ∈ cs, c.2.length ≤ HEX_MAX_DATA_LINE ∧ ∀ b ∈ c.2, b < 0x100 := by
  induction l with
  | nil => exact ⟨[], rfl, by simp⟩
  | cons sp l ih =>
    obtain ⟨cs1, h1, v1⟩ := pic14_hex_write_span_lines p hp sp (hl sp (List.mem_cons_self _ _))
    obtain ⟨cs2, h2, v2⟩ := ih (fun x hx => hl x (List.mem_cons_of_mem _ hx))
    refine ⟨cs1 ++ cs2, ?_, ?_⟩
    · rw [pic14_hex_write_spans, h1]
      simp only
      rw [h2, lines_text_append]
    · intro c hc
      rcases List.mem_append.mp hc with h | h
      · exact v1 c h
      · exact v2 c h

theorem pic14_hex_write_spans_append (p : pic14_state) (l1 l2 : List pic14_span)
    (t1 t2 : List Nat) (h1 : pic14_hex_write_spans p l1 = some t1)
    (h2 : pic14_hex_write_spans p l2 = some t2) :
    pic14_hex_write_spans p (l1 ++ l2) = some (t1 ++ t2) := by
  induction l1 generalizing t1 with
  | nil =>
    simp only [pic14_hex_write_spans, Option.some.injEq] at h1
    subst h1
    simpa using h2
  | cons sp l ih =>
    rw [pic14_hex_write_spans] at h1
    cases hs : pic14_hex_write_span p sp with
    | none => rw [hs] at h1; simp at h1
    | some a =>
      rw [hs] at h1
      simp only at h1
      cases hr : pic14_hex_write_spans p l with
      | none => rw [hr] at h1; simp at h1
      | some b =>
        rw [hr] at h1
        simp only [Option.some.injEq] at h1
        subst h1
        rw [List.cons_append, pic14_hex_write_spans, hs]
        simp only
        rw [ih b hr]
        simp

/-- The loop of `hex_read` on lines of type 00 as the encoder writes them, for a
callback that returns on every state of a class it does not leave. -/
theorem hex_read_loop_lines_inv {σ : Type} (fn : σ → Nat → Nat → List Nat → Option σ)
    (inv : σ → Prop) (hfn : ∀ q a n d, inv q → ∃ r, fn q a n d = some r ∧ inv r)
    (cs : List (Nat × List Nat)) (fuel b16 b32 : Nat) (rest : List Nat) (p : σ)
    (hcs : ∀ c ∈ cs, c.2.length ≤ HEX_MAX_DATA_LINE ∧ ∀ b ∈ c.2, b < 0x100)
    (hp : inv p) :
    ∃ q, inv q ∧ hex_read_loop fn (fuel + cs.length) b16 b32 (lines_text cs ++ rest) p =
      hex_read_loop fn fuel b16 b32 rest q := by
  induction cs generalizing p with
  | nil => exact ⟨p, hp, by simp [lines_text]⟩
  | cons c cs ih =>
    obtain ⟨h1, h2⟩ := hcs c (List.mem_cons_self _ _)
    have e : fuel + (c :: cs).length = (fuel + cs.length) + 1 := rfl
    obtain ⟨r, hr, hinv⟩ := hfn p ((b16 + b32 + c.1 % 0x10000) % 2 ^ 32) c.2.length
      (c.2 ++ [twos_complement_sum
        ([c.2.length, c.1 / 0x100 % 0x100, c.1 % 0x100, 0] ++ c.2)]) hp
    obtain ⟨q, hq, hrun⟩ := ih r (fun x hx => hcs x (List.mem_cons_of_mem _ hx)) hinv
    refine ⟨q, hq, ?_⟩
    rw [e, lines_text, List.append_assoc,
      hex_read_loop_data_record fn _ b16 b32 c.1 c.2 _ p h1 h2, hr]
    exact hrun

theorem pic14_program_spans_congr (p q : pic14_state)
    (h1 : q.program.inst_len = p.program.inst_len)
    (h2 : q.program.ee_len = p.program.ee_len) :
    pic14_program_spans q = pic14_program_spans p := by
  simp only [pic14_program_spans, h1, h2]

theorem pic14_hex_segment_loop_defined (spans : List pic14_span) (addr : Nat)
    (src : List Nat) (k i : Nat) (q : pic14_state) (hq : q.sized)
    (hs : spans = pic14_program_spans q) :
    ∃ r, pic14_hex_segment_loop spans addr src k i q = some r ∧ r.sized ∧
      r.program.inst_len = q.program.inst_len ∧ r.program.ee_len = q.program.ee_len := by
  induction k generalizing i q with
  | zero => exact ⟨q, rfl, hq, rfl, rfl⟩
  | succ k ih =>
    obtain ⟨q1, g1, g2, g3, g4, _⟩ := pic14_write_word_marks q (addr + i)
      ((src.getD (2 * i + 0) 0 + src.getD (2 * i + 1) 0 * 0x100) % 0x10000) hq
    obtain ⟨r, k1, k2, k3, k4⟩ := ih (i + 1) q1 g2
      (by rw [hs]; exact (pic14_program_spans_congr q q1 g3 g4).symm)
    refine ⟨r, ?_, k2, by rw [k3, g3], by rw [k4, g4]⟩
    rw [pic14_hex_segment_loop, hs, g1]
    simp only
    rw [← hs, k1]

/-- The callback `pic14_hex_segment` returns on every state whose declared lengths fit
the arrays, and keeps the declared lengths. -/
theorem pic14_hex_segment_defined (l1 l2 : Nat) (q : pic14_state) (a n : Nat) (d : List Nat)
    (hq : q.sized ∧ q.program.inst_len = l1 ∧ q.program.ee_len = l2) :
    ∃ r, pic14_hex_segment q a n d = some r ∧
      (r.sized ∧ r.program.inst_len = l1 ∧ r.program.ee_len = l2) := by
  obtain ⟨r, h1, h2, h3, h4⟩ := pic14_hex_segment_loop_defined (pic14_program_spans q)
    (a / 2) d (n / 2) 0 q hq.1 rfl
  exact ⟨r, h1, h2, by rw [h3, hq.2.1], by rw [h4, hq.2.2]⟩

/-! ## Round trip of a program file -/

/-- The line `pic14_hex_write` emits for the OSCCAL span. -/
theorem pic14_hex_write_span_osccal (p : pic14_state) :
    pic14_hex_write_span p
      { desc := "OSCCAL", addr := 0x03ff, len := 1, data := pic14_ref.osccal } =
      some (data_record_text 0x7fe
        [p.config.osccal % 0x100, p.config.osccal / 0x100 % 0x100]) := by
  have hb : span_bytes_loop p
      { desc := "OSCCAL", addr := 0x03ff, len := 1, data := pic14_ref.osccal } 1 0 =
      some [p.config.osccal % 0x100, p.config.osccal / 0x100 % 0x100] := by
    simp [span_bytes_loop, pic14_ref.read, PIC14_INST_LEN]
  rw [pic14_hex_write_span]
  simp only
  rw [hb]
  simp only
  have e1 : (2 * 0x3ff) % 2 ^ 32 = 0x7fe := by norm_num
  have e2 : (2 * 1) % 2 ^ 32 = 2 := by norm_num
  rw [e1, e2, hex_write, if_pos (by simp [HEX_MAX_BYTES]),
    hex_write_line_eq 0x7fe 2 _ (by simp) (by norm_num)]
  · simp
  · intro b hb'
    simp only [List.mem_cons, List.mem_singleton, List.not_mem_nil, or_false] at hb'
    rcases hb' with h | h <;> omega

/-- After `pic14_hex_write` and `pic14_hex_read` the program word at `0x3ff` is the
calibration word, for every state whose program length is above `0x3ff`: the line of the
OSCCAL span, the last of the file, is routed to the program span. -/
theorem hex_file_overwrites_program_word (p p0 : pic14_state) (hp : p.sized)
    (hp0 : p0.sized) (h1 : p0.program.inst_len = p.program.inst_len)
    (h2 : p0.program.ee_len = p.program.ee_len) (hgt : 0x3ff < p.program.inst_len)
    (hosc : p.config.osccal < 0x10000) :
    ∃ t q, pic14_hex_write p = some t ∧
      pic14_hex_read p0 (some t) = hex_read_result.ok q ∧
      q.program.inst[0x3ff]? = some p.config.osccal := by
  -- the text
  obtain ⟨csA, hA, vA⟩ := pic14_hex_write_spans_lines p hp
    ((pic14_program_spans p).take 4) (fun sp h => List.mem_of_mem_take h)
  have hB : pic14_hex_write_spans p
      [{ desc := "OSCCAL", addr := 0x03ff, len := 1, data := pic14_ref.osccal }] =
      some (data_record_text 0x7fe
        [p.config.osccal % 0x100, p.config.osccal / 0x100 % 0x100]) := by
    rw [pic14_hex_write_spans, pic14_hex_write_span_osccal]
    simp [pic14_hex_write_spans]
  have hsp : pic14_program_spans p = (pic14_program_spans p).take 4 ++
      [{ desc := "OSCCAL", addr := 0x03ff, len := 1, data := pic14_ref.osccal }] := by
    simp [pic14_program_spans]
  have hW := pic14_hex_write_spans_append p _ _ _ _ hA hB
  rw [← hsp] at hW
  have hT : pic14_hex_write p = some (lines_text csA ++ data_record_text 0x7fe
      [p.config.osccal % 0x100, p.config.osccal / 0x100 % 0x100] ++ hex_write_end) := by
    rw [pic14_hex_write, hW]
    rfl
  -- the decoding
  · obtain ⟨f, hf⟩ : ∃ f, (lines_text csA ++ data_record_text 0x7fe
        [p.config.osccal % 0x100, p.config.osccal / 0x100 % 0x100] ++ hex_write_end).length
        + 1 = (f + 1 + 1) + csA.length := by
      have hl := lines_text_length csA
      have he : hex_write_end.length = 12 := by decide
      rw [List.length_append, List.length_append, he]
      exact ⟨(lines_text csA).length - csA.length + (data_record_text 0x7fe
        [p.config.osccal % 0x100, p.config.osccal / 0x100 % 0x100]).length + 11, by omega⟩
    obtain ⟨q, ⟨hq, hq1, hq2⟩, hrun⟩ := hex_read_loop_lines_inv pic14_hex_segment
      (fun q => q.sized ∧ q.program.inst_len = p.program.inst_len ∧
        q.program.ee_len = p.program.ee_len)
      (fun q a n d h => pic14_hex_segment_defined _ _ q a n d h)
      csA (f + 1 + 1) 0 0 (data_record_text 0x7fe
        [p.config.osccal % 0x100, p.config.osccal / 0x100 % 0x100] ++ hex_write_end) p0
      vA ⟨hp0, h1, h2⟩
    -- the last line
    obtain ⟨r, hr, _, _, _, _⟩ := pic14_write_word_marks q 0x3ff p.config.osccal hq
    have hlen : (0 + q.program.inst_len) % 2 ^ 32 = q.program.inst_len := by
      have := hq.2.2.2.1
      simp only [PIC14_INST_LEN] at this
      omega
    have hin : 0x3ff < q.program.inst_len := by omega
    have hback := pic14_write_word_read_back q r [] _
      ⟨"Program (14-bit instruction words)", 0x0000, q.program.inst_len, pic14_ref.inst⟩
      0x3ff p.config.osccal rfl (by simp)
      (by simp only [pic14_span.contains, hlen]; simpa using hin) hr
    simp only [pic14_ref.read, Nat.sub_zero] at hback
    have hword : ((p.config.osccal % 0x100) + (p.config.osccal / 0x100 % 0x100) * 0x100)
        % 0x10000 = p.config.osccal := by omega
    have hseg : pic14_hex_segment q ((0 + 0 + 0x7fe % 0x10000) % 2 ^ 32)
        [p.config.osccal % 0x100, p.config.osccal / 0x100 % 0x100].length
        ([p.config.osccal % 0x100, p.config.osccal / 0x100 % 0x100] ++
          [twos_complement_sum ([[p.config.osccal % 0x100,
            p.config.osccal / 0x100 % 0x100].length, 0x7fe / 0x100 % 0x100, 0x7fe % 0x100, 0]
            ++ [p.config.osccal % 0x100, p.config.osccal / 0x100 % 0x100])]) = some r := by
      simp only [pic14_hex_segment, List.length_cons, List.length_nil]
      norm_num [pic14_hex_segment_loop]
      rw [hword, hr]
    refine ⟨_, r, hT, ?_, hback⟩
    rw [pic14_hex_read, hex_read, hf, List.append_assoc, hrun,
      hex_read_loop_data_record pic14_hex_segment (f + 1) 0 0 0x7fe
        [p.config.osccal % 0x100, p.config.osccal / 0x100 % 0x100] hex_write_end q
        (by simp [HEX_MAX_DATA_LINE]) (by
          intro b hb'
          simp only [List.mem_cons, List.mem_singleton, List.not_mem_nil, or_false] at hb'
          rcases hb' with h | h <;> omega),
      hseg]
    have := hex_read_loop_end pic14_hex_segment f 0 0 [] r
    rwa [List.append_nil] at this

theorem fresh_state_sized (dinfo : pic14_device_info)
    (h1 : dinfo.inst_len ≤ PIC14_INST_LEN) (h2 : dinfo.ee_len ≤ PIC14_EE_LEN) :
    (fresh_state dinfo).sized := by
  simp only [pic14_state.sized, fresh_state, copy_device_values, pic14_state_init,
    List.length_replicate]
  exact ⟨trivial, trivial, trivial, h1, h2⟩

/-- C1, evaluated on the code: the state of a 16F635 after `pic14_state_init` has the
program word `0x3fff` at `0x3ff`; `pic14_hex_write` of this state succeeds and
`pic14_hex_read` of the text into the same fresh state returns 1, and the state read has
the program word `0x2000` at `0x3ff`, the calibration word: the two states differ within
the declared length `0x400` of the program span. -/
theorem hex_round_trip_loses_program_word :
    dev_16F635 ∈ supported_devices ∧
    0x3ff < (fresh_state dev_16F635).program.inst_len ∧
    (fresh_state dev_16F635).program.inst[0x3ff]? = some 0x3fff ∧
    ∃ t q, pic14_hex_write (fresh_state dev_16F635) = some t ∧
      pic14_hex_read (fresh_state dev_16F635) (some t) = hex_read_result.ok q ∧
      q.program.inst[0x3ff]? = some 0x2000 := by
  have hs : (fresh_state dev_16F635).sized :=
    fresh_state_sized dev_16F635 (by decide) (by decide)
  obtain ⟨t, q, h1, h2, h3⟩ := hex_file_overwrites_program_word (fresh_state dev_16F635)
    (fresh_state dev_16F635) hs hs rfl rfl (by decide) (by decide)
  refine ⟨by decide, by decide, ?_, t, q, h1, h2, h3⟩
  simp only [fresh_state, copy_device_values, pic14_state_init]
  rw [List.getElem?_replicate]
  simp [PIC14_INST_LEN]

/-! ## Blank check and verify categories -/

theorem blank_program_true (s : pic14_state) :
    usb_pickit_blank_check_program s = some (true, []) ↔ blank_program_holds s := by
  unfold usb_pickit_blank_check_program blank_program_holds
  rw [check_result_true, for_all_true]
  simp only [and_true]
  apply forall_congr'
  intro i
  apply imp_congr_right
  intro _
  cases s.program.inst[i]? <;> simp

theorem blank_program_false (s : pic14_state)
    (hb : s.program.inst_len ≤ s.program.inst.length) (h : ¬ blank_program_holds s) :
    usb_pickit_blank_check_program s = some (false, [MSG_BLANK_PROGRAM]) := by
  unfold usb_pickit_blank_check_program
  rw [for_all_false]
  · rfl
  · intro j hj
    have h1 : j < s.program.inst.length := by omega
    simp [List.getElem?_eq_getElem, h1]
  · intro hc
    apply h
    intro i hi
    have := hc i hi
    revert this
    cases s.program.inst[i]? <;> simp

theorem blank_eeprom_true (s : pic14_state) :
    usb_pickit_blank_check_eeprom s = some (true, []) ↔ blank_eeprom_holds s := by
  unfold usb_pickit_blank_check_eeprom blank_eeprom_holds
  rw [check_result_true, for_all_true]
  simp only [and_true]
  apply forall_congr'
  intro i
  apply imp_congr_right
  intro _
  cases s.program.ee[i]? <;> simp

theorem blank_eeprom_false (s : pic14_state)
    (hb : s.program.ee_len ≤ s.program.ee.length) (h : ¬ blank_eeprom_holds s) :
    usb_pickit_blank_check_eeprom s = some (false, [MSG_BLANK_EEPROM]) := by
  unfold usb_pickit_blank_check_eeprom
  rw [for_all_false]
  · rfl
  · intro j hj
    have h1 : j < s.program.ee.length := by omega
    simp [List.getElem?_eq_getElem, h1]
  · intro hc
    apply h
    intro i hi
    have := hc i hi
    revert this
    cases s.program.ee[i]? <;> simp

theorem blank_config_id_true (s : pic14_state) :
    usb_pickit_blank_check_config_id s = some (true, []) ↔ blank_config_id_holds s := by
  unfold usb_pickit_blank_check_config_id blank_config_id_holds
  rw [check_result_true, for_all_true]
  simp only [and_true]
  apply forall_congr'
  intro i
  apply imp_congr_right
  intro _
  cases s.config.id[i]? <;> simp

theorem blank_config_id_false (s : pic14_state) (hb : 4 ≤ s.config.id.length)
    (h : ¬ blank_config_id_holds s) :
    usb_pickit_blank_check_config_id s = some (false, [MSG_BLANK_CONFIG_ID]) := by
  unfold usb_pickit_blank_check_config_id
  rw [for_all_false]
  · rfl
  · intro j hj
    have h1 : j < s.config.id.length := by omega
    simp [List.getElem?_eq_getElem, h1]
  · intro hc
    apply h
    intro i hi
    have := hc i hi
    revert this
    cases s.config.id[i]? <;> simp

theorem blank_config_word_eq (s : pic14_state) :
    usb_pickit_blank_check_config_word s =
      if blank_config_word_holds s then some (true, [])
      else some (false, [MSG_BLANK_CONFIG_WORD]) := by
  unfold usb_pickit_blank_check_config_word check_result
  by_cases h : blank_config_word_holds s
  · rw [if_pos h]
    unfold blank_config_word_holds at h
    simp [h]
  · rw [if_neg h]
    unfold blank_config_word_holds at h
    simp [h]

/-- A success of the blank check reports nothing. -/
theorem seq_and_true_nil (x y : Option (Bool × List String)) (m : List String)
    (hx : ∀ m, x = some (true, m) → m = []) (hy : ∀ m, y = some (true, m) → m = [])
    (h : seq_and x y = some (true, m)) : m = [] := by
  unfold seq_and at h
  rcases x with _ | ⟨_ | _, m1⟩
  · simp at h
  · simp at h
  · rcases y with _ | ⟨b, m2⟩
    · simp at h
    · simp only [Option.some.injEq, Prod.mk.injEq] at h
      obtain ⟨hb, hm⟩ := h
      subst hb
      rw [hx m1 rfl, hy m2 rfl] at hm
      exact hm.symm

theorem check_result_true_nil (ok : Option Bool) (msg : String) (m : List String)
    (h : check_result ok msg = some (true, m)) : m = [] :=
  ((check_result_true ok msg m).mp h).2

/-- C22: `usb_pickit_blank_check` returns success, reporting nothing, exactly when every
program word below `inst_len` is `0x3fff`, the configuration word is `0x3fff` under the
mask, the four user ID words have low 7 bits `0x7f` and every EEPROM cell below `ee_len`
is `0xff`; otherwise it returns failure and the message sent to `stderr` is that of the
first failing check in the order program, configuration word, user IDs, EEPROM. -/
theorem usb_pickit_blank_check_spec (s : pic14_state) :
    (usb_pickit_blank_check s = some (true, []) ↔
      blank_program_holds s ∧ blank_config_word_holds s ∧ blank_config_id_holds s ∧
      blank_eeprom_holds s) ∧
    (∀ m, usb_pickit_blank_check s = some (true, m) → m = []) ∧
    (s.program.inst_len ≤ s.program.inst.length → ¬ blank_program_holds s →
      usb_pickit_blank_check s = some (false, [MSG_BLANK_PROGRAM])) ∧
    (blank_program_holds s → ¬ blank_config_word_holds s →
      usb_pickit_blank_check s = some (false, [MSG_BLANK_CONFIG_WORD])) ∧
    (blank_program_holds s → blank_config_word_holds s → 4 ≤ s.config.id.length →
      ¬ blank_config_id_holds s →
      usb_pickit_blank_check s = some (false, [MSG_BLANK_CONFIG_ID])) ∧
    (blank_program_holds s → blank_config_word_holds s → blank_config_id_holds s →
      s.program.ee_len ≤ s.program.ee.length → ¬ blank_eeprom_holds s →
      usb_pickit_blank_check s = some (false, [MSG_BLANK_EEPROM])) := by
  refine ⟨?_, ?_, ?_, ?_, ?_, ?_⟩
  · rw [← blank_program_true, ← blank_eeprom_true, ← blank_config_id_true]
    unfold usb_pickit_blank_check
    rw [seq_and_true, seq_and_true, seq_and_true, blank_config_word_eq]
    by_cases h2 : blank_config_word_holds s <;> simp [h2]
  · intro m h
    unfold usb_pickit_blank_check at h
    refine seq_and_true_nil _ _ m (fun m h => check_result_true_nil _ _ m h) ?_ h
    intro m h
    refine seq_and_true_nil _ _ m (fun m h => check_result_true_nil _ _ m h) ?_ h
    intro m h
    exact seq_and_true_nil _ _ m (fun m h => check_result_true_nil _ _ m h)
      (fun m h => check_result_true_nil _ _ m h) h
  · intro hb h
    simp [usb_pickit_blank_check, blank_program_false s hb h, seq_and]
  · intro h1 h2
    simp [usb_pickit_blank_check, (blank_program_true s).mpr h1, blank_config_word_eq, h2,
      seq_and]
  · intro h1 h2 hb h3
    simp [usb_pickit_blank_check, (blank_program_true s).mpr h1, blank_config_word_eq, h2,
      blank_config_id_false s hb h3, seq_and]
  · intro h1 h2 h3 hb h4
    simp [usb_pickit_blank_check, (blank_program_true s).mpr h1, blank_config_word_eq, h2,
      (blank_config_id_true s).mpr h3, blank_eeprom_false s hb h4, seq_and]

/-- C22 on the state of a 12F629 after `pic14_state_init` with the configuration word set
to `0x3fff`: the blank check succeeds. -/
theorem usb_pickit_blank_check_spec_witness :
    usb_pickit_blank_check
      { fresh_state dev_12F629 with
        config := { (fresh_state dev_12F629).config with config := 0x3fff } } =
      some (true, []) := by
  refine (usb_pickit_blank_check_spec _).1.mpr ⟨?_, by decide, ?_, ?_⟩
  · intro i hi
    have h : i < 0x3ff := hi
    show (List.replicate PIC14_INST_LEN 0x3fff)[i]? = some 0x3fff
    rw [List.getElem?_replicate, if_pos (by simp only [PIC14_INST_LEN]; omega)]
  · intro i hi
    refine ⟨0x3fff, ?_, by decide⟩
    show (List.replicate PIC14_ID_LEN 0x3fff)[i]? = some 0x3fff
    rw [List.getElem?_replicate, if_pos (by simp only [PIC14_ID_LEN]; omega)]
  · intro i hi
    have h : i < 128 := hi
    show (List.replicate PIC14_EE_LEN 0xff)[i]? = some 0xff
    rw [List.getElem?_replicate, if_pos (by simp only [PIC14_EE_LEN]; omega)]

/-- C23: when the program words, the software checksums, the masked configuration words
and the masked user IDs of the file state and the device state agree and an EEPROM cell
below `ee_len` differs, `usb_pickit_verify` returns failure and the check that reports is
the EEPROM one, the program check having succeeded; this is so when the device state is
the file state with two unequal EEPROM cells swapped. -/
theorem verify_eeprom_only_difference (file : pic14_state) :
    (∀ dev : pic14_state, verify_program_holds file dev → verify_checksum_holds file dev →
      verify_config_word_holds file dev → verify_config_id_holds file dev →
      dev.program.ee_len ≤ file.program.ee.length →
      dev.program.ee_len ≤ dev.program.ee.length →
      ∀ i, i < dev.program.ee_len → file.program.ee[i]? ≠ dev.program.ee[i]? →
      usb_pickit_verify file dev = some (false, [MSG_VERIFY_EEPROM, MSG_VERIFY_FAILED]) ∧
      usb_pickit_verify_program file dev = some (true, []) ∧
      usb_pickit_verify_eeprom file dev = some (false, [MSG_VERIFY_EEPROM])) ∧
    MSG_VERIFY_EEPROM ≠ MSG_VERIFY_PROGRAM ∧
    (∀ i j a b, file.program.inst_len ≤ file.program.inst.length →
      file.program.ee_len ≤ file.program.ee.length → 4 ≤ file.config.id.length →
      i < file.program.ee_len → j < file.program.ee_len →
      file.program.ee[i]? = some a → file.program.ee[j]? = some b → a ≠ b →
      usb_pickit_verify file
        { file with program := { file.program with
            ee := (file.program.ee.set i b).set j a } } =
        some (false, [MSG_VERIFY_EEPROM, MSG_VERIFY_FAILED])) := by
  have gen : ∀ dev : pic14_state, verify_program_holds file dev →
      verify_checksum_holds file dev →
      verify_config_word_holds file dev → verify_config_id_holds file dev →
      dev.program.ee_len ≤ file.program.ee.length →
      dev.program.ee_len ≤ dev.program.ee.length →
      ∀ i, i < dev.program.ee_len → file.program.ee[i]? ≠ dev.program.ee[i]? →
      usb_pickit_verify file dev = some (false, [MSG_VERIFY_EEPROM, MSG_VERIFY_FAILED]) ∧
      usb_pickit_verify_program file dev = some (true, []) ∧
      usb_pickit_verify_eeprom file dev = some (false, [MSG_VERIFY_EEPROM]) := by
    intro dev h1 h2 h3 h4 hb1 hb2 i hi hne
    have h5 : ¬ verify_eeprom_holds file dev := by
      intro h
      obtain ⟨v, e1, e2⟩ := h i hi
      exact hne (by rw [e1, e2])
    refine ⟨?_, (verify_program_true file dev).mpr h1,
      verify_eeprom_false file dev hb1 hb2 h5⟩
    simp [usb_pickit_verify, (verify_program_true file dev).mpr h1, verify_checksum_eq, h2,
      verify_config_word_eq, h3, (verify_config_id_true file dev).mpr h4,
      verify_eeprom_false file dev hb1 hb2 h5, seq_and]
  refine ⟨gen, by decide, ?_⟩
  intro i j a b hl1 hl2 hl3 hi hj ha hb hab
  have hij : i ≠ j := by
    intro e
    subst e
    rw [ha] at hb
    exact hab (Option.some.inj hb)
  refine (gen
    { file with program := { file.program with ee := (file.program.ee.set i b).set j a } }
    ?_ rfl rfl ?_ hl2 (by simpa using hl2) i hi ?_).1
  · intro k hk
    have : k < file.program.inst.length := lt_of_lt_of_le hk hl1
    exact ⟨_, List.getElem?_eq_getElem this, List.getElem?_eq_getElem this⟩
  · intro k hk
    have : k < file.config.id.length := by omega
    exact ⟨_, _, List.getElem?_eq_getElem this, List.getElem?_eq_getElem this, rfl⟩
  · have hil : i < file.program.ee.length := by omega
    simp only
    rw [ha, List.getElem?_set_ne (Ne.symm hij)]
    simp [List.getElem?_set, hil, hab]

/-- C23 on a state whose EEPROM is `0x12, 0x34`, against the same state with these two
cells swapped. -/
theorem verify_eeprom_only_difference_witness :
    usb_pickit_verify tiny_state
      { tiny_state with program := { tiny_state.program with ee := [0x34, 0x12] } } =
      some (false, [MSG_VERIFY_EEPROM, MSG_VERIFY_FAILED]) :=
  (verify_eeprom_only_difference tiny_state).2.2 0 1 0x12 0x34 (by decide) (by decide)
    (by decide) (by decide) (by decide) (by decide) (by decide) (by decide)

/-! ## Packing of words and bytes -/

theorem word_bytes_sum (a : Nat) (h : a < 0x10000) :
    (a &&& 0xff) + ((a >>> 8) &&& 0xff) * 0x100 = a := by
  have h1 : a &&& 0xff = a % 0x100 := Nat.and_pow_two_sub_one_eq_mod a 8
  have h2 : (a >>> 8) &&& 0xff = (a >>> 8) % 0x100 := Nat.and_pow_two_sub_one_eq_mod _ 8
  rw [h1, h2, Nat.shiftRight_eq_div_pow]
  omega

theorem word_writes_words_cmd (a b : Nat) (ha : a < 0x10000) (hb : b < 0x10000) :
    word_writes (words_cmd a b) = [a, b] := by
  rw [words_cmd_eq]
  show [(a &&& 0xff) + ((a >>> 8) &&& 0xff) * 0x100,
    (b &&& 0xff) + ((b >>> 8) &&& 0xff) * 0x100] = [a, b]
  rw [word_bytes_sum a ha, word_bytes_sum b hb]

theorem word_writes_word_cmd (a : Nat) (ha : a < 0x10000) :
    word_writes (word_cmd a) = [a] := by
  rw [word_cmd_eq]
  show [(a &&& 0xff) + ((a >>> 8) &&& 0xff) * 0x100] = [a]
  rw [word_bytes_sum a ha]

theorem getD_lt_of_forall (w : List Nat) (i n : Nat) (h : ∀ x ∈ w, x < n) (hi : i < w.length) :
    w.getD i 0 < n := by
  rw [List.getD_eq_getElem?_getD, List.getElem?_eq_getElem hi]
  exact h _ (List.getElem_mem _)

theorem drop_two (w : List Nat) (i : Nat) (h : i + 2 ≤ w.length) :
    w.drop i = w.getD i 0 :: w.getD (i + 1) 0 :: w.drop (i + 2) := by
  have h0 : i < w.length := by omega
  have h1 : i + 1 < w.length := by omega
  rw [List.drop_eq_getElem_cons h0, List.drop_eq_getElem_cons h1,
    List.getD_eq_getElem?_getD, List.getD_eq_getElem?_getD,
    List.getElem?_eq_getElem h0, List.getElem?_eq_getElem h1]
  rfl

theorem words_frames_length (w : List Nat) (k i : Nat) : (words_frames w k i).length = k := by
  induction k generalizing i with
  | zero => rfl
  | succ k ih => simp [words_frames, ih]

theorem words_frames_getElem (w : List Nat) (k i j : Nat) (hj : j < k) :
    (words_frames w k i)[j]? =
      some (words_cmd (w.getD ((i + j) * 2 + 0) 0) (w.getD ((i + j) * 2 + 1) 0)) := by
  induction k generalizing i j with
  | zero => omega
  | succ k ih =>
    cases j with
    | zero => simp [words_frames]
    | succ j =>
      simp only [words_frames, List.getElem?_cons_succ]
      rw [ih (i + 1) j (by omega)]
      have : i + 1 + j = i + (j + 1) := by omega
      rw [this]

/-- The words of the packets of the loop of `send_usb_words`, in order. -/
theorem word_writes_words_frames (w : List Nat) (k i : Nat) (h : (i + k) * 2 ≤ w.length)
    (hw : ∀ x ∈ w, x < 0x10000) :
    ((words_frames w k i).map word_writes).flatten = (w.drop (i * 2)).take (k * 2) := by
  induction k generalizing i with
  | zero => simp [words_frames]
  | succ k ih =>
    have e := drop_two w (i * 2) (by omega)
    have e2 : (k + 1) * 2 = k * 2 + 2 := by omega
    rw [words_frames, List.map_cons, List.flatten_cons, ih (i + 1) (by omega),
      word_writes_words_cmd _ _ (getD_lt_of_forall w _ _ hw (by omega))
        (getD_lt_of_forall w _ _ hw (by omega)), e, e2]
    have e3 : (i + 1) * 2 = i * 2 + 2 := by omega
    rw [e3]
    rfl

/-- C25: `send_usb_words (n, w)` on an array of at least `n` words returns after sending
`⌈n / 2⌉` packets of 8 bytes: `⌊n / 2⌋` packets `W lo hi W lo hi Z Z` with the words
two by two and, `n` odd, a last packet `W lo hi Z Z Z Z Z` with the last word; the
words of the `W` commands of the packets, in order, are `w[0], ..., w[n - 1]`; and
`usb_pickit_write_program` sends the first `max_prog` program words this way, between
the packets that enter and leave programming mode. -/
theorem send_usb_words_packing (n : Nat) (w : List Nat) (hn : n ≤ w.length)
    (hw : ∀ x ∈ w, x < 0x10000) :
    emits (send_usb_words n w) () (send_usb_words_frames n w) ∧
    (send_usb_words_frames n w).length = (n + 1) / 2 ∧
    (∀ f ∈ send_usb_words_frames n w, f.length = REQ_LEN) ∧
    (∀ j, j < n / 2 → (send_usb_words_frames n w)[j]? =
      some [87, w.getD (2 * j) 0 % 0x100, w.getD (2 * j) 0 / 0x100 % 0x100,
        87, w.getD (2 * j + 1) 0 % 0x100, w.getD (2 * j + 1) 0 / 0x100 % 0x100, 90, 90]) ∧
    (n % 2 = 1 → (send_usb_words_frames n w)[n / 2]? =
      some [87, w.getD (n - 1) 0 % 0x100, w.getD (n - 1) 0 / 0x100 % 0x100,
        90, 90, 90, 90, 90]) ∧
    ((send_usb_words_frames n w).map word_writes).flatten = w.take n ∧
    (∀ p : pic14_program, p.inst = w → p.max_prog = n →
      emits (usb_pickit_write_program p) ()
        ([cmd "PZZZZZZZ"] ++ send_usb_words_frames n w ++ [cmd "pV1ZZZZZ"])) := by
  have hand : ∀ a : Nat, a &&& 0xff = a % 0x100 := fun a =>
    Nat.and_pow_two_sub_one_eq_mod a 8
  have hsh : ∀ a : Nat, a >>> 8 = a / 0x100 := fun a => Nat.shiftRight_eq_div_pow a 8
  refine ⟨emits_send_usb_words n w hn, ?_, ?_, ?_, ?_, ?_, ?_⟩
  · rw [send_usb_words_frames, List.length_append, words_frames_length]
    by_cases h : n % 2 ≠ 0
    · rw [if_pos h, List.length_singleton]
      omega
    · rw [if_neg h, List.length_nil]
      omega
  · intro f hf
    simp only [send_usb_words_frames, List.mem_append] at hf
    rcases hf with h | h
    · obtain ⟨j, hj⟩ := List.getElem?_of_mem h
      have hlt : j < n / 2 := by
        have := (List.getElem?_eq_some_iff.mp hj).1
        rwa [words_frames_length] at this
      rw [words_frames_getElem w _ 0 j hlt, Option.some.injEq] at hj
      rw [← hj, words_cmd_eq]
      rfl
    · split at h
      · simp only [List.mem_singleton] at h
        rw [h, word_cmd_eq]
        rfl
      · simp at h
  · intro j hj
    simp only [send_usb_words_frames]
    rw [List.getElem?_append_left (by rw [words_frames_length]; exact hj),
      words_frames_getElem w _ 0 j hj, words_cmd_eq]
    simp only [hand, hsh, Nat.zero_add, Nat.add_zero]
    rw [Nat.mul_comm j 2]
  · intro hodd
    simp only [send_usb_words_frames]
    rw [List.getElem?_append_right (by rw [words_frames_length]), words_frames_length,
      Nat.sub_self, if_pos (by omega)]
    simp only [List.getElem?_cons_zero, word_cmd_eq, hand, hsh]
  · simp only [send_usb_words_frames, List.map_append, List.flatten_append]
    rw [word_writes_words_frames w (n / 2) 0 (by omega) hw]
    simp only [Nat.zero_mul, List.drop_zero]
    by_cases hodd : n % 2 ≠ 0
    · rw [if_pos hodd]
      have hlast : n - 1 < w.length := by omega
      simp only [List.map_cons, List.map_nil, List.flatten_cons, List.flatten_nil,
        List.append_nil]
      rw [word_writes_word_cmd _ (getD_lt_of_forall w _ _ hw hlast)]
      have e1 : n / 2 * 2 = n - 1 := by omega
      have e2 : n = (n - 1) + 1 := by omega
      rw [e1]
      conv => rhs; rw [e2]
      rw [List.take_succ, List.getD_eq_getElem?_getD, List.getElem?_eq_getElem hlast]
      rfl
    · rw [if_neg hodd]
      have e1 : n / 2 * 2 = n := by omega
      simp [e1]
  · intro p hp hm
    have := emits_write_program p (by rw [hp, hm]; exact hn)
    simp only [write_program_frames, hp, hm] at this
    exact this

/-- C25 on three words: a packet with two words and a packet with the third. -/
theorem send_usb_words_packing_witness :
    frames_of (send_usb_words 3 [0x1234, 0x3fff, 0x0001]) =
      [[87, 0x34, 0x12, 87, 0xff, 0x3f, 90, 90], [87, 0x01, 0x00, 90, 90, 90, 90, 90]] ∧
    ((send_usb_words_frames 3 [0x1234, 0x3fff, 0x0001]).map word_writes).flatten =
      [0x1234, 0x3fff, 0x0001] := by
  have h := send_usb_words_packing 3 [0x1234, 0x3fff, 0x0001] (by decide) (by decide)
  refine ⟨?_, h.2.2.2.2.2.1⟩
  rw [emits_frames_of _ _ _ h.1]
  decide

theorem drop_one (w : List Nat) (i : Nat) (h : i < w.length) :
    w.drop i = w.getD i 0 :: w.drop (i + 1) := by
  rw [List.drop_eq_getElem_cons h, List.getD_eq_getElem?_getD, List.getElem?_eq_getElem h]
  rfl

theorem data_frames_length (ee : List Nat) (k i : Nat) : (data_frames ee k i).length = k := by
  induction k generalizing i with
  | zero => rfl
  | succ k ih => simp [data_frames, ih]

theorem data_frames_getElem (ee : List Nat) (k i j : Nat) (hj : j < k) :
    (data_frames ee k i)[j]? =
      some (data_cmd (ee.getD ((i + j) * 4 + 0) 0) (ee.getD ((i + j) * 4 + 1) 0)
        (ee.getD ((i + j) * 4 + 2) 0) (ee.getD ((i + j) * 4 + 3) 0)) := by
  induction k generalizing i j with
  | zero => omega
  | succ k ih =>
    cases j with
    | zero => simp [data_frames]
    | succ j =>
      simp only [data_frames, List.getElem?_cons_succ]
      rw [ih (i + 1) j (by omega)]
      have : i + 1 + j = i + (j + 1) := by omega
      rw [this]

/-- The bytes of the packets of the first loop of `usb_pickit_write_eeprom`, in order. -/
theorem byte_writes_data_frames (ee : List Nat) (k i : Nat) (h : (i + k) * 4 ≤ ee.length) :
    ((data_frames ee k i).map byte_writes).flatten =
      ((ee.drop (i * 4)).take (k * 4)).map (fun b => b % 0x100) := by
  induction k generalizing i with
  | zero => simp [data_frames]
  | succ k ih =>
    have e0 := drop_one ee (i * 4) (by omega)
    have e1 := drop_one ee (i * 4 + 1) (by omega)
    have e2 := drop_one ee (i * 4 + 2) (by omega)
    have e3 := drop_one ee (i * 4 + 3) (by omega)
    have e4 : (k + 1) * 4 = k * 4 + 4 := by omega
    have e5 : (i + 1) * 4 = i * 4 + 4 := by omega
    rw [data_frames, List.map_cons, List.flatten_cons, ih (i + 1) (by omega), data_cmd_eq,
      e0, e1, e2, e3, e4, e5]
    rfl

/-- The last packet of `usb_pickit_write_eeprom` for one, two and three remaining
bytes from index `i` on. -/
theorem write_eeprom_last_eq (ee : List Nat) (i : Nat) :
    (i + 1 ≤ ee.length → write_eeprom_last ee 1 0 i (cmd "ZZZZZZZZ") =
      some [68, ee.getD i 0 % 0x100, 90, 90, 90, 90, 90, 90]) ∧
    (i + 2 ≤ ee.length → write_eeprom_last ee 2 0 i (cmd "ZZZZZZZZ") =
      some [68, ee.getD i 0 % 0x100, 68, ee.getD (i + 1) 0 % 0x100, 90, 90, 90, 90]) ∧
    (i + 3 ≤ ee.length → write_eeprom_last ee 3 0 i (cmd "ZZZZZZZZ") =
      some [68, ee.getD i 0 % 0x100, 68, ee.getD (i + 1) 0 % 0x100,
        68, ee.getD (i + 2) 0 % 0x100, 90, 90]) := by
  have hz : cmd "ZZZZZZZZ" = [90, 90, 90, 90, 90, 90, 90, 90] := by decide
  have hD : 'D'.toNat = 68 := by decide
  refine ⟨fun h => ?_, fun h => ?_, fun h => ?_⟩
  · have e0 := getElem?_eq_some_getD ee i (by omega)
    rw [hz]
    simp only [write_eeprom_last, e0, hD]
    rfl
  · have e0 := getElem?_eq_some_getD ee i (by omega)
    have e1 := getElem?_eq_some_getD ee (i + 1) (by omega)
    rw [hz]
    simp only [write_eeprom_last, e0, e1, hD]
    rfl
  · have e0 := getElem?_eq_some_getD ee i (by omega)
    have e1 := getElem?_eq_some_getD ee (i + 1) (by omega)
    have e2 : ee[i + 1 + 1]? = some (ee.getD (i + 2) 0) :=
      getElem?_eq_some_getD ee (i + 2) (by omega)
    rw [hz]
    simp only [write_eeprom_last, e0, e1, e2, hD]
    rfl

/-- C26: `usb_pickit_write_eeprom` on a state whose `max_ee` cells lie in the buffer
returns after sending the packet that enters programming mode, `⌊max_ee / 4⌋` packets
`D b D b D b D b`, one more packet with the remaining one, two or three byte writes
padded with `Z` when `max_ee` is no multiple of 4, and the packet that leaves
programming mode; the bytes of the `D` commands, in order, are the low 8 bits of
`ee[0], ..., ee[max_ee - 1]`. -/
theorem write_eeprom_packing (p : pic14_program) (h : p.max_ee ≤ p.ee.length) :
    ∃ mid, emits (usb_pickit_write_eeprom p) ()
        ([cmd "PZZZZZZZ"] ++ mid ++ [cmd "pZZZZZZZ"]) ∧
      mid.length = (p.max_ee + 3) / 4 ∧
      (∀ f ∈ mid, f.length = REQ_LEN) ∧
      (∀ j, j < p.max_ee / 4 → mid[j]? =
        some [68, p.ee.getD (4 * j) 0 % 0x100, 68, p.ee.getD (4 * j + 1) 0 % 0x100,
          68, p.ee.getD (4 * j + 2) 0 % 0x100, 68, p.ee.getD (4 * j + 3) 0 % 0x100]) ∧
      (p.max_ee % 4 = 1 → mid[p.max_ee / 4]? =
        some [68, p.ee.getD (p.max_ee - 1) 0 % 0x100, 90, 90, 90, 90, 90, 90]) ∧
      (p.max_ee % 4 = 2 → mid[p.max_ee / 4]? =
        some [68, p.ee.getD (p.max_ee - 2) 0 % 0x100,
          68, p.ee.getD (p.max_ee - 1) 0 % 0x100, 90, 90, 90, 90]) ∧
      (p.max_ee % 4 = 3 → mid[p.max_ee / 4]? =
        some [68, p.ee.getD (p.max_ee - 3) 0 % 0x100,
          68, p.ee.getD (p.max_ee - 2) 0 % 0x100,
          68, p.ee.getD (p.max_ee - 1) 0 % 0x100, 90, 90]) ∧
      (mid.map byte_writes).flatten = (p.ee.take p.max_ee).map (fun b => b % 0x100) := by
  have hem := emits_write_eeprom p h
  obtain ⟨l1, l2, l3⟩ := write_eeprom_last_eq p.ee (p.max_ee - p.max_ee % 4)
  -- the last packet, when there is one
  have hlast : ∀ r, p.max_ee % 4 = r → r ≠ 0 →
      ∃ c, write_eeprom_last p.ee (p.max_ee % 4) 0 (p.max_ee - p.max_ee % 4)
          (cmd "ZZZZZZZZ") = some c ∧ c.length = 8 ∧
        byte_writes c = ((p.ee.drop (p.max_ee - p.max_ee % 4)).take (p.max_ee % 4)).map
          (fun b => b % 0x100) ∧
        (r = 1 → c = [68, p.ee.getD (p.max_ee - 1) 0 % 0x100, 90, 90, 90, 90, 90, 90]) ∧
        (r = 2 → c = [68, p.ee.getD (p.max_ee - 2) 0 % 0x100,
          68, p.ee.getD (p.max_ee - 1) 0 % 0x100, 90, 90, 90, 90]) ∧
        (r = 3 → c = [68, p.ee.getD (p.max_ee - 3) 0 % 0x100,
          68, p.ee.getD (p.max_ee - 2) 0 % 0x100,
          68, p.ee.getD (p.max_ee - 1) 0 % 0x100, 90, 90]) := by
    intro r hr hr0
    have hr3 : r = 1 ∨ r = 2 ∨ r = 3 := by omega
    rcases hr3 with h1 | h1 | h1
    · subst h1
      have e := drop_one p.ee (p.max_ee - 1) (by omega)
      rw [hr] at l1 ⊢
      refine ⟨_, l1 (by omega), rfl, ?_, fun _ => rfl, fun h => by omega, fun h => by omega⟩
      rw [e]
      rfl
    · subst h1
      have e'' : p.max_ee - 2 + 1 = p.max_ee - 1 := by omega
      have e := drop_two p.ee (p.max_ee - 2) (by omega)
      rw [hr] at l2 ⊢
      rw [e''] at l2 e
      refine ⟨_, l2 (by omega), rfl, ?_, fun h => by omega, fun _ => rfl, fun h => by omega⟩
      rw [e]
      rfl
    · subst h1
      have e1 : p.max_ee - 3 + 1 = p.max_ee - 2 := by omega
      have e2 : p.max_ee - 3 + 2 = p.max_ee - 1 := by omega
      have e := drop_two p.ee (p.max_ee - 3) (by omega)
      have f := drop_one p.ee (p.max_ee - 1) (by omega)
      rw [hr] at l3 ⊢
      rw [e1, e2] at l3
      rw [e1, e2, f] at e
      refine ⟨_, l3 (by omega), rfl, ?_, fun h => by omega, fun h => by omega, fun _ => rfl⟩
      rw [e]
      rfl
  have hdl := data_frames_length p.ee (p.max_ee / 4) 0
  have hdata : ∀ j, j < p.max_ee / 4 → (data_frames p.ee (p.max_ee / 4) 0)[j]? =
      some [68, p.ee.getD (4 * j) 0 % 0x100, 68, p.ee.getD (4 * j + 1) 0 % 0x100,
        68, p.ee.getD (4 * j + 2) 0 % 0x100, 68, p.ee.getD (4 * j + 3) 0 % 0x100] := by
    intro j hj
    rw [data_frames_getElem p.ee _ 0 j hj, data_cmd_eq]
    simp only [Nat.zero_add, Nat.add_zero]
    rw [Nat.mul_comm j 4]
  have hbytes := byte_writes_data_frames p.ee (p.max_ee / 4) 0 (by omega)
  simp only [Nat.zero_mul, List.drop_zero] at hbytes
  by_cases hr : p.max_ee % 4 ≠ 0
  · obtain ⟨c, hc, hc8, hcb, c1, c2, c3⟩ := hlast (p.max_ee % 4) rfl hr
    refine ⟨data_frames p.ee (p.max_ee / 4) 0 ++ [c], ?_, ?_, ?_, ?_, ?_, ?_, ?_, ?_⟩
    · have : write_eeprom_frames p =
          [cmd "PZZZZZZZ"] ++ (data_frames p.ee (p.max_ee / 4) 0 ++ [c]) ++
            [cmd "pZZZZZZZ"] := by
        simp [write_eeprom_frames, if_pos hr, hc]
      rw [← this]
      exact hem
    · rw [List.length_append, hdl, List.length_singleton]
      omega
    · intro f hf
      rcases List.mem_append.mp hf with h1 | h1
      · obtain ⟨j, hj⟩ := List.getElem?_of_mem h1
        have hlt : j < p.max_ee / 4 := by
          have := (List.getElem?_eq_some_iff.mp hj).1
          rwa [hdl] at this
        rw [hdata j hlt, Option.some.injEq] at hj
        rw [← hj]
        rfl
      · simp only [List.mem_singleton] at h1
        rw [h1]
        exact hc8
    · intro j hj
      rw [List.getElem?_append_left (by rw [hdl]; exact hj)]
      exact hdata j hj
    · intro h1
      rw [List.getElem?_append_right (by rw [hdl]), hdl, Nat.sub_self]
      simp [c1 h1]
    · intro h1
      rw [List.getElem?_append_right (by rw [hdl]), hdl, Nat.sub_self]
      simp [c2 h1]
    · intro h1
      rw [List.getElem?_append_right (by rw [hdl]), hdl, Nat.sub_self]
      simp [c3 h1]
    · rw [List.map_append, List.flatten_append, hbytes]
      simp only [List.map_cons, List.map_nil, List.flatten_cons, List.flatten_nil,
        List.append_nil]
      rw [hcb, ← List.map_append]
      congr 1
      have e1 : p.max_ee / 4 * 4 = p.max_ee - p.max_ee % 4 := by omega
      have e2 : p.max_ee = (p.max_ee - p.max_ee % 4) + p.max_ee % 4 := by omega
      rw [e1]
      conv => rhs; rw [e2]
      rw [List.take_add]
  · have h0 : p.max_ee % 4 = 0 := by omega
    refine ⟨data_frames p.ee (p.max_ee / 4) 0, ?_, ?_, ?_, ?_, ?_, ?_, ?_, ?_⟩
    · have : write_eeprom_frames p =
          [cmd "PZZZZZZZ"] ++ data_frames p.ee (p.max_ee / 4) 0 ++ [cmd "pZZZZZZZ"] := by
        simp [write_eeprom_frames, if_neg hr]
      rw [← this]
      exact hem
    · rw [hdl]
      omega
    · intro f h1
      obtain ⟨j, hj⟩ := List.getElem?_of_mem h1
      have hlt : j < p.max_ee / 4 := by
        have := (List.getElem?_eq_some_iff.mp hj).1
        rwa [hdl] at this
      rw [hdata j hlt, Option.some.injEq] at hj
      rw [← hj]
      rfl
    · exact hdata
    · intro h1; omega
    · intro h1; omega
    · intro h1; omega
    · rw [hbytes]
      have e1 : p.max_ee / 4 * 4 = p.max_ee := by omega
      rw [e1]

/-- C26 on six EEPROM cells: a packet with four bytes and a packet with two. -/
theorem write_eeprom_packing_witness :
    frames_of (usb_pickit_write_eeprom
      { tiny_state.program with ee := [1, 2, 3, 4, 5, 0x1ff], max_ee := 6 }) =
      [cmd "PZZZZZZZ", [68, 1, 68, 2, 68, 3, 68, 4], [68, 5, 68, 0xff, 90, 90, 90, 90],
        cmd "pZZZZZZZ"] := by
  obtain ⟨mid, h1, h2, _, h4, _, h6, _⟩ := write_eeprom_packing
    { tiny_state.program with ee := [1, 2, 3, 4, 5, 0x1ff], max_ee := 6 } (by decide)
  rw [emits_frames_of _ _ _ h1]
  have a := h4 0 (by decide)
  have b := h6 (by decide)
  have hl : mid.length = 2 := h2
  match mid, hl, a, b with
  | [x, y], _, a, b =>
    simp only [List.getElem?_cons_zero, Option.some.injEq] at a
    have b' : some y = some [68, 5, 68, 0xff, 90, 90, 90, 90] := b
    rw [Option.some.injEq] at b'
    rw [a, b']
    rfl

/-! ## Erase frame of the write -/

theorem word_cmd_ops (w : Nat) : frame_ops (word_cmd w) = [87, 90, 90, 90, 90, 90] := by
  rw [word_cmd_eq]; rfl

theorem words_cmd_ops (a b : Nat) : frame_ops (words_cmd a b) = [87, 87, 90, 90] := by
  rw [words_cmd_eq]; rfl

theorem words_frames_ops (w : List Nat) (k i : Nat) :
    ∀ f ∈ words_frames w k i, frame_ops f = [87, 87, 90, 90] := by
  induction k generalizing i with
  | zero => simp [words_frames]
  | succ k ih =>
    intro f hf
    simp only [words_frames, List.mem_cons] at hf
    rcases hf with h | h
    · rw [h, words_cmd_ops]
    · exact ih (i + 1) f h

/-- The command letters of the packets of `usb_pickit_write_program`. -/
theorem write_program_frames_ops (p : pic14_program) :
    ∀ f ∈ write_program_frames p,
      f = cmd "PZZZZZZZ" ∨ f = cmd "pV1ZZZZZ" ∨ frame_ops f = [87, 87, 90, 90] ∨
        frame_ops f = [87, 90, 90, 90, 90, 90] := by
  intro f hf
  simp only [write_program_frames, send_usb_words_frames, List.mem_append, List.mem_singleton]
    at hf
  rcases hf with (h | h | h) | h
  · exact Or.inl h
  · exact Or.inr (Or.inr (Or.inl (words_frames_ops _ _ _ f h)))
  · split at h
    · simp only [List.mem_singleton] at h
      rw [h]
      exact Or.inr (Or.inr (Or.inr (word_cmd_ops _)))
    · simp at h
  · exact Or.inr (Or.inl h)

/-- The command letters of the packets of `usb_pickit_write_config`. -/
theorem write_config_frames_ops (c : pic14_config) :
    ∀ f ∈ write_config_frames c,
      f = cmd "V0V1PI\xff\x03" ∨ f = cmd "pV0V1PCZ" ∨ f = cmd "pPCI\x07\x00ZZ" ∨
        f = cmd "pV1ZZZZZ" ∨ frame_ops f = [87, 87, 90, 90] ∨
        frame_ops f = [87, 90, 90, 90, 90, 90] := by
  intro f hf
  simp only [write_config_frames, List.mem_append, List.mem_cons, List.mem_singleton,
    List.not_mem_nil, or_false] at hf
  rcases hf with (h | h) | h | h | h | h | h | h
  · exact Or.inl h
  · split at h
    · simp only [List.mem_singleton] at h
      rw [h]
      exact Or.inr (Or.inr (Or.inr (Or.inr (Or.inr (word_cmd_ops _)))))
    · simp at h
  · exact Or.inr (Or.inl h)
  · rw [h]; exact Or.inr (Or.inr (Or.inr (Or.inr (Or.inl (words_cmd_ops _ _)))))
  · rw [h]; exact Or.inr (Or.inr (Or.inr (Or.inr (Or.inl (words_cmd_ops _ _)))))
  · exact Or.inr (Or.inr (Or.inl h))
  · rw [h]; exact Or.inr (Or.inr (Or.inr (Or.inr (Or.inr (word_cmd_ops _)))))
  · exact Or.inr (Or.inr (Or.inr (Or.inl h)))

/-- With no EEPROM data to write, `usb_pickit_write_eeprom` enters and leaves
programming mode and sends nothing else. -/
theorem write_eeprom_frames_empty (p : pic14_program) (h : p.max_ee = 0) :
    write_eeprom_frames p = [cmd "PZZZZZZZ", cmd "pZZZZZZZ"] := by
  simp [write_eeprom_frames, h, data_frames]

/-- The packets of `usb_pickit_write` apart from the erase packet are none of the two
erase packets, and without EEPROM data none of them holds a `D` command. -/
theorem write_frames_not_erase (s : pic14_state) (c : pic14_config) (keep_old : Bool)
    (hb : s.program.max_ee ≤ s.program.ee.length) :
    ∀ f ∈ (if keep_old then read_config_frames else []) ++ write_eeprom_frames s.program ++
        write_program_frames s.program ++ write_config_frames c,
      f ≠ cmd "PCEpZZZZ" ∧ f ≠ cmd "PCEepZZZ" ∧
        (s.program.max_ee = 0 → 68 ∉ frame_ops f) := by
  intro f hf
  have hops : ∀ g : List Nat, g ≠ cmd "PCEpZZZZ" ∧ g ≠ cmd "PCEepZZZ" ↔
      ¬ (g = cmd "PCEpZZZZ" ∨ g = cmd "PCEepZZZ") := fun g => by tauto
  have hne : ∀ g : List Nat, (frame_ops g = [87, 87, 90, 90] ∨
      frame_ops g = [87, 90, 90, 90, 90, 90]) →
      g ≠ cmd "PCEpZZZZ" ∧ g ≠ cmd "PCEepZZZ" ∧ 68 ∉ frame_ops g := by
    intro g hg
    refine ⟨?_, ?_, ?_⟩
    · intro e; subst e; revert hg; decide
    · intro e; subst e; revert hg; decide
    · rcases hg with h | h <;> rw [h] <;> decide
  simp only [List.mem_append] at hf
  rcases hf with ((h | h) | h) | h
  · cases keep_old
    · simp at h
    · simp only [if_true, read_config_frames, List.mem_cons, List.mem_singleton,
        List.not_mem_nil, or_false] at h
      rcases h with h | h | h | h | h | h | h <;> subst h <;>
        exact ⟨by decide, by decide, fun _ => by decide⟩
  · rcases write_eeprom_frames_shape s.program hb f h with h1 | h1 | h1
    · subst h1; exact ⟨by decide, by decide, fun _ => by decide⟩
    · subst h1; exact ⟨by decide, by decide, fun _ => by decide⟩
    · refine ⟨?_, ?_, ?_⟩
      · intro e; subst e; revert h1; decide
      · intro e; subst e; revert h1; decide
      · intro h0
        rw [write_eeprom_frames_empty s.program h0] at h
        simp only [List.mem_cons, List.mem_singleton, List.not_mem_nil, or_false] at h
        rcases h with h | h <;> subst h <;> decide
  · rcases write_program_frames_ops s.program f h with h1 | h1 | h1
    · subst h1; exact ⟨by decide, by decide, fun _ => by decide⟩
    · subst h1; exact ⟨by decide, by decide, fun _ => by decide⟩
    · obtain ⟨a, b, c⟩ := hne f h1
      exact ⟨a, b, fun _ => c⟩
  · rcases write_config_frames_ops c f h with h1 | h1 | h1 | h1 | h1
    · subst h1; exact ⟨by decide, by decide, fun _ => by decide⟩
    · subst h1; exact ⟨by decide, by decide, fun _ => by decide⟩
    · subst h1; exact ⟨by decide, by decide, fun _ => by decide⟩
    · subst h1; exact ⟨by decide, by decide, fun _ => by decide⟩
    · obtain ⟨a, b, c⟩ := hne f h1
      exact ⟨a, b, fun _ => c⟩

/-- C24: `usb_pickit_write` of a writable state, for both values of `keep_old` (with the
device answering the read-back when it is set), returns after sending a trace that
holds the erase packet `PCEpZZZZ`, without the data memory erase `e`, exactly when
`max_ee` is 0, and the erase packet `PCEepZZZ` exactly when it is not; one of the two is
sent, once; and when `max_ee` is 0 no packet of the trace holds a `D` command: the
EEPROM write sends the packets that enter and leave programming mode only. -/
theorem usb_pickit_write_erase_frame (s : pic14_state) (keep_old : Bool) (d : usb_pickit)
    (b1 b2 b3 : List Nat) (rest : List (List Nat)) (hw : s.writable)
    (hi : keep_old = true →
      d.inbox = b1 :: b2 :: b3 :: rest ∧ b1.length = 8 ∧ b2.length = 8 ∧ b3.length = 8) :
    ∃ s' d' pre post,
      usb_pickit_write s keep_old d = usb_result.done s' d' ∧
      d'.sent = d.sent ++ (pre ++ [reset_frame (decide (s.program.max_ee = 0))] ++ post) ∧
      (∀ f ∈ pre ++ post, f ≠ cmd "PCEpZZZZ" ∧ f ≠ cmd "PCEepZZZ") ∧
      (cmd "PCEpZZZZ" ∈ pre ++ [reset_frame (decide (s.program.max_ee = 0))] ++ post ↔
        s.program.max_ee = 0) ∧
      (cmd "PCEepZZZ" ∈ pre ++ [reset_frame (decide (s.program.max_ee = 0))] ++ post ↔
        s.program.max_ee ≠ 0) ∧
      (s.program.max_ee = 0 →
        (∀ f ∈ pre ++ [reset_frame (decide (s.program.max_ee = 0))] ++ post,
          68 ∉ frame_ops f) ∧
        frames_of (usb_pickit_write_eeprom s.program) =
          [cmd "PZZZZZZZ", cmd "pZZZZZZZ"]) := by
  have hw' := hw
  obtain ⟨w1, w2, w3, w4, w5, w6⟩ := hw'
  have hbe : s.program.max_ee ≤ s.program.ee.length := by omega
  -- the trace in both cases
  have key : ∃ s' d' c, usb_pickit_write s keep_old d = usb_result.done s' d' ∧
      d'.sent = d.sent ++ ((if keep_old then read_config_frames else []) ++
        [reset_frame (decide (s.program.max_ee = 0))] ++
        (write_eeprom_frames s.program ++ write_program_frames s.program ++
          write_config_frames c)) := by
    cases keep_old with
    | true =>
      obtain ⟨hin, h1, h2, h3⟩ := hi rfl
      obtain ⟨sum, hrun⟩ := usb_pickit_write_run_keep s d b1 b2 b3 rest hw hin h1 h2 h3
      exact ⟨_, _, merged_config (config_read_back local_config b1 b2 b3) s.config, hrun,
        by simp [List.append_assoc]⟩
    | false =>
      obtain ⟨sum, hrun⟩ := usb_pickit_write_run_blast s d hw
      exact ⟨_, _, s.config, hrun, by simp [List.append_assoc]⟩
  obtain ⟨s', d', c, hrun, hsent⟩ := key
  have hother := write_frames_not_erase s c keep_old hbe
  have hsplit : ∀ f, f ∈ (if keep_old then read_config_frames else []) ++
      (write_eeprom_frames s.program ++ write_program_frames s.program ++
        write_config_frames c) →
      f ≠ cmd "PCEpZZZZ" ∧ f ≠ cmd "PCEepZZZ" ∧
        (s.program.max_ee = 0 → 68 ∉ frame_ops f) := by
    intro f hf
    apply hother f
    simp only [List.mem_append] at hf ⊢
    tauto
  refine ⟨s', d', if keep_old then read_config_frames else [],
    write_eeprom_frames s.program ++ write_program_frames s.program ++
      write_config_frames c, hrun, hsent, fun f hf => ⟨(hsplit f hf).1, (hsplit f hf).2.1⟩,
    ?_, ?_, ?_⟩
  · constructor
    · intro hm
      rcases List.mem_append.mp hm with h | h
      rcases List.mem_append.mp h with h | h
      · exact absurd rfl (hsplit _ (List.mem_append_left _ h)).1
      · by_contra hne
        simp only [List.mem_singleton, reset_frame, hne, decide_False, Bool.false_eq_true,
          if_false] at h
        revert h
        decide
      · exact absurd rfl (hsplit _ (List.mem_append_right _ h)).1
    · intro h0
      simp [reset_frame, h0]
  · constructor
    · intro hm h0
      rcases List.mem_append.mp hm with h | h
      rcases List.mem_append.mp h with h | h
      · exact absurd rfl (hsplit _ (List.mem_append_left _ h)).2.1
      · simp only [List.mem_singleton, reset_frame, h0, decide_True, if_true] at h
        revert h
        decide
      · exact absurd rfl (hsplit _ (List.mem_append_right _ h)).2.1
    · intro h0
      simp [reset_frame, h0]
  · intro h0
    refine ⟨?_, ?_⟩
    · intro f hf
      rcases List.mem_append.mp hf with h | h
      rcases List.mem_append.mp h with h | h
      · exact (hsplit _ (List.mem_append_left _ h)).2.2 h0
      · rw [List.mem_singleton.mp h]
        simp only [reset_frame, h0, decide_True, if_true]
        decide
      · exact (hsplit _ (List.mem_append_right _ h)).2.2 h0
    · rw [emits_frames_of _ _ _ (emits_write_eeprom s.program hbe),
        write_eeprom_frames_empty s.program h0]

/-- C24 on the fresh state of a 12F629, whose `max_ee` is 0, with `keep_old` clear: the
erase packet is `PCEpZZZZ`. -/
theorem usb_pickit_write_erase_frame_witness :
    ∃ s' d', usb_pickit_write (fresh_state dev_12F629) false
        { sent := [], requested := [], inbox := [] } = usb_result.done s' d' ∧
      cmd "PCEpZZZZ" ∈ d'.sent ∧ cmd "PCEepZZZ" ∉ d'.sent := by
  obtain ⟨s', d', pre, post, hrun, hsent, _, h1, h2, _⟩ :=
    usb_pickit_write_erase_frame (fresh_state dev_12F629) false
      { sent := [], requested := [], inbox := [] } [] [] [] []
      (fresh_state_writable dev_12F629 (by decide)) (fun h => by cases h)
  refine ⟨s', d', hrun, ?_, ?_⟩
  · rw [hsent]
    exact h1.mpr rfl
  · rw [hsent]
    intro h
    exact h2.mp h rfl

/-! ## Size of the transfers -/

theorem transfers_in_pure (lens : List Nat) {α : Type} (a : α) :
    transfers_in lens (pure a : usb_m α) := by
  intro d d' h
  simp only [usb_pure_apply, usb_result.link, Option.some.injEq] at h
  subst h
  exact ⟨[], [], by simp, by simp, by simp, by simp⟩

theorem transfers_in_bind (lens : List Nat) {α β : Type} (x : usb_m α) (f : α → usb_m β)
    (hx : transfers_in lens x) (hf : ∀ a, transfers_in lens (f a)) :
    transfers_in lens (x >>= f) := by
  intro d d' h
  rw [usb_bind_apply] at h
  cases hxd : x d with
  | done a d1 =>
    rw [hxd] at h
    simp only at h
    obtain ⟨fs, rs, h1, h2, h3, h4⟩ := hx d d1 (by rw [hxd]; rfl)
    obtain ⟨fs', rs', g1, g2, g3, g4⟩ := hf a d1 d' h
    refine ⟨fs ++ fs', rs ++ rs', by rw [g1, h1, List.append_assoc],
      by rw [g2, h2, List.append_assoc], ?_, ?_⟩
    · intro f hf'
      rcases List.mem_append.mp hf' with h | h
      · exact h3 f h
      · exact g3 f h
    · intro r hr
      rcases List.mem_append.mp hr with h | h
      · exact h4 r h
      · exact g4 r h
  | exited d1 =>
    rw [hxd] at h
    simp only [usb_result.link, Option.some.injEq] at h
    subst h
    exact hx d d1 (by rw [hxd]; rfl)
  | undefined =>
    rw [hxd] at h
    simp [usb_result.link] at h

theorem transfers_in_send (lens : List Nat) (src : List Nat) (h : src.length = REQ_LEN) :
    transfers_in lens (send_usb src) := by
  intro d d' hd
  simp only [send_usb, usb_result.link, Option.some.injEq] at hd
  subst hd
  exact ⟨[src], [], rfl, by simp, by simpa using h, by simp⟩

theorem transfers_in_recv (lens : List Nat) (len : Nat) (h : len ∈ lens) :
    transfers_in lens (recv_usb len) := by
  intro d d' hd
  unfold recv_usb at hd
  cases hi : d.inbox with
  | nil =>
    rw [hi] at hd
    simp only [usb_result.link, Option.some.injEq] at hd
    subst hd
    exact ⟨[], [len], by simp, rfl, by simp, by simpa using h⟩
  | cons r rest =>
    rw [hi] at hd
    simp only at hd
    split at hd <;>
    · simp only [usb_result.link, Option.some.injEq] at hd
      subst hd
      exact ⟨[], [len], by simp, rfl, by simp, by simpa using h⟩

theorem transfers_in_of_option (lens : List Nat) {α : Type} (x : Option α) :
    transfers_in lens (usb_m.of_option x) := by
  intro d d' h
  cases x with
  | none => simp [usb_m.of_option, usb_result.link] at h
  | some a =>
    simp only [usb_m.of_option, usb_result.link, Option.some.injEq] at h
    subst h
    exact ⟨[], [], by simp, by simp, by simp, by simp⟩

theorem transfers_in_of_option_bind (lens : List Nat) {α β : Type} (x : Option α)
    (f : α → usb_m β) (hf : ∀ a, x = some a → transfers_in lens (f a)) :
    transfers_in lens (usb_m.of_option x >>= f) := by
  cases x with
  | none =>
    intro d d' h
    simp [usb_bind_apply, usb_m.of_option, usb_result.link] at h
  | some a =>
    intro d d' h
    rw [usb_bind_apply] at h
    exact hf a rfl d d' h

theorem transfers_in_ite (lens : List Nat) {α : Type} (c : Prop) [Decidable c]
    (x y : usb_m α) (hx : transfers_in lens x) (hy : transfers_in lens y) :
    transfers_in lens (if c then x else y) := by
  split
  · exact hx
  · exact hy

theorem transfers_in_exit (lens : List Nat) {α : Type} :
    transfers_in lens (fun d => (usb_result.exited d : usb_result α)) := by
  intro d d' h
  simp only [usb_result.link, Option.some.injEq] at h
  subst h
  exact ⟨[], [], by simp, by simp, by simp, by simp⟩

theorem transfers_in_undefined (lens : List Nat) {α : Type} :
    transfers_in lens (fun _ => (usb_result.undefined : usb_result α)) := by
  intro d d' h
  simp [usb_result.link] at h

theorem transfers_in_mono (lens lens' : List Nat) {α : Type} (x : usb_m α)
    (hs : ∀ r ∈ lens, r ∈ lens') (h : transfers_in lens x) : transfers_in lens' x := by
  intro d d' hd
  obtain ⟨fs, rs, h1, h2, h3, h4⟩ := h d d' hd
  exact ⟨fs, rs, h1, h2, h3, fun r hr => hs r (h4 r hr)⟩

theorem word_cmd_length (w : Nat) : (word_cmd w).length = REQ_LEN := by
  rw [word_cmd_eq]; rfl

theorem words_cmd_length (a b : Nat) : (words_cmd a b).length = REQ_LEN := by
  rw [words_cmd_eq]; rfl

theorem data_cmd_length (a b c e : Nat) : (data_cmd a b c e).length = REQ_LEN := by
  rw [data_cmd_eq]; rfl

theorem checksum_cmd_length (a b : Nat) : (checksum_cmd a b).length = REQ_LEN := by
  simp [checksum_cmd, cmd, REQ_LEN]

theorem write_eeprom_last_length (ee : List Nat) (k j i : Nat) (c c' : List Nat)
    (h : write_eeprom_last ee k j i c = some c') : c'.length = c.length := by
  induction k generalizing j i c with
  | zero =>
    simp only [write_eeprom_last, Option.some.injEq] at h
    rw [← h]
  | succ k ih =>
    rw [write_eeprom_last] at h
    cases he : ee[i]? with
    | none => rw [he] at h; simp at h
    | some b =>
      rw [he] at h
      simp only at h
      rw [ih _ _ _ h]
      simp

theorem transfers_in_send_usb_word (lens : List Nat) (w : Nat) :
    transfers_in lens (send_usb_word w) :=
  transfers_in_send lens _ (word_cmd_length w)

theorem transfers_in_send_usb_words_loop (lens : List Nat) (w : List Nat) (k i : Nat) :
    transfers_in lens (send_usb_words_loop w k i) := by
  induction k generalizing i with
  | zero => exact transfers_in_pure lens ()
  | succ k ih =>
    rw [send_usb_words_loop]
    refine transfers_in_bind lens _ _ (transfers_in_of_option lens _) (fun w1 => ?_)
    refine transfers_in_bind lens _ _ (transfers_in_of_option lens _) (fun w2 => ?_)
    exact transfers_in_bind lens _ _ (transfers_in_send lens _ (words_cmd_length w1 w2))
      (fun _ => ih (i + 1))

theorem transfers_in_send_usb_words (lens : List Nat) (n : Nat) (w : List Nat) :
    transfers_in lens (send_usb_words n w) := by
  unfold send_usb_words
  refine transfers_in_bind lens _ _ (transfers_in_send_usb_words_loop lens w _ 0) (fun _ => ?_)
  split
  · exact transfers_in_bind lens _ _ (transfers_in_of_option lens _)
      (fun last => transfers_in_send_usb_word lens last)
  · exact transfers_in_pure lens _

theorem transfers_in_recv_usb_words4 (lens : List Nat) (h : REQ_LEN ∈ lens) :
    transfers_in lens recv_usb_words4 := by
  unfold recv_usb_words4
  refine transfers_in_bind lens _ _ (transfers_in_send lens _ (by decide)) (fun _ => ?_)
  exact transfers_in_bind lens _ _ (transfers_in_recv lens _ h)
    (fun _ => transfers_in_pure lens _)

theorem transfers_in_recv_usb_words_loop (lens : List Nat) (h : REQ_LEN ∈ lens)
    (fuel len : Nat) : transfers_in lens (recv_usb_words_loop fuel len) := by
  induction fuel generalizing len with
  | zero => exact transfers_in_pure lens _
  | succ fuel ih =>
    rw [recv_usb_words_loop]
    split
    · refine transfers_in_bind lens _ _ (transfers_in_recv_usb_words4 lens h) (fun _ => ?_)
      exact transfers_in_bind lens _ _ (ih _) (fun _ => transfers_in_pure lens _)
    · exact transfers_in_pure lens _

theorem transfers_in_recv_usb_words (lens : List Nat) (h : REQ_LEN ∈ lens) (len : Nat) :
    transfers_in lens (recv_usb_words len) :=
  transfers_in_recv_usb_words_loop lens h len len

theorem transfers_in_read_config (lens : List Nat) (h : REQ_LEN ∈ lens) (c : pic14_config) :
    transfers_in lens (usb_pickit_read_config c) := by
  unfold usb_pickit_read_config
  refine transfers_in_bind lens _ _ (transfers_in_send lens _ (by decide)) (fun _ => ?_)
  refine transfers_in_bind lens _ _ (transfers_in_recv_usb_words lens h _) (fun _ => ?_)
  refine transfers_in_bind lens _ _ (transfers_in_send lens _ (by decide)) (fun _ => ?_)
  refine transfers_in_bind lens _ _ (transfers_in_recv_usb_words lens h _) (fun _ => ?_)
  refine transfers_in_bind lens _ _ (transfers_in_of_option lens _) (fun _ => ?_)
  refine transfers_in_bind lens _ _ (transfers_in_send lens _ (by decide)) (fun _ => ?_)
  refine transfers_in_bind lens _ _ (transfers_in_recv_usb_words lens h _) (fun _ => ?_)
  exact transfers_in_bind lens _ _ (transfers_in_send lens _ (by decide))
    (fun _ => transfers_in_pure lens _)

theorem transfers_in_write_eeprom_loop (lens : List Nat) (ee : List Nat) (k i : Nat) :
    transfers_in lens (write_eeprom_loop ee k i) := by
  induction k generalizing i with
  | zero => exact transfers_in_pure lens ()
  | succ k ih =>
    rw [write_eeprom_loop]
    refine transfers_in_bind lens _ _ (transfers_in_of_option lens _) (fun b0 => ?_)
    refine transfers_in_bind lens _ _ (transfers_in_of_option lens _) (fun b1 => ?_)
    refine transfers_in_bind lens _ _ (transfers_in_of_option lens _) (fun b2 => ?_)
    refine transfers_in_bind lens _ _ (transfers_in_of_option lens _) (fun b3 => ?_)
    exact transfers_in_bind lens _ _ (transfers_in_send lens _ (data_cmd_length b0 b1 b2 b3))
      (fun _ => ih (i + 1))

theorem transfers_in_write_eeprom (lens : List Nat) (p : pic14_program) :
    transfers_in lens (usb_pickit_write_eeprom p) := by
  unfold usb_pickit_write_eeprom
  refine transfers_in_bind lens _ _ (transfers_in_send lens _ (by decide)) (fun _ => ?_)
  refine transfers_in_bind lens _ _ (transfers_in_write_eeprom_loop lens _ _ 0) (fun _ => ?_)
  dsimp only
  split
  · refine transfers_in_of_option_bind lens _ _ (fun c hc => ?_)
    refine transfers_in_bind lens _ _ (transfers_in_send lens c ?_)
      (fun _ => transfers_in_send lens _ (by decide))
    rw [write_eeprom_last_length _ _ _ _ _ _ hc]
    rfl
  · exact transfers_in_bind lens _ _ (transfers_in_pure lens _)
      (fun _ => transfers_in_send lens _ (by decide))

theorem transfers_in_write_program (lens : List Nat) (p : pic14_program) :
    transfers_in lens (usb_pickit_write_program p) := by
  unfold usb_pickit_write_program
  refine transfers_in_bind lens _ _ (transfers_in_send lens _ (by decide)) (fun _ => ?_)
  refine transfers_in_bind lens _ _ (transfers_in_send_usb_words lens _ _) (fun _ => ?_)
  exact transfers_in_send lens _ (by decide)

theorem transfers_in_write_config (lens : List Nat) (c : pic14_config) :
    transfers_in lens (usb_pickit_write_config c) := by
  unfold usb_pickit_write_config
  refine transfers_in_bind lens _ _ (transfers_in_send lens _ (by decide)) (fun _ => ?_)
  try dsimp only
  repeat' first
    | exact transfers_in_pure _ _
    | exact transfers_in_send _ _ (by decide)
    | exact transfers_in_send_usb_word _ _
    | exact transfers_in_send_usb_words _ _ _
    | refine transfers_in_bind _ _ _ ?_ (fun _ => ?_)
    | refine transfers_in_ite _ _ _ _ ?_ ?_

theorem transfers_in_reset (lens : List Nat) (keep : Bool) :
    transfers_in lens (usb_pickit_reset keep) := by
  unfold usb_pickit_reset
  exact transfers_in_ite _ _ _ _ (transfers_in_send _ _ (by decide))
    (transfers_in_send _ _ (by decide))

theorem transfers_in_merge_config (lens : List Nat) (o c : pic14_config) :
    transfers_in lens (usb_pickit_merge_config o c) := by
  unfold usb_pickit_merge_config
  try dsimp only
  repeat' first
    | exact transfers_in_pure _ _
    | exact transfers_in_send _ _ (by decide)
    | exact transfers_in_send_usb_word _ _
    | exact transfers_in_send_usb_words _ _ _
    | exact transfers_in_write_config _ _

theorem transfers_in_write (lens : List Nat) (h : REQ_LEN ∈ lens) (s : pic14_state)
    (keep_old : Bool) : transfers_in lens (usb_pickit_write s keep_old) := by
  unfold usb_pickit_write
  try dsimp only
  repeat' first
    | exact transfers_in_pure _ _
    | exact transfers_in_of_option _ _
    | exact transfers_in_read_config _ h _
    | exact transfers_in_reset _ _
    | exact transfers_in_write_eeprom _ _
    | exact transfers_in_write_program _ _
    | exact transfers_in_write_config _ _
    | exact transfers_in_merge_config _ _ _
    | refine transfers_in_bind _ _ _ ?_ (fun _ => ?_)
    | refine transfers_in_ite _ _ _ _ ?_ ?_

theorem transfers_in_erase (lens : List Nat) (h : REQ_LEN ∈ lens) (s : pic14_state) :
    transfers_in lens (usb_pickit_erase s) := by
  unfold usb_pickit_erase
  try dsimp only
  repeat' first
    | exact transfers_in_pure _ _
    | exact transfers_in_send _ _ (by decide)
    | exact transfers_in_send_usb_word _ _
    | exact transfers_in_read_config _ h _
    | exact transfers_in_reset _ _
    | refine transfers_in_bind _ _ _ ?_ (fun _ => ?_)
    | refine transfers_in_ite _ _ _ _ ?_ ?_

theorem transfers_in_get_device (lens : List Nat) (h : REQ_LEN ∈ lens) (dev : pic14_device) :
    transfers_in lens (usb_pickit_get_device dev) := by
  unfold usb_pickit_get_device
  try dsimp only
  repeat' first
    | exact transfers_in_pure _ _
    | exact transfers_in_send _ _ (by decide)
    | exact transfers_in_of_option _ _
    | exact transfers_in_recv_usb_words _ h _
    | refine transfers_in_bind _ _ _ ?_ (fun _ => ?_)
    | split

theorem transfers_in_read_checksum (lens : List Nat) (h : REQ_LEN ∈ lens) (s : pic14_state) :
    transfers_in lens (usb_pickit_read_checksum s) := by
  unfold usb_pickit_read_checksum
  try dsimp only
  repeat' first
    | exact transfers_in_pure _ _
    | exact transfers_in_send _ _ (by decide)
    | exact transfers_in_send _ _ (checksum_cmd_length _ _)
    | exact transfers_in_of_option _ _
    | exact transfers_in_recv _ _ h
    | refine transfers_in_bind _ _ _ ?_ (fun _ => ?_)

theorem transfers_in_set_bandgap (lens : List Nat) (h : REQ_LEN ∈ lens) (s : pic14_state)
    (bgarg : Int) : transfers_in lens (usb_pickit_set_bandgap s bgarg) := by
  unfold usb_pickit_set_bandgap
  try dsimp only
  repeat' first
    | exact transfers_in_pure _ _
    | exact transfers_in_exit _
    | exact transfers_in_send _ _ (by decide)
    | exact transfers_in_send_usb_word _ _
    | exact transfers_in_read_config _ h _
    | exact transfers_in_reset _ _
    | refine transfers_in_bind _ _ _ ?_ (fun _ => ?_)
    | refine transfers_in_ite _ _ _ _ ?_ ?_

theorem transfers_in_osccal_regen (lens : List Nat) (h : REQ_LEN ∈ lens) (s : pic14_state) :
    transfers_in lens (usb_pickit_osccal_regen s) := by
  unfold usb_pickit_osccal_regen
  try dsimp only
  repeat' first
    | exact transfers_in_pure _ _
    | exact transfers_in_exit _
    | exact transfers_in_send _ _ (by decide)
    | exact transfers_in_send_usb_word _ _
    | exact transfers_in_of_option _ _
    | exact transfers_in_recv _ _ h
    | exact transfers_in_read_config _ h _
    | exact transfers_in_reset _ _
    | refine transfers_in_bind _ _ _ ?_ (fun _ => ?_)
    | refine transfers_in_ite _ _ _ _ ?_ ?_

theorem transfers_in_read_program (lens : List Nat) (h : REQ_LEN ∈ lens) (p : pic14_program) :
    transfers_in lens (usb_pickit_read_program p) := by
  unfold usb_pickit_read_program
  try dsimp only
  repeat' first
    | exact transfers_in_pure _ _
    | exact transfers_in_send _ _ (by decide)
    | exact transfers_in_of_option _ _
    | exact transfers_in_recv_usb_words _ h _
    | refine transfers_in_bind _ _ _ ?_ (fun _ => ?_)

theorem transfers_in_read_eeprom_loop (lens : List Nat) (h : 64 ∈ lens) (fuel nee : Nat)
    (p : pic14_program) : transfers_in lens (read_eeprom_loop fuel nee p) := by
  induction fuel generalizing nee p with
  | zero =>
    rw [read_eeprom_loop]
    exact transfers_in_ite _ _ _ _ (transfers_in_undefined _) (transfers_in_pure _ _)
  | succ fuel ih =>
    rw [read_eeprom_loop]
    repeat' first
      | exact transfers_in_pure _ _
      | exact ih _ _
      | exact transfers_in_send _ _ (by decide)
      | exact transfers_in_of_option _ _
      | exact transfers_in_recv _ _ h
      | refine transfers_in_bind _ _ _ ?_ (fun _ => ?_)
      | refine transfers_in_ite _ _ _ _ ?_ ?_

theorem transfers_in_read_eeprom (lens : List Nat) (h : 64 ∈ lens) (p : pic14_program) :
    transfers_in lens (usb_pickit_read_eeprom p) := by
  unfold usb_pickit_read_eeprom
  try dsimp only
  repeat' first
    | exact transfers_in_pure _ _
    | exact transfers_in_read_eeprom_loop _ h _ _ _
    | exact transfers_in_send _ _ (by decide)
    | exact transfers_in_of_option _ _
    | refine transfers_in_bind _ _ _ ?_ (fun _ => ?_)

theorem transfers_in_read (lens : List Nat) (h : REQ_LEN ∈ lens) (h64 : 64 ∈ lens)
    (s : pic14_state) : transfers_in lens (usb_pickit_read s) := by
  unfold usb_pickit_read
  try dsimp only
  repeat' first
    | exact transfers_in_pure _ _
    | exact transfers_in_read_eeprom _ h64 _
    | exact transfers_in_read_program _ h _
    | exact transfers_in_read_config _ h _
    | refine transfers_in_bind _ _ _ ?_ (fun _ => ?_)

set_option maxRecDepth 100000 in
/-- C27. The EEPROM read of `usb_pickit_read_eeprom` is not an 8-byte transfer: on a
12F629 (128 EEPROM bytes) whose programmer answers, the function sends four packets of
8 bytes and asks the device twice for 64 bytes, `recv_usb (d, 64, eeData)`. -/
theorem read_eeprom_requests_sixty_four :
    REQ_LEN = 8 ∧
    (usb_pickit_read_eeprom (fresh_state dev_12F629).program
        ⟨[], [], [List.replicate 64 0xff, List.replicate 64 0xff]⟩).link
      = some ⟨[cmd "PZZZZZZZ", cmd "rrrrrrrr", cmd "rrrrrrrr", cmd "pZZZZZZZ"],
          [64, 64], []⟩ := by
  refine ⟨rfl, ?_⟩
  decide!

/-- C27 (amended). Every packet a driver operation sends has 8 bytes, and every
transfer it asks the device for has 8 bytes, except in the EEPROM read: write, erase,
`usb_pickit_get_device`, the checksum query, the bandgap setting, the calibration
regeneration, the program read and the configuration read ask for 8 bytes only, the
EEPROM read asks for 64 bytes only, and so `usb_pickit_read` asks for 8 or 64.  This
holds on every link, whether the operation returns or ends the process. -/
theorem transfer_sizes :
    REQ_LEN = 8 ∧
    (∀ s keep_old, transfers_in [8] (usb_pickit_write s keep_old)) ∧
    (∀ s, transfers_in [8] (usb_pickit_erase s)) ∧
    (∀ dev, transfers_in [8] (usb_pickit_get_device dev)) ∧
    (∀ s, transfers_in [8] (usb_pickit_read_checksum s)) ∧
    (∀ s bgarg, transfers_in [8] (usb_pickit_set_bandgap s bgarg)) ∧
    (∀ s, transfers_in [8] (usb_pickit_osccal_regen s)) ∧
    (∀ p, transfers_in [8] (usb_pickit_read_program p)) ∧
    (∀ c, transfers_in [8] (usb_pickit_read_config c)) ∧
    (∀ p, transfers_in [64] (usb_pickit_read_eeprom p)) ∧
    (∀ s, transfers_in [8, 64] (usb_pickit_read s)) := by
  have h8 : REQ_LEN ∈ [8] := by simp [REQ_LEN]
  have h8b : REQ_LEN ∈ [8, 64] := by simp [REQ_LEN]
  exact ⟨rfl, fun s k => transfers_in_write _ h8 s k, fun s => transfers_in_erase _ h8 s,
    fun dev => transfers_in_get_device _ h8 dev, fun s => transfers_in_read_checksum _ h8 s,
    fun s b => transfers_in_set_bandgap _ h8 s b, fun s => transfers_in_osccal_regen _ h8 s,
    fun p => transfers_in_read_program _ h8 p, fun c => transfers_in_read_config _ h8 c,
    fun p => transfers_in_read_eeprom _ (by simp) p,
    fun s => transfers_in_read _ h8b (by simp) s⟩

/-! ## Read of the configuration block -/

theorem usb_bind_done {α β : Type} (x : usb_m α) (f : α → usb_m β) (d d' : usb_pickit) (b : β)
    (h : (x >>= f) d = usb_result.done b d') :
    ∃ a d1, x d = usb_result.done a d1 ∧ f a d1 = usb_result.done b d' := by
  rw [usb_bind_apply] at h
  cases hx : x d with
  | done a d1 =>
    rw [hx] at h
    exact ⟨a, d1, rfl, h⟩
  | exited d1 => rw [hx] at h; simp at h
  | undefined => rw [hx] at h; simp at h

theorem recv_usb_done (len : Nat) (d d' : usb_pickit) (b : List Nat)
    (h : recv_usb len d = usb_result.done b d') :
    b.length = len ∧ d.inbox = b :: d'.inbox ∧ d'.sent = d.sent ∧
      d'.requested = d.requested ++ [len] := by
  unfold recv_usb at h
  cases hi : d.inbox with
  | nil => rw [hi] at h; simp at h
  | cons r rest =>
    rw [hi] at h
    simp only at h
    split at h
    · simp only [usb_result.done.injEq] at h
      obtain ⟨h1, h2⟩ := h
      subst h1 h2
      simp_all
    · simp at h

theorem recv_usb_words4_done (d d' : usb_pickit) (ws : List Nat)
    (h : recv_usb_words4 d = usb_result.done ws d') :
    ∃ b, b.length = 8 ∧ d.inbox = b :: d'.inbox ∧ d'.sent = d.sent ++ [cmd "RZZZZZZZ"] ∧
      ws = [word_of_bytes b 0, word_of_bytes b 1, word_of_bytes b 2, word_of_bytes b 3] := by
  unfold recv_usb_words4 at h
  obtain ⟨_, d1, h1, h⟩ := usb_bind_done _ _ _ _ _ h
  obtain ⟨b, d2, h2, h⟩ := usb_bind_done _ _ _ _ _ h
  simp only [send_usb, usb_result.done.injEq, true_and] at h1
  obtain ⟨hl, hin, hs, _⟩ := recv_usb_done _ _ _ _ h2
  simp only [usb_pure_apply, usb_result.done.injEq] at h
  obtain ⟨hw, hd⟩ := h
  subst hd h1
  refine ⟨b, hl, hin, hs, ?_⟩
  rw [← hw]
  rfl

theorem recv_usb_words_one_done (d d' : usb_pickit) (ws : List Nat)
    (h : recv_usb_words 1 d = usb_result.done ws d') :
    ∃ b, b.length = 8 ∧ d.inbox = b :: d'.inbox ∧ d'.sent = d.sent ++ [cmd "RZZZZZZZ"] ∧
      ws = [word_of_bytes b 0] := by
  unfold recv_usb_words at h
  rw [recv_usb_words_loop, if_pos (by decide)] at h
  obtain ⟨w4, d1, h1, h⟩ := usb_bind_done _ _ _ _ _ h
  obtain ⟨b, hl, hin, hs, hw⟩ := recv_usb_words4_done _ _ _ h1
  simp [usb_bind_apply, usb_pure_apply, recv_usb_words_loop] at h
  obtain ⟨hws, hd⟩ := h
  subst hd
  refine ⟨b, hl, hin, hs, ?_⟩
  rw [← hws, hw]
  rfl

theorem recv_usb_words_four_done (d d' : usb_pickit) (ws : List Nat)
    (h : recv_usb_words 4 d = usb_result.done ws d') :
    ∃ b, b.length = 8 ∧ d.inbox = b :: d'.inbox ∧ d'.sent = d.sent ++ [cmd "RZZZZZZZ"] ∧
      ws = [word_of_bytes b 0, word_of_bytes b 1, word_of_bytes b 2, word_of_bytes b 3] := by
  unfold recv_usb_words at h
  rw [recv_usb_words_loop, if_pos (by decide)] at h
  obtain ⟨w4, d1, h1, h⟩ := usb_bind_done _ _ _ _ _ h
  obtain ⟨b, hl, hin, hs, hw⟩ := recv_usb_words4_done _ _ _ h1
  simp [usb_bind_apply, usb_pure_apply, recv_usb_words_loop] at h
  obtain ⟨hws, hd⟩ := h
  subst hd
  refine ⟨b, hl, hin, hs, ?_⟩
  rw [← hws, hw]
  rfl

/-- Whenever `usb_pickit_read_config` returns, it has sent its seven packets, taken
three transfers of 8 bytes from the link, and stored the first word of the first one as
the calibration word, whatever the configuration it was given. -/
theorem usb_pickit_read_config_done (c c' : pic14_config) (d d' : usb_pickit)
    (h : usb_pickit_read_config c d = usb_result.done c' d') :
    ∃ b1 b2 b3, d.inbox = b1 :: b2 :: b3 :: d'.inbox ∧
      b1.length = 8 ∧ b2.length = 8 ∧ b3.length = 8 ∧
      d'.sent = d.sent ++ read_config_frames ∧
      c'.osccal = word_of_bytes b1 0 ∧
      c'.id.take 4 =
        [word_of_bytes b2 0, word_of_bytes b2 1, word_of_bytes b2 2, word_of_bytes b2 3] ∧
      c'.config = word_of_bytes b3 0 ∧
      c'.save_osccal = c.save_osccal ∧ c'.configmask = c.configmask := by
  unfold usb_pickit_read_config at h
  obtain ⟨_, d1, h1, h⟩ := usb_bind_done _ _ _ _ _ h
  obtain ⟨w1, d2, h2, h⟩ := usb_bind_done _ _ _ _ _ h
  obtain ⟨_, d3, h3, h⟩ := usb_bind_done _ _ _ _ _ h
  obtain ⟨w2, d4, h4, h⟩ := usb_bind_done _ _ _ _ _ h
  obtain ⟨id', d5, h5, h⟩ := usb_bind_done _ _ _ _ _ h
  obtain ⟨_, d6, h6, h⟩ := usb_bind_done _ _ _ _ _ h
  obtain ⟨w3, d7, h7, h⟩ := usb_bind_done _ _ _ _ _ h
  obtain ⟨_, d8, h8, h⟩ := usb_bind_done _ _ _ _ _ h
  simp only [send_usb, usb_result.done.injEq, true_and] at h1 h3 h6 h8
  obtain ⟨b1, l1, i1, s1, e1⟩ := recv_usb_words_one_done _ _ _ h2
  obtain ⟨b2, l2, i2, s2, e2⟩ := recv_usb_words_four_done _ _ _ h4
  obtain ⟨b3, l3, i3, s3, e3⟩ := recv_usb_words_one_done _ _ _ h7
  simp only [usb_pure_apply, usb_result.done.injEq] at h
  obtain ⟨hc, hd⟩ := h
  cases hst : store_words c.id w2 with
  | none => rw [hst] at h5; simp [usb_m.of_option] at h5
  | some v =>
    rw [hst] at h5
    simp only [usb_m.of_option, usb_result.done.injEq] at h5
    obtain ⟨hv, hd5⟩ := h5
    subst hd hd5 h1 h3 h6 h8 hv hc
    simp only at i1 i2 i3 s1 s2 s3 ⊢
    refine ⟨b1, b2, b3, ?_, l1, l2, l3, ?_, ?_, ?_, ?_⟩
    · rw [i1, i2, i3]
    · rw [s3, s2, s1]
      simp [read_config_frames]
    · rw [e1]; rfl
    · unfold store_words at hst
      split at hst
      · simp only [Option.some.injEq] at hst
        rw [← hst, e2]
        rfl
      · simp at hst
    · rw [e3]
      simp


theorem consumes_pure {α : Type} (a : α) : consumes (pure a : usb_m α) := by
  intro d a' d' h
  simp only [usb_pure_apply, usb_result.done.injEq] at h
  exact ⟨[], by rw [← h.2]; rfl⟩

theorem consumes_bind {α β : Type} (x : usb_m α) (f : α → usb_m β)
    (hx : consumes x) (hf : ∀ a, consumes (f a)) : consumes (x >>= f) := by
  intro d b d' h
  obtain ⟨a, d1, h1, h2⟩ := usb_bind_done _ _ _ _ _ h
  obtain ⟨i1, e1⟩ := hx d a d1 h1
  obtain ⟨i2, e2⟩ := hf a d1 b d' h2
  exact ⟨i1 ++ i2, by rw [e1, e2, List.append_assoc]⟩

theorem consumes_send (src : List Nat) : consumes (send_usb src) := by
  intro d a d' h
  simp only [send_usb, usb_result.done.injEq, true_and] at h
  exact ⟨[], by rw [← h]; rfl⟩

theorem consumes_recv (len : Nat) : consumes (recv_usb len) := by
  intro d a d' h
  exact ⟨[a], (recv_usb_done _ _ _ _ h).2.1⟩

theorem consumes_of_option {α : Type} (x : Option α) : consumes (usb_m.of_option x) := by
  intro d a d' h
  cases x with
  | none => simp [usb_m.of_option] at h
  | some v =>
    simp only [usb_m.of_option, usb_result.done.injEq] at h
    exact ⟨[], by rw [← h.2]; rfl⟩

theorem consumes_ite {α : Type} (c : Prop) [Decidable c] (x y : usb_m α)
    (hx : consumes x) (hy : consumes y) : consumes (if c then x else y) := by
  split
  · exact hx
  · exact hy

theorem consumes_undefined {α : Type} :
    consumes (fun _ => (usb_result.undefined : usb_result α)) := by
  intro d a d' h
  simp at h

theorem consumes_recv_usb_words_loop (fuel len : Nat) :
    consumes (recv_usb_words_loop fuel len) := by
  induction fuel generalizing len with
  | zero => exact consumes_pure _
  | succ fuel ih =>
    rw [recv_usb_words_loop]
    unfold recv_usb_words4
    repeat' first
      | exact consumes_pure _
      | exact ih _
      | exact consumes_send _
      | exact consumes_recv _
      | refine consumes_bind _ _ ?_ (fun _ => ?_)
      | refine consumes_ite _ _ _ ?_ ?_

theorem consumes_read_eeprom_loop (fuel nee : Nat) (p : pic14_program) :
    consumes (read_eeprom_loop fuel nee p) := by
  induction fuel generalizing nee p with
  | zero =>
    rw [read_eeprom_loop]
    exact consumes_ite _ _ _ consumes_undefined (consumes_pure _)
  | succ fuel ih =>
    rw [read_eeprom_loop]
    repeat' first
      | exact consumes_pure _
      | exact ih _ _
      | exact consumes_send _
      | exact consumes_recv _
      | exact consumes_of_option _
      | refine consumes_bind _ _ ?_ (fun _ => ?_)
      | refine consumes_ite _ _ _ ?_ ?_

theorem consumes_read_eeprom (p : pic14_program) : consumes (usb_pickit_read_eeprom p) := by
  unfold usb_pickit_read_eeprom
  repeat' first
    | exact consumes_pure _
    | exact consumes_read_eeprom_loop _ _ _
    | exact consumes_send _
    | refine consumes_bind _ _ ?_ (fun _ => ?_)

theorem consumes_read_program (p : pic14_program) : consumes (usb_pickit_read_program p) := by
  unfold usb_pickit_read_program
  repeat' first
    | exact consumes_pure _
    | exact consumes_recv_usb_words_loop _ _
    | exact consumes_send _
    | exact consumes_of_option _
    | refine consumes_bind _ _ ?_ (fun _ => ?_)

theorem transfers_in_done (lens : List Nat) {α : Type} (x : usb_m α) (h : transfers_in lens x)
    (d d' : usb_pickit) (a : α) (hx : x d = usb_result.done a d') :
    ∃ fs, d'.sent = d.sent ++ fs := by
  obtain ⟨fs, _, h1, _⟩ := h d d' (by rw [hx]; rfl)
  exact ⟨fs, h1⟩

/-- C29 (amended). Reading the configuration block does not depend on the flag:
whenever `usb_pickit_read` returns, whatever the state, its last seven packets are
those of `usb_pickit_read_config`, which begin with the jump to the calibration address
`0x03ff` and a read there; the last three transfers it took from the link have 8 bytes
each, and the calibration word, the four user-ID words and the configuration word of
the resulting state are the words of these transfers.  The flag and the mask are
unchanged. -/
theorem usb_pickit_read_config_block (s s' : pic14_state) (d d' : usb_pickit)
    (h : usb_pickit_read s d = usb_result.done s' d') :
    ∃ pre ins b1 b2 b3,
      d'.sent = d.sent ++ (pre ++ read_config_frames) ∧
      read_config_frames.take 2 = [cmd "V0V1PI\xff\x03", cmd "RZZZZZZZ"] ∧
      d.inbox = ins ++ b1 :: b2 :: b3 :: d'.inbox ∧
      b1.length = 8 ∧ b2.length = 8 ∧ b3.length = 8 ∧
      s'.config.osccal = word_of_bytes b1 0 ∧
      s'.config.id.take 4 =
        [word_of_bytes b2 0, word_of_bytes b2 1, word_of_bytes b2 2, word_of_bytes b2 3] ∧
      s'.config.config = word_of_bytes b3 0 ∧
      s'.config.save_osccal = s.config.save_osccal ∧
      s'.config.configmask = s.config.configmask := by
  unfold usb_pickit_read at h
  obtain ⟨p1, d1, h1, h⟩ := usb_bind_done _ _ _ _ _ h
  obtain ⟨p2, d2, h2, h⟩ := usb_bind_done _ _ _ _ _ h
  obtain ⟨c, d3, h3, h⟩ := usb_bind_done _ _ _ _ _ h
  simp only [usb_pure_apply, usb_result.done.injEq] at h
  obtain ⟨hs, hd⟩ := h
  subst hs hd
  obtain ⟨f1, e1⟩ := transfers_in_done _ _ (transfers_in_read_eeprom [64] (by simp) _) _ _ _ h1
  obtain ⟨f2, e2⟩ := transfers_in_done _ _
    (transfers_in_read_program [8] (by simp [REQ_LEN]) _) _ _ _ h2
  obtain ⟨i1, g1⟩ := consumes_read_eeprom _ _ _ _ h1
  obtain ⟨i2, g2⟩ := consumes_read_program _ _ _ _ h2
  obtain ⟨b1, b2, b3, hin, l1, l2, l3, hsent, ho, hid, hc, hf, hm⟩ :=
    usb_pickit_read_config_done _ _ _ _ h3
  refine ⟨f1 ++ f2, i1 ++ i2, b1, b2, b3, ?_, rfl, ?_, l1, l2, l3, ho, hid, hc, hf, hm⟩
  · rw [hsent, e2, e1]
    simp
  · rw [g1, g2, hin]
    simp

set_option maxRecDepth 1000000 in
/-- C29 on the 16F635, a chip without the flag, on a link that answers every read:
`usb_pickit_read` returns, and its last packets and the configuration of the state
read are as stated. -/
theorem usb_pickit_read_config_block_witness :
    ∃ s' d', usb_pickit_read (fresh_state dev_16F635) answering_link = usb_result.done s' d' ∧
      (fresh_state dev_16F635).config.save_osccal = false ∧
      ∃ pre ins b1 b2 b3,
        d'.sent = answering_link.sent ++ (pre ++ read_config_frames) ∧
        read_config_frames.take 2 = [cmd "V0V1PI\xff\x03", cmd "RZZZZZZZ"] ∧
        answering_link.inbox = ins ++ b1 :: b2 :: b3 :: d'.inbox ∧
        b1.length = 8 ∧ b2.length = 8 ∧ b3.length = 8 ∧
        s'.config.osccal = word_of_bytes b1 0 ∧
        s'.config.id.take 4 =
          [word_of_bytes b2 0, word_of_bytes b2 1, word_of_bytes b2 2, word_of_bytes b2 3] ∧
        s'.config.config = word_of_bytes b3 0 ∧
        s'.config.save_osccal = (fresh_state dev_16F635).config.save_osccal ∧
        s'.config.configmask = (fresh_state dev_16F635).config.configmask := by
  have hv : (usb_pickit_read (fresh_state dev_16F635) answering_link).value.isSome = true := by
    decide!
  cases h : usb_pickit_read (fresh_state dev_16F635) answering_link with
  | done s' d' =>
    exact ⟨s', d', rfl, rfl, usb_pickit_read_config_block _ _ _ _ h⟩
  | exited d1 => rw [h] at hv; simp [usb_result.value] at hv
  | undefined => rw [h] at hv; simp [usb_result.value] at hv

set_option maxRecDepth 1000000 in
/-- C29. The read of a 16F635, a chip whose flag is clear, on a link that answers every
read: the packets 264 and 265 of the trace (after 6 of the EEPROM read and 258 of the
program read) are the jump to the calibration address `0x03ff` and a read, and the
calibration word of the state, `0x2000` before, is `0x1234` afterwards, the word the
device answered. -/
theorem usb_pickit_read_reads_calibration :
    (fresh_state dev_16F635).config.save_osccal = false ∧
    (fresh_state dev_16F635).config.osccal = 0x2000 ∧
    (usb_pickit_read (fresh_state dev_16F635) answering_link).value.map
      (fun s => s.config.osccal) = some 0x1234 ∧
    (usb_pickit_read (fresh_state dev_16F635) answering_link).link.map
      (fun d => (d.sent.drop 264).take 2) = some [cmd "V0V1PI\xff\x03", cmd "RZZZZZZZ"] := by
  refine ⟨by decide, by decide, ?_, ?_⟩
  · decide!
  · decide!

/-! ## Bandgap level -/

/-- A level that is outside `0..3` after the conversion to `pic14_word` ends the
process before any packet is sent. -/
theorem usb_pickit_set_bandgap_out_of_range (s : pic14_state) (bgarg : Int) (d : usb_pickit)
    (h : 3 < (bgarg % 0x10000).toNat) :
    usb_pickit_set_bandgap s bgarg d = usb_result.exited d := by
  simp only [usb_pickit_set_bandgap]
  rw [if_pos h]

/-- On a chip without the flag a level of `0..3` after the conversion only prints the
two error lines; the function returns and no packet is sent. -/
theorem usb_pickit_set_bandgap_unsupported (s : pic14_state) (bgarg : Int) (d : usb_pickit)
    (h : (bgarg % 0x10000).toNat ≤ 3) (hs : s.config.save_osccal = false) :
    usb_pickit_set_bandgap s bgarg d =
      usb_result.done [MSG_BANDGAP_FAILED, MSG_BANDGAP_REASON] d := by
  simp only [usb_pickit_set_bandgap]
  rw [if_neg (by omega)]
  simp [hs, usb_pure_apply]

/-- C28. The level 65536 is outside `0..3`, but `bg = (pic14_word)bgarg` makes it 0
before the test `bg > 3`: on the 12F629, a chip with the flag, the function does not
fail; it reads the configuration, erases the chip and writes the calibration word and
a configuration word with bandgap bits 0. -/
theorem usb_pickit_set_bandgap_level_wraps :
    ¬ ((0 : Int) ≤ 65536 ∧ (65536 : Int) ≤ 3) ∧
    (fresh_state dev_12F629).config.save_osccal = true ∧
    usb_pickit_set_bandgap (fresh_state dev_12F629) 65536
        ⟨[], [], [[0x34, 0x12, 0, 0, 0, 0, 0, 0], [1, 0, 2, 0, 3, 0, 4, 0],
          [0x84, 0x31, 0, 0, 0, 0, 0, 0]]⟩ =
      usb_result.done []
        ⟨read_config_frames ++ [cmd "PCEepZZZ", cmd "V0V1PI\xff\x03", word_cmd 0x1234,
          cmd "pPCI\x07\x00ZZ", word_cmd 0x01ff, cmd "pV1ZZZZZ"], [8, 8, 8], []⟩ := by
  refine ⟨by decide, by decide, ?_⟩
  decide!

/-! ## Power after an operation -/

/-- The last packet of `usb_pickit_read`, whenever it returns, is `pV1ZZZZZ`. -/
theorem usb_pickit_read_last_frame (s s' : pic14_state) (d d' : usb_pickit)
    (h : usb_pickit_read s d = usb_result.done s' d') :
    d'.sent.getLast? = some (cmd "pV1ZZZZZ") := by
  unfold usb_pickit_read at h
  obtain ⟨p1, d1, _, h⟩ := usb_bind_done _ _ _ _ _ h
  obtain ⟨p2, d2, _, h⟩ := usb_bind_done _ _ _ _ _ h
  obtain ⟨c, d3, h3, h⟩ := usb_bind_done _ _ _ _ _ h
  simp only [usb_pure_apply, usb_result.done.injEq] at h
  obtain ⟨_, hd⟩ := h
  subst hd
  obtain ⟨b1, b2, b3, _, _, _, _, hsent, _⟩ := usb_pickit_read_config_done _ _ _ _ h3
  rw [hsent]
  simp [read_config_frames]

theorem getLast_write_config_frames (xs : List (List Nat)) (c : pic14_config) :
    (xs ++ write_config_frames c).getLast? = some (cmd "pV1ZZZZZ") := by
  have e : write_config_frames c =
      ([cmd "V0V1PI\xff\x03"] ++ (if c.save_osccal then [word_cmd c.osccal] else []) ++
        [cmd "pV0V1PCZ", words_cmd (c.id.getD 0 0) (c.id.getD 1 0),
          words_cmd (c.id.getD 2 0) (c.id.getD 3 0), cmd "pPCI\x07\x00ZZ",
          word_cmd c.config]) ++ [cmd "pV1ZZZZZ"] := by
    simp [write_config_frames]
  rw [e, ← List.append_assoc, List.getLast?_concat]

/-- The last packet of `usb_pickit_write` on a writable state is `pV1ZZZZZ`, with
`keep_old` clear and, when the device answers the read-back, with `keep_old` set. -/
theorem usb_pickit_write_last_frame (s : pic14_state) (keep_old : Bool) (d : usb_pickit)
    (b1 b2 b3 : List Nat) (rest : List (List Nat)) (hw : s.writable)
    (hi : keep_old = true →
      d.inbox = b1 :: b2 :: b3 :: rest ∧ b1.length = 8 ∧ b2.length = 8 ∧ b3.length = 8) :
    ∃ s' d', usb_pickit_write s keep_old d = usb_result.done s' d' ∧
      d'.sent.getLast? = some (cmd "pV1ZZZZZ") := by
  cases keep_old with
  | false =>
    obtain ⟨sum, hrun⟩ := usb_pickit_write_run_blast s d hw
    refine ⟨_, _, hrun, ?_⟩
    simp only [← List.append_assoc]
    exact getLast_write_config_frames _ _
  | true =>
    obtain ⟨hin, h1, h2, h3⟩ := hi rfl
    obtain ⟨sum, hrun⟩ := usb_pickit_write_run_keep s d b1 b2 b3 rest hw hin h1 h2 h3
    refine ⟨_, _, hrun, ?_⟩
    simp only [← List.append_assoc]
    exact getLast_write_config_frames _ _

/-- The last packet of `usb_pickit_erase` on a chip with the flag, when the device
answers the read-back, is `pV1ZZZZZ`. -/
theorem usb_pickit_erase_last_frame (s : pic14_state) (d : usb_pickit)
    (b1 b2 b3 : List Nat) (rest : List (List Nat)) (hs : s.config.save_osccal = true)
    (hi : d.inbox = b1 :: b2 :: b3 :: rest) (h1 : b1.length = 8) (h2 : b2.length = 8)
    (h3 : b3.length = 8) :
    ∃ d', usb_pickit_erase s d = usb_result.done () d' ∧
      d'.sent.getLast? = some (cmd "pV1ZZZZZ") := by
  have hrun := usb_pickit_erase_run s d b1 b2 b3 rest (fun _ => ⟨hi, h1, h2, h3⟩)
  rw [hs, if_pos rfl] at hrun
  refine ⟨_, hrun, ?_⟩
  simp [read_config_frames]

/-! ## Programming mode -/

theorem mode_scan_append (m : Bool) (xs ys : List Nat) :
    mode_scan m (xs ++ ys) = (mode_scan m xs).bind (fun m1 => mode_scan m1 ys) := by
  induction xs generalizing m with
  | nil => rfl
  | cons c xs ih =>
    simp only [List.cons_append, mode_scan]
    split
    · exact ih true
    · split
      · exact ih false
      · split
        · cases m
          · rfl
          · exact ih true
        · exact ih m

theorem trace_ops_append (xs ys : List (List Nat)) :
    trace_ops (xs ++ ys) = trace_ops xs ++ trace_ops ys := by
  simp [trace_ops]

theorem mode_scan_no_exit (ops : List Nat) (h : 112 ∉ ops) :
    mode_scan true ops = some true := by
  induction ops with
  | nil => rfl
  | cons c ops ih =>
    have hc : c ≠ 112 := fun e => h (by rw [e]; exact List.mem_cons_self _ _)
    have ih' := ih (fun e => h (List.mem_cons_of_mem _ e))
    simp only [mode_scan, hc, if_false, if_true, ih']
    split <;> try split
    all_goals rfl

theorem keeps_mode_pure (m : Bool) {α : Type} (a : α) : keeps_mode m m (pure a : usb_m α) := by
  intro d a' d' h
  simp only [usb_pure_apply, usb_result.done.injEq] at h
  exact ⟨[], by rw [← h.2]; simp, rfl⟩

theorem keeps_mode_bind (m m1 m2 : Bool) {α β : Type} (x : usb_m α) (f : α → usb_m β)
    (hx : keeps_mode m m1 x) (hf : ∀ a, keeps_mode m1 m2 (f a)) :
    keeps_mode m m2 (x >>= f) := by
  intro d b d' h
  obtain ⟨a, d1, h1, h2⟩ := usb_bind_done _ _ _ _ _ h
  obtain ⟨f1, e1, s1⟩ := hx d a d1 h1
  obtain ⟨f2, e2, s2⟩ := hf a d1 b d' h2
  refine ⟨f1 ++ f2, by rw [e2, e1, List.append_assoc], ?_⟩
  rw [trace_ops_append, mode_scan_append, s1]
  exact s2

theorem keeps_mode_send (m m' : Bool) (src : List Nat)
    (h : mode_scan m (frame_ops src) = some m') : keeps_mode m m' (send_usb src) := by
  intro d a d' hd
  simp only [send_usb, usb_result.done.injEq, true_and] at hd
  refine ⟨[src], by rw [← hd], ?_⟩
  simpa [trace_ops] using h

theorem keeps_mode_recv (m : Bool) (len : Nat) : keeps_mode m m (recv_usb len) := by
  intro d a d' h
  obtain ⟨_, _, hs, _⟩ := recv_usb_done _ _ _ _ h
  exact ⟨[], by rw [hs]; simp, rfl⟩

theorem keeps_mode_of_option (m : Bool) {α : Type} (x : Option α) :
    keeps_mode m m (usb_m.of_option x) := by
  intro d a d' h
  cases x with
  | none => simp [usb_m.of_option] at h
  | some v =>
    simp only [usb_m.of_option, usb_result.done.injEq] at h
    exact ⟨[], by rw [← h.2]; simp, rfl⟩

theorem keeps_mode_of_option_bind (m m' : Bool) {α β : Type} (x : Option α)
    (f : α → usb_m β) (hf : ∀ a, x = some a → keeps_mode m m' (f a)) :
    keeps_mode m m' (usb_m.of_option x >>= f) := by
  cases x with
  | none =>
    intro d b d' h
    simp [usb_bind_apply, usb_m.of_option] at h
  | some a =>
    intro d b d' h
    rw [usb_bind_apply] at h
    exact hf a rfl d b d' h

theorem keeps_mode_ite (m m' : Bool) {α : Type} (c : Prop) [Decidable c] (x y : usb_m α)
    (hx : keeps_mode m m' x) (hy : keeps_mode m m' y) :
    keeps_mode m m' (if c then x else y) := by
  split
  · exact hx
  · exact hy

theorem keeps_mode_undefined (m m' : Bool) {α : Type} :
    keeps_mode m m' (fun _ => (usb_result.undefined : usb_result α)) := by
  intro d a d' h
  simp at h

theorem keeps_mode_exit (m m' : Bool) {α : Type} :
    keeps_mode m m' (fun d => (usb_result.exited d : usb_result α)) := by
  intro d a d' h
  simp at h

theorem keeps_mode_send_word (w : Nat) : keeps_mode true true (send_usb_word w) :=
  keeps_mode_send _ _ _ (mode_scan_no_exit _ (by rw [word_cmd_ops]; decide))

theorem keeps_mode_send_usb_words_loop (w : List Nat) (k i : Nat) :
    keeps_mode true true (send_usb_words_loop w k i) := by
  induction k generalizing i with
  | zero => exact keeps_mode_pure true ()
  | succ k ih =>
    rw [send_usb_words_loop]
    refine keeps_mode_bind _ true _ _ _ (keeps_mode_of_option _ _) (fun w1 => ?_)
    refine keeps_mode_bind _ true _ _ _ (keeps_mode_of_option _ _) (fun w2 => ?_)
    exact keeps_mode_bind _ true _ _ _
      (keeps_mode_send _ _ _ (mode_scan_no_exit _ (by rw [words_cmd_ops]; decide)))
      (fun _ => ih (i + 1))

theorem keeps_mode_send_usb_words (n : Nat) (w : List Nat) :
    keeps_mode true true (send_usb_words n w) := by
  unfold send_usb_words
  refine keeps_mode_bind _ true _ _ _ (keeps_mode_send_usb_words_loop w _ 0) (fun _ => ?_)
  refine keeps_mode_ite _ _ _ _ _ ?_ (keeps_mode_pure _ _)
  exact keeps_mode_bind _ true _ _ _ (keeps_mode_of_option _ _)
    (fun last => keeps_mode_send_word last)

theorem keeps_mode_recv_usb_words_loop (fuel len : Nat) :
    keeps_mode true true (recv_usb_words_loop fuel len) := by
  induction fuel generalizing len with
  | zero => exact keeps_mode_pure _ _
  | succ fuel ih =>
    rw [recv_usb_words_loop]
    refine keeps_mode_ite _ _ _ _ _ ?_ (keeps_mode_pure _ _)
    unfold recv_usb_words4
    refine keeps_mode_bind _ true _ _ _ ?_ (fun _ => ?_)
    · refine keeps_mode_bind _ true _ _ _ (keeps_mode_send _ _ _ (by decide)) (fun _ => ?_)
      exact keeps_mode_bind _ true _ _ _ (keeps_mode_recv _ _) (fun _ => keeps_mode_pure _ _)
    · exact keeps_mode_bind _ true _ _ _ (ih _) (fun _ => keeps_mode_pure _ _)

theorem keeps_mode_recv_usb_words (len : Nat) : keeps_mode true true (recv_usb_words len) :=
  keeps_mode_recv_usb_words_loop len len

/-- Whatever the mode before, `usb_pickit_read_config` reads inside the programming
mode and leaves it. -/
theorem keeps_mode_read_config (m : Bool) (c : pic14_config) :
    keeps_mode m false (usb_pickit_read_config c) := by
  unfold usb_pickit_read_config
  refine keeps_mode_bind _ true _ _ _
    (keeps_mode_send _ _ _ (by cases m <;> decide)) (fun _ => ?_)
  refine keeps_mode_bind _ true _ _ _ (keeps_mode_recv_usb_words _) (fun _ => ?_)
  refine keeps_mode_bind _ true _ _ _ (keeps_mode_send _ _ _ (by decide)) (fun _ => ?_)
  refine keeps_mode_bind _ true _ _ _ (keeps_mode_recv_usb_words _) (fun _ => ?_)
  refine keeps_mode_bind _ true _ _ _ (keeps_mode_of_option _ _) (fun _ => ?_)
  refine keeps_mode_bind _ true _ _ _ (keeps_mode_send _ _ _ (by decide)) (fun _ => ?_)
  refine keeps_mode_bind _ true _ _ _ (keeps_mode_recv_usb_words _) (fun _ => ?_)
  exact keeps_mode_bind _ false _ _ _ (keeps_mode_send _ _ _ (by decide))
    (fun _ => keeps_mode_pure _ _)

theorem keeps_mode_read_eeprom_loop (fuel nee : Nat) (p : pic14_program) :
    keeps_mode true true (read_eeprom_loop fuel nee p) := by
  induction fuel generalizing nee p with
  | zero =>
    rw [read_eeprom_loop]
    exact keeps_mode_ite _ _ _ _ _ (keeps_mode_undefined _ _) (keeps_mode_pure _ _)
  | succ fuel ih =>
    rw [read_eeprom_loop]
    refine keeps_mode_ite _ _ _ _ _ ?_ (keeps_mode_pure _ _)
    refine keeps_mode_bind _ true _ _ _ (keeps_mode_send _ _ _ (by decide)) (fun _ => ?_)
    refine keeps_mode_bind _ true _ _ _ (keeps_mode_recv _ _) (fun _ => ?_)
    exact keeps_mode_bind _ true _ _ _ (keeps_mode_of_option _ _) (fun _ => ih _ _)

theorem keeps_mode_read_eeprom (m : Bool) (p : pic14_program) :
    keeps_mode m false (usb_pickit_read_eeprom p) := by
  unfold usb_pickit_read_eeprom
  refine keeps_mode_bind _ true _ _ _
    (keeps_mode_send _ _ _ (by cases m <;> decide)) (fun _ => ?_)
  refine keeps_mode_bind _ true _ _ _ (keeps_mode_read_eeprom_loop _ _ _) (fun _ => ?_)
  exact keeps_mode_bind _ false _ _ _ (keeps_mode_send _ _ _ (by decide))
    (fun _ => keeps_mode_pure _ _)

theorem keeps_mode_read_program (m : Bool) (p : pic14_program) :
    keeps_mode m false (usb_pickit_read_program p) := by
  unfold usb_pickit_read_program
  refine keeps_mode_bind _ true _ _ _
    (keeps_mode_send _ _ _ (by cases m <;> decide)) (fun _ => ?_)
  refine keeps_mode_bind _ true _ _ _ (keeps_mode_recv_usb_words _) (fun _ => ?_)
  refine keeps_mode_bind _ true _ _ _ (keeps_mode_of_option _ _) (fun _ => ?_)
  exact keeps_mode_bind _ false _ _ _ (keeps_mode_send _ _ _ (by decide))
    (fun _ => keeps_mode_pure _ _)

/-- Every read command of `usb_pickit_read` is sent inside the programming mode, and
the function leaves the mode, whatever the mode before. -/
theorem keeps_mode_read (m : Bool) (s : pic14_state) :
    keeps_mode m false (usb_pickit_read s) := by
  unfold usb_pickit_read
  refine keeps_mode_bind _ false _ _ _ (keeps_mode_read_eeprom _ _) (fun _ => ?_)
  refine keeps_mode_bind _ false _ _ _ (keeps_mode_read_program _ _) (fun _ => ?_)
  exact keeps_mode_bind _ false _ _ _ (keeps_mode_read_config _ _)
    (fun _ => keeps_mode_pure _ _)

theorem keeps_mode_reset (m : Bool) (keep : Bool) :
    keeps_mode m false (usb_pickit_reset keep) := by
  unfold usb_pickit_reset
  exact keeps_mode_ite _ _ _ _ _ (keeps_mode_send _ _ _ (by cases m <;> decide))
    (keeps_mode_send _ _ _ (by cases m <;> decide))

theorem data_cmd_ops (a b c e : Nat) : frame_ops (data_cmd a b c e) = [68, 68, 68, 68] := by
  rw [data_cmd_eq]; rfl

theorem keeps_mode_write_eeprom_loop (ee : List Nat) (k i : Nat) :
    keeps_mode true true (write_eeprom_loop ee k i) := by
  induction k generalizing i with
  | zero => exact keeps_mode_pure true ()
  | succ k ih =>
    rw [write_eeprom_loop]
    refine keeps_mode_bind _ true _ _ _ (keeps_mode_of_option _ _) (fun b0 => ?_)
    refine keeps_mode_bind _ true _ _ _ (keeps_mode_of_option _ _) (fun b1 => ?_)
    refine keeps_mode_bind _ true _ _ _ (keeps_mode_of_option _ _) (fun b2 => ?_)
    refine keeps_mode_bind _ true _ _ _ (keeps_mode_of_option _ _) (fun b3 => ?_)
    exact keeps_mode_bind _ true _ _ _
      (keeps_mode_send _ _ _ (mode_scan_no_exit _ (by rw [data_cmd_ops]; decide)))
      (fun _ => ih (i + 1))

theorem write_eeprom_last_bound (ee : List Nat) (k j i : Nat) (c c' : List Nat)
    (h : write_eeprom_last ee k j i c = some c') : k = 0 ∨ i + k ≤ ee.length := by
  induction k generalizing j i c with
  | zero => exact Or.inl rfl
  | succ k ih =>
    rw [write_eeprom_last] at h
    cases he : ee[i]? with
    | none => rw [he] at h; simp at h
    | some b =>
      rw [he] at h
      simp only at h
      have hi : i < ee.length := by
        by_contra hn
        rw [List.getElem?_eq_none (by omega)] at he
        simp at he
      rcases ih _ _ _ h with h0 | h0
      · exact Or.inr (by omega)
      · exact Or.inr (by omega)

/-- The last packet of `usb_pickit_write_eeprom` has no command but `D` and `Z`. -/
theorem write_eeprom_last_ops (ee : List Nat) (r i : Nat) (c : List Nat)
    (hr : r ≠ 0) (hr4 : r < 4)
    (h : write_eeprom_last ee r 0 i (cmd "ZZZZZZZZ") = some c) :
    112 ∉ frame_ops c := by
  have hb : i + r ≤ ee.length := by
    rcases write_eeprom_last_bound _ _ _ _ _ _ h with h0 | h0
    · exact absurd h0 hr
    · exact h0
  obtain ⟨e1, e2, e3⟩ := write_eeprom_last_eq ee i
  have hcase : r = 1 ∨ r = 2 ∨ r = 3 := by omega
  rcases hcase with h1 | h1 | h1 <;> subst h1
  · rw [e1 (by omega)] at h
    simp only [Option.some.injEq] at h
    rw [← h]
    have e : frame_ops [68, ee.getD i 0 % 0x100, 90, 90, 90, 90, 90, 90] =
        [68, 90, 90, 90, 90, 90, 90] := rfl
    rw [e]
    decide
  · rw [e2 (by omega)] at h
    simp only [Option.some.injEq] at h
    rw [← h]
    have e : frame_ops [68, ee.getD i 0 % 0x100, 68, ee.getD (i + 1) 0 % 0x100, 90, 90,
        90, 90] = [68, 68, 90, 90, 90, 90] := rfl
    rw [e]
    decide
  · rw [e3 (by omega)] at h
    simp only [Option.some.injEq] at h
    rw [← h]
    have e : frame_ops [68, ee.getD i 0 % 0x100, 68, ee.getD (i + 1) 0 % 0x100,
        68, ee.getD (i + 2) 0 % 0x100, 90, 90] = [68, 68, 68, 90, 90] := rfl
    rw [e]
    decide

theorem keeps_mode_write_eeprom (m : Bool) (p : pic14_program) :
    keeps_mode m false (usb_pickit_write_eeprom p) := by
  unfold usb_pickit_write_eeprom
  refine keeps_mode_bind _ true _ _ _
    (keeps_mode_send _ _ _ (by cases m <;> decide)) (fun _ => ?_)
  refine keeps_mode_bind _ true _ _ _ (keeps_mode_write_eeprom_loop _ _ 0) (fun _ => ?_)
  dsimp only
  split
  · rename_i hr
    refine keeps_mode_of_option_bind _ _ _ _ (fun c hc => ?_)
    refine keeps_mode_bind _ true _ _ _ (keeps_mode_send _ _ _ ?_)
      (fun _ => keeps_mode_send _ _ _ (by decide))
    exact mode_scan_no_exit _
      (write_eeprom_last_ops _ _ _ _ hr (Nat.mod_lt _ (by norm_num)) hc)
  · exact keeps_mode_bind _ true _ _ _ (keeps_mode_pure _ _)
      (fun _ => keeps_mode_send _ _ _ (by decide))

theorem keeps_mode_write_program (m : Bool) (p : pic14_program) :
    keeps_mode m false (usb_pickit_write_program p) := by
  unfold usb_pickit_write_program
  refine keeps_mode_bind _ true _ _ _
    (keeps_mode_send _ _ _ (by cases m <;> decide)) (fun _ => ?_)
  refine keeps_mode_bind _ true _ _ _ (keeps_mode_send_usb_words _ _) (fun _ => ?_)
  exact keeps_mode_send _ _ _ (by decide)

theorem keeps_mode_write_config (m : Bool) (c : pic14_config) :
    keeps_mode m false (usb_pickit_write_config c) := by
  unfold usb_pickit_write_config
  refine keeps_mode_bind _ true _ _ _
    (keeps_mode_send _ _ _ (by cases m <;> decide)) (fun _ => ?_)
  dsimp only
  have rest : keeps_mode true false (do
      send_usb (cmd "pV0V1PCZ")
      send_usb_words PIC14_ID_LEN c.id
      send_usb (cmd "pPCI\x07\x00ZZ")
      send_usb_word c.config
      send_usb (cmd "pV1ZZZZZ") : usb_m Unit) := by
    refine keeps_mode_bind _ true _ _ _ (keeps_mode_send _ _ _ (by decide)) (fun _ => ?_)
    refine keeps_mode_bind _ true _ _ _ (keeps_mode_send_usb_words _ _) (fun _ => ?_)
    refine keeps_mode_bind _ true _ _ _ (keeps_mode_send _ _ _ (by decide)) (fun _ => ?_)
    refine keeps_mode_bind _ true _ _ _ (keeps_mode_send_word _) (fun _ => ?_)
    exact keeps_mode_send _ _ _ (by decide)
  split
  · exact keeps_mode_bind _ true _ _ _ (keeps_mode_send_word _) (fun _ => rest)
  · exact keeps_mode_bind _ true _ _ _ (keeps_mode_pure _ _) (fun _ => rest)

theorem keeps_mode_merge_config (m : Bool) (o c : pic14_config) :
    keeps_mode m false (usb_pickit_merge_config o c) := by
  unfold usb_pickit_merge_config
  exact keeps_mode_write_config _ _

/-- Every write command of `usb_pickit_write`, and every read command of its read-back,
is sent inside the programming mode, and the function leaves the mode. -/
theorem keeps_mode_write (m : Bool) (s : pic14_state) (keep_old : Bool) :
    keeps_mode m false (usb_pickit_write s keep_old) := by
  unfold usb_pickit_write
  refine keeps_mode_bind _ m _ _ _ (keeps_mode_of_option _ _) (fun s1 => ?_)
  dsimp only
  have tail : ∀ (m1 : Bool) (x : usb_m Unit), keeps_mode false false x →
      keeps_mode m1 false (do
        usb_pickit_reset (decide (s1.program.max_ee = 0))
        usb_pickit_write_eeprom s1.program
        usb_pickit_write_program s1.program
        let y ← x
        (pure s1 : usb_m pic14_state)) := by
    intro m1 x hx
    refine keeps_mode_bind _ false _ _ _ (keeps_mode_reset _ _) (fun _ => ?_)
    refine keeps_mode_bind _ false _ _ _ (keeps_mode_write_eeprom _ _) (fun _ => ?_)
    refine keeps_mode_bind _ false _ _ _ (keeps_mode_write_program _ _) (fun _ => ?_)
    exact keeps_mode_bind _ false _ _ _ hx (fun _ => keeps_mode_pure _ _)
  cases keep_old
  · simp only [Bool.false_eq_true, if_false]
    exact keeps_mode_bind _ m _ _ _ (keeps_mode_pure _ _)
      (fun _ => tail m _ (keeps_mode_write_config _ _))
  · simp only [if_true]
    exact keeps_mode_bind _ false _ _ _ (keeps_mode_read_config _ _)
      (fun _ => tail false _ (keeps_mode_merge_config _ _ _))

/-- Every command of `usb_pickit_erase` that reads or writes a word is sent inside the
programming mode, and the function leaves the mode. -/
theorem keeps_mode_erase (m : Bool) (s : pic14_state) :
    keeps_mode m false (usb_pickit_erase s) := by
  unfold usb_pickit_erase
  cases hs : s.config.save_osccal
  · simp only [Bool.false_eq_true, if_false]
    refine keeps_mode_bind _ m _ _ _ (keeps_mode_pure _ _) (fun _ => ?_)
    exact keeps_mode_bind _ false _ _ _ (keeps_mode_reset _ _) (fun _ => keeps_mode_pure _ _)
  · simp only [if_true]
    refine keeps_mode_bind _ false _ _ _ (keeps_mode_read_config _ _) (fun _ => ?_)
    refine keeps_mode_bind _ false _ _ _ (keeps_mode_reset _ _) (fun _ => ?_)
    refine keeps_mode_bind _ true _ _ _ (keeps_mode_send _ _ _ (by decide)) (fun _ => ?_)
    refine keeps_mode_bind _ true _ _ _ (keeps_mode_send_word _) (fun _ => ?_)
    refine keeps_mode_bind _ true _ _ _ (keeps_mode_send _ _ _ (by decide)) (fun _ => ?_)
    refine keeps_mode_bind _ true _ _ _ (keeps_mode_send_word _) (fun _ => ?_)
    exact keeps_mode_send _ _ _ (by decide)

/-- C30. On a chip without the flag `usb_pickit_erase` does not restore the power: for
the 16F635 it returns on every link after the single packet `PCEepZZZ`, whose commands
are enter programming, advance, the two erases, exit programming and padding; the last
packet of the operation is not `pV1ZZZZZ` and the trace has no power command `V` at
all.  The other part holds: whenever `usb_pickit_read`, `usb_pickit_write` or
`usb_pickit_erase` returns, every `W`, `D`, `R` and `r` command it sent lies inside the
programming mode, and the mode is left at the end. -/
theorem usb_pickit_erase_leaves_power_off :
    (fresh_state dev_16F635).config.save_osccal = false ∧
    (∀ d, usb_pickit_erase (fresh_state dev_16F635) d =
      usb_result.done () { d with sent := d.sent ++ [cmd "PCEepZZZ"] }) ∧
    frames_of (usb_pickit_erase (fresh_state dev_16F635)) = [cmd "PCEepZZZ"] ∧
    (frames_of (usb_pickit_erase (fresh_state dev_16F635))).getLast? ≠
      some (cmd "pV1ZZZZZ") ∧
    frame_ops (cmd "PCEepZZZ") = (cmd "PCEepZZZ") ∧
    (86 ∉ frame_ops (cmd "PCEepZZZ")) ∧
    frame_ops (cmd "pV1ZZZZZ") = [112, 86, 90, 90, 90, 90, 90] ∧
    (∀ m s, keeps_mode m false (usb_pickit_read s)) ∧
    (∀ m s keep_old, keeps_mode m false (usb_pickit_write s keep_old)) ∧
    (∀ m s, keeps_mode m false (usb_pickit_erase s)) := by
  have hrun : ∀ d, usb_pickit_erase (fresh_state dev_16F635) d =
      usb_result.done () { d with sent := d.sent ++ [cmd "PCEepZZZ"] } := by
    intro d
    have h := usb_pickit_erase_run (fresh_state dev_16F635) d [] [] [] []
      (fun hs => absurd hs (by decide))
    rw [h]
    rfl
  refine ⟨by decide, hrun, ?_, ?_, by decide, by decide, by decide,
    fun m s => keeps_mode_read m s, fun m s k => keeps_mode_write m s k,
    fun m s => keeps_mode_erase m s⟩
  · simp only [frames_of, hrun]
    rfl
  · simp only [frames_of, hrun]
    decide

/-! ## High-water marks after a round trip -/

theorem hex_read_loop_replay {σ : Type} (fn : σ → Nat → Nat → List Nat → Option σ)
    (cs : List (Nat × List Nat)) (fuel b16 b32 : Nat) (rest : List Nat) (p q : σ)
    (hcs : ∀ c ∈ cs, c.2.length ≤ HEX_MAX_DATA_LINE ∧ ∀ b ∈ c.2, b < 0x100)
    (h : hex_replay fn b16 b32 cs p = some q) :
    hex_read_loop fn (fuel + cs.length) b16 b32 (lines_text cs ++ rest) p =
      hex_read_loop fn fuel b16 b32 rest q := by
  induction cs generalizing p with
  | nil =>
    simp only [hex_replay, Option.some.injEq] at h
    subst h
    simp [lines_text]
  | cons c cs ih =>
    obtain ⟨h1, h2⟩ := hcs c (List.mem_cons_self _ _)
    have e : fuel + (c :: cs).length = (fuel + cs.length) + 1 := rfl
    rw [hex_replay] at h
    cases hr : fn p ((b16 + b32 + c.1 % 0x10000) % 2 ^ 32) c.2.length
        (c.2 ++ [twos_complement_sum
          ([c.2.length, c.1 / 0x100 % 0x100, c.1 % 0x100, 0] ++ c.2)]) with
    | none => rw [hr] at h; simp at h
    | some r =>
      rw [hr] at h
      simp only at h
      rw [e, lines_text, List.append_assoc,
        hex_read_loop_data_record fn _ b16 b32 c.1 c.2 _ p h1 h2, hr]
      exact ih r (fun x hx => hcs x (List.mem_cons_of_mem _ hx)) h

/-- The marks after the loop of `pic14_hex_segment`: they do not decrease, they stay
within the declared lengths, and they cover every word of the segment that lies in
the program span or in the EEPROM span. -/
theorem pic14_hex_segment_loop_marks (spans : List pic14_span) (addr : Nat)
    (src : List Nat) (k i : Nat) (q : pic14_state) (hq : q.sized)
    (hs : spans = pic14_program_spans q) :
    ∃ r, pic14_hex_segment_loop spans addr src k i q = some r ∧ r.sized ∧
      r.program.inst_len = q.program.inst_len ∧ r.program.ee_len = q.program.ee_len ∧
      q.program.max_prog ≤ r.program.max_prog ∧ q.program.max_ee ≤ r.program.max_ee ∧
      (q.program.max_prog ≤ q.program.inst_len → r.program.max_prog ≤ q.program.inst_len) ∧
      (q.program.max_ee ≤ q.program.ee_len → r.program.max_ee ≤ q.program.ee_len) ∧
      (∀ j, j < k → addr + i + j < q.program.inst_len →
        addr + i + j + 1 ≤ r.program.max_prog) ∧
      (∀ j, j < k → 0x2100 ≤ addr + i + j → addr + i + j < 0x2100 + q.program.ee_len →
        addr + i + j - 0x2100 + 1 ≤ r.program.max_ee) := by
  induction k generalizing i q with
  | zero =>
    exact ⟨q, rfl, hq, rfl, rfl, le_refl _, le_refl _, fun h => h, fun h => h,
      fun j hj => absurd hj (by omega), fun j hj => absurd hj (by omega)⟩
  | succ k ih =>
    obtain ⟨q1, g1, g2, g3, g4, g5, g6⟩ := pic14_write_word_marks q (addr + i)
      ((src.getD (2 * i + 0) 0 + src.getD (2 * i + 1) 0 * 0x100) % 0x10000) hq
    obtain ⟨r, k1, k2, k3, k4, k5, k6, k7, k8, k9, k10⟩ := ih (i + 1) q1 g2
      (by rw [hs]; exact (pic14_program_spans_congr q q1 g3 g4).symm)
    rw [g3] at k7 k9
    rw [g4] at k8 k10
    refine ⟨r, ?_, k2, by rw [k3, g3], by rw [k4, g4], ?_, ?_, ?_, ?_, ?_, ?_⟩
    · rw [pic14_hex_segment_loop, hs, g1]
      simp only
      rw [← hs, k1]
    · split at g5 <;> omega
    · split at g6 <;> omega
    · intro h
      apply k7
      split at g5 <;> omega
    · intro h
      apply k8
      split at g6 <;> omega
    · intro j hj ha
      cases j with
      | zero =>
        rw [if_pos (by omega)] at g5
        omega
      | succ j =>
        have := k9 j (by omega) (by omega)
        omega
    · intro j hj ha hb
      cases j with
      | zero =>
        rw [if_pos ⟨by omega, by omega⟩] at g6
        omega
      | succ j =>
        have := k10 j (by omega) (by omega) (by omega)
        omega

/-- The marks after the calls of `hex_read` for a list of lines of type 00, with both
offset registers 0. -/
theorem hex_replay_marks (cs : List (Nat × List Nat)) (q : pic14_state) (hq : q.sized) :
    ∃ r, hex_replay pic14_hex_segment 0 0 cs q = some r ∧ r.sized ∧
      r.program.inst_len = q.program.inst_len ∧ r.program.ee_len = q.program.ee_len ∧
      q.program.max_prog ≤ r.program.max_prog ∧ q.program.max_ee ≤ r.program.max_ee ∧
      (q.program.max_prog ≤ q.program.inst_len → r.program.max_prog ≤ q.program.inst_len) ∧
      (q.program.max_ee ≤ q.program.ee_len → r.program.max_ee ≤ q.program.ee_len) ∧
      (∀ c ∈ cs, ∀ j, j < c.2.length / 2 → c.1 % 0x10000 / 2 + j < q.program.inst_len →
        c.1 % 0x10000 / 2 + j + 1 ≤ r.program.max_prog) ∧
      (∀ c ∈ cs, ∀ j, j < c.2.length / 2 → 0x2100 ≤ c.1 % 0x10000 / 2 + j →
        c.1 % 0x10000 / 2 + j < 0x2100 + q.program.ee_len →
        c.1 % 0x10000 / 2 + j - 0x2100 + 1 ≤ r.program.max_ee) := by
  induction cs generalizing q with
  | nil =>
    exact ⟨q, rfl, hq, rfl, rfl, le_refl _, le_refl _, fun h => h, fun h => h,
      fun c hc => absurd hc (List.not_mem_nil c), fun c hc => absurd hc (List.not_mem_nil c)⟩
  | cons c cs ih =>
    have e : (0 + 0 + c.1 % 0x10000) % 2 ^ 32 = c.1 % 0x10000 := by omega
    obtain ⟨q1, g1, g2, g3, g4, g5, g6, g7, g8, g9, g10⟩ :=
      pic14_hex_segment_loop_marks (pic14_program_spans q) (c.1 % 0x10000 / 2)
        (c.2 ++ [twos_complement_sum
          ([c.2.length, c.1 / 0x100 % 0x100, c.1 % 0x100, 0] ++ c.2)])
        (c.2.length / 2) 0 q hq rfl
    obtain ⟨r, k1, k2, k3, k4, k5, k6, k7, k8, k9, k10⟩ := ih q1 g2
    rw [g3] at k7 k9
    rw [g4] at k8 k10
    refine ⟨r, ?_, k2, by rw [k3, g3], by rw [k4, g4], by omega, by omega,
      fun h => k7 (g7 h), fun h => k8 (g8 h), ?_, ?_⟩
    · rw [hex_replay, e, pic14_hex_segment, g1]
      exact k1
    · intro x hx j hj ha
      rcases List.mem_cons.mp hx with h | h
      · subst h
        have := g9 j hj (by omega)
        omega
      · exact k9 x h j hj ha
    · intro x hx j hj ha hb
      rcases List.mem_cons.mp hx with h | h
      · subst h
        have := g10 j hj (by omega) (by omega)
        omega
      · exact k10 x h j hj ha hb

/-- The last chunk of a span of `L` words at byte address `a` holds the last word. -/
theorem last_chunk_mem (a L : Nat) (bs : List Nat) (hl : bs.length = 2 * L) (hL : 1 ≤ L)
    (ha : a % 2 = 0) (hfit : a + 2 * L ≤ 0x10000) :
    ∃ c ∈ chunks a bs, ∃ j, j < c.2.length / 2 ∧ c.1 % 0x10000 / 2 + j = a / 2 + L - 1 := by
  refine ⟨(a + 16 * ((2 * L - 1) / 16),
    (bs.drop (16 * ((2 * L - 1) / 16))).take 16), ?_, L - 8 * ((2 * L - 1) / 16) - 1, ?_, ?_⟩
  · simp only [chunks, List.mem_map, List.mem_range]
    exact ⟨(2 * L - 1) / 16, by omega, rfl⟩
  · simp only [List.length_take, List.length_drop, hl]
    omega
  · simp only
    omega

/-- What `pic14_hex_write` emits for a span of at least one word: the lines of the
chunks of two bytes per word. -/
theorem pic14_hex_write_span_chunks (p : pic14_state) (hp : p.sized) (sp : pic14_span)
    (hsp : sp ∈ pic14_program_spans p) (hL : 1 ≤ sp.len) (ha : 2 * sp.addr < 2 ^ 32) :
    ∃ bs, bs.length = 2 * sp.len ∧ (∀ b ∈ bs, b < 0x100) ∧
      pic14_hex_write_span p sp = some (lines_text (chunks (2 * sp.addr) bs)) := by
  obtain ⟨hl, hr⟩ := sized_span_reads p hp sp hsp
  obtain ⟨bs, h1, h2, h3⟩ := span_bytes_loop_defined p sp sp.len 0
    (fun i _ hi => hr i (by omega)) (by omega)
  simp only [PIC14_INST_LEN] at hl
  have hlen : (2 * sp.len) % 2 ^ 32 = bs.length := by rw [h2]; omega
  have hnil : bs ≠ [] := by
    intro h
    rw [h] at h2
    simp at h2
    omega
  refine ⟨bs, h2, h3, ?_⟩
  rw [pic14_hex_write_span, h1]
  simp only
  rw [hlen, Nat.mod_eq_of_lt ha]
  exact hex_write_eq _ bs hnil h3

/-- The text of `pic14_hex_write` for a state with at least one program word and one
EEPROM byte: lines of type 00, among them one that holds the last program word and
one that holds the last EEPROM byte, and the end line. -/
theorem pic14_hex_write_lines (p : pic14_state) (hp : p.sized)
    (hn : 1 ≤ p.program.inst_len) (hm : 1 ≤ p.program.ee_len) :
    ∃ cs, pic14_hex_write p = some (lines_text cs ++ hex_write_end) ∧
      (∀ c ∈ cs, c.2.length ≤ HEX_MAX_DATA_LINE ∧ ∀ b ∈ c.2, b < 0x100) ∧
      (∃ c ∈ cs, ∃ j, j < c.2.length / 2 ∧
        c.1 % 0x10000 / 2 + j = p.program.inst_len - 1) ∧
      (∃ c ∈ cs, ∃ j, j < c.2.length / 2 ∧
        c.1 % 0x10000 / 2 + j = 0x2100 + p.program.ee_len - 1) := by
  have hp' := hp
  obtain ⟨s1, s2, s3, s4, s5⟩ := hp'
  simp only [PIC14_INST_LEN, PIC14_EE_LEN] at s4 s5
  obtain ⟨b1, l1, v1, t1⟩ := pic14_hex_write_span_chunks p hp
    ⟨"Program (14-bit instruction words)", 0x0000, p.program.inst_len, pic14_ref.inst⟩
    (by simp [pic14_program_spans]) hn (by norm_num)
  obtain ⟨b2, l2, v2, t2⟩ := pic14_hex_write_span_chunks p hp
    ⟨"EEPROM (8-bit data)", 0x2100, p.program.ee_len, pic14_ref.ee⟩
    (by simp [pic14_program_spans]) hm (by norm_num)
  obtain ⟨cs3, t3, v3⟩ := pic14_hex_write_spans_lines p hp
    ((pic14_program_spans p).drop 2) (fun sp h => List.mem_of_mem_drop h)
  simp only at l1 l2 t1 t2
  have hA : pic14_hex_write_spans p
      [⟨"Program (14-bit instruction words)", 0x0000, p.program.inst_len, pic14_ref.inst⟩,
        ⟨"EEPROM (8-bit data)", 0x2100, p.program.ee_len, pic14_ref.ee⟩] =
      some (lines_text (chunks (2 * 0) b1) ++ lines_text (chunks (2 * 0x2100) b2)) := by
    simp [pic14_hex_write_spans, t1, t2]
  have hsp : pic14_program_spans p =
      [⟨"Program (14-bit instruction words)", 0x0000, p.program.inst_len, pic14_ref.inst⟩,
        ⟨"EEPROM (8-bit data)", 0x2100, p.program.ee_len, pic14_ref.ee⟩] ++
      (pic14_program_spans p).drop 2 := by
    simp [pic14_program_spans]
  have hW := pic14_hex_write_spans_append p _ _ _ _ hA t3
  rw [← hsp] at hW
  have vc : ∀ (a : Nat) (bs : List Nat), (∀ b ∈ bs, b < 0x100) →
      ∀ c ∈ chunks a bs, c.2.length ≤ HEX_MAX_DATA_LINE ∧ ∀ b ∈ c.2, b < 0x100 := by
    intro a bs hb c hc
    obtain ⟨k, _, rfl⟩ := mem_chunks _ bs c hc
    refine ⟨?_, fun b hb' => hb b (List.mem_of_mem_drop (List.mem_of_mem_take hb'))⟩
    simp only [List.length_take, HEX_MAX_DATA_LINE]
    omega
  refine ⟨chunks (2 * 0) b1 ++ chunks (2 * 0x2100) b2 ++ cs3, ?_, ?_, ?_, ?_⟩
  · rw [pic14_hex_write, hW]
    simp [lines_text_append]
  · intro c hc
    rcases List.mem_append.mp hc with h | h
    · rcases List.mem_append.mp h with h | h
      · exact vc _ _ v1 c h
      · exact vc _ _ v2 c h
    · exact v3 c h
  · obtain ⟨c, hc, j, hj, e⟩ := last_chunk_mem (2 * 0) p.program.inst_len b1 l1 hn
      (by norm_num) (by omega)
    exact ⟨c, List.mem_append_left _ (List.mem_append_left _ hc), j, hj, by omega⟩
  · obtain ⟨c, hc, j, hj, e⟩ := last_chunk_mem (2 * 0x2100) p.program.ee_len b2 l2 hm
      (by norm_num) (by omega)
    exact ⟨c, List.mem_append_left _ (List.mem_append_right _ hc), j, hj, by omega⟩

theorem scenario_state_sized : scenario_state.sized := by
  simp only [pic14_state.sized, scenario_state, List.length_append, List.length_replicate,
    List.length_cons, List.length_nil]
  decide

theorem scenario_fresh_sized : scenario_fresh.sized := by
  simp only [pic14_state.sized, scenario_fresh, pic14_state_init, List.length_replicate]
  decide

set_option maxRecDepth 1000000 in
/-- The scenario, evaluated: the text of the scenario state, read into the fresh
state, gives the marks 3 and 1, the program word `0x1234` at index 2 and the EEPROM
byte `0xAB` at index 0. -/
theorem scenario_round_trip_values :
    (pic14_hex_write scenario_state).bind (fun t =>
      (pic14_hex_read scenario_fresh (some t)).state.map (fun q =>
        (q.program.max_prog, q.program.inst[2]?, q.program.max_ee, q.program.ee[0]?))) =
      some (3, some 0x1234, 1, some 0xab) := by
  decide!

theorem scenario_round_trip :
    ∃ t q, pic14_hex_write scenario_state = some t ∧
      pic14_hex_read scenario_fresh (some t) = hex_read_result.ok q ∧
      q.program.max_prog = 3 ∧ q.program.inst[2]? = some 0x1234 ∧
      q.program.max_ee = 1 ∧ q.program.ee[0]? = some 0xab := by
  have hv := scenario_round_trip_values
  obtain ⟨t, ht, hv⟩ := Option.bind_eq_some.mp hv
  obtain ⟨q, hq, hv⟩ := Option.map_eq_some'.mp hv
  simp only [Prod.mk.injEq] at hv
  refine ⟨t, q, ht, ?_, hv.1, hv.2.1, hv.2.2.1, hv.2.2.2⟩
  cases h : pic14_hex_read scenario_fresh (some t) with
  | ok r =>
    rw [h] at hq
    simp only [hex_read_result.state, Option.some.injEq] at hq
    rw [hq]
  | error e r => rw [h] at hq; simp [hex_read_result.state] at hq
  | undefined => rw [h] at hq; simp [hex_read_result.state] at hq

/-- C21. For every state whose arrays have the declared capacities, with program length
`n ≥ 1` and EEPROM length `m ≥ 1` that fit them, `pic14_hex_write` gives a text, and
`pic14_hex_read` of this text into a state with the same lengths whose marks do not
exceed them (a fresh state has the marks 0) returns 1 with `max_prog = n` and
`max_ee = m`, whatever the marks of the source state.  In the scenario (program
`0x3FFF, 0x3FFF, 0x1234`, EEPROM `0xAB`) the state read has `max_prog = 3`,
`inst[2] = 0x1234`, `max_ee = 1` and `ee[0] = 0xAB`. -/
theorem hex_round_trip_marks (p p0 : pic14_state) (hp : p.sized) (hp0 : p0.sized)
    (h1 : p0.program.inst_len = p.program.inst_len)
    (h2 : p0.program.ee_len = p.program.ee_len)
    (hn : 1 ≤ p.program.inst_len) (hm : 1 ≤ p.program.ee_len)
    (hm1 : p0.program.max_prog ≤ p0.program.inst_len)
    (hm2 : p0.program.max_ee ≤ p0.program.ee_len) :
    (∃ t q, pic14_hex_write p = some t ∧
      pic14_hex_read p0 (some t) = hex_read_result.ok q ∧
      q.program.max_prog = p.program.inst_len ∧ q.program.max_ee = p.program.ee_len) ∧
    (scenario_state.program.inst.take 3 = [0x3fff, 0x3fff, 0x1234] ∧
      scenario_state.program.inst_len = 3 ∧
      scenario_state.program.ee.take 1 = [0xab] ∧ scenario_state.program.ee_len = 1 ∧
      scenario_fresh.program.max_prog = 0 ∧ scenario_fresh.program.max_ee = 0 ∧
      ∃ t q, pic14_hex_write scenario_state = some t ∧
        pic14_hex_read scenario_fresh (some t) = hex_read_result.ok q ∧
        q.program.max_prog = 3 ∧ q.program.inst[2]? = some 0x1234 ∧
        q.program.max_ee = 1 ∧ q.program.ee[0]? = some 0xab) := by
  refine ⟨?_, rfl, rfl, rfl, rfl, rfl, rfl, scenario_round_trip⟩
  obtain ⟨cs, hT, hv, ⟨c1, hc1, j1, hj1, e1⟩, ⟨c2, hc2, j2, hj2, e2⟩⟩ :=
    pic14_hex_write_lines p hp hn hm
  obtain ⟨r, k1, k2, k3, k4, k5, k6, k7, k8, k9, k10⟩ := hex_replay_marks cs p0 hp0
  obtain ⟨f, hf⟩ : ∃ f, (lines_text cs ++ hex_write_end).length + 1 =
      (f + 1) + cs.length := by
    have hl := lines_text_length cs
    have he : hex_write_end.length = 12 := by decide
    rw [List.length_append, he]
    exact ⟨(lines_text cs).length - cs.length + 12, by omega⟩
  have a1 := k7 hm1
  have a2 := k8 hm2
  have a3 := k9 c1 hc1 j1 hj1 (by omega)
  have a4 := k10 c2 hc2 j2 hj2 (by omega) (by omega)
  refine ⟨_, r, hT, ?_, by omega, by omega⟩
  rw [pic14_hex_read, hex_read, hf, hex_read_loop_replay pic14_hex_segment cs (f + 1) 0 0
    hex_write_end p0 r hv k1]
  have := hex_read_loop_end pic14_hex_segment f 0 0 [] r
  rwa [List.append_nil] at this

/-- C21 on the 12F629: the text of the fresh state, whose marks are 0, read into the
fresh state gives the marks `0x3ff` and 128. -/
theorem hex_round_trip_marks_witness :
    (fresh_state dev_12F629).program.max_prog = 0 ∧
    ∃ t q, pic14_hex_write (fresh_state dev_12F629) = some t ∧
      pic14_hex_read (fresh_state dev_12F629) (some t) = hex_read_result.ok q ∧
      q.program.max_prog = 0x3ff ∧ q.program.max_ee = 128 :=
  ⟨rfl, (hex_round_trip_marks (fresh_state dev_12F629) (fresh_state dev_12F629)
    (fresh_state_sized dev_12F629 (by decide) (by decide))
    (fresh_state_sized dev_12F629 (by decide) (by decide)) rfl rfl (by decide) (by decide)
    (by decide) (by decide)).1⟩

/-! ## Software checksum -/

theorem calc_checksum_loop_sum (inst : List Nat) (k i sum : Nat) (h : i + k ≤ inst.length)
    (hs : sum < 0x10000) :
    calc_checksum_loop inst k i sum =
      some ((sum + ((inst.drop i).take k).sum) % 0x10000) := by
  induction k generalizing i sum with
  | zero =>
    simp only [calc_checksum_loop, List.take_zero, List.sum_nil, Nat.add_zero]
    rw [Nat.mod_eq_of_lt hs]
  | succ k ih =>
    have hi : i < inst.length := by omega
    have e := getElem?_eq_some_getD inst i hi
    have hd : inst.drop i = inst.getD i 0 :: inst.drop (i + 1) := by
      rw [List.drop_eq_getElem_cons hi]
      congr 1
      rw [List.getD_eq_getElem?_getD, List.getElem?_eq_getElem hi]
      rfl
    simp only [calc_checksum_loop, e]
    rw [ih (i + 1) _ (by omega) (Nat.mod_lt _ (by norm_num)), hd, List.take_succ_cons,
      List.sum_cons]
    congr 1
    omega

/-- The value `usb_pickit_calc_checksum` stores: the loop started at the masked
configuration word, followed by `&= 0xffff`. -/
theorem calc_checksum_value (inst : List Nat) (n a : Nat) (h : n ≤ inst.length) :
    (calc_checksum_loop inst n 0 (a % 0x10000)).map (fun sum => sum &&& 0xffff) =
      some ((a + (inst.take n).sum) % 0x10000) := by
  have hl := calc_checksum_loop_sum inst n 0 (a % 0x10000) (by omega)
    (Nat.mod_lt _ (by norm_num))
  rw [List.drop_zero] at hl
  have hm := Nat.and_pow_two_sub_one_eq_mod
    ((a % 0x10000 + (inst.take n).sum) % 0x10000) 16
  have he : (a % 0x10000 + (inst.take n).sum) % 0x10000 % 2 ^ 16 =
      (a + (inst.take n).sum) % 0x10000 := by omega
  have e16 : (2 : Nat) ^ 16 - 1 = 0xffff := by norm_num
  rw [he, e16] at hm
  rw [hl, Option.map_some', hm]

/-- C34: when the declared program length fits the array, `usb_pickit_calc_checksum`
sets `instchecksum` to the masked configuration word plus the program words below
`inst_len`, modulo `2^16`, and leaves every other field of the state as it was. -/
theorem usb_pickit_calc_checksum_spec (s : pic14_state)
    (h : s.program.inst_len ≤ s.program.inst.length) :
    ∃ q, usb_pickit_calc_checksum s = some q ∧
      q.program.instchecksum =
        ((s.config.config &&& s.config.configmask) +
          (s.program.inst.take s.program.inst_len).sum) % 0x10000 ∧
      q = { s with program := { s.program with instchecksum := q.program.instchecksum } } ∧
      q.config = s.config ∧ q.program.inst = s.program.inst ∧
      q.program.inst_len = s.program.inst_len ∧ q.program.max_prog = s.program.max_prog ∧
      q.program.ee = s.program.ee ∧ q.program.ee_len = s.program.ee_len ∧
      q.program.max_ee = s.program.max_ee := by
  have hv := calc_checksum_value s.program.inst s.program.inst_len
    (s.config.config &&& s.config.configmask) h
  obtain ⟨r, hr, hq⟩ := Option.map_eq_some'.mp hv
  refine ⟨{ s with program := { s.program with instchecksum :=
    ((s.config.config &&& s.config.configmask) +
      (s.program.inst.take s.program.inst_len).sum) % 0x10000 } }, ?_, rfl, rfl, rfl, rfl,
    rfl, rfl, rfl, rfl, rfl⟩
  rw [usb_pickit_calc_checksum, hr, Option.map_some', hq]

/-- C34 on the state with the program word `0x3fff`, the configuration word `0x184` and
the mask `0x1ff`: the checksum is `0x4183`. -/
theorem usb_pickit_calc_checksum_spec_witness :
    tiny_state.program.inst_len ≤ tiny_state.program.inst.length ∧
    ∃ q, usb_pickit_calc_checksum tiny_state = some q ∧
      q.program.instchecksum = 0x4183 := by
  refine ⟨by decide, ?_⟩
  obtain ⟨q, h1, h2, _⟩ := usb_pickit_calc_checksum_spec tiny_state (by decide)
  refine ⟨q, h1, ?_⟩
  rw [h2]
  decide

/-! ## Checksum check and configuration check -/

/-- C32. The user-ID words `usb_pickit_merge_config` writes are those of `newconfig`:
with the user ID `1, 2, 3, 4` in `oldconfig` and `5, 6, 7, 8` in `newconfig` the two
packets after the jump to the user-ID words write `5, 6` and `7, 8`. -/
theorem merge_config_writes_new_id :
    old_config_example.id = [1, 2, 3, 4] ∧ new_config_example.id = [5, 6, 7, 8] ∧
    frames_of (usb_pickit_merge_config old_config_example new_config_example) =
      [cmd "V0V1PI\xff\x03", cmd "pV0V1PCZ", words_cmd 5 6, words_cmd 7 8,
        cmd "pPCI\x07\x00ZZ", word_cmd 0x3fff, cmd "pV1ZZZZZ"] ∧
    word_writes (words_cmd 5 6) = [5, 6] ∧ word_writes (words_cmd 7 8) = [7, 8] := by
  refine ⟨rfl, rfl, ?_, by decide, by decide⟩
  decide

theorem getD_four (l : List Nat) (h : l.length = 4) :
    [l.getD 0 0, l.getD 1 0, l.getD 2 0, l.getD 3 0] = l := by
  match l, h with
  | [a, b, c, e], _ => rfl

/-- C32 (amended). `usb_pickit_merge_config` takes the calibration word and the bits
`0x3000` of the configuration word from `oldconfig` and everything else, the user-ID
words and the flag included, from `newconfig`: it returns after the jump to `0x03ff`,
the write of the old calibration word when the flag of `newconfig` is set, the jump to
the user-ID words, two packets whose word writes are the four user-ID words of
`newconfig`, the jump to `0x2007`, and the write of the merged word. -/
theorem usb_pickit_merge_config_spec (oldconfig newconfig : pic14_config)
    (h : newconfig.id.length = PIC14_ID_LEN) (hid : ∀ x ∈ newconfig.id, x < 0x10000) :
    ∃ w, w = ((oldconfig.config &&& 0x3000) +
        (newconfig.config &&& (0xffffffff - 0x3000))) % 0x10000 ∧
      (w &&& 0x3000) = (oldconfig.config &&& 0x3000) ∧
      (w &&& 0xcfff) = (newconfig.config &&& 0xcfff) ∧
      emits (usb_pickit_merge_config oldconfig newconfig) ()
        ([cmd "V0V1PI\xff\x03"] ++
          (if newconfig.save_osccal then [word_cmd oldconfig.osccal] else []) ++
          [cmd "pV0V1PCZ", words_cmd (newconfig.id.getD 0 0) (newconfig.id.getD 1 0),
            words_cmd (newconfig.id.getD 2 0) (newconfig.id.getD 3 0),
            cmd "pPCI\x07\x00ZZ", word_cmd w, cmd "pV1ZZZZZ"]) ∧
      word_writes (words_cmd (newconfig.id.getD 0 0) (newconfig.id.getD 1 0)) ++
        word_writes (words_cmd (newconfig.id.getD 2 0) (newconfig.id.getD 3 0)) =
        newconfig.id := by
  obtain ⟨b1, b2⟩ := merged_word_bits oldconfig.config newconfig.config
  refine ⟨_, rfl, b1, b2, ?_, ?_⟩
  · have he := emits_merge_config oldconfig newconfig h
    simpa only [write_config_frames, merged_config, BG_MASK] using he
  · simp only [PIC14_ID_LEN] at h
    have g : ∀ i, i < 4 → newconfig.id.getD i 0 < 0x10000 :=
      fun i hi => getD_lt_of_forall _ _ _ hid (by omega)
    rw [word_writes_words_cmd _ _ (g 0 (by norm_num)) (g 1 (by norm_num)),
      word_writes_words_cmd _ _ (g 2 (by norm_num)) (g 3 (by norm_num))]
    exact getD_four _ h

/-- C32 on the example configurations. -/
theorem usb_pickit_merge_config_spec_witness :
    new_config_example.id.length = PIC14_ID_LEN ∧
    (∀ x ∈ new_config_example.id, x < 0x10000) ∧
    ∃ w, w = ((old_config_example.config &&& 0x3000) +
        (new_config_example.config &&& (0xffffffff - 0x3000))) % 0x10000 ∧
      (w &&& 0x3000) = (old_config_example.config &&& 0x3000) ∧
      (w &&& 0xcfff) = (new_config_example.config &&& 0xcfff) ∧
      emits (usb_pickit_merge_config old_config_example new_config_example) ()
        ([cmd "V0V1PI\xff\x03"] ++
          (if new_config_example.save_osccal then [word_cmd old_config_example.osccal]
            else []) ++
          [cmd "pV0V1PCZ",
            words_cmd (new_config_example.id.getD 0 0) (new_config_example.id.getD 1 0),
            words_cmd (new_config_example.id.getD 2 0) (new_config_example.id.getD 3 0),
            cmd "pPCI\x07\x00ZZ", word_cmd w, cmd "pV1ZZZZZ"]) ∧
      word_writes
          (words_cmd (new_config_example.id.getD 0 0) (new_config_example.id.getD 1 0)) ++
        word_writes
          (words_cmd (new_config_example.id.getD 2 0) (new_config_example.id.getD 3 0)) =
        new_config_example.id :=
  ⟨rfl, by decide, usb_pickit_merge_config_spec old_config_example new_config_example rfl
    (by decide)⟩

/-- A mask of 16 bits without the bits `0x3000` lies within `0xcfff`. -/
theorem mask_without_bandgap (mask : Nat) (h1 : mask &&& 0x3000 = 0) (h2 : mask < 0x10000) :
    0xcfff &&& mask = mask := by
  obtain ⟨m1, m2, _⟩ := and_masks_word mask
  rw [Nat.and_comm, m2]
  rw [m1] at h1
  omega

/-- Under a mask without the bits `0x3000` the merged word agrees with the new word. -/
theorem merged_word_under_mask (g x mask : Nat) (h1 : mask &&& 0x3000 = 0)
    (h2 : mask < 0x10000) :
    (((g &&& 0x3000) + (x &&& (0xffffffff - 0x3000))) % 0x10000) &&& mask = x &&& mask := by
  obtain ⟨_, b2⟩ := merged_word_bits g x
  rw [← mask_without_bandgap mask h1 h2, ← Nat.and_assoc, b2, Nat.and_assoc]

/-- C37. `usb_pickit_merge_config` takes the bits `0x3000` from the old word on every
chip, but the masks of seven descriptors contain one of these bits.  On the 16F635 (mask
`0x1fff`), with the old word `0x3fff` and the new word `0x0fff`, the word written is
`0x3fff`, which differs from the new word in bit 12 of the mask, and the
configuration-word check of verify fails against a device that holds the word written.
For a mask without these bits the merged word agrees with the new word under the
mask. -/
theorem merged_config_breaks_mask :
    dev_16F635 ∈ supported_devices ∧ dev_16F635.configmask = 0x1fff ∧
    dev_16F635.save_osccal = 0 ∧
    (merged_config old_config_example new_config_example).config = 0x3fff ∧
    frames_of (usb_pickit_merge_config old_config_example new_config_example) =
      [cmd "V0V1PI\xff\x03", cmd "pV0V1PCZ", words_cmd 5 6, words_cmd 7 8,
        cmd "pPCI\x07\x00ZZ", word_cmd 0x3fff, cmd "pV1ZZZZZ"] ∧
    (0x3fff &&& dev_16F635.configmask) ≠
      (new_config_example.config &&& dev_16F635.configmask) ∧
    usb_pickit_verify_config_word
      (with_config (fresh_state dev_16F635) new_config_example)
      (with_config (fresh_state dev_16F635)
        (merged_config old_config_example new_config_example)) =
      some (false, [MSG_VERIFY_CONFIG_WORD]) ∧
    (supported_devices.filter (fun d => decide (d.configmask &&& 0x3000 ≠ 0))).map
      (fun d => d.device_name) =
      ["16F635", "16F636/639", "16F877A", "16F913", "16F914", "16F917", "16F916"] ∧
    (∀ g x mask, mask &&& 0x3000 = 0 → mask < 0x10000 →
      (((g &&& 0x3000) + (x &&& (0xffffffff - 0x3000))) % 0x10000) &&& mask = x &&& mask) := by
  refine ⟨by decide, rfl, rfl, by decide, by decide, by decide, by decide, by decide,
    fun g x mask h1 h2 => merged_word_under_mask g x mask h1 h2⟩

/-! ## Registry well-formedness -/

theorem supported_devices_ids_shape :
    ∀ d ∈ supported_devices, d.device_id &&& 0x1f = 0 ∧ d.device_id ≠ 0xffff ∧
      d.device_id < 0x10000 := by decide

set_option maxRecDepth 100000 in
theorem supported_devices_key_of_revision :
    ∀ d ∈ supported_devices, ∀ r, r < 32 → (d.device_id ||| r) &&& 0xffe0 = d.device_id := by
  decide

/-- C39: the IDs of the table entries before the end marker are pairwise distinct, have
their low 5 bits zero and differ from `0xffff`; so for every such entry `d` and every
revision `r` in `0..31` the lookup of `(d.id | r) & 0xffe0` returns `d`; the table ends
with the marker `0xffff`, and the scan of `pic14_get_device` ends inside the table for
every ID. -/
theorem registry_well_formed :
    (supported_devices.map (fun d => d.device_id)).Nodup ∧
    (∀ d ∈ supported_devices, d.device_id &&& 0x1f = 0 ∧ d.device_id ≠ 0xffff) ∧
    (∀ d ∈ supported_devices, ∀ r, r < 32 →
      pic14_get_device ((d.device_id ||| r) &&& 0xffe0) = some (some d)) ∧
    (∀ d d', d ∈ supported_devices → ∀ r, r < 32 →
      pic14_get_device ((d.device_id ||| r) &&& 0xffe0) = some (some d') → d' = d) ∧
    supported_devices.length = 23 ∧ __devices.length = 24 ∧
    (__devices.map (fun d => d.device_id)).getLast? = some 0xffff ∧
    (∀ id, pic14_get_device id ≠ none) := by
  refine ⟨supported_devices_ids_nodup, fun d hd => ?_, fun d hd r hr => ?_,
    fun d d' hd r hr h => ?_, by decide, by decide, by decide, fun id => ?_⟩
  · exact ⟨(supported_devices_ids_shape d hd).1, (supported_devices_ids_shape d hd).2.1⟩
  · rw [supported_devices_key_of_revision d hd r hr, pic14_get_device_eq, Option.some.injEq]
    exact (find_id_eq_some_iff _ _ supported_devices_ids_nodup d).mpr ⟨hd, rfl⟩
  · rw [supported_devices_key_of_revision d hd r hr, pic14_get_device_eq, Option.some.injEq,
      (find_id_eq_some_iff _ _ supported_devices_ids_nodup d).mpr ⟨hd, rfl⟩] at h
    exact (Option.some.inj h).symm
  · rw [pic14_get_device_eq]
    simp

/-- C39 on the 16F689 with revision 7: the ID word `0x1347` resolves to the 16F689. -/
theorem registry_well_formed_witness :
    dev_16F689 ∈ supported_devices ∧ 7 < 32 ∧ (dev_16F689.device_id ||| 7) = 0x1347 ∧
    pic14_get_device ((dev_16F689.device_id ||| 7) &&& 0xffe0) = some (some dev_16F689) :=
  ⟨by decide, by decide, by decide,
    registry_well_formed.2.2.1 dev_16F689 (by decide) 7 (by decide)⟩

/-! ## Bytes and words of a segment -/

theorem pic14_update_marks_lengths (s index : Nat) (p : pic14_state) :
    (pic14_update_marks s index p).program.inst_len = p.program.inst_len ∧
    (pic14_update_marks s index p).program.ee_len = p.program.ee_len := by
  unfold pic14_update_marks
  split
  · split <;> exact ⟨rfl, rfl⟩
  · split
    · split <;> exact ⟨rfl, rfl⟩
    · exact ⟨rfl, rfl⟩

theorem pic14_ref_write_lengths (r : pic14_ref) (p q : pic14_state) (i w : Nat)
    (h : r.write p i w = some q) :
    q.program.inst_len = p.program.inst_len ∧ q.program.ee_len = p.program.ee_len := by
  cases r <;> simp only [pic14_ref.write] at h <;> split at h <;>
    first
    | (simp only [Option.some.injEq] at h; rw [← h]; exact ⟨rfl, rfl⟩)
    | (simp at h)

/-- A call of `pic14_write_word` that returns leaves the declared lengths, and so the
span list, as they were. -/
theorem pic14_write_word_from_lengths (s : Nat) (spans : List pic14_span) (a w : Nat)
    (p q : pic14_state) (h : pic14_write_word_from s spans a w p = some q) :
    q.program.inst_len = p.program.inst_len ∧ q.program.ee_len = p.program.ee_len := by
  induction spans generalizing s with
  | nil =>
    simp only [pic14_write_word_from, Option.some.injEq] at h
    rw [← h]
    exact ⟨rfl, rfl⟩
  | cons sp rest ih =>
    rw [pic14_write_word_from] at h
    split at h
    · obtain ⟨r, hr, hq⟩ := Option.map_eq_some'.mp h
      obtain ⟨h1, h2⟩ := pic14_ref_write_lengths _ _ _ _ _ hr
      obtain ⟨h3, h4⟩ := pic14_update_marks_lengths s (a - sp.addr + 1) r
      rw [← hq, h3, h4]
      exact ⟨h1, h2⟩
    · exact ih _ h

/-- The loop of `pic14_hex_segment` is the sequence of `pic14_write_word` calls for the
words of the segment. -/
theorem pic14_hex_segment_loop_calls (spans : List pic14_span) (addr : Nat) (src : List Nat)
    (k i : Nat) (p : pic14_state) (hs : spans = pic14_program_spans p) :
    pic14_hex_segment_loop spans addr src k i p =
      pic14_write_words ((List.range k).map (fun j => (addr + (i + j),
        (src.getD (2 * (i + j) + 0) 0 + src.getD (2 * (i + j) + 1) 0 * 0x100) % 0x10000))) p := by
  induction k generalizing i p with
  | zero => rfl
  | succ k ih =>
    rw [List.range_succ_eq_map, List.map_cons, List.map_map, pic14_hex_segment_loop,
      pic14_write_words]
    simp only [Nat.add_zero, ← hs]
    cases hw : pic14_write_word spans (addr + i)
        ((src.getD (2 * i) 0 + src.getD (2 * i + 1) 0 * 0x100) % 0x10000) p with
    | none => rfl
    | some q =>
      simp only
      obtain ⟨l1, l2⟩ := pic14_write_word_from_lengths 0 spans _ _ p q hw
      rw [ih (i + 1) q (by rw [hs]; exact (pic14_program_spans_congr p q l1 l2).symm)]
      congr 1
      apply List.map_congr_left
      intro j _
      simp only [Function.comp]
      have e : i + 1 + j = i + (j + 1) := by omega
      rw [e]
      rfl

/-- C33: for a segment at byte address `b` with length `n` and data bytes `d`,
`pic14_hex_segment` is the sequence of `⌊n / 2⌋` calls of `pic14_write_word`, call `i`
with the word address `⌊b / 2⌋ + i` and the word `d[2i] + 256 * d[2i + 1]`, all 16 bits
kept; nothing after byte `2 * ⌊n / 2⌋` of the data is used, so a trailing odd byte is
not routed. -/
theorem pic14_hex_segment_words (p : pic14_state) (b n : Nat) (d : List Nat)
    (hd : ∀ x ∈ d, x < 0x100) :
    pic14_hex_segment p b n d =
      pic14_write_words ((List.range (n / 2)).map (fun i =>
        (b / 2 + i, d.getD (2 * i) 0 + 0x100 * d.getD (2 * i + 1) 0))) p ∧
    ((List.range (n / 2)).map (fun i =>
        (b / 2 + i, d.getD (2 * i) 0 + 0x100 * d.getD (2 * i + 1) 0))).length = n / 2 ∧
    (∀ i, i < n / 2 → d.getD (2 * i) 0 + 0x100 * d.getD (2 * i + 1) 0 < 0x10000) ∧
    pic14_hex_segment p b n d = pic14_hex_segment p b (2 * (n / 2)) (d.take (2 * (n / 2))) := by
  have hb : ∀ j, d.getD j 0 < 0x100 := by
    intro j
    by_cases hj : j < d.length
    · exact getD_lt_of_forall d j _ hd hj
    · rw [List.getD_eq_getElem?_getD, List.getElem?_eq_none (by omega)]
      norm_num
  have key : ∀ (m : Nat) (src : List Nat), (∀ j, j < 2 * m → src.getD j 0 = d.getD j 0) →
      pic14_hex_segment p b (2 * m) src =
        pic14_write_words ((List.range m).map (fun i =>
          (b / 2 + i, d.getD (2 * i) 0 + 0x100 * d.getD (2 * i + 1) 0))) p := by
    intro m src hsrc
    rw [pic14_hex_segment, pic14_hex_segment_loop_calls _ _ _ _ _ _ rfl]
    have e : 2 * m / 2 = m := by omega
    rw [e]
    congr 1
    apply List.map_congr_left
    intro i hi
    have hi' := List.mem_range.mp hi
    have h0 := hb (2 * i)
    have h1 := hb (2 * i + 1)
    rw [Nat.zero_add, Nat.add_zero, hsrc (2 * i) (by omega), hsrc (2 * i + 1) (by omega),
      Nat.mod_eq_of_lt (by omega)]
    congr 1
    omega
  refine ⟨?_, by simp, fun i _ => ?_, ?_⟩
  · rw [pic14_hex_segment, pic14_hex_segment_loop_calls _ _ _ _ _ _ rfl]
    congr 1
    apply List.map_congr_left
    intro i _
    have h0 := hb (2 * i)
    have h1 := hb (2 * i + 1)
    rw [Nat.zero_add, Nat.add_zero, Nat.mod_eq_of_lt (by omega)]
    congr 1
    omega
  · have h0 := hb (2 * i)
    have h1 := hb (2 * i + 1)
    omega
  · rw [key (n / 2) (d.take (2 * (n / 2)))]
    · rw [pic14_hex_segment, pic14_hex_segment_loop_calls _ _ _ _ _ _ rfl]
      congr 1
      apply List.map_congr_left
      intro i _
      have h0 := hb (2 * i)
      have h1 := hb (2 * i + 1)
      rw [Nat.zero_add, Nat.add_zero, Nat.mod_eq_of_lt (by omega)]
      congr 1
      omega
    · intro j hj
      rw [List.getD_eq_getElem?_getD, List.getD_eq_getElem?_getD, List.getElem?_take_of_lt hj]

/-- C33 on the record of three bytes `0x34, 0x12, 0xff` at byte address `0x0005` of a
12F629: one call, the word `0x1234` at word address 2; the third byte is not routed. -/
theorem pic14_hex_segment_words_witness :
    (∀ x ∈ [0x34, 0x12, 0xff], x < 0x100) ∧
    pic14_hex_segment (fresh_state dev_12F629) 5 3 [0x34, 0x12, 0xff] =
      pic14_write_words [(2, 0x1234)] (fresh_state dev_12F629) :=
  ⟨by decide, (pic14_hex_segment_words (fresh_state dev_12F629) 5 3 [0x34, 0x12, 0xff]
    (by decide)).1⟩

/-! ## High-water invariant -/

/-- The arrays after one call of `pic14_write_word` on a state whose spans fit their
buffers: a word in the program span goes to `inst`, a word in the EEPROM span to `ee`,
and no other call changes these arrays. -/
theorem pic14_write_word_arrays (p : pic14_state) (a w : Nat) (h : p.sized) :
    ∃ q, pic14_write_word (pic14_program_spans p) a w p = some q ∧
      q.program.inst =
        (if a < p.program.inst_len then p.program.inst.set a w else p.program.inst) ∧
      q.program.ee =
        (if 0x2100 ≤ a ∧ a < 0x2100 + p.program.ee_len then p.program.ee.set (a - 0x2100) w
         else p.program.ee) := by
  obtain ⟨h1, h2, h3, h4, h5⟩ := h
  simp only [PIC14_INST_LEN, PIC14_EE_LEN, PIC14_ID_LEN] at h1 h2 h3 h4 h5
  have m1 : (0 + p.program.inst_len) % 2 ^ 32 = p.program.inst_len := by
    rw [Nat.zero_add]; exact Nat.mod_eq_of_lt (by omega)
  have m2 : (0x2100 + p.program.ee_len) % 2 ^ 32 = 0x2100 + p.program.ee_len :=
    Nat.mod_eq_of_lt (by omega)
  simp only [pic14_write_word, pic14_program_spans, pic14_write_word_from,
    pic14_span.contains, m1, m2, PIC14_ID_LEN]
  by_cases c1 : a < p.program.inst_len
  · have : a < p.program.inst.length := by omega
    have c2 : ¬ (0x2100 ≤ a ∧ a < 0x2100 + p.program.ee_len) := by omega
    simp only [ge_iff_le, Nat.zero_le, true_and, c1, decide_True, if_true, Nat.sub_zero,
      pic14_ref.write, this, Option.map_some', c2, if_false]
    refine ⟨_, rfl, ?_⟩
    simp only [pic14_update_marks, SPAN_PROGRAM, if_true]
    split <;> exact ⟨rfl, rfl⟩
  · by_cases c2 : 0x2100 ≤ a ∧ a < 0x2100 + p.program.ee_len
    · have : a - 0x2100 < p.program.ee.length := by omega
      simp only [ge_iff_le, Nat.zero_le, true_and, c1, c2, and_self, decide_True, decide_False,
        Bool.false_eq_true, if_true, if_false,
        pic14_ref.write, this, Option.map_some']
      refine ⟨_, rfl, ?_⟩
      simp only [pic14_update_marks, SPAN_PROGRAM, SPAN_EEPROM, if_true]
      simp
      split <;> exact ⟨rfl, rfl⟩
    · simp only [c1, c2, and_false, decide_False, Bool.false_eq_true, if_false, ge_iff_le]
      have e1 : (8199 + 1) % 2 ^ 32 = 8200 := by norm_num
      have e2 : (8192 + 4) % 2 ^ 32 = 8196 := by norm_num
      have e3 : (1023 + 1) % 2 ^ 32 = 1024 := by norm_num
      simp only [e1, e2, e3]
      by_cases c3 : 8199 ≤ a ∧ a < 8200
      · have : a - 8199 = 0 := by omega
        simp only [c3, and_self, decide_True, if_true, pic14_ref.write, this, Option.map_some']
        refine ⟨_, rfl, ?_⟩
        simp [pic14_update_marks, SPAN_PROGRAM, SPAN_EEPROM]
      · by_cases c4 : 8192 ≤ a ∧ a < 8196
        · have : a - 8192 < p.config.id.length := by omega
          simp only [c3, c4, and_self, decide_True, decide_False, Bool.false_eq_true, if_true,
            if_false, pic14_ref.write, this, Option.map_some']
          refine ⟨_, rfl, ?_⟩
          simp [pic14_update_marks, SPAN_PROGRAM, SPAN_EEPROM]
        · by_cases c5 : 1023 ≤ a ∧ a < 1024
          · have : a - 1023 = 0 := by omega
            simp only [c3, c4, c5, and_self, decide_True, decide_False, Bool.false_eq_true,
              if_true, if_false, pic14_ref.write, this, Option.map_some']
            refine ⟨_, rfl, ?_⟩
            simp [pic14_update_marks, SPAN_PROGRAM, SPAN_EEPROM]
          · simp only [c3, c4, c5, decide_False, Bool.false_eq_true, if_false]
            exact ⟨_, rfl, rfl, rfl⟩

/-- One call of `pic14_write_word` keeps the high-water invariant. -/
theorem high_water_inv_step (p : pic14_state) (a w : Nat) (h : p.sized)
    (hi : high_water_inv p) :
    ∃ q, pic14_write_word (pic14_program_spans p) a w p = some q ∧ q.sized ∧
      q.program.inst_len = p.program.inst_len ∧ q.program.ee_len = p.program.ee_len ∧
      high_water_inv q := by
  obtain ⟨q, hq, hs, l1, l2, m1, m2⟩ := pic14_write_word_marks p a w h
  obtain ⟨q', hq', a1, a2⟩ := pic14_write_word_arrays p a w h
  rw [hq] at hq'
  obtain rfl := Option.some.inj hq'
  obtain ⟨i1, i2, i3, i4⟩ := hi
  refine ⟨q, hq, hs, l1, l2, ?_, ?_, ?_, ?_⟩
  · rw [m1, l1]
    split <;> omega
  · rw [m2, l2]
    split <;> omega
  · intro j hj hlen
    rw [a1] at hlen ⊢
    rw [m1] at hj
    by_cases c : a < p.program.inst_len
    · rw [if_pos c] at hj hlen ⊢
      rw [List.length_set] at hlen
      rw [List.getElem?_set_ne (by omega)]
      exact i3 j (by omega) hlen
    · rw [if_neg c] at hj hlen ⊢
      exact i3 j hj hlen
  · intro j hj hlen
    rw [a2] at hlen ⊢
    rw [m2] at hj
    by_cases c : 0x2100 ≤ a ∧ a < 0x2100 + p.program.ee_len
    · rw [if_pos c] at hj hlen ⊢
      rw [List.length_set] at hlen
      rw [List.getElem?_set_ne (by omega)]
      exact i4 j (by omega) hlen
    · rw [if_neg c] at hj hlen ⊢
      exact i4 j hj hlen

theorem high_water_inv_calls (calls : List (Nat × Nat)) (p : pic14_state) (h : p.sized)
    (hi : high_water_inv p) :
    ∃ q, pic14_write_words calls p = some q ∧ q.sized ∧
      q.program.inst_len = p.program.inst_len ∧ q.program.ee_len = p.program.ee_len ∧
      high_water_inv q := by
  induction calls generalizing p with
  | nil => exact ⟨p, rfl, h, rfl, rfl, hi⟩
  | cons c rest ih =>
    obtain ⟨r, hr, hs, l1, l2, hinv⟩ := high_water_inv_step p c.1 c.2 h hi
    obtain ⟨q, hq, hqs, k1, k2, hqi⟩ := ih r hs hinv
    refine ⟨q, ?_, hqs, by rw [k1, l1], by rw [k2, l2], hqi⟩
    simp only [pic14_write_words, hr]
    exact hq

theorem drop_eq_replicate (l : List Nat) (m v : Nat)
    (h : ∀ j, m ≤ j → j < l.length → l[j]? = some v) :
    l.drop m = List.replicate (l.length - m) v := by
  apply List.ext_getElem?
  intro i
  rw [List.getElem?_drop, List.getElem?_replicate]
  by_cases hi : i < l.length - m
  · rw [if_pos hi]
    exact h (m + i) (by omega) (by omega)
  · rw [if_neg hi]
    exact List.getElem?_eq_none (by omega)

/-- C38: from `pic14_state_init` on a state whose declared lengths fit the arrays, every
sequence of `pic14_write_word` calls runs to a state with the same lengths in which
`max_prog ≤ inst_len`, `max_ee ≤ ee_len`, every program word from `max_prog` on is still
`0x3fff` and every EEPROM cell from `max_ee` on is still `0xff`: the arrays are their
first `max_prog` words, respectively `max_ee` cells, followed by the erased value. -/
theorem high_water_invariant (p0 : pic14_state) (calls : List (Nat × Nat))
    (hi : p0.program.inst_len ≤ PIC14_INST_LEN) (he : p0.program.ee_len ≤ PIC14_EE_LEN) :
    ∃ q, pic14_write_words calls (pic14_state_init p0) = some q ∧
      q.program.inst_len = p0.program.inst_len ∧ q.program.ee_len = p0.program.ee_len ∧
      q.program.max_prog ≤ q.program.inst_len ∧ q.program.max_ee ≤ q.program.ee_len ∧
      (∀ j, q.program.max_prog ≤ j → j < PIC14_INST_LEN → q.program.inst[j]? = some 0x3fff) ∧
      (∀ j, q.program.max_ee ≤ j → j < PIC14_EE_LEN → q.program.ee[j]? = some 0xff) ∧
      q.program.inst = q.program.inst.take q.program.max_prog ++
        List.replicate (PIC14_INST_LEN - q.program.max_prog) 0x3fff ∧
      q.program.ee = q.program.ee.take q.program.max_ee ++
        List.replicate (PIC14_EE_LEN - q.program.max_ee) 0xff := by
  have hs : (pic14_state_init p0).sized := by
    simp [pic14_state.sized, pic14_state_init, hi, he]
  have h0 : high_water_inv (pic14_state_init p0) := by
    refine ⟨Nat.zero_le _, Nat.zero_le _, ?_, ?_⟩
    · intro j _ hj
      simp only [pic14_state_init, List.length_replicate] at hj ⊢
      rw [List.getElem?_replicate, if_pos hj]
    · intro j _ hj
      simp only [pic14_state_init, List.length_replicate] at hj ⊢
      rw [List.getElem?_replicate, if_pos hj]
  obtain ⟨q, hq, hqs, l1, l2, i1, i2, i3, i4⟩ := high_water_inv_calls calls _ hs h0
  obtain ⟨s1, s2, _⟩ := hqs
  refine ⟨q, hq, l1, l2, i1, i2, fun j hj hl => i3 j hj (by rw [s1]; exact hl),
    fun j hj hl => i4 j hj (by rw [s2]; exact hl), ?_, ?_⟩
  · have := drop_eq_replicate q.program.inst q.program.max_prog 0x3fff i3
    rw [s1] at this
    rw [← this, List.take_append_drop]
  · have := drop_eq_replicate q.program.ee q.program.max_ee 0xff i4
    rw [s2] at this
    rw [← this, List.take_append_drop]

/-- C38 on the 12F629 after the writes of words at the program addresses 0 and 5 and at
the EEPROM address `0x2101`. -/
theorem high_water_invariant_witness :
    (copy_device_values dev_12F629 zero_state).program.inst_len ≤ PIC14_INST_LEN ∧
    (copy_device_values dev_12F629 zero_state).program.ee_len ≤ PIC14_EE_LEN ∧
    ∃ q, pic14_write_words [(0, 0x1234), (5, 0x0056), (0x2101, 0x00ab)]
        (pic14_state_init (copy_device_values dev_12F629 zero_state)) = some q ∧
      q.program.max_prog ≤ q.program.inst_len ∧ q.program.max_ee ≤ q.program.ee_len ∧
      q.program.inst = q.program.inst.take q.program.max_prog ++
        List.replicate (PIC14_INST_LEN - q.program.max_prog) 0x3fff ∧
      q.program.ee = q.program.ee.take q.program.max_ee ++
        List.replicate (PIC14_EE_LEN - q.program.max_ee) 0xff := by
  obtain ⟨q, h1, _, _, h4, h5, _, _, h8, h9⟩ :=
    high_water_invariant (copy_device_values dev_12F629 zero_state)
      [(0, 0x1234), (5, 0x0056), (0x2101, 0x00ab)] (by decide) (by decide)
  exact ⟨by decide, by decide, q, h1, h4, h5, h8, h9⟩

/-! ## Calibration regeneration -/

theorem or_byte_lt (x : Nat) (h : x < 0x100) : (x ||| 0x3400) < 0x10000 :=
  Nat.or_lt_two_pow (n := 16) (by omega) (by norm_num)

theorem or_mask_lt (g m : Nat) (h : m < 0x10000) : ((0x3000 &&& g) ||| m) < 0x10000 :=
  Nat.or_lt_two_pow (n := 16) (lt_of_le_of_lt Nat.and_le_left (by norm_num)) h

/-- C35: on a chip with the flag, with the configuration word `g` read at the start
(first word of the transfer `b`) and the EEPROM block `e` read back after the
measurement, `usb_pickit_osccal_regen` returns after these packets: the read of the
configuration word, power and oscillator commands, the read of the block at `0x78`, the
full erase, then the jump to `0x03ff` and the write of `0x3400 | e[7]`, the jump to
`0x2007` and the write of `(g & 0x3000) | configmask`, and the exit.  On a chip without
the flag it sends nothing and reports the error. -/
theorem usb_pickit_osccal_regen_spec (s : pic14_state) (d : usb_pickit) (b e : List Nat)
    (rest : List (List Nat)) (hi : d.inbox = b :: e :: rest) (hb : b.length = 8)
    (he : e.length = 8) (hev : ∀ x ∈ e, x < 0x100) (hm : s.config.configmask < 0x10000) :
    (s.config.save_osccal = true →
      usb_pickit_osccal_regen s d = usb_result.done []
        { sent := d.sent ++ [cmd "pPCI\x07\x00ZZ", cmd "RZZZZZZZ", cmd "pV1ZZZZZ",
            cmd "V3ZZZZZZ", cmd "V0ZZZZZZ", cmd "PI\x78\x00rpZZ", cmd "PCEepZZZ",
            cmd "pV1ZZZZZ", cmd "PI\xff\x03ZZZZ", word_cmd (0x3400 ||| e.getD 7 0),
            cmd "pPCI\x07\x00ZZ",
            word_cmd ((word_of_bytes b 0 &&& 0x3000) ||| s.config.configmask),
            cmd "pV1ZZZZZ"],
          requested := d.requested ++ [8, 8], inbox := rest } ∧
      word_writes (word_cmd (0x3400 ||| e.getD 7 0)) = [0x3400 ||| e.getD 7 0] ∧
      word_writes (word_cmd ((word_of_bytes b 0 &&& 0x3000) ||| s.config.configmask)) =
        [(word_of_bytes b 0 &&& 0x3000) ||| s.config.configmask]) ∧
    (s.config.save_osccal = false →
      usb_pickit_osccal_regen s d =
        usb_result.done [MSG_OSCCAL_FAILED, MSG_OSCCAL_REASON] d) := by
  obtain ⟨sent, requested, inbox⟩ := d
  simp only at hi
  subst hi
  have h7 : e.getD 7 0 < 0x100 := getD_lt_of_forall e 7 _ hev (by omega)
  have e1 : (e.getD 7 0 ||| 0x3400) % 0x10000 = 0x3400 ||| e.getD 7 0 := by
    rw [Nat.mod_eq_of_lt (or_byte_lt _ h7), Nat.lor_comm]
  have e2 : ((0x3000 &&& word_of_bytes b 0) ||| s.config.configmask) % 0x10000 =
      (word_of_bytes b 0 &&& 0x3000) ||| s.config.configmask := by
    rw [Nat.mod_eq_of_lt (or_mask_lt _ _ hm), Nat.and_comm]
  constructor
  · intro hs
    refine ⟨?_, ?_, ?_⟩
    · simp only [usb_pickit_osccal_regen, hs, if_true, usb_bind_apply, send_usb,
        recv_usb_words_one _ _ b _ hb, usb_pickit_osc_on, usb_pickit_off, recv_usb, he,
        usb_pickit_reset, send_usb_word, usb_pure_apply, Bool.false_eq_true, if_false]
      rw [List.getD_eq_getElem?_getD] at e1
      simp [e1, e2]
    · exact word_writes_word_cmd _ (by rw [Nat.lor_comm]; exact or_byte_lt _ h7)
    · exact word_writes_word_cmd _ (by rw [Nat.and_comm]; exact or_mask_lt _ _ hm)
  · intro hs
    simp [usb_pickit_osccal_regen, hs, usb_pure_apply]

set_option maxRecDepth 100000 in
/-- C35 on the 12F629 with the configuration word `0x3184` and the measured byte
`0x2c`: the words written are `0x342c` and `0x31ff`. -/
theorem usb_pickit_osccal_regen_spec_witness :
    (fresh_state dev_12F629).config.save_osccal = true ∧
    usb_pickit_osccal_regen (fresh_state dev_12F629)
        ⟨[], [], [[0x84, 0x31, 0, 0, 0, 0, 0, 0], [0, 0, 0, 0, 0, 0, 0, 0x2c]]⟩ =
      usb_result.done []
        ⟨[cmd "pPCI\x07\x00ZZ", cmd "RZZZZZZZ", cmd "pV1ZZZZZ",
            cmd "V3ZZZZZZ", cmd "V0ZZZZZZ", cmd "PI\x78\x00rpZZ", cmd "PCEepZZZ",
            cmd "pV1ZZZZZ", cmd "PI\xff\x03ZZZZ", word_cmd 0x342c,
            cmd "pPCI\x07\x00ZZ", word_cmd 0x31ff, cmd "pV1ZZZZZ"], [8, 8], []⟩ :=
  ⟨by decide,
    ((usb_pickit_osccal_regen_spec (fresh_state dev_12F629)
      ⟨[], [], [[0x84, 0x31, 0, 0, 0, 0, 0, 0], [0, 0, 0, 0, 0, 0, 0, 0x2c]]⟩
      [0x84, 0x31, 0, 0, 0, 0, 0, 0] [0, 0, 0, 0, 0, 0, 0, 0x2c] [] rfl rfl rfl
      (by decide) (by decide)).1 (by decide)).1⟩

/-! ## Chunked reads -/

/-- The four words of a transfer of `recv_usb_words4`. -/
theorem recv_usb_words4_run (sent : List (List Nat)) (requested b : List Nat)
    (rest : List (List Nat)) (hb : b.length = 8) :
    recv_usb_words4 { sent := sent, requested := requested, inbox := b :: rest } =
      usb_result.done ((List.range 4).map (word_of_bytes b))
        { sent := sent ++ [cmd "RZZZZZZZ"], requested := requested ++ [8], inbox := rest } := by
  simp [recv_usb_words4, usb_bind_apply, send_usb, recv_usb, hb, REQ_LEN, usb_pure_apply]

/-- The run of the loop of `recv_usb_words` on a link that answers each of its
`⌈len / 4⌉` reads with 8 bytes: the words of the transfers in order, cut to `len`. -/
theorem recv_usb_words_loop_run (fuel len : Nat) (bs rest : List (List Nat))
    (sent : List (List Nat)) (requested : List Nat) (hf : len ≤ fuel)
    (hk : bs.length = (len + 3) / 4) (hb : ∀ b ∈ bs, b.length = 8) :
    recv_usb_words_loop fuel len { sent := sent, requested := requested, inbox := bs ++ rest } =
      usb_result.done
        (((bs.map (fun b => (List.range 4).map (word_of_bytes b))).flatten).take len)
        { sent := sent ++ List.replicate bs.length (cmd "RZZZZZZZ"),
          requested := requested ++ List.replicate bs.length 8, inbox := rest } := by
  induction fuel generalizing len bs sent requested with
  | zero =>
    have h0 : len = 0 := by omega
    subst h0
    have : bs = [] := List.length_eq_zero.mp (by rw [hk])
    subst this
    simp [recv_usb_words_loop, usb_pure_apply]
  | succ fuel ih =>
    rw [recv_usb_words_loop]
    by_cases hl : len > 0
    · rw [if_pos hl]
      cases bs with
      | nil => simp at hk; omega
      | cons b bs =>
        have hb8 : b.length = 8 := hb b (List.mem_cons_self _ _)
        have hbs : ∀ x ∈ bs, x.length = 8 := fun x hx => hb x (List.mem_cons_of_mem _ hx)
        simp only [List.length_cons] at hk
        rw [usb_bind_apply, List.cons_append, recv_usb_words4_run _ _ b _ hb8]
        simp only
        rw [usb_bind_apply, ih (len - (if 4 > len then len else 4)) bs _ _
          (by split <;> omega) (by split <;> omega) hbs]
        simp only [usb_pure_apply, List.map_cons, List.flatten_cons, List.replicate_succ,
          List.length_cons]
        have hw : ((List.range 4).map (word_of_bytes b)).length = 4 := by simp
        congr 1
        · by_cases h4 : 4 > len
          · rw [if_pos h4]
            have : bs = [] := List.length_eq_zero.mp (by omega)
            subst this
            simp
          · rw [if_neg h4, List.take_append_eq_append_take, hw]
            congr 1
            · rw [List.take_of_length_le (by omega), List.take_of_length_le (by omega)]
        · simp [List.append_assoc]
    · rw [if_neg hl]
      have h0 : len = 0 := by omega
      subst h0
      have : bs = [] := List.length_eq_zero.mp (by rw [hk])
      subst this
      simp [usb_pure_apply]

theorem store_at_eq (dest : List Nat) (i : Nat) (ws : List Nat)
    (h : i + ws.length ≤ dest.length) :
    store_at dest i ws = some (dest.take i ++ ws ++ dest.drop (i + ws.length)) := by
  rw [store_at, if_pos h]

/-- The run of the loop of `usb_pickit_read_eeprom` on a link that answers each of its
reads with 64 bytes, from cell `nee` on. -/
theorem read_eeprom_loop_run (fuel nee : Nat) (p : pic14_program) (cs rest : List (List Nat))
    (sent : List (List Nat)) (requested : List Nat) (hf : p.ee_len ≤ nee + 64 * fuel)
    (hk : cs.length = (p.ee_len - nee + 63) / 64) (hc : ∀ c ∈ cs, c.length = 64)
    (hfit : nee + 64 * cs.length ≤ p.ee.length) :
    read_eeprom_loop fuel nee p { sent := sent, requested := requested, inbox := cs ++ rest } =
      usb_result.done
        { p with ee := p.ee.take nee ++ cs.flatten ++ p.ee.drop (nee + 64 * cs.length) }
        { sent := sent ++ List.replicate cs.length (cmd "rrrrrrrr"),
          requested := requested ++ List.replicate cs.length 64, inbox := rest } := by
  induction fuel generalizing nee p cs sent requested with
  | zero =>
    have h0 : ¬ nee < p.ee_len := by omega
    have : cs = [] := List.length_eq_zero.mp (by omega)
    subst this
    rw [read_eeprom_loop, if_neg h0]
    simp [usb_pure_apply]
  | succ fuel ih =>
    rw [read_eeprom_loop]
    by_cases hl : nee < p.ee_len
    · rw [if_pos hl]
      cases cs with
      | nil => simp at hk; omega
      | cons c cs =>
        have hc64 : c.length = 64 := hc c (List.mem_cons_self _ _)
        have hcs : ∀ x ∈ cs, x.length = 64 := fun x hx => hc x (List.mem_cons_of_mem _ hx)
        simp only [List.length_cons] at hk hfit
        have hst := store_at_eq p.ee nee c (by omega)
        rw [hc64] at hst
        simp only [usb_bind_apply, send_usb, recv_usb, List.cons_append, hc64, if_true,
          usb_m.of_option, hst]
        have hlen : (p.ee.take nee ++ c ++ p.ee.drop (nee + 64)).length =
            p.ee.length := by
          simp only [List.length_append, List.length_take, List.length_drop]
          omega
        rw [ih (nee + 64) _ cs _ _ (by simp only; omega) (by simp only; omega) hcs
          (by simp only; rw [hlen]; omega)]
        simp only [List.flatten_cons, List.replicate_succ, List.length_cons]
        congr 1
        · congr 1
          have t1 : (p.ee.take nee ++ c ++ p.ee.drop (nee + 64)).take (nee + 64) =
              p.ee.take nee ++ c := by
            rw [List.take_append_eq_append_take, List.take_of_length_le]
            · simp only [List.length_append, List.length_take]
              have : nee + 64 - (min nee p.ee.length + c.length) = 0 := by omega
              rw [this]
              simp
            · simp only [List.length_append, List.length_take]
              omega
          have t2 : (p.ee.take nee ++ c ++ p.ee.drop (nee + 64)).drop
              (nee + 64 + 64 * cs.length) = p.ee.drop (nee + 64 * (cs.length + 1)) := by
            rw [List.drop_append_eq_append_drop, List.drop_of_length_le]
            · simp only [List.length_append, List.length_take, List.nil_append,
                List.drop_drop]
              congr 1
              omega
            · simp only [List.length_append, List.length_take]
              omega
          rw [t1, t2]
          simp [List.append_assoc]
        · simp [List.append_assoc]
    · rw [if_neg hl]
      have : cs = [] := List.length_eq_zero.mp (by omega)
      subst this
      simp [usb_pure_apply]

/-- The run of `usb_pickit_read_eeprom` on a link that answers each of its
`⌈ee_len / 64⌉` reads with 64 bytes. -/
theorem usb_pickit_read_eeprom_run (p : pic14_program) (d : usb_pickit)
    (cs rest : List (List Nat)) (hi : d.inbox = cs ++ rest)
    (hk : cs.length = (p.ee_len + 63) / 64) (hc : ∀ c ∈ cs, c.length = 64)
    (hfit : 64 * cs.length ≤ p.ee.length) :
    usb_pickit_read_eeprom p d =
      usb_result.done { p with ee := cs.flatten ++ p.ee.drop (64 * cs.length) }
        { sent := d.sent ++ ([cmd "PZZZZZZZ"] ++ List.replicate cs.length (cmd "rrrrrrrr") ++
            [cmd "pZZZZZZZ"]),
          requested := d.requested ++ List.replicate cs.length 64, inbox := rest } := by
  obtain ⟨sent, requested, inbox⟩ := d
  simp only at hi
  subst hi
  simp only [usb_pickit_read_eeprom, usb_bind_apply, send_usb]
  rw [read_eeprom_loop_run p.ee_len 0 p cs rest _ _ (by omega) (by simpa using hk) hc
    (by omega)]
  simp [usb_pure_apply, List.append_assoc]

theorem flatten_length_of_forall (cs : List (List Nat)) (n : Nat)
    (h : ∀ c ∈ cs, c.length = n) : cs.flatten.length = n * cs.length := by
  induction cs with
  | nil => simp
  | cons c cs ih =>
    rw [List.flatten_cons, List.length_append, h c (List.mem_cons_self _ _),
      ih (fun x hx => h x (List.mem_cons_of_mem _ hx)), List.length_cons]
    ring

theorem supported_devices_ee_len :
    ∀ di ∈ supported_devices, di.ee_len % 64 = 0 ∧ di.ee_len ≤ PIC14_EE_LEN ∧
      64 * ((di.ee_len + 63) / 64) = di.ee_len := by decide

/-- C40: on a link that answers, `usb_pickit_read_eeprom` sends `⌈ee_len / 64⌉` read
packets, each followed by a transfer of 64 bytes, and stores the `64 * ⌈ee_len / 64⌉`
bytes received from cell 0 on, provided they fit the array; `recv_usb_words (len)`
sends `⌈len / 4⌉` read packets and returns the first `len` words of the transfers, in
order.  Every descriptor before the end marker has an `ee_len` that is a multiple of 64
and at most 256, so on an array of 256 cells the EEPROM read of such a chip stores
exactly `ee_len` cells and leaves the cells from `ee_len` on as they were. -/
theorem chunked_reads_in_bounds :
    (∀ (p : pic14_program) (d : usb_pickit) (cs rest : List (List Nat)),
      d.inbox = cs ++ rest → cs.length = (p.ee_len + 63) / 64 →
      (∀ c ∈ cs, c.length = 64) → 64 * cs.length ≤ p.ee.length →
      usb_pickit_read_eeprom p d =
        usb_result.done { p with ee := cs.flatten ++ p.ee.drop (64 * cs.length) }
          { sent := d.sent ++ ([cmd "PZZZZZZZ"] ++
              List.replicate ((p.ee_len + 63) / 64) (cmd "rrrrrrrr") ++ [cmd "pZZZZZZZ"]),
            requested := d.requested ++ List.replicate ((p.ee_len + 63) / 64) 64,
            inbox := rest } ∧
        cs.flatten.length = 64 * ((p.ee_len + 63) / 64)) ∧
    (∀ (len : Nat) (d : usb_pickit) (bs rest : List (List Nat)),
      d.inbox = bs ++ rest → bs.length = (len + 3) / 4 → (∀ b ∈ bs, b.length = 8) →
      ∃ ws, recv_usb_words len d = usb_result.done ws
          { sent := d.sent ++ List.replicate ((len + 3) / 4) (cmd "RZZZZZZZ"),
            requested := d.requested ++ List.replicate ((len + 3) / 4) 8, inbox := rest } ∧
        ws = ((bs.map (fun b => (List.range 4).map (word_of_bytes b))).flatten).take len ∧
        ws.length = len) ∧
    (∀ di ∈ supported_devices, di.ee_len % 64 = 0 ∧ di.ee_len ≤ PIC14_EE_LEN ∧
      64 * ((di.ee_len + 63) / 64) = di.ee_len) ∧
    (∀ di ∈ supported_devices, ∀ (p : pic14_program) (d : usb_pickit)
      (cs rest : List (List Nat)), p.ee_len = di.ee_len → p.ee.length = PIC14_EE_LEN →
      d.inbox = cs ++ rest → cs.length = (p.ee_len + 63) / 64 → (∀ c ∈ cs, c.length = 64) →
      ∃ q d', usb_pickit_read_eeprom p d = usb_result.done q d' ∧
        q.ee = cs.flatten ++ p.ee.drop p.ee_len ∧ cs.flatten.length = p.ee_len ∧
        q.ee.length = PIC14_EE_LEN) := by
  refine ⟨fun p d cs rest hi hk hc hfit => ?_, fun len d bs rest hi hk hb => ?_,
    supported_devices_ee_len, fun di hdi p d cs rest hl hcap hi hk hc => ?_⟩
  · rw [usb_pickit_read_eeprom_run p d cs rest hi hk hc hfit, hk,
      flatten_length_of_forall cs 64 hc, hk]
    exact ⟨rfl, rfl⟩
  · obtain ⟨sent, requested, inbox⟩ := d
    simp only at hi
    subst hi
    refine ⟨_, ?_, rfl, ?_⟩
    · rw [recv_usb_words, recv_usb_words_loop_run len len bs rest _ _ (le_refl _) hk hb, hk]
    · have hl : ((bs.map (fun b => (List.range 4).map (word_of_bytes b))).flatten).length =
          4 * bs.length := by
        have := flatten_length_of_forall
          (bs.map (fun b => (List.range 4).map (word_of_bytes b))) 4 (by
            intro c hc
            obtain ⟨b, _, rfl⟩ := List.mem_map.mp hc
            simp)
        rw [this, List.length_map]
      rw [List.length_take, hl, hk]
      omega
  · obtain ⟨h1, h2, h3⟩ := supported_devices_ee_len di hdi
    rw [← hl] at h1 h2 h3
    have hlen := flatten_length_of_forall cs 64 hc
    have hfit : 64 * cs.length ≤ p.ee.length := by rw [hk, h3, hcap]; exact h2
    refine ⟨_, _, usb_pickit_read_eeprom_run p d cs rest hi hk hc hfit, ?_, ?_, ?_⟩
    · simp only
      rw [hk, h3]
    · rw [hlen, hk, h3]
    · simp only [List.length_append, List.length_drop, hlen]
      omega

set_option maxRecDepth 100000 in
/-- C40 on the 12F629 (128 EEPROM cells): two transfers of 64 bytes. -/
theorem chunked_reads_in_bounds_witness :
    ((fresh_state dev_12F629).program.ee_len + 63) / 64 = 2 ∧
    usb_pickit_read_eeprom (fresh_state dev_12F629).program
        ⟨[], [], [List.replicate 64 0x11, List.replicate 64 0x22]⟩ =
      usb_result.done
        { (fresh_state dev_12F629).program with
          ee := [List.replicate 64 0x11, List.replicate 64 0x22].flatten ++
            (fresh_state dev_12F629).program.ee.drop (64 * 2) }
        ⟨[] ++ ([cmd "PZZZZZZZ"] ++ List.replicate 2 (cmd "rrrrrrrr") ++ [cmd "pZZZZZZZ"]),
          [] ++ List.replicate 2 64, []⟩ :=
  ⟨by decide, (chunked_reads_in_bounds.1 (fresh_state dev_12F629).program
    ⟨[], [], [List.replicate 64 0x11, List.replicate 64 0x22]⟩
    [List.replicate 64 0x11, List.replicate 64 0x22] [] rfl (by decide)
    (by decide) (by simp [fresh_state, copy_device_values, pic14_state_init,
      PIC14_EE_LEN])).1⟩

/-! ## A bad program file -/

/-- Whenever `usb_pickit_get_device` returns, it has sent its four packets and taken one
transfer from the link. -/
theorem usb_pickit_get_device_done (dev : pic14_device) (d d' : usb_pickit)
    (r : Nat × pic14_device) (h : usb_pickit_get_device dev d = usb_result.done r d') :
    d'.sent = d.sent ++
      [cmd "pV0V1PCZ", cmd "pPCI\x06\x00ZZ", cmd "RZZZZZZZ", cmd "pV1ZZZZZ"] ∧
    ∃ b, b.length = 8 ∧ d.inbox = b :: d'.inbox := by
  unfold usb_pickit_get_device at h
  obtain ⟨_, d1, h1, h⟩ := usb_bind_done _ _ _ _ _ h
  obtain ⟨_, d2, h2, h⟩ := usb_bind_done _ _ _ _ _ h
  obtain ⟨w, d3, h3, h⟩ := usb_bind_done _ _ _ _ _ h
  obtain ⟨_, d4, h4, h⟩ := usb_bind_done _ _ _ _ _ h
  obtain ⟨di, d5, h5, h⟩ := usb_bind_done _ _ _ _ _ h
  simp only [send_usb, usb_result.done.injEq, true_and] at h1 h2 h4
  obtain ⟨b, hl, hin, hs, _⟩ := recv_usb_words_one_done _ _ _ h3
  have e5 : d5 = d4 := by
    cases hx : pic14_get_device (w.getD 0 0 &&& 0xffe0) with
    | none => rw [hx] at h5; simp [usb_m.of_option] at h5
    | some v =>
      rw [hx] at h5
      simp only [usb_m.of_option, usb_result.done.injEq] at h5
      exact h5.2.symm
  have e6 : d' = d5 := by
    split at h <;>
    · simp only [usb_pure_apply, usb_result.done.injEq] at h
      exact h.2.symm
  subst e6 e5 h4 h2 h1
  simp only at hs hin ⊢
  refine ⟨?_, b, hl, hin⟩
  rw [hs]
  simp

/-- The run of `usb_pickit_get_device` on a 12F629 that answers with the ID word
`0x0f80`, from the local of `pickit1_program` after `pic14_state_init`. -/
theorem usb_pickit_get_device_12F629 (dev : pic14_device) (d : usb_pickit)
    (rest : List (List Nat)) (hi : d.inbox = [0x80, 0x0f, 0, 0, 0, 0, 0, 0] :: rest) :
    usb_pickit_get_device dev d =
      usb_result.done (1, ⟨some dev_12F629, 0, copy_device_values dev_12F629 dev.state⟩)
        { sent := d.sent ++
            [cmd "pV0V1PCZ", cmd "pPCI\x06\x00ZZ", cmd "RZZZZZZZ", cmd "pV1ZZZZZ"],
          requested := d.requested ++ [8], inbox := rest } := by
  obtain ⟨sent, requested, inbox⟩ := d
  simp only at hi
  subst hi
  have hw : word_of_bytes [0x80, 0x0f, 0, 0, 0, 0, 0, 0] 0 = 0x0f80 := by decide
  have hlook : pic14_get_device (0x0f80 &&& 0xffe0) = some (some dev_12F629) := by decide
  have hrev : 0x0f80 &&& 0x1f = 0 := by decide
  simp [usb_pickit_get_device, usb_bind_apply, send_usb,
    recv_usb_words_one _ _ [0x80, 0x0f, 0, 0, 0, 0, 0, 0] _ rfl, usb_m.of_option, hw, hlook,
    hrev, usb_pure_apply]

/-- C31: when `usb_pickit_get_device` has returned and `pic14_hex_read` of the file
into the state it left fails, with whatever message, `pickit1_program` returns 0 and the
packets it has sent are the four of `usb_pickit_get_device`, none of which holds an
erase (`E`, `e`), a word write (`W`) or a byte write (`D`). -/
theorem pickit1_program_bad_file (inp : List Nat) (programall : Bool) (dev : pic14_device)
    (d d1 : usb_pickit) (found : Nat × pic14_device) (e : hex_error) (q : pic14_state)
    (hg : usb_pickit_get_device { dev with state := pic14_state_init dev.state } d =
      usb_result.done found d1)
    (hbad : pic14_hex_read found.2.state (some inp) = hex_read_result.error e q) :
    pickit1_program (some inp) programall dev d = usb_result.done 0 d1 ∧
    d1.sent = d.sent ++
      [cmd "pV0V1PCZ", cmd "pPCI\x06\x00ZZ", cmd "RZZZZZZZ", cmd "pV1ZZZZZ"] ∧
    (∀ f ∈ [cmd "pV0V1PCZ", cmd "pPCI\x06\x00ZZ", cmd "RZZZZZZZ", cmd "pV1ZZZZZ"],
      ∀ c ∈ frame_ops f, c ≠ 69 ∧ c ≠ 101 ∧ c ≠ 87 ∧ c ≠ 68) := by
  refine ⟨?_, (usb_pickit_get_device_done _ _ _ _ hg).1, by decide⟩
  simp only [pickit1_program, usb_bind_apply, hg]
  by_cases hf : found.1 = 0
  · rw [if_pos hf]
    rfl
  · rw [if_neg hf, hbad]
    rfl

/-- C31 on a 12F629 and a file whose only line has a wrong checksum byte: the file is
rejected and `pickit1_program` returns 0 after the four packets of the probe. -/
theorem pickit1_program_bad_file_witness :
    pic14_hex_read (fresh_state dev_12F629) (some (text ":020000003412B9\n")) =
      hex_read_result.error hex_error.checksum_mismatch (fresh_state dev_12F629) ∧
    pickit1_program (some (text ":020000003412B9\n")) false ⟨none, 0, zero_state⟩
        ⟨[], [], [[0x80, 0x0f, 0, 0, 0, 0, 0, 0]]⟩ =
      usb_result.done 0
        ⟨[cmd "pV0V1PCZ", cmd "pPCI\x06\x00ZZ", cmd "RZZZZZZZ", cmd "pV1ZZZZZ"], [8], []⟩ := by
  have hbad : pic14_hex_read (fresh_state dev_12F629) (some (text ":020000003412B9\n")) =
      hex_read_result.error hex_error.checksum_mismatch (fresh_state dev_12F629) := by
    have ht : text ":020000003412B9\n" = 58 :: text "020000003412B9" ++ [10] := by decide
    have hl : (58 :: text "020000003412B9" ++ [10]).length + 1 = 16 + 1 := by decide
    rw [pic14_hex_read, hex_read, ht, hl]
    exact hex_read_loop_bad_checksum pic14_hex_segment 16 0 0 _ _ _
      [2, 0, 0, 0, 0x34, 0x12, 0xb9] (by decide) (by decide) (by decide) (by decide)
  refine ⟨hbad, ?_⟩
  exact (pickit1_program_bad_file (text ":020000003412B9\n") false ⟨none, 0, zero_state⟩
    ⟨[], [], [[0x80, 0x0f, 0, 0, 0, 0, 0, 0]]⟩
    ⟨[cmd "pV0V1PCZ", cmd "pPCI\x06\x00ZZ", cmd "RZZZZZZZ", cmd "pV1ZZZZZ"], [8], []⟩
    (1, ⟨some dev_12F629, 0, fresh_state dev_12F629⟩) hex_error.checksum_mismatch
    (fresh_state dev_12F629)
    (usb_pickit_get_device_12F629 _ _ [] rfl) hbad).1

end PICkit1
